import Mathlib

/-!
# Zone management core of the FEMU zoned-namespace emulator

A shallow embedding of `hw/femu/zns/zns.c`.  Zone pointers of the C code are
indices into `zone_array`; the four intrusive tail queues are lists of zone
indices; every function that mutates the controller takes the controller
record and returns the new one.  Logging to `test_log.txt` is not modelled.
-/

namespace ZNS

/-! ## Data model -/

/-- Modelled from the spec: the zone states of `NvmeZoneState` (the enum is
declared in a header that is not part of the source tree); the spec lists
EMPTY, IMPLICITLY_OPEN, EXPLICITLY_OPEN, CLOSED, FULL, READ_ONLY, OFFLINE. -/
inductive NvmeZoneState where
  | EMPTY
  | IMPLICITLY_OPEN
  | EXPLICITLY_OPEN
  | CLOSED
  | READ_ONLY
  | FULL
  | OFFLINE
  deriving DecidableEq, Repr, Inhabited

/-- Modelled from the spec: the status codes the core exposes (the numeric
constants live in a header that is not part of the source tree). -/
inductive NvmeStatusCode where
  | SUCCESS
  | INVALID_OPCODE
  | INVALID_FIELD
  | LBA_RANGE
  | ZONE_BOUNDARY_ERROR
  | ZONE_FULL
  | ZONE_READ_ONLY
  | ZONE_OFFLINE
  | ZONE_INVALID_WRITE
  | ZONE_INVAL_TRANSITION
  | ZONE_TOO_MANY_ACTIVE
  | ZONE_TOO_MANY_OPEN
  | NO_COMPLETE
  | OTHER (raw : Nat)
  deriving DecidableEq, Repr, Inhabited

/-- Modelled from the spec: a 16-bit status word is a status code together
with the do-not-retry bit that is OR-ed onto it on a permanent failure. -/
structure NvmeStatus where
  sc : NvmeStatusCode
  dnr : Bool
  deriving DecidableEq, Repr, Inhabited

/-- The status word zero. -/
def NVME_SUCCESS : NvmeStatus := ⟨.SUCCESS, false⟩
def NVME_INVALID_OPCODE : NvmeStatus := ⟨.INVALID_OPCODE, false⟩
def NVME_INVALID_FIELD : NvmeStatus := ⟨.INVALID_FIELD, false⟩
def NVME_LBA_RANGE : NvmeStatus := ⟨.LBA_RANGE, false⟩
def NVME_ZONE_BOUNDARY_ERROR : NvmeStatus := ⟨.ZONE_BOUNDARY_ERROR, false⟩
def NVME_ZONE_FULL : NvmeStatus := ⟨.ZONE_FULL, false⟩
def NVME_ZONE_READ_ONLY : NvmeStatus := ⟨.ZONE_READ_ONLY, false⟩
def NVME_ZONE_OFFLINE : NvmeStatus := ⟨.ZONE_OFFLINE, false⟩
def NVME_ZONE_INVALID_WRITE : NvmeStatus := ⟨.ZONE_INVALID_WRITE, false⟩
def NVME_ZONE_INVAL_TRANSITION : NvmeStatus := ⟨.ZONE_INVAL_TRANSITION, false⟩
def NVME_ZONE_TOO_MANY_ACTIVE : NvmeStatus := ⟨.ZONE_TOO_MANY_ACTIVE, false⟩
def NVME_ZONE_TOO_MANY_OPEN : NvmeStatus := ⟨.ZONE_TOO_MANY_OPEN, false⟩
/-- The all-ones status word: every bit, the do-not-retry bit included. -/
def NVME_NO_COMPLETE : NvmeStatus := ⟨.NO_COMPLETE, true⟩

/-- The C expression `status | NVME_DNR`. -/
def NvmeStatus.orDNR (st : NvmeStatus) : NvmeStatus := { st with dnr := true }

/-- The C truth value of a status word: `if (status)`. -/
def NvmeStatus.nonzero (st : NvmeStatus) : Bool := decide (st ≠ NVME_SUCCESS)

/-- Modelled from the spec: the zone-descriptor-extension-valid flag of the
attribute bitset `za` (bit 7 of the attribute byte in the ZNS command set). -/
def NVME_ZA_ZD_EXT_VALID : Nat := 128

/-- Zone type code of a sequential-write-required zone. -/
def NVME_ZONE_TYPE_SEQ_WRITE : Nat := 2

/-- A zone record: the descriptor fields `d.zt d.zs d.za d.zcap d.zslba d.wp`
and the internal write pointer `w_ptr`.  The queue link `entry` is
represented by the membership of the zone index in the controller lists. -/
structure NvmeZone where
  zt : Nat
  zs : NvmeZoneState
  za : Nat
  zcap : Nat
  zslba : Nat
  wp : Nat
  w_ptr : Nat
  deriving DecidableEq, Repr, Inhabited

/-- The controller and namespace fields the zone code reads and writes.
Modelled from the spec: `nr_open_zones` and `nr_active_zones` are integer
counters (their C type is declared outside the source tree). -/
structure FemuCtrl where
  zoned : Bool
  zone_array : List NvmeZone
  exp_open_zones : List Nat
  imp_open_zones : List Nat
  closed_zones : List Nat
  full_zones : List Nat
  num_zones : Nat
  zone_size : Nat
  zone_capacity : Nat
  zone_size_log2 : Nat
  nr_open_zones : Int
  nr_active_zones : Int
  max_active_zones : Nat
  max_open_zones : Nat
  zd_extension_size : Nat
  zd_extensions : List Nat
  cross_zone_read : Bool
  page_size : Nat
  zasl : Nat
  zasl_bs : Nat
  mdts : Nat
  zone_size_bs : Nat
  zone_cap_bs : Nat
  ns_size : Nat
  lbads : Nat
  nsze : Nat
  ncap : Nat
  nuse : Nat
  nsfeat : Nat
  npdg : Nat
  csi : Nat
  mar : Nat
  mor : Nat
  zoc : Nat
  ozcs : Nat
  zsze : Nat
  zdes : Nat
  deriving DecidableEq, Repr, Inhabited

/-- The largest 64-bit value plus one. -/
def U64 : Nat := 2 ^ 64

/-- The largest 32-bit value plus one. -/
def U32 : Nat := 2 ^ 32

/-- The zone a zone pointer designates; index `idx` of `zone_array`. -/
def zoneAt (n : FemuCtrl) (idx : Nat) : NvmeZone := n.zone_array.getD idx default

/-- Store through a zone pointer. -/
def setZone (n : FemuCtrl) (idx : Nat) (z : NvmeZone) : FemuCtrl :=
  { n with zone_array := n.zone_array.set idx z }

/-! ## Inline helpers of the header -/

/-- Modelled from the spec: `zns_get_zone_state` reads the state of a zone. -/
def zns_get_zone_state (zone : NvmeZone) : NvmeZoneState := zone.zs

/-- Modelled from the spec: `zns_set_zone_state` overwrites the state of a zone. -/
def zns_set_zone_state (zone : NvmeZone) (state : NvmeZoneState) : NvmeZone :=
  { zone with zs := state }

/-- Modelled from the spec: `zns_zone_wr_boundary` is `zslba + zcap`. -/
def zns_zone_wr_boundary (zone : NvmeZone) : Nat := (zone.zslba + zone.zcap) % U64

/-- Modelled from the spec: `zns_zone_rd_boundary` is `zslba + zcap`, the
LBA a read of the zone is compared with.  The namespace argument of the C
helper is kept. -/
def zns_zone_rd_boundary (_n : FemuCtrl) (zone : NvmeZone) : Nat :=
  (zone.zslba + zone.zcap) % U64

/-- Modelled from the spec: `zns_wp_is_valid`; the write pointer is not valid
in the states READ_ONLY and OFFLINE. -/
def zns_wp_is_valid (zone : NvmeZone) : Bool :=
  match zns_get_zone_state zone with
  | .READ_ONLY => false
  | .OFFLINE => false
  | _ => true

/-- Modelled from the spec: `zns_aor_inc_open` increments `nr_open_zones`. -/
def zns_aor_inc_open (n : FemuCtrl) : FemuCtrl :=
  { n with nr_open_zones := n.nr_open_zones + 1 }

/-- Modelled from the spec: `zns_aor_dec_open` decrements `nr_open_zones`. -/
def zns_aor_dec_open (n : FemuCtrl) : FemuCtrl :=
  { n with nr_open_zones := n.nr_open_zones - 1 }

/-- Modelled from the spec: `zns_aor_inc_active` increments `nr_active_zones`. -/
def zns_aor_inc_active (n : FemuCtrl) : FemuCtrl :=
  { n with nr_active_zones := n.nr_active_zones + 1 }

/-- Modelled from the spec: `zns_aor_dec_active` decrements `nr_active_zones`. -/
def zns_aor_dec_active (n : FemuCtrl) : FemuCtrl :=
  { n with nr_active_zones := n.nr_active_zones - 1 }

/-- Modelled from the spec: `zns_l2b` converts a block count to bytes. -/
def zns_l2b (n : FemuCtrl) (lba : Nat) : Nat := (lba * 2 ^ n.lbads) % U64

/-- Modelled from the spec: the MDTS checker returns success iff
`data_size ≤ 2^mdts · page_size`, and INVALID_FIELD otherwise. -/
def nvme_check_mdts (n : FemuCtrl) (len : Nat) : NvmeStatus :=
  if len ≤ 2 ^ n.mdts * n.page_size then NVME_SUCCESS else NVME_INVALID_FIELD.orDNR

/-- The test `QTAILQ_IN_USE(zone, entry)`: the zone is linked in a queue. -/
def QTAILQ_IN_USE (n : FemuCtrl) (idx : Nat) : Bool :=
  n.exp_open_zones.contains idx || n.imp_open_zones.contains idx ||
    n.closed_zones.contains idx || n.full_zones.contains idx

/-! ## Functions of `zns.c` -/

/-- Index of the zone that holds `slba`; the result is a `uint32_t`. -/
def zns_zone_idx (n : FemuCtrl) (slba : Nat) : Nat :=
  (if n.zone_size_log2 > 0 then slba >>> n.zone_size_log2 else slba / n.zone_size) % U32

/-- Zone of `slba`; `none` is the failed `assert(zone_idx < n->num_zones)`. -/
def zns_get_zone_by_slba (n : FemuCtrl) (slba : Nat) : Option Nat :=
  let zone_idx := zns_zone_idx n slba
  if zone_idx < n.num_zones then some zone_idx else none

/-- The first switch of `zns_assign_zone_state`: a zone that is linked is
removed from the queue of its current state. -/
def zns_unlink_zone (n : FemuCtrl) (idx : Nat) : FemuCtrl :=
  if QTAILQ_IN_USE n idx then
    match zns_get_zone_state (zoneAt n idx) with
    | .EXPLICITLY_OPEN => { n with exp_open_zones := n.exp_open_zones.erase idx }
    | .IMPLICITLY_OPEN => { n with imp_open_zones := n.imp_open_zones.erase idx }
    | .CLOSED => { n with closed_zones := n.closed_zones.erase idx }
    | .FULL => { n with full_zones := n.full_zones.erase idx }
    | _ => n
  else n

/-- Unlink the zone from the queue of its current state (if it is linked),
store the new state, and link it at the tail of the queue of the new state.
The FULL case of the second switch falls into `break`; every state without a
queue other than READ_ONLY clears `za`. -/
def zns_assign_zone_state (n : FemuCtrl) (idx : Nat) (state : NvmeZoneState) : FemuCtrl :=
  let zone := zoneAt n idx
  let n1 := zns_unlink_zone n idx
  let n2 := setZone n1 idx (zns_set_zone_state zone state)
  match state with
  | .EXPLICITLY_OPEN => { n2 with exp_open_zones := n2.exp_open_zones ++ [idx] }
  | .IMPLICITLY_OPEN => { n2 with imp_open_zones := n2.imp_open_zones ++ [idx] }
  | .CLOSED => { n2 with closed_zones := n2.closed_zones ++ [idx] }
  | .FULL => { n2 with full_zones := n2.full_zones ++ [idx] }
  | .READ_ONLY => n2
  | _ => setZone n2 idx { zoneAt n2 idx with za := 0 }

/-- Modelled from the spec: the counters are non-negative integers, taken to
be held in signed 32-bit fields.  This is the value of `nr + d` in C for a
counter `nr` and a `uint32_t` value `d`: the counter is converted to
`uint32_t` and the sum wraps at 2^32.  For a counter or an argument outside
these ranges, which no C object holds, the sum is left as it is. -/
def aor_sum (nr : Int) (d : Nat) : Int :=
  if 0 ≤ nr ∧ nr < ((2 ^ 31 : Nat) : Int) ∧ d < U32 then (nr + (d : Int)) % ((U32 : Nat) : Int)
  else nr + (d : Int)

/-- Check if a zone can be opened without exceeding the open/active limits.
The arguments `act` and `opn` are `uint32_t`, so the sums with the counters
are sums of 32-bit unsigned arithmetic. -/
def zns_aor_check (n : FemuCtrl) (act opn : Nat) : NvmeStatus :=
  if n.max_active_zones ≠ 0 ∧ aor_sum n.nr_active_zones act > (n.max_active_zones : Int) then
    NVME_ZONE_TOO_MANY_ACTIVE.orDNR
  else if n.max_open_zones ≠ 0 ∧ aor_sum n.nr_open_zones opn > (n.max_open_zones : Int) then
    NVME_ZONE_TOO_MANY_OPEN.orDNR
  else NVME_SUCCESS

/-! ### Zone management handlers -/

/-- The type `op_handler_t`: a handler gets the controller, the zone and the
state the caller read from the zone, and returns the new controller and a
status word. -/
abbrev op_handler_t := FemuCtrl → Nat → NvmeZoneState → FemuCtrl × NvmeStatus

/-- The enum `NvmeZoneProcessingMask`. -/
def NVME_PROC_CURRENT_ZONE : Nat := 0
def NVME_PROC_OPENED_ZONES : Nat := 1
def NVME_PROC_CLOSED_ZONES : Nat := 2
def NVME_PROC_READ_ONLY_ZONES : Nat := 4
def NVME_PROC_FULL_ZONES : Nat := 8

/-- The tail of `zns_open_zone` from the label `NVME_ZONE_STATE_CLOSED` on;
`state` is the argument of the handler. -/
def zns_open_zone_from_closed (n : FemuCtrl) (idx : Nat) (state : NvmeZoneState) :
    FemuCtrl × NvmeStatus :=
  let status := zns_aor_check n 0 1
  if status ≠ NVME_SUCCESS then
    ((if state = .EMPTY then zns_aor_dec_active n else n), status)
  else
    let n1 := zns_aor_inc_open n
    (zns_assign_zone_state n1 idx .EXPLICITLY_OPEN, NVME_SUCCESS)

/-- The handler of the OPEN action. -/
def zns_open_zone (n : FemuCtrl) (idx : Nat) (state : NvmeZoneState) : FemuCtrl × NvmeStatus :=
  match state with
  | .EMPTY =>
    let status := zns_aor_check n 1 0
    if status ≠ NVME_SUCCESS then (n, status)
    else zns_open_zone_from_closed (zns_aor_inc_active n) idx state
  | .CLOSED => zns_open_zone_from_closed n idx state
  | .IMPLICITLY_OPEN => (zns_assign_zone_state n idx .EXPLICITLY_OPEN, NVME_SUCCESS)
  | .EXPLICITLY_OPEN => (n, NVME_SUCCESS)
  | _ => (n, NVME_ZONE_INVAL_TRANSITION)

/-- The handler of the CLOSE action. -/
def zns_close_zone (n : FemuCtrl) (idx : Nat) (state : NvmeZoneState) : FemuCtrl × NvmeStatus :=
  match state with
  | .EXPLICITLY_OPEN | .IMPLICITLY_OPEN =>
    (zns_assign_zone_state (zns_aor_dec_open n) idx .CLOSED, NVME_SUCCESS)
  | .CLOSED => (n, NVME_SUCCESS)
  | _ => (n, NVME_ZONE_INVAL_TRANSITION)

/-- The tail of `zns_finish_zone` from the label `NVME_ZONE_STATE_EMPTY` on. -/
def zns_finish_zone_from_empty (n : FemuCtrl) (idx : Nat) : FemuCtrl × NvmeStatus :=
  let zone := zoneAt n idx
  let zone1 := { zone with w_ptr := zns_zone_wr_boundary zone }
  let zone2 := { zone1 with wp := zone1.w_ptr }
  (zns_assign_zone_state (setZone n idx zone2) idx .FULL, NVME_SUCCESS)

/-- The handler of the FINISH action. -/
def zns_finish_zone (n : FemuCtrl) (idx : Nat) (state : NvmeZoneState) : FemuCtrl × NvmeStatus :=
  match state with
  | .EXPLICITLY_OPEN | .IMPLICITLY_OPEN =>
    zns_finish_zone_from_empty (zns_aor_dec_active (zns_aor_dec_open n)) idx
  | .CLOSED => zns_finish_zone_from_empty (zns_aor_dec_active n) idx
  | .EMPTY => zns_finish_zone_from_empty n idx
  | .FULL => (n, NVME_SUCCESS)
  | _ => (n, NVME_ZONE_INVAL_TRANSITION)

/-- The tail of `zns_aio_zone_reset_cb` from the label `NVME_ZONE_STATE_FULL` on. -/
def zns_aio_zone_reset_from_full (n : FemuCtrl) (idx : Nat) : FemuCtrl :=
  let zone := zoneAt n idx
  let zone1 := { zone with w_ptr := zone.zslba }
  let zone2 := { zone1 with wp := zone1.w_ptr }
  zns_assign_zone_state (setZone n idx zone2) idx .EMPTY

/-- The reset callback; it switches on the state it reads from the zone. -/
def zns_aio_zone_reset_cb (n : FemuCtrl) (idx : Nat) : FemuCtrl :=
  match zns_get_zone_state (zoneAt n idx) with
  | .EXPLICITLY_OPEN | .IMPLICITLY_OPEN =>
    zns_aio_zone_reset_from_full (zns_aor_dec_active (zns_aor_dec_open n)) idx
  | .CLOSED => zns_aio_zone_reset_from_full (zns_aor_dec_active n) idx
  | .FULL => zns_aio_zone_reset_from_full n idx
  | _ => n

/-- The handler of the RESET action. -/
def zns_reset_zone (n : FemuCtrl) (idx : Nat) (state : NvmeZoneState) : FemuCtrl × NvmeStatus :=
  match state with
  | .EMPTY => (n, NVME_SUCCESS)
  | .EXPLICITLY_OPEN | .IMPLICITLY_OPEN | .CLOSED | .FULL =>
    (zns_aio_zone_reset_cb n idx, NVME_SUCCESS)
  | _ => (n, NVME_ZONE_INVAL_TRANSITION)

/-- The handler of the OFFLINE action. -/
def zns_offline_zone (n : FemuCtrl) (idx : Nat) (state : NvmeZoneState) : FemuCtrl × NvmeStatus :=
  match state with
  | .READ_ONLY => (zns_assign_zone_state n idx .OFFLINE, NVME_SUCCESS)
  | .OFFLINE => (n, NVME_SUCCESS)
  | _ => (n, NVME_ZONE_INVAL_TRANSITION)

/-- The state change of SET_ZD_EXT. -/
def zns_set_zd_ext (n : FemuCtrl) (idx : Nat) : FemuCtrl × NvmeStatus :=
  let state := zns_get_zone_state (zoneAt n idx)
  if state = .EMPTY then
    let status := zns_aor_check n 1 0
    if status ≠ NVME_SUCCESS then (n, status)
    else
      let n1 := zns_aor_inc_active n
      let zone := zoneAt n1 idx
      let n2 := setZone n1 idx { zone with za := zone.za ||| NVME_ZA_ZD_EXT_VALID }
      (zns_assign_zone_state n2 idx .CLOSED, NVME_SUCCESS)
  else (n, NVME_ZONE_INVAL_TRANSITION)

/-- Apply a handler to one zone of a bulk operation if the mask selects the
state of the zone. -/
def zns_bulk_proc_zone (n : FemuCtrl) (idx : Nat) (proc_mask : Nat) (op_hndlr : op_handler_t) :
    FemuCtrl × NvmeStatus :=
  let zs := zns_get_zone_state (zoneAt n idx)
  let proc_zone : Bool :=
    match zs with
    | .IMPLICITLY_OPEN | .EXPLICITLY_OPEN => proc_mask &&& NVME_PROC_OPENED_ZONES != 0
    | .CLOSED => proc_mask &&& NVME_PROC_CLOSED_ZONES != 0
    | .READ_ONLY => proc_mask &&& NVME_PROC_READ_ONLY_ZONES != 0
    | .FULL => proc_mask &&& NVME_PROC_FULL_ZONES != 0
    | _ => false
  if proc_zone then op_hndlr n idx zs else (n, NVME_SUCCESS)

/-- One `QTAILQ_FOREACH_SAFE` loop of `zns_do_zone_op` over the zones that
were linked in the queue when the loop started (the successor is read before
the body runs, and a handler relinks only the zone it is given).  The third
component tells that the loop left through `goto out`. -/
def zns_foreach_safe (proc_mask : Nat) (op_hndlr : op_handler_t) :
    List Nat → FemuCtrl → NvmeStatus → FemuCtrl × NvmeStatus × Bool
  | [], n, status => (n, status, false)
  | idx :: rest, n, _ =>
    let r := zns_bulk_proc_zone n idx proc_mask op_hndlr
    if r.2.nonzero && r.2 != NVME_NO_COMPLETE then (r.1, r.2, true)
    else zns_foreach_safe proc_mask op_hndlr rest r.1 r.2

/-- The counting loop over `num_zones` zones that starts at the zone pointer;
`none` is a read past the end of `zone_array`. -/
def zns_foreach_array (proc_mask : Nat) (op_hndlr : op_handler_t) :
    Nat → Nat → FemuCtrl → NvmeStatus → Option (FemuCtrl × NvmeStatus)
  | 0, _, n, status => some (n, status)
  | k + 1, idx, n, _ =>
    if idx < n.zone_array.length then
      let r := zns_bulk_proc_zone n idx proc_mask op_hndlr
      if r.2.nonzero && r.2 != NVME_NO_COMPLETE then some (r.1, r.2)
      else zns_foreach_array proc_mask op_hndlr k (idx + 1) r.1 r.2
    else none

/-- One queue loop of `zns_do_zone_op`: it runs when the mask has the bit,
over the queue `sel` selects. -/
def zns_queue_loop (proc_mask : Nat) (op_hndlr : op_handler_t) (bit : Nat)
    (sel : FemuCtrl → List Nat) (s : FemuCtrl × NvmeStatus) : FemuCtrl × NvmeStatus × Bool :=
  if proc_mask &&& bit ≠ 0 then zns_foreach_safe proc_mask op_hndlr (sel s.1) s.1 s.2
  else (s.1, s.2, false)

/-- Sequencing of the loops of `zns_do_zone_op`: a loop that left through
`goto out` ends the function with its status, otherwise the rest runs. -/
def zns_bulk_seq (x : FemuCtrl × NvmeStatus × Bool)
    (k : FemuCtrl × NvmeStatus → Option (FemuCtrl × NvmeStatus)) :
    Option (FemuCtrl × NvmeStatus) :=
  if x.2.2 then some (x.1, x.2.1) else k (x.1, x.2.1)

/-- Apply a handler to the current zone (mask 0) or to every zone the mask
selects: the closed queue, the implicitly open queue, the explicitly open
queue, the full queue, then the zone array for read-only zones.  `none` is a
dereference of an invalid zone pointer: the read-only loop starts at the
pointer the queue loops left behind, which is null once one of them has run. -/
def zns_do_zone_op (n : FemuCtrl) (idx : Nat) (proc_mask : Nat) (op_hndlr : op_handler_t) :
    Option (FemuCtrl × NvmeStatus) :=
  if proc_mask = 0 then
    some (op_hndlr n idx (zns_get_zone_state (zoneAt n idx)))
  else
    zns_bulk_seq (zns_queue_loop proc_mask op_hndlr NVME_PROC_CLOSED_ZONES
      (fun m => m.closed_zones) (n, NVME_SUCCESS)) fun s1 =>
    zns_bulk_seq (zns_queue_loop proc_mask op_hndlr NVME_PROC_OPENED_ZONES
      (fun m => m.imp_open_zones) s1) fun s2 =>
    zns_bulk_seq (zns_queue_loop proc_mask op_hndlr NVME_PROC_OPENED_ZONES
      (fun m => m.exp_open_zones) s2) fun s3 =>
    zns_bulk_seq (zns_queue_loop proc_mask op_hndlr NVME_PROC_FULL_ZONES
      (fun m => m.full_zones) s3) fun s4 =>
    if proc_mask &&& NVME_PROC_READ_ONLY_ZONES ≠ 0 then
      if proc_mask &&&
          (NVME_PROC_CLOSED_ZONES ||| NVME_PROC_OPENED_ZONES ||| NVME_PROC_FULL_ZONES) ≠ 0 then
        (if s4.1.num_zones = 0 then some s4 else none)
      else zns_foreach_array proc_mask op_hndlr s4.1.num_zones idx s4.1 s4.2
    else some s4

/-! ### Commands -/

/-- A submission queue entry as the zone code reads it, together with what
the external collaborators answer while the command runs: `map_prp_status`
is the result of `nvme_map_prp`, `dma_status` the result of `dma_write_prp`
or `dma_read_prp`, and `dma_data` the bytes `dma_write_prp` stores. -/
structure NvmeCmd where
  opcode : Nat
  psdt : Nat
  cdw10 : Nat
  cdw11 : Nat
  cdw12 : Nat
  cdw13 : Nat
  map_prp_status : NvmeStatus
  dma_status : NvmeStatus
  dma_data : List Nat
  deriving DecidableEq, Repr, Inhabited

/-- Modelled from the spec: the 64-bit LBA of a command is
`(cdw11 << 32) | cdw10`. -/
def cmd_slba (c : NvmeCmd) : Nat := ((c.cdw11 % U32) <<< 32) ||| (c.cdw10 % U32)

/-- Modelled from the spec: the zero-based block count is the low 16 bits of
`cdw12`. -/
def cmd_nlb (c : NvmeCmd) : Nat := c.cdw12 % 2 ^ 16

/-- Modelled from the spec: the action codes of zone management send (the enum
is declared outside the source tree; the values are those of the ZNS command
set). -/
def NVME_ZONE_ACTION_CLOSE : Nat := 1
def NVME_ZONE_ACTION_FINISH : Nat := 2
def NVME_ZONE_ACTION_OPEN : Nat := 3
def NVME_ZONE_ACTION_RESET : Nat := 4
def NVME_ZONE_ACTION_OFFLINE : Nat := 5
def NVME_ZONE_ACTION_SET_ZD_EXT : Nat := 16

/-- Decode the LBA of a management command and the index of its zone.  The
result is the status and the values left in `*slba` and `*zone_idx`, which the
caller initialised to zero; `none` is the failed assertion. -/
def zns_get_mgmt_zone_slba_idx (n : FemuCtrl) (c : NvmeCmd) : Option (NvmeStatus × Nat × Nat) :=
  if !n.zoned then some (NVME_INVALID_OPCODE.orDNR, 0, 0)
  else
    let slba := cmd_slba c
    if slba ≥ n.nsze then some (NVME_LBA_RANGE.orDNR, 0, 0)
    else
      let zone_idx := zns_zone_idx n slba
      if zone_idx < n.num_zones then some (NVME_SUCCESS, slba, zone_idx) else none

/-- The slot of zone `zone_idx` in `zd_extensions` after `dma_write_prp` has
run on it: the bytes the transfer delivered replace the old ones. -/
def zns_store_zd_extension (n : FemuCtrl) (zone_idx : Nat) (data : List Nat) : FemuCtrl :=
  let off := zone_idx * n.zd_extension_size
  { n with zd_extensions :=
      n.zd_extensions.take off ++
      (List.range n.zd_extension_size).map (fun i => data.getD i (n.zd_extensions.getD (off + i) 0)) ++
      n.zd_extensions.drop (off + n.zd_extension_size) }

/-- The common exit of `zns_zone_mgmt_send`: a non-zero status gets the
do-not-retry bit. -/
def zns_mgmt_send_exit (r : Option (FemuCtrl × NvmeStatus)) : Option (FemuCtrl × NvmeStatus) :=
  r.map (fun p => (p.1, if p.2.nonzero then p.2.orDNR else p.2))

/-- The `switch (action)` of `zns_zone_mgmt_send` and the exit behind it. -/
def zns_mgmt_send_switch (n : FemuCtrl) (c : NvmeCmd) (action : Nat) (all : Bool)
    (zone_idx : Nat) : Option (FemuCtrl × NvmeStatus) :=
  if action = NVME_ZONE_ACTION_OPEN then
    zns_mgmt_send_exit (zns_do_zone_op n zone_idx
      (if all then NVME_PROC_CLOSED_ZONES else NVME_PROC_CURRENT_ZONE) zns_open_zone)
  else if action = NVME_ZONE_ACTION_CLOSE then
    zns_mgmt_send_exit (zns_do_zone_op n zone_idx
      (if all then NVME_PROC_OPENED_ZONES else NVME_PROC_CURRENT_ZONE) zns_close_zone)
  else if action = NVME_ZONE_ACTION_FINISH then
    zns_mgmt_send_exit (zns_do_zone_op n zone_idx
      (if all then NVME_PROC_OPENED_ZONES ||| NVME_PROC_CLOSED_ZONES
       else NVME_PROC_CURRENT_ZONE) zns_finish_zone)
  else if action = NVME_ZONE_ACTION_RESET then
    (zns_do_zone_op n zone_idx
      (if all then NVME_PROC_OPENED_ZONES ||| NVME_PROC_CLOSED_ZONES ||| NVME_PROC_FULL_ZONES
       else NVME_PROC_CURRENT_ZONE) zns_reset_zone).map (fun p => (p.1, NVME_SUCCESS))
  else if action = NVME_ZONE_ACTION_OFFLINE then
    zns_mgmt_send_exit (zns_do_zone_op n zone_idx
      (if all then NVME_PROC_READ_ONLY_ZONES else NVME_PROC_CURRENT_ZONE) zns_offline_zone)
  else if action = NVME_ZONE_ACTION_SET_ZD_EXT then
    if all || n.zd_extension_size = 0 then some (n, NVME_INVALID_FIELD.orDNR)
    else if c.dma_status.nonzero then
      some (zns_store_zd_extension n zone_idx c.dma_data, c.dma_status)
    else if (zns_set_zd_ext (zns_store_zd_extension n zone_idx c.dma_data) zone_idx).2
        = NVME_SUCCESS then
      some (zns_set_zd_ext (zns_store_zd_extension n zone_idx c.dma_data) zone_idx)
    else
      zns_mgmt_send_exit
        (some (zns_set_zd_ext (zns_store_zd_extension n zone_idx c.dma_data) zone_idx))
  else zns_mgmt_send_exit (some (n, NVME_INVALID_FIELD))

/-- Zone management send: the action is the low byte of `cdw13`, `all` is
bit 8.  Without `all` the LBA is decoded; with it `slba` and `zone_idx` stay
zero.  `none` is a failed assertion or the access to a zone record that does
not exist. -/
def zns_zone_mgmt_send (n : FemuCtrl) (c : NvmeCmd) : Option (FemuCtrl × NvmeStatus) :=
  match (if ((c.cdw13 % U32) &&& 0x100 != 0) = false then zns_get_mgmt_zone_slba_idx n c
         else some (NVME_SUCCESS, 0, 0)) with
  | none => none
  | some (status, slba, zone_idx) =>
    if status.nonzero then some (n, status)
    else if n.zone_array.length ≤ zone_idx then none
    else if slba ≠ (zoneAt n zone_idx).zslba then some (n, NVME_INVALID_FIELD.orDNR)
    else zns_mgmt_send_switch n c ((c.cdw13 % U32) &&& 0xff) ((c.cdw13 % U32) &&& 0x100 != 0)
      zone_idx

/-! ### Write, append and read -/

/-- The state check of a write. -/
def zns_check_zone_state_for_write (zone : NvmeZone) : NvmeStatus :=
  match zns_get_zone_state zone with
  | .EMPTY | .IMPLICITLY_OPEN | .EXPLICITLY_OPEN | .CLOSED => NVME_SUCCESS
  | .FULL => NVME_ZONE_FULL
  | .OFFLINE => NVME_ZONE_OFFLINE
  | .READ_ONLY => NVME_ZONE_READ_ONLY

/-- The zone checks of a write or an append of `nlb` blocks at `slba`. -/
def zns_check_zone_write (n : FemuCtrl) (zone : NvmeZone) (slba nlb : Nat) (append : Bool) :
    NvmeStatus :=
  let status :=
    if (slba + nlb) % U64 > zns_zone_wr_boundary zone then NVME_ZONE_BOUNDARY_ERROR
    else zns_check_zone_state_for_write zone
  if status ≠ NVME_SUCCESS then status
  else if append then
    let status1 := if slba ≠ zone.zslba then NVME_INVALID_FIELD else status
    if zns_l2b n nlb > n.page_size <<< n.zasl then NVME_INVALID_FIELD else status1
  else if slba ≠ zone.w_ptr then NVME_ZONE_INVALID_WRITE
  else status

/-- The state check of a read. -/
def zns_check_zone_state_for_read (zone : NvmeZone) : NvmeStatus :=
  match zns_get_zone_state zone with
  | .OFFLINE => NVME_ZONE_OFFLINE
  | _ => NVME_SUCCESS

/-- The `do ... while` loop of a read across zone boundaries: step to the next
zone, check it, go on while the read ends behind it.  `none` is a read past
the end of `zone_array`. -/
def zns_check_zone_read_walk (n : FemuCtrl) (endlba : Nat) : Nat → Nat → Option NvmeStatus
  | 0, _ => none
  | fuel + 1, idx =>
    if n.zone_array.length ≤ idx + 1 then none
    else
      let status := zns_check_zone_state_for_read (zoneAt n (idx + 1))
      if status ≠ NVME_SUCCESS then some status
      else if endlba > zns_zone_rd_boundary n (zoneAt n (idx + 1)) then
        zns_check_zone_read_walk n endlba fuel (idx + 1)
      else some status

/-- The zone checks of a read. -/
def zns_check_zone_read (n : FemuCtrl) (slba nlb : Nat) : Option NvmeStatus :=
  match zns_get_zone_by_slba n slba with
  | none => none
  | some idx =>
    let zone := zoneAt n idx
    let bndry := zns_zone_rd_boundary n zone
    let endlba := (slba + nlb) % U64
    let status := zns_check_zone_state_for_read zone
    if status ≠ NVME_SUCCESS then some status
    else if endlba > bndry then
      if !n.cross_zone_read then some NVME_ZONE_BOUNDARY_ERROR
      else zns_check_zone_read_walk n endlba n.zone_array.length idx
    else some status

/-- Close the first implicitly open zone when the open limit is reached. -/
def zns_auto_transition_zone (n : FemuCtrl) : FemuCtrl :=
  if n.max_open_zones ≠ 0 ∧ n.nr_open_zones = (n.max_open_zones : Int) then
    match n.imp_open_zones with
    | [] => n
    | idx :: _ =>
      let n1 : FemuCtrl := { n with imp_open_zones := n.imp_open_zones.erase idx }
      zns_assign_zone_state (zns_aor_dec_open n1) idx .CLOSED
  else n

/-- The resource check of a write to an empty or a closed zone. -/
def zns_auto_open_zone (n : FemuCtrl) (idx : Nat) : FemuCtrl × NvmeStatus :=
  let zs := zns_get_zone_state (zoneAt n idx)
  if zs = .EMPTY then
    let n1 := zns_auto_transition_zone n
    (n1, zns_aor_check n1 1 1)
  else if zs = .CLOSED then
    let n1 := zns_auto_transition_zone n
    (n1, zns_aor_check n1 0 1)
  else (n, NVME_SUCCESS)

/-- Completion of a write: `wp` advances, and a zone whose `wp` reaches the
write boundary becomes FULL.  The zone is looked up from the LBA of the command.
`none` is a failed assertion. -/
def zns_finalize_zoned_write (n : FemuCtrl) (c : NvmeCmd) (failed : Bool) (res : Option Nat) :
    Option (FemuCtrl × Option Nat) :=
  let slba := cmd_slba c
  let nlb := (cmd_nlb c + 1) % U32
  match zns_get_zone_by_slba n slba with
  | none => none
  | some idx =>
    let zone := zoneAt n idx
    let n1 := setZone n idx { zone with wp := (zone.wp + nlb) % U64 }
    let res1 := if failed then some 0 else res
    if (zoneAt n1 idx).wp = zns_zone_wr_boundary (zoneAt n1 idx) then
      match zns_get_zone_state (zoneAt n1 idx) with
      | .IMPLICITLY_OPEN | .EXPLICITLY_OPEN =>
        some (zns_assign_zone_state (zns_aor_dec_active (zns_aor_dec_open n1)) idx .FULL, res1)
      | .CLOSED => some (zns_assign_zone_state (zns_aor_dec_active n1) idx .FULL, res1)
      | .EMPTY => some (zns_assign_zone_state n1 idx .FULL, res1)
      | .FULL => some (n1, res1)
      | _ => none
    else some (n1, res1)

/-- Submission of a write: `w_ptr` advances, and an empty or closed zone that
is not filled by the write becomes implicitly open.  The result is the old
`w_ptr`. -/
def zns_advance_zone_wp (n : FemuCtrl) (idx : Nat) (nlb : Nat) : FemuCtrl × Nat :=
  let zone := zoneAt n idx
  let result := zone.w_ptr
  let n1 := setZone n idx { zone with w_ptr := (zone.w_ptr + nlb) % U64 }
  if (zoneAt n1 idx).w_ptr < zns_zone_wr_boundary (zoneAt n1 idx) then
    match zns_get_zone_state (zoneAt n1 idx) with
    | .EMPTY =>
      (zns_assign_zone_state (zns_aor_inc_open (zns_aor_inc_active n1)) idx .IMPLICITLY_OPEN, result)
    | .CLOSED => (zns_assign_zone_state (zns_aor_inc_open n1) idx .IMPLICITLY_OPEN, result)
    | _ => (n1, result)
  else (n1, result)

/-- The LBA range check against the namespace size. -/
def zns_check_bounds (n : FemuCtrl) (slba nlb : Nat) : NvmeStatus :=
  if (U64 - 1) - slba < nlb ∨ slba + nlb > n.nsze then NVME_LBA_RANGE.orDNR else NVME_SUCCESS

/-- Code of the PRP data pointer type. -/
def NVME_PSDT_PRP : Nat := 0

/-- Map the data pointer; the PRP mapper is an external collaborator. -/
def zns_map_dptr (c : NvmeCmd) : NvmeStatus :=
  if c.psdt = NVME_PSDT_PRP then c.map_prp_status else NVME_INVALID_FIELD

/-- Modelled from the spec: a zone descriptor of a report carries `zt`, `zs`
(the state code in the high nibble), `zcap`, `zslba`, `za` and `wp`. -/
structure NvmeZoneDescr where
  zt : Nat
  zs : Nat
  zcap : Nat
  zslba : Nat
  za : Nat
  wp : Nat
  deriving DecidableEq, Repr, Inhabited

/-- One entry of a report: the descriptor and, in an extended report, the
extension bytes that follow it. -/
structure ZoneReportEntry where
  descr : NvmeZoneDescr
  ext : List Nat
  deriving DecidableEq, Repr, Inhabited

/-- The report buffer: the `nr_zones` field of the header and the entries. -/
structure ZoneReport where
  nr_zones : Nat
  entries : List ZoneReportEntry
  deriving DecidableEq, Repr, Inhabited

/-- The result of an I/O command: the status word, the LBA stored in the
completion entry (if the command stored one), and the report buffer handed
to `dma_read_prp` (if the command built one). -/
structure IoResult where
  status : NvmeStatus
  slba : Option Nat
  report : Option ZoneReport
  deriving DecidableEq, Repr, Inhabited

/-- Zone append (`append = true`) and write zeroes (`wrz = true`).  `none` is
a failed assertion. -/
def zns_do_write (n : FemuCtrl) (c : NvmeCmd) (append wrz : Bool) : Option (FemuCtrl × IoResult) :=
  let slba := cmd_slba c
  let nlb := cmd_nlb c + 1
  let data_size := zns_l2b n nlb
  match zns_get_zone_by_slba n slba with
  | none => none
  | some _ =>
    let status := if !wrz then nvme_check_mdts n data_size else NVME_SUCCESS
    if status.nonzero then some (n, ⟨status.orDNR, none, none⟩)
    else
      let status := zns_check_bounds n slba nlb
      if status.nonzero then some (n, ⟨status.orDNR, none, none⟩)
      else
        match zns_get_zone_by_slba n slba with
        | none => none
        | some idx =>
          let status := zns_check_zone_write n (zoneAt n idx) slba nlb append
          if status.nonzero then some (n, ⟨status.orDNR, none, none⟩)
          else
            let r := zns_auto_open_zone n idx
            if r.2.nonzero then some (r.1, ⟨r.2.orDNR, none, none⟩)
            else
              let a := zns_advance_zone_wp r.1 idx nlb
              let status := if !wrz then zns_map_dptr c else NVME_SUCCESS
              if status.nonzero then some (a.1, ⟨status.orDNR, some a.2, none⟩)
              else
                (zns_finalize_zoned_write a.1 c false (some a.2)).map
                  (fun f => (f.1, ⟨NVME_SUCCESS, f.2, none⟩))

/-- Zone append. -/
def zns_zone_append (n : FemuCtrl) (c : NvmeCmd) : Option (FemuCtrl × IoResult) :=
  zns_do_write n c true false

/-- Read.  The controller is not changed. -/
def zns_read (n : FemuCtrl) (c : NvmeCmd) : Option (FemuCtrl × IoResult) :=
  let slba := cmd_slba c
  let nlb := cmd_nlb c + 1
  let data_size := zns_l2b n nlb
  if !n.zoned then none
  else
    let status := nvme_check_mdts n data_size
    if status.nonzero then some (n, ⟨status.orDNR, none, none⟩)
    else
      let status := zns_check_bounds n slba nlb
      if status.nonzero then some (n, ⟨status.orDNR, none, none⟩)
      else
        match zns_check_zone_read n slba nlb with
        | none => none
        | some status =>
          if status.nonzero then some (n, ⟨status.orDNR, none, none⟩)
          else
            let status := zns_map_dptr c
            if status.nonzero then some (n, ⟨status.orDNR, none, none⟩)
            else some (n, ⟨NVME_SUCCESS, none, none⟩)

/-- Write.  `none` is a failed assertion. -/
def zns_write (n : FemuCtrl) (c : NvmeCmd) : Option (FemuCtrl × IoResult) :=
  let slba := cmd_slba c
  let nlb := cmd_nlb c + 1
  let data_size := zns_l2b n nlb
  if !n.zoned then none
  else
    match zns_get_zone_by_slba n slba with
    | none => none
    | some _ =>
      let status := nvme_check_mdts n data_size
      if status.nonzero then some (n, ⟨status.orDNR, none, none⟩)
      else
        let status := zns_check_bounds n slba nlb
        if status.nonzero then some (n, ⟨status.orDNR, none, none⟩)
        else
          match zns_get_zone_by_slba n slba with
          | none => none
          | some idx =>
            let status := zns_check_zone_write n (zoneAt n idx) slba nlb false
            if status.nonzero then some (n, ⟨status.orDNR, none, none⟩)
            else
              let r := zns_auto_open_zone n idx
              if r.2.nonzero then some (r.1, ⟨r.2.orDNR, none, none⟩)
              else
                let a := zns_advance_zone_wp r.1 idx nlb
                let status := zns_map_dptr c
                if status.nonzero then some (a.1, ⟨status.orDNR, some a.2, none⟩)
                else
                  (zns_finalize_zoned_write a.1 c false (some a.2)).map
                    (fun f => (f.1, ⟨NVME_SUCCESS, f.2, none⟩))

/-! ### Zone management receive -/

/-- Modelled from the spec: the state codes of the ZNS command set, as stored
in the high nibble of `zs`. -/
def NvmeZoneState.code : NvmeZoneState → Nat
  | .EMPTY => 0x1
  | .IMPLICITLY_OPEN => 0x2
  | .EXPLICITLY_OPEN => 0x3
  | .CLOSED => 0x4
  | .READ_ONLY => 0xD
  | .FULL => 0xE
  | .OFFLINE => 0xF

/-- Modelled from the spec: receive actions and the per-state report filters. -/
def NVME_ZONE_REPORT : Nat := 0
def NVME_ZONE_REPORT_EXTENDED : Nat := 1
def NVME_ZONE_REPORT_ALL : Nat := 0
def NVME_ZONE_REPORT_EMPTY : Nat := 1
def NVME_ZONE_REPORT_IMPLICITLY_OPEN : Nat := 2
def NVME_ZONE_REPORT_EXPLICITLY_OPEN : Nat := 3
def NVME_ZONE_REPORT_CLOSED : Nat := 4
def NVME_ZONE_REPORT_FULL : Nat := 5
def NVME_ZONE_REPORT_READ_ONLY : Nat := 6
def NVME_ZONE_REPORT_OFFLINE : Nat := 7

/-- Modelled from the spec: size in bytes of the report header. -/
def sizeof_NvmeZoneReportHeader : Nat := 64

/-- Modelled from the spec: size in bytes of a zone descriptor. -/
def sizeof_NvmeZoneDescr : Nat := 64

/-- Modelled from the spec: `zns_ns_nlbas`, the end of the namespace in
logical blocks. -/
def zns_ns_nlbas (n : FemuCtrl) : Nat := n.nsze

/-- The filter of a report. -/
def zns_zone_matches_filter (zafs : Nat) (zl : NvmeZone) : Bool :=
  let zs := zns_get_zone_state zl
  if zafs = NVME_ZONE_REPORT_ALL then true
  else if zafs = NVME_ZONE_REPORT_EMPTY then zs = .EMPTY
  else if zafs = NVME_ZONE_REPORT_IMPLICITLY_OPEN then zs = .IMPLICITLY_OPEN
  else if zafs = NVME_ZONE_REPORT_EXPLICITLY_OPEN then zs = .EXPLICITLY_OPEN
  else if zafs = NVME_ZONE_REPORT_CLOSED then zs = .CLOSED
  else if zafs = NVME_ZONE_REPORT_FULL then zs = .FULL
  else if zafs = NVME_ZONE_REPORT_READ_ONLY then zs = .READ_ONLY
  else if zafs = NVME_ZONE_REPORT_OFFLINE then zs = .OFFLINE
  else false

/-- The counting loop of a report, from `slba` in steps of `zone_size` while
`slba < capacity`.  `none` is a read past the end of `zone_array`. -/
def zns_report_count (n : FemuCtrl) (zrasf : Nat) (prt : Bool) (max_zones capacity : Nat) :
    Nat → Nat → Nat → Nat → Option Nat
  | 0, _, _, _ => none
  | fuel + 1, slba, idx, nr_zones =>
    if slba < capacity then
      if prt && decide (nr_zones ≥ max_zones) then some nr_zones
      else if n.zone_array.length ≤ idx then none
      else
        zns_report_count n zrasf prt max_zones capacity fuel ((slba + n.zone_size) % U64) (idx + 1)
          (if zns_zone_matches_filter zrasf (zoneAt n idx) then nr_zones + 1 else nr_zones)
    else some nr_zones

/-- The bytes of the extension slot of a zone. -/
def zns_get_zd_extension (n : FemuCtrl) (zone_idx : Nat) : List Nat :=
  (List.range n.zd_extension_size).map
    (fun i => n.zd_extensions.getD (zone_idx * n.zd_extension_size + i) 0)

/-- The descriptor the emission loop writes for a zone. -/
def zns_report_descr (zone : NvmeZone) : NvmeZoneDescr :=
  { zt := zone.zt
    zs := zone.zs.code <<< 4
    zcap := zone.zcap
    zslba := zone.zslba
    za := zone.za
    wp := if zns_wp_is_valid zone then zone.wp else U64 - 1 }

/-- The emission loop of a report. -/
def zns_report_emit (n : FemuCtrl) (zrasf : Nat) (extended : Bool) :
    Nat → Nat → Nat → List ZoneReportEntry
  | 0, _, _ => []
  | fuel + 1, zone_idx, max_zones =>
    if zone_idx < n.num_zones ∧ max_zones > 0 then
      let zone := zoneAt n zone_idx
      if zns_zone_matches_filter zrasf zone then
        let ext : List Nat :=
          if extended then
            (if zone.za &&& NVME_ZA_ZD_EXT_VALID ≠ 0 then zns_get_zd_extension n zone_idx
             else List.replicate n.zd_extension_size 0)
          else []
        ⟨zns_report_descr zone, ext⟩ :: zns_report_emit n zrasf extended fuel (zone_idx + 1) (max_zones - 1)
      else zns_report_emit n zrasf extended fuel (zone_idx + 1) max_zones
    else []

/-- Zone management receive.  The controller is not changed; the status is
that of `dma_read_prp`, an external collaborator. -/
def zns_zone_mgmt_recv (n : FemuCtrl) (c : NvmeCmd) : Option (FemuCtrl × IoResult) :=
  let data_size := (((c.cdw12 % U32 + 1) % U32) <<< 2) % U32
  let dw13 := c.cdw13 % U32
  let capacity := zns_ns_nlbas n
  match zns_get_mgmt_zone_slba_idx n c with
  | none => none
  | some (status, slba, zone_idx) =>
    if status.nonzero then some (n, ⟨status, none, none⟩)
    else
      let zra := dw13 &&& 0xff
      if zra ≠ NVME_ZONE_REPORT ∧ zra ≠ NVME_ZONE_REPORT_EXTENDED then
        some (n, ⟨NVME_INVALID_FIELD.orDNR, none, none⟩)
      else if zra = NVME_ZONE_REPORT_EXTENDED ∧ n.zd_extension_size = 0 then
        some (n, ⟨NVME_INVALID_FIELD.orDNR, none, none⟩)
      else
        let zrasf := (dw13 >>> 8) &&& 0xff
        if zrasf > NVME_ZONE_REPORT_OFFLINE then some (n, ⟨NVME_INVALID_FIELD.orDNR, none, none⟩)
        else if data_size < sizeof_NvmeZoneReportHeader then
          some (n, ⟨NVME_INVALID_FIELD.orDNR, none, none⟩)
        else
          let status := nvme_check_mdts n data_size
          if status.nonzero then some (n, ⟨status, none, none⟩)
          else
            let prt : Bool := (dw13 >>> 16) &&& 0x01 != 0
            let zone_entry_sz := sizeof_NvmeZoneDescr +
              (if zra = NVME_ZONE_REPORT_EXTENDED then n.zd_extension_size else 0)
            let max_zones := (data_size - sizeof_NvmeZoneReportHeader) / zone_entry_sz
            match zns_report_count n zrasf prt max_zones capacity (n.zone_array.length + 1)
                slba zone_idx 0 with
            | none => none
            | some nr_zones =>
              let entries := zns_report_emit n zrasf (zra = NVME_ZONE_REPORT_EXTENDED)
                n.num_zones zone_idx max_zones
              some (n, ⟨c.dma_status, none, some ⟨nr_zones, entries⟩⟩)

/-! ### Command dispatch -/

/-- Modelled from the spec: the opcodes the adapter accepts (values of the
NVMe and ZNS command sets). -/
def NVME_CMD_WRITE : Nat := 0x01
def NVME_CMD_READ : Nat := 0x02
def NVME_CMD_ZONE_MGMT_SEND : Nat := 0x79
def NVME_CMD_ZONE_MGMT_RECV : Nat := 0x7a
def NVME_CMD_ZONE_APPEND : Nat := 0x7d

/-- The I/O command entry point of the zoned controller. -/
def zns_io_cmd (n : FemuCtrl) (c : NvmeCmd) : Option (FemuCtrl × IoResult) :=
  if c.opcode = NVME_CMD_READ then zns_read n c
  else if c.opcode = NVME_CMD_WRITE then zns_write n c
  else if c.opcode = NVME_CMD_ZONE_MGMT_SEND then
    (zns_zone_mgmt_send n c).map (fun p => (p.1, ⟨p.2, none, none⟩))
  else if c.opcode = NVME_CMD_ZONE_MGMT_RECV then zns_zone_mgmt_recv n c
  else if c.opcode = NVME_CMD_ZONE_APPEND then zns_zone_append n c
  else some (n, ⟨NVME_INVALID_OPCODE.orDNR, none, none⟩)

/-! ### Initialisation -/

def MiB : Nat := 1024 * 1024
def KiB : Nat := 1024
def NVME_DEFAULT_ZONE_SIZE : Nat := 128 * MiB
def NVME_DEFAULT_MAX_AZ_SIZE : Nat := 128 * KiB

/-- Code of the zoned command set identifier. -/
def NVME_CSI_ZONED : Nat := 2

/-- The assignments of `zns_init_zone_geometry`: zone size and capacity in
blocks, and the number of zones. -/
def zns_geometry_derive (n : FemuCtrl) : FemuCtrl :=
  let lbasz := (1 <<< n.lbads) % U32
  let zone_size := if n.zone_size_bs ≠ 0 then n.zone_size_bs else NVME_DEFAULT_ZONE_SIZE
  let zone_cap := if n.zone_cap_bs ≠ 0 then n.zone_cap_bs else zone_size
  { n with
    zone_size := zone_size / lbasz
    zone_capacity := zone_cap / lbasz
    num_zones := (n.ns_size / lbasz / (zone_size / lbasz)) % U32 }

/-- The checks of `zns_init_zone_geometry` on sizes that come before the
assignments; `true` is an error return (or a zero LBA size, on which the C
code divides by zero). -/
def zns_geometry_size_error (n : FemuCtrl) : Bool :=
  let lbasz := (1 <<< n.lbads) % U32
  let zone_size := if n.zone_size_bs ≠ 0 then n.zone_size_bs else NVME_DEFAULT_ZONE_SIZE
  let zone_cap := if n.zone_cap_bs ≠ 0 then n.zone_cap_bs else zone_size
  decide (zone_cap > zone_size) || decide (zone_size < lbasz) || decide (zone_cap < lbasz) ||
    decide (lbasz = 0)

/-- Derive the zone geometry from the configuration.  `none` is the error
return. -/
def zns_init_zone_geometry (n : FemuCtrl) : Option FemuCtrl :=
  if zns_geometry_size_error n then none
  else if (zns_geometry_derive n).max_open_zones > (zns_geometry_derive n).num_zones then none
  else if (zns_geometry_derive n).max_active_zones > (zns_geometry_derive n).num_zones then none
  else if (zns_geometry_derive n).zd_extension_size ≠ 0 ∧
      (zns_geometry_derive n).zd_extension_size &&& 0x3f ≠ 0 then none
  else if (zns_geometry_derive n).zd_extension_size ≠ 0 ∧
      (zns_geometry_derive n).zd_extension_size >>> 6 > 0xff then none
  else some (zns_geometry_derive n)

/-- The loop of `zns_init_zoned_state` that fills the zone array. -/
def zns_init_zone_loop (zone_capacity capacity : Nat) : Nat → Nat → Nat → List NvmeZone
  | 0, _, _ => []
  | k + 1, start, zone_size =>
    let zone_size1 := if (start + zone_size) % U64 > capacity then (capacity + U64 - start) % U64
      else zone_size
    { zt := NVME_ZONE_TYPE_SEQ_WRITE, zs := .EMPTY, za := 0, zcap := zone_capacity,
      zslba := start, wp := start, w_ptr := start } ::
      zns_init_zone_loop zone_capacity capacity k ((start + zone_size1) % U64) zone_size1

/-- Index of the highest set bit among the low `w` bits of `v`: the value of
`63 - clz64(v)` for `w = 64` and of `31 - clz32(v)` for `w = 32` on a
non-zero word. -/
def highest_bit (w v : Nat) : Nat :=
  (List.range w).foldl (fun acc i => if v >>> i ≠ 0 then i else acc) 0

/-- The value of `is_power_of_2` on a 64-bit word. -/
def is_power_of_2 (v : Nat) : Bool := v ≠ 0 && v &&& (v - 1) = 0

/-- Allocate the zone array and the extension buffer, empty the queues and
record the shift of a power-of-two zone size. -/
def zns_init_zoned_state (n : FemuCtrl) : FemuCtrl :=
  let capacity := (n.num_zones * n.zone_size) % U64
  let n1 : FemuCtrl :=
    { n with
      zone_array := zns_init_zone_loop n.zone_capacity capacity n.num_zones 0 n.zone_size
      zd_extensions :=
        if n.zd_extension_size ≠ 0 then List.replicate (n.zd_extension_size * n.num_zones) 0
        else n.zd_extensions
      exp_open_zones := []
      imp_open_zones := []
      closed_zones := []
      full_zones := [] }
  { n1 with zone_size_log2 := if is_power_of_2 n1.zone_size then highest_bit 64 n1.zone_size else 0 }

/-- Build the zone state and fill the identify fields of the zoned
namespace (`lba_index` is 0 at the only call). -/
def zns_init_zone_identify (n : FemuCtrl) : FemuCtrl :=
  let n1 := zns_init_zoned_state n
  let nsze := (n1.num_zones * n1.zone_size) % U64
  { n1 with
    mar := (n1.max_active_zones + U32 - 1) % U32
    mor := (n1.max_open_zones + U32 - 1) % U32
    zoc := 0
    ozcs := if n1.cross_zone_read then 1 else 0
    zsze := n1.zone_size
    zdes := n1.zd_extension_size >>> 6
    csi := NVME_CSI_ZONED
    nsze := nsze
    ncap := nsze
    nuse := nsze
    nsfeat := if n1.zone_size % (n1.npdg + 1) ≠ 0 then n1.nsfeat &&& (255 - 4) else n1.nsfeat }

/-- The defaults `zns_init` stores before it derives the geometry. -/
def zns_init_zone_cap (n : FemuCtrl) : FemuCtrl :=
  { n with
    zoned := true
    zasl_bs := NVME_DEFAULT_MAX_AZ_SIZE
    zone_size_bs := NVME_DEFAULT_ZONE_SIZE
    zone_cap_bs := 0
    cross_zone_read := false
    max_active_zones := 0
    max_open_zones := 0
    zd_extension_size := 0 }

/-- Bring-up of a zoned namespace from a configured controller: geometry,
then zone state and identify data.  `none` is a configuration error. -/
def zns_init_ns (n : FemuCtrl) : Option FemuCtrl :=
  (zns_init_zone_geometry n).map zns_init_zone_identify

/-- The entry point `zns_init`: the built-in configuration, then bring-up. -/
def zns_init (n : FemuCtrl) : Option FemuCtrl :=
  zns_init_ns (zns_init_zone_cap n)

/-- The append size limit `zasl` derived when the controller starts; `none`
is the error return. -/
def zns_start_ctrl (n : FemuCtrl) : Option FemuCtrl :=
  if n.page_size ≠ 4096 then none
  else if n.zasl_bs = 0 then some { n with zasl := n.mdts }
  else if n.zasl_bs < n.page_size then none
  else some { n with zasl := highest_bit 32 (n.zasl_bs / n.page_size) }

/-! ### Reachable controller states -/

/-- The controller states reachable from the bring-up of a zoned namespace
(any configuration that passes the geometry validation, on a freshly
allocated controller whose counters are zero) by I/O commands, whatever
their status. -/
inductive Reachable : FemuCtrl → Prop
  | init (n0 n : FemuCtrl) (hz : n0.zoned = true) (ho : n0.nr_open_zones = 0)
      (ha : n0.nr_active_zones = 0) (h : zns_init_ns n0 = some n) : Reachable n
  | step (n n1 : FemuCtrl) (c : NvmeCmd) (r : IoResult) (hr : Reachable n)
      (h : zns_io_cmd n c = some (n1, r)) : Reachable n1

/-- The controller states reachable from bring-up by accepted commands only:
every command of the sequence completed with status SUCCESS. -/
inductive ReachableAccepted : FemuCtrl → Prop
  | init (n0 n : FemuCtrl) (hz : n0.zoned = true) (ho : n0.nr_open_zones = 0)
      (ha : n0.nr_active_zones = 0) (h : zns_init_ns n0 = some n) : ReachableAccepted n
  | step (n n1 : FemuCtrl) (c : NvmeCmd) (r : IoResult) (hr : ReachableAccepted n)
      (h : zns_io_cmd n c = some (n1, r)) (hs : r.status = NVME_SUCCESS) : ReachableAccepted n1

/-! ### A concrete namespace -/

/-- The configuration of the concrete scenarios: 4 KiB blocks, zones of 8
blocks with capacity 8, 4 zones, at most 2 open and 3 active zones. -/
def scenarioConfig : FemuCtrl :=
  { (default : FemuCtrl) with
    zoned := true
    lbads := 12
    zone_size_bs := 8 * 4096
    zone_cap_bs := 0
    ns_size := 4 * 8 * 4096
    max_open_zones := 2
    max_active_zones := 3
    page_size := 4096
    mdts := 5
    zasl := 5 }

/-- The scenario namespace after bring-up. -/
def scenarioCtrl : FemuCtrl := (zns_init_ns scenarioConfig).getD default

/-- A zone management send for a single zone: action code and start LBA. -/
def sendCmd (action slba : Nat) : NvmeCmd :=
  { (default : NvmeCmd) with
    opcode := NVME_CMD_ZONE_MGMT_SEND
    cdw10 := slba
    cdw13 := action }

/-- A write or append (by opcode) of `nlb` blocks at `slba` whose data
pointer maps. -/
def rwCmd (opcode slba nlb : Nat) : NvmeCmd :=
  { (default : NvmeCmd) with
    opcode := opcode
    cdw10 := slba
    cdw12 := nlb - 1 }

/-- Run a list of commands, dropping the results. -/
def runCmds : FemuCtrl → List NvmeCmd → Option FemuCtrl
  | n, [] => some n
  | n, c :: cs =>
    match zns_io_cmd n c with
    | none => none
    | some p => runCmds p.1 cs

/-! ### Vocabulary of the statements -/

/-- The command `c` is a zone management send for a single zone (`all = 0`)
with action code `action`, and it addresses zone `idx` by its start LBA. -/
def SingleZoneSend (n : FemuCtrl) (c : NvmeCmd) (action idx : Nat) : Prop :=
  n.zoned = true ∧
  (c.cdw13 % U32) &&& 0x100 = 0 ∧
  (c.cdw13 % U32) &&& 0xff = action ∧
  cmd_slba c < n.nsze ∧
  zns_zone_idx n (cmd_slba c) = idx ∧
  idx < n.num_zones ∧
  idx < n.zone_array.length ∧
  (zoneAt n idx).zslba = cmd_slba c

instance (n : FemuCtrl) (c : NvmeCmd) (action idx : Nat) : Decidable (SingleZoneSend n c action idx) := by
  unfold SingleZoneSend; infer_instance

/-- Two controller records agree on the configuration and geometry fields
that commands only read, and on the number of zone records. -/
def SameConfig (a b : FemuCtrl) : Prop :=
  a.zoned = b.zoned ∧ a.num_zones = b.num_zones ∧ a.zone_size = b.zone_size ∧
  a.zone_capacity = b.zone_capacity ∧ a.zone_size_log2 = b.zone_size_log2 ∧
  a.max_active_zones = b.max_active_zones ∧ a.max_open_zones = b.max_open_zones ∧
  a.zd_extension_size = b.zd_extension_size ∧ a.cross_zone_read = b.cross_zone_read ∧
  a.page_size = b.page_size ∧ a.zasl = b.zasl ∧ a.mdts = b.mdts ∧ a.lbads = b.lbads ∧
  a.nsze = b.nsze ∧ a.zone_array.length = b.zone_array.length

/-- The command `c` asks for a report (plain, or extended when extensions
are configured) that starts at zone `idx`, with the filter ALL or EMPTY and
a buffer with room for the header and at least one entry. -/
def ReportRequest (n : FemuCtrl) (c : NvmeCmd) (idx : Nat) : Prop :=
  n.zoned = true ∧
  cmd_slba c < n.nsze ∧
  zns_zone_idx n (cmd_slba c) = idx ∧
  idx < n.num_zones ∧
  ((c.cdw13 % U32) &&& 0xff = NVME_ZONE_REPORT ∨
    ((c.cdw13 % U32) &&& 0xff = NVME_ZONE_REPORT_EXTENDED ∧ n.zd_extension_size ≠ 0)) ∧
  (((c.cdw13 % U32) >>> 8) &&& 0xff = NVME_ZONE_REPORT_ALL ∨
    ((c.cdw13 % U32) >>> 8) &&& 0xff = NVME_ZONE_REPORT_EMPTY) ∧
  sizeof_NvmeZoneReportHeader + sizeof_NvmeZoneDescr + n.zd_extension_size ≤
    (((c.cdw12 % U32 + 1) % U32) <<< 2) % U32 ∧
  nvme_check_mdts n ((((c.cdw12 % U32 + 1) % U32) <<< 2) % U32) = NVME_SUCCESS

instance (n : FemuCtrl) (c : NvmeCmd) (idx : Nat) : Decidable (ReportRequest n c idx) := by
  unfold ReportRequest; infer_instance

/-- The zone records tile the LBA space from zone `idx` on: the start LBA of
the request is not before zone `idx`, the namespace ends with the zone array,
and the end of the array is a 64-bit value. -/
def ReportGeometry (n : FemuCtrl) (slba idx : Nat) : Prop :=
  idx * n.zone_size ≤ slba ∧
  n.nsze ≤ n.zone_array.length * n.zone_size ∧
  (n.zone_array.length + 1) * n.zone_size ≤ U64

instance (n : FemuCtrl) (slba idx : Nat) : Decidable (ReportGeometry n slba idx) := by
  unfold ReportGeometry; infer_instance

/-- A report request: start LBA, size field `cdw12` and `cdw13`. -/
def recvCmd (slba dw12 dw13 : Nat) : NvmeCmd :=
  { (default : NvmeCmd) with
    opcode := NVME_CMD_ZONE_MGMT_RECV
    cdw10 := slba
    cdw12 := dw12
    cdw13 := dw13 }

/-- The descriptors of the report in the result of a command. -/
def reportDescrs (r : Option (FemuCtrl × IoResult)) : List NvmeZoneDescr :=
  match r with
  | some (_, ⟨_, _, some rep⟩) => rep.entries.map (fun e => e.descr)
  | _ => []

/-- The report the command `c2` produces on `n` starts with a descriptor of
zone `idx` that shows the state EMPTY and a write pointer at the zone start. -/
def ReportShowsEmpty (n : FemuCtrl) (c2 : NvmeCmd) (idx : Nat) : Prop :=
  ∃ nr ext rest d,
    zns_zone_mgmt_recv n c2 = some (n, ⟨c2.dma_status, none, some ⟨nr, ⟨d, ext⟩ :: rest⟩⟩) ∧
    d.zs = NvmeZoneState.EMPTY.code <<< 4 ∧
    d.zslba = (zoneAt n idx).zslba ∧
    d.wp = (zoneAt n idx).zslba

/-- The built-in configuration on a freshly allocated controller: 4 KiB
blocks, a namespace of 512 MiB, and controller properties `mdts = 15` and
`zasl = 5` (the append limit of 128 KiB). -/
def femuConfig : FemuCtrl :=
  { (default : FemuCtrl) with
    lbads := 12
    ns_size := 512 * MiB
    page_size := 4096
    mdts := 15
    zasl := 5 }

/-- The namespace `zns_init` builds from `femuConfig`: four zones of 32768
blocks, no open or active limit, no descriptor extensions. -/
def femuCtrl : FemuCtrl := (zns_init femuConfig).getD default

/-- A write of `nlb` blocks at `slba` whose data pointer the PRP mapper
rejects. -/
def unmappedWrite (slba nlb : Nat) : NvmeCmd :=
  { rwCmd NVME_CMD_WRITE slba nlb with map_prp_status := NVME_INVALID_FIELD }

/-- The scenario configuration with descriptor extensions of 64 bytes. -/
def extConfig : FemuCtrl := { scenarioConfig with zd_extension_size := 64 }

/-- The namespace with descriptor extensions after bring-up. -/
def extCtrl : FemuCtrl := (zns_init_ns extConfig).getD default

/-- A single-zone SET_ZD_EXT whose data transfer ends with status `st`. -/
def setExtCmd (slba : Nat) (st : NvmeStatus) : NvmeCmd :=
  { sendCmd NVME_ZONE_ACTION_SET_ZD_EXT slba with dma_status := st }

/-- The pairs of action code and zone state for which the handler of the
action has no transition (RESET apart, whose handler status the command
does not return). -/
def NoTransition (action : Nat) (st : NvmeZoneState) : Prop :=
  (action = NVME_ZONE_ACTION_OPEN ∧ (st = .FULL ∨ st = .READ_ONLY ∨ st = .OFFLINE)) ∨
  (action = NVME_ZONE_ACTION_CLOSE ∧
    (st = .EMPTY ∨ st = .FULL ∨ st = .READ_ONLY ∨ st = .OFFLINE)) ∨
  (action = NVME_ZONE_ACTION_FINISH ∧ (st = .READ_ONLY ∨ st = .OFFLINE)) ∨
  (action = NVME_ZONE_ACTION_OFFLINE ∧ st ≠ .READ_ONLY ∧ st ≠ .OFFLINE) ∨
  (action = NVME_ZONE_ACTION_SET_ZD_EXT ∧ st ≠ .EMPTY)

instance (action : Nat) (st : NvmeZoneState) : Decidable (NoTransition action st) := by
  unfold NoTransition; infer_instance

/-! ### Invariants -/

/-- Queue membership follows the zone state: a zone index is in a queue iff
it designates a zone record whose state is the state of that queue, and no
queue holds an index twice. -/
structure Linked (n : FemuCtrl) : Prop where
  exp : ∀ i, i ∈ n.exp_open_zones ↔
    i < n.zone_array.length ∧ (zoneAt n i).zs = .EXPLICITLY_OPEN
  imp : ∀ i, i ∈ n.imp_open_zones ↔
    i < n.zone_array.length ∧ (zoneAt n i).zs = .IMPLICITLY_OPEN
  closed : ∀ i, i ∈ n.closed_zones ↔ i < n.zone_array.length ∧ (zoneAt n i).zs = .CLOSED
  full : ∀ i, i ∈ n.full_zones ↔ i < n.zone_array.length ∧ (zoneAt n i).zs = .FULL
  nd_exp : n.exp_open_zones.Nodup
  nd_imp : n.imp_open_zones.Nodup
  nd_closed : n.closed_zones.Nodup
  nd_full : n.full_zones.Nodup

/-- The counters count the linked zones: `nr_open_zones` the zones in
`exp_open_zones` and `imp_open_zones`, `nr_active_zones` those and the zones
in `closed_zones`. -/
def AorCounts (n : FemuCtrl) : Prop :=
  n.nr_open_zones = ((n.exp_open_zones.length + n.imp_open_zones.length : Nat) : Int) ∧
  n.nr_active_zones =
    ((n.exp_open_zones.length + n.imp_open_zones.length + n.closed_zones.length : Nat) : Int)

/-- No counter is above its configured limit; a limit of zero is no limit. -/
def AorLimits (n : FemuCtrl) : Prop :=
  (n.max_open_zones = 0 ∨ n.nr_open_zones ≤ (n.max_open_zones : Int)) ∧
  (n.max_active_zones = 0 ∨ n.nr_active_zones ≤ (n.max_active_zones : Int))

/-- The invariant of the zone bookkeeping. -/
structure Inv (n : FemuCtrl) : Prop where
  len : n.zone_array.length = n.num_zones
  linked : Linked n
  counts : AorCounts n
  limits : AorLimits n

/-- The indicator of an open state. -/
def isOpenState (st : NvmeZoneState) : Int :=
  if st = .EXPLICITLY_OPEN ∨ st = .IMPLICITLY_OPEN then 1 else 0

/-- The indicator of an active state. -/
def isActiveState (st : NvmeZoneState) : Int :=
  if st = .EXPLICITLY_OPEN ∨ st = .IMPLICITLY_OPEN ∨ st = .CLOSED then 1 else 0

/-- Two controller records have the same queues, zone states, zone count and
limits; they may differ in the counters and in zone fields other than the
state. -/
def SameShape (m n : FemuCtrl) : Prop :=
  m.zone_array.length = n.zone_array.length ∧
  (∀ j, (zoneAt m j).zs = (zoneAt n j).zs) ∧
  m.exp_open_zones = n.exp_open_zones ∧
  m.imp_open_zones = n.imp_open_zones ∧
  m.closed_zones = n.closed_zones ∧
  m.full_zones = n.full_zones ∧
  m.num_zones = n.num_zones ∧
  m.max_open_zones = n.max_open_zones ∧
  m.max_active_zones = n.max_active_zones

/-- A handler keeps the invariant and the configuration when it is called on
a zone record with the state read from that zone. -/
def PreservesInv (op : op_handler_t) : Prop :=
  ∀ n idx, Inv n → idx < n.zone_array.length →
    Inv (op n idx (zoneAt n idx).zs).1 ∧ SameConfig (op n idx (zoneAt n idx).zs).1 n

/-- Run a list of commands that must all be accepted: the result is `none`
as soon as a command does not complete with status SUCCESS. -/
def runAccepted : FemuCtrl → List NvmeCmd → Option FemuCtrl
  | n, [] => some n
  | n, c :: cs =>
    match zns_io_cmd n c with
    | none => none
    | some p => if p.2.status = NVME_SUCCESS then runAccepted p.1 cs else none

/-! ### Vocabulary of the write path -/

/-- The record `zns_advance_zone_wp` leaves in the zone it is given. -/
def advanceZone (z : NvmeZone) (nlb : Nat) : NvmeZone :=
  if (z.w_ptr + nlb) % U64 < zns_zone_wr_boundary z ∧ (z.zs = .EMPTY ∨ z.zs = .CLOSED) then
    { z with w_ptr := (z.w_ptr + nlb) % U64, zs := .IMPLICITLY_OPEN }
  else { z with w_ptr := (z.w_ptr + nlb) % U64 }

/-- The record `zns_finalize_zoned_write` leaves in the zone of the command. -/
def finalizeZone (z : NvmeZone) (nlb : Nat) : NvmeZone :=
  if (z.wp + nlb) % U64 = zns_zone_wr_boundary z then
    { z with wp := (z.wp + nlb) % U64, zs := .FULL }
  else { z with wp := (z.wp + nlb) % U64 }

/-- The command `c` passes the validation of a write (`append = false`) or an
append (`append = true`) to zone `idx`: the zone lookup, the transfer size,
the namespace range and the zone checks; and its data pointer maps. -/
def WriteValid (n : FemuCtrl) (c : NvmeCmd) (append : Bool) (idx : Nat) : Prop :=
  zns_get_zone_by_slba n (cmd_slba c) = some idx ∧
  nvme_check_mdts n (zns_l2b n (cmd_nlb c + 1)) = NVME_SUCCESS ∧
  zns_check_bounds n (cmd_slba c) (cmd_nlb c + 1) = NVME_SUCCESS ∧
  zns_check_zone_write n (zoneAt n idx) (cmd_slba c) (cmd_nlb c + 1) append = NVME_SUCCESS ∧
  zns_map_dptr c = NVME_SUCCESS

instance (n : FemuCtrl) (c : NvmeCmd) (append : Bool) (idx : Nat) :
    Decidable (WriteValid n c append idx) := by
  unfold WriteValid; infer_instance

/-! ### Changes of a zone record -/

/-- The zone checks of a write of `nlb` blocks at `slba` have passed for the
record `z`: the state admits a write, the write ends within the write
boundary, and it starts at the internal write pointer (a write) or at the
start of the zone (an append). -/
def WriteAdmitted (z : NvmeZone) (slba nlb : Nat) : Prop :=
  (z.zs = .EMPTY ∨ z.zs = .IMPLICITLY_OPEN ∨ z.zs = .EXPLICITLY_OPEN ∨ z.zs = .CLOSED) ∧
  1 ≤ nlb ∧ slba + nlb ≤ zns_zone_wr_boundary z ∧ (slba = z.w_ptr ∨ slba = z.zslba)

/-- One change of a zone record by a handler of zone management send, by the
eviction of an implicitly open zone, or by a write.  With `d = true` the
changes include the submission of a write whose data pointer does not map
(it is never completed). -/
inductive ZoneStep (d : Bool) : NvmeZone → NvmeZone → Prop
  | opened (z : NvmeZone)
      (h : z.zs = .EMPTY ∨ z.zs = .CLOSED ∨ z.zs = .IMPLICITLY_OPEN) :
      ZoneStep d z { z with zs := .EXPLICITLY_OPEN }
  | closed (z : NvmeZone) (h : z.zs = .EXPLICITLY_OPEN ∨ z.zs = .IMPLICITLY_OPEN) :
      ZoneStep d z { z with zs := .CLOSED }
  | finished (z : NvmeZone)
      (h : z.zs = .EXPLICITLY_OPEN ∨ z.zs = .IMPLICITLY_OPEN ∨ z.zs = .CLOSED ∨ z.zs = .EMPTY) :
      ZoneStep d z
        { z with zs := .FULL, wp := zns_zone_wr_boundary z, w_ptr := zns_zone_wr_boundary z }
  | reset (z : NvmeZone)
      (h : z.zs = .EXPLICITLY_OPEN ∨ z.zs = .IMPLICITLY_OPEN ∨ z.zs = .CLOSED ∨ z.zs = .FULL) :
      ZoneStep d z { z with zs := .EMPTY, za := 0, wp := z.zslba, w_ptr := z.zslba }
  | offlined (z : NvmeZone) (h : z.zs = .READ_ONLY) :
      ZoneStep d z { z with zs := .OFFLINE, za := 0 }
  | ext_set (z : NvmeZone) (h : z.zs = .EMPTY) :
      ZoneStep d z { z with zs := .CLOSED, za := z.za ||| NVME_ZA_ZD_EXT_VALID }
  | written (z : NvmeZone) (slba nlb : Nat) (h : WriteAdmitted z slba nlb) :
      ZoneStep d z (finalizeZone (advanceZone z nlb) nlb)
  | advanced (z : NvmeZone) (slba nlb : Nat) (hd : d = true) (h : WriteAdmitted z slba nlb) :
      ZoneStep d z (advanceZone z nlb)

/-- Every zone record of `n1` comes from the record of the same zone of `n`
by a chain of zone changes. -/
def Zones (d : Bool) (n n1 : FemuCtrl) : Prop :=
  ∀ j, Relation.ReflTransGen (ZoneStep d) (zoneAt n j) (zoneAt n1 j)

/-- A handler changes zone records by zone changes only. -/
def PreservesZones (d : Bool) (op : op_handler_t) : Prop :=
  ∀ n idx, idx < n.zone_array.length → Zones d n (op n idx (zoneAt n idx).zs).1

/-- The write pointer facts that accepted commands keep: the two write
pointers agree, an EMPTY zone has them at its start, and a zone whose write
boundary is not its start is FULL exactly when `wp` is at the write
boundary. -/
def WpInv (z : NvmeZone) : Prop :=
  z.wp = z.w_ptr ∧
  (z.zs = .EMPTY → z.wp = z.zslba) ∧
  (z.zslba ≠ zns_zone_wr_boundary z → (z.zs = .FULL ↔ z.wp = zns_zone_wr_boundary z))

/-! ### The geometry of a brought-up namespace -/

/-- The geometry bring-up gives a zoned namespace, as far as the commands
depend on it: the zone array has `num_zones` records that tile the LBA space
in steps of `zone_size`, the namespace ends with the last zone below 2^64,
and `zone_size_log2` is the shift of a power-of-two zone size. -/
def ZoneGeometry (n : FemuCtrl) : Prop :=
  n.zoned = true ∧
  n.zone_array.length = n.num_zones ∧
  0 < n.zone_size ∧
  n.num_zones * n.zone_size < U64 ∧
  n.nsze = n.num_zones * n.zone_size ∧
  n.num_zones < U32 ∧
  n.zone_size_log2 = (if is_power_of_2 n.zone_size then highest_bit 64 n.zone_size else 0) ∧
  ∀ i, i < n.num_zones → (zoneAt n i).zslba = i * n.zone_size

instance (n : FemuCtrl) : Decidable (ZoneGeometry n) := by
  unfold ZoneGeometry; infer_instance

/-- A namespace like the scenario namespace that reads across zone
boundaries, with zone 1 taken offline (no command of the adapter does that;
the record is written directly). -/
def offlineCtrl : FemuCtrl :=
  setZone { scenarioCtrl with cross_zone_read := true } 1
    { zoneAt scenarioCtrl 1 with zs := .OFFLINE }

/-! ### Vocabulary of repeated appends -/

/-- Run a list of commands and collect the results. -/
def runResults : FemuCtrl → List NvmeCmd → Option (FemuCtrl × List IoResult)
  | n, [] => some (n, [])
  | n, c :: cs =>
    match zns_io_cmd n c with
    | none => none
    | some p => (runResults p.1 cs).map (fun q => (q.1, p.2 :: q.2))

/-- The record of a zone that was EMPTY with its pointers at the start,
after `j` appends of `k` blocks: both pointers have advanced by `j * k`, the
zone is implicitly open, and FULL once the capacity is reached. -/
def appendedZone (z : NvmeZone) (k j : Nat) : NvmeZone :=
  { z with
    wp := z.zslba + j * k
    w_ptr := z.zslba + j * k
    zs := if j = 0 then z.zs else if j * k = z.zcap then .FULL else .IMPLICITLY_OPEN }

/-! ### Vocabulary of the bulk operations -/

/-- The test `proc_zone` of `zns_bulk_proc_zone`: the mask selects the zone
state. -/
def procSelects (proc_mask : Nat) (zs : NvmeZoneState) : Bool :=
  match zs with
  | .IMPLICITLY_OPEN | .EXPLICITLY_OPEN => proc_mask &&& NVME_PROC_OPENED_ZONES != 0
  | .CLOSED => proc_mask &&& NVME_PROC_CLOSED_ZONES != 0
  | .READ_ONLY => proc_mask &&& NVME_PROC_READ_ONLY_ZONES != 0
  | .FULL => proc_mask &&& NVME_PROC_FULL_ZONES != 0
  | _ => false

/-- The record OPEN leaves in a closed zone. -/
def openedZone (z : NvmeZone) : NvmeZone := { z with zs := .EXPLICITLY_OPEN }

/-- A zone management send for all zones (`all = 1`) with the given action. -/
def sendAllCmd (action : Nat) : NvmeCmd := sendCmd (action ||| 0x100) 0

/-! ### Vocabulary of the reports -/

/-- The size in bytes of the data buffer of a report request: `cdw12` is the
zero-based number of dwords. -/
def recv_data_size (c : NvmeCmd) : Nat := (((c.cdw12 % U32 + 1) % U32) <<< 2) % U32

/-- The receive action `zra` of a report request. -/
def recv_zra (c : NvmeCmd) : Nat := (c.cdw13 % U32) &&& 0xff

/-- The filter `zrasf` of a report request. -/
def recv_zrasf (c : NvmeCmd) : Nat := ((c.cdw13 % U32) >>> 8) &&& 0xff

/-- The `partial` bit of a report request. -/
def recv_partial_bit (c : NvmeCmd) : Bool := ((c.cdw13 % U32) >>> 16) &&& 0x01 != 0

/-- The size in bytes of one entry of the report: the descriptor and, in an
extended report, the extension. -/
def recv_entry_size (n : FemuCtrl) (c : NvmeCmd) : Nat :=
  sizeof_NvmeZoneDescr +
    (if recv_zra c = NVME_ZONE_REPORT_EXTENDED then n.zd_extension_size else 0)

/-- The number of entries the buffer has room for behind the header. -/
def recv_max_entries (n : FemuCtrl) (c : NvmeCmd) : Nat :=
  (recv_data_size c - sizeof_NvmeZoneReportHeader) / recv_entry_size n c

/-- A valid report request: the LBA lies in the namespace, the action is a
report (extended only when extensions are configured), the filter is one of
the eight filters, the buffer holds the header, and its size passes the MDTS
check. -/
def ReportValid (n : FemuCtrl) (c : NvmeCmd) : Prop :=
  cmd_slba c < n.nsze ∧
  (recv_zra c = NVME_ZONE_REPORT ∨
    (recv_zra c = NVME_ZONE_REPORT_EXTENDED ∧ n.zd_extension_size ≠ 0)) ∧
  recv_zrasf c ≤ NVME_ZONE_REPORT_OFFLINE ∧
  sizeof_NvmeZoneReportHeader ≤ recv_data_size c ∧
  nvme_check_mdts n (recv_data_size c) = NVME_SUCCESS

instance (n : FemuCtrl) (c : NvmeCmd) : Decidable (ReportValid n c) := by
  unfold ReportValid; infer_instance

/-- The indices, in increasing order, of the zones from index `s` on that
match the filter `f`. -/
def matchingZones (n : FemuCtrl) (f s : Nat) : List Nat :=
  (List.range' s (n.num_zones - s)).filter (fun j => zns_zone_matches_filter f (zoneAt n j))

/-- The entry of zone `j` in a report: its descriptor and, in an extended
report, the extension bytes of the zone if its extension is valid and zero
bytes otherwise. -/
def reportEntry (n : FemuCtrl) (extended : Bool) (j : Nat) : ZoneReportEntry :=
  ⟨zns_report_descr (zoneAt n j),
    if extended then
      (if (zoneAt n j).za &&& NVME_ZA_ZD_EXT_VALID ≠ 0 then zns_get_zd_extension n j
       else List.replicate n.zd_extension_size 0)
    else []⟩

/-- The field `nr_zones` of the header of the report in the result of a
command, if the command built a report. -/
def reportNrZones (r : Option (FemuCtrl × IoResult)) : Option Nat :=
  match r with
  | some (_, ⟨_, _, some rep⟩) => some rep.nr_zones
  | _ => none

/-! ### Vocabulary of the geometry validation and of the zone index -/

/-- Size of a logical block in bytes, `2 ^ lbads`. -/
def cfg_lba_size (n : FemuCtrl) : Nat := 2 ^ n.lbads

/-- The configured zone size in bytes, with 128 MiB substituted for zero. -/
def cfg_zone_size (n : FemuCtrl) : Nat :=
  if n.zone_size_bs = 0 then 128 * 1024 * 1024 else n.zone_size_bs

/-- The configured zone capacity in bytes, with the zone size substituted
for zero. -/
def cfg_zone_cap (n : FemuCtrl) : Nat :=
  if n.zone_cap_bs = 0 then cfg_zone_size n else n.zone_cap_bs

/-- The number of zones of the namespace: the namespace size in blocks
divided by the zone size in blocks, both rounded down. -/
def cfg_num_zones (n : FemuCtrl) : Nat :=
  n.ns_size / cfg_lba_size n / (cfg_zone_size n / cfg_lba_size n)

/-- The configurations the specification lists as validation failures, in
bytes and with the defaults substituted. -/
def GeometryRejected (n : FemuCtrl) : Prop :=
  cfg_zone_cap n > cfg_zone_size n ∨ cfg_zone_size n < cfg_lba_size n ∨
  cfg_zone_cap n < cfg_lba_size n ∨
  n.max_open_zones > cfg_num_zones n ∨ n.max_active_zones > cfg_num_zones n ∨
  (n.zd_extension_size ≠ 0 ∧
    (n.zd_extension_size % 64 ≠ 0 ∨ n.zd_extension_size > 64 * 255))

instance (n : FemuCtrl) : Decidable (GeometryRejected n) := by
  unfold GeometryRejected; infer_instance

/-- The zone index in the words of the specification: the LBA divided by the
zone size, rounded down. -/
def zone_idx_spec (zone_size lba : Nat) : Nat := lba / zone_size

/-- The geometry of the scenario configuration, as `zns_init_zone_geometry`
derives it (zones of 8 blocks). -/
def scenarioGeometry : FemuCtrl := (zns_init_zone_geometry scenarioConfig).getD default

/-- A configuration with zones of 3 blocks, a size that is no power of
two, and its geometry (5 zones). -/
def oddGeometry : FemuCtrl :=
  (zns_init_zone_geometry
    { scenarioConfig with zone_size_bs := 3 * 4096, ns_size := 16 * 4096 }).getD default

/-! ### States reachable by commands whose data pointer maps -/

/-- The controller states reachable from bring-up by commands whose data
pointer maps, whatever their status. -/
inductive ReachableMapped : FemuCtrl → Prop
  | init (n0 n : FemuCtrl) (hz : n0.zoned = true) (ho : n0.nr_open_zones = 0)
      (ha : n0.nr_active_zones = 0) (h : zns_init_ns n0 = some n) : ReachableMapped n
  | step (n n1 : FemuCtrl) (c : NvmeCmd) (r : IoResult) (hr : ReachableMapped n)
      (hm : zns_map_dptr c = NVME_SUCCESS) (h : zns_io_cmd n c = some (n1, r)) :
      ReachableMapped n1

/-! ### A namespace whose zone capacity is below the zone size -/

theorem zoneAt_setZone_same (n : FemuCtrl) (idx : Nat) (z : NvmeZone)
    (h : idx < n.zone_array.length) : zoneAt (setZone n idx z) idx = z := by
  simp [zoneAt, setZone, List.getD_eq_getElem?_getD, h]

theorem zoneAt_setZone_ne (n : FemuCtrl) (idx j : Nat) (z : NvmeZone) (h : idx ≠ j) :
    zoneAt (setZone n idx z) j = zoneAt n j := by
  simp [zoneAt, setZone, List.getD_eq_getElem?_getD, List.getElem?_set_ne h]

theorem length_setZone (n : FemuCtrl) (idx : Nat) (z : NvmeZone) :
    (setZone n idx z).zone_array.length = n.zone_array.length := by
  simp [setZone]

/-- What `zns_assign_zone_state` does to the zone it is given. -/
theorem zoneAt_assign_same (n : FemuCtrl) (idx : Nat) (st : NvmeZoneState)
    (h : idx < n.zone_array.length) :
    zoneAt (zns_assign_zone_state n idx st) idx =
      { zoneAt n idx with
        zs := st
        za := if st = .EMPTY ∨ st = .OFFLINE then 0 else (zoneAt n idx).za } := by
  have hu : (zns_unlink_zone n idx).zone_array = n.zone_array := by
    unfold zns_unlink_zone
    split
    · split <;> rfl
    · rfl
  cases st <;>
    simp [zns_assign_zone_state, zoneAt, setZone, zns_set_zone_state,
      List.getD_eq_getElem?_getD, h, hu]

/-- The zones `zns_assign_zone_state` is not given keep their record. -/
theorem zoneAt_assign_ne (n : FemuCtrl) (idx j : Nat) (st : NvmeZoneState) (h : idx ≠ j) :
    zoneAt (zns_assign_zone_state n idx st) j = zoneAt n j := by
  have hu : (zns_unlink_zone n idx).zone_array = n.zone_array := by
    unfold zns_unlink_zone
    split
    · split <;> rfl
    · rfl
  cases st <;>
    simp [zns_assign_zone_state, zoneAt, setZone, List.getD_eq_getElem?_getD,
      List.getElem?_set_ne h, hu]

/-- The fields `zns_assign_zone_state` never writes. -/
theorem assign_frame (n : FemuCtrl) (idx : Nat) (st : NvmeZoneState) :
    (zns_assign_zone_state n idx st).nr_open_zones = n.nr_open_zones ∧
    (zns_assign_zone_state n idx st).nr_active_zones = n.nr_active_zones ∧
    (zns_assign_zone_state n idx st).max_open_zones = n.max_open_zones ∧
    (zns_assign_zone_state n idx st).max_active_zones = n.max_active_zones ∧
    (zns_assign_zone_state n idx st).zone_array.length = n.zone_array.length ∧
    (zns_assign_zone_state n idx st).num_zones = n.num_zones := by
  unfold zns_assign_zone_state zns_unlink_zone
  cases st <;> simp only [] <;> split <;> (try split) <;> simp [setZone]

/-! ### Single-zone management commands reach their handler -/

theorem mgmt_send_decode (n : FemuCtrl) (c : NvmeCmd) (action idx : Nat)
    (h : SingleZoneSend n c action idx) :
    zns_get_mgmt_zone_slba_idx n c = some (NVME_SUCCESS, cmd_slba c, idx) := by
  obtain ⟨hz, -, -, hs, hi, hlt, -, -⟩ := h
  simp [zns_get_mgmt_zone_slba_idx, hz, hs, hi, hlt]

theorem mgmt_send_open (n : FemuCtrl) (c : NvmeCmd) (idx : Nat)
    (h : SingleZoneSend n c NVME_ZONE_ACTION_OPEN idx) :
    zns_zone_mgmt_send n c =
      zns_mgmt_send_exit (some (zns_open_zone n idx (zoneAt n idx).zs)) := by
  have hd := mgmt_send_decode n c _ idx h
  obtain ⟨-, hall, hact, -, -, -, hlen, hsl⟩ := h
  simp [zns_zone_mgmt_send, zns_mgmt_send_switch, hd, hall, hact, hsl, hlen, NvmeStatus.nonzero, zns_do_zone_op,
    NVME_PROC_CURRENT_ZONE, zns_get_zone_state]

theorem mgmt_send_close (n : FemuCtrl) (c : NvmeCmd) (idx : Nat)
    (h : SingleZoneSend n c NVME_ZONE_ACTION_CLOSE idx) :
    zns_zone_mgmt_send n c =
      zns_mgmt_send_exit (some (zns_close_zone n idx (zoneAt n idx).zs)) := by
  have hd := mgmt_send_decode n c _ idx h
  obtain ⟨-, hall, hact, -, -, -, hlen, hsl⟩ := h
  simp [zns_zone_mgmt_send, zns_mgmt_send_switch, hd, hall, hact, hsl, hlen, NvmeStatus.nonzero, zns_do_zone_op,
    NVME_PROC_CURRENT_ZONE, zns_get_zone_state, NVME_ZONE_ACTION_OPEN, NVME_ZONE_ACTION_CLOSE]

theorem mgmt_send_finish (n : FemuCtrl) (c : NvmeCmd) (idx : Nat)
    (h : SingleZoneSend n c NVME_ZONE_ACTION_FINISH idx) :
    zns_zone_mgmt_send n c =
      zns_mgmt_send_exit (some (zns_finish_zone n idx (zoneAt n idx).zs)) := by
  have hd := mgmt_send_decode n c _ idx h
  obtain ⟨-, hall, hact, -, -, -, hlen, hsl⟩ := h
  simp [zns_zone_mgmt_send, zns_mgmt_send_switch, hd, hall, hact, hsl, hlen, NvmeStatus.nonzero, zns_do_zone_op,
    NVME_PROC_CURRENT_ZONE, zns_get_zone_state, NVME_ZONE_ACTION_OPEN, NVME_ZONE_ACTION_CLOSE,
    NVME_ZONE_ACTION_FINISH]

theorem mgmt_send_reset (n : FemuCtrl) (c : NvmeCmd) (idx : Nat)
    (h : SingleZoneSend n c NVME_ZONE_ACTION_RESET idx) :
    zns_zone_mgmt_send n c =
      some ((zns_reset_zone n idx (zoneAt n idx).zs).1, NVME_SUCCESS) := by
  have hd := mgmt_send_decode n c _ idx h
  obtain ⟨-, hall, hact, -, -, -, hlen, hsl⟩ := h
  simp [zns_zone_mgmt_send, zns_mgmt_send_switch, hd, hall, hact, hsl, hlen, NvmeStatus.nonzero, zns_do_zone_op,
    NVME_PROC_CURRENT_ZONE, zns_get_zone_state, NVME_ZONE_ACTION_OPEN, NVME_ZONE_ACTION_CLOSE,
    NVME_ZONE_ACTION_FINISH, NVME_ZONE_ACTION_RESET]

theorem mgmt_send_offline (n : FemuCtrl) (c : NvmeCmd) (idx : Nat)
    (h : SingleZoneSend n c NVME_ZONE_ACTION_OFFLINE idx) :
    zns_zone_mgmt_send n c =
      zns_mgmt_send_exit (some (zns_offline_zone n idx (zoneAt n idx).zs)) := by
  have hd := mgmt_send_decode n c _ idx h
  obtain ⟨-, hall, hact, -, -, -, hlen, hsl⟩ := h
  simp [zns_zone_mgmt_send, zns_mgmt_send_switch, hd, hall, hact, hsl, hlen, NvmeStatus.nonzero, zns_do_zone_op,
    NVME_PROC_CURRENT_ZONE, zns_get_zone_state, NVME_ZONE_ACTION_OPEN, NVME_ZONE_ACTION_CLOSE,
    NVME_ZONE_ACTION_FINISH, NVME_ZONE_ACTION_RESET, NVME_ZONE_ACTION_OFFLINE]

theorem mgmt_send_set_zd_ext (n : FemuCtrl) (c : NvmeCmd) (idx : Nat)
    (h : SingleZoneSend n c NVME_ZONE_ACTION_SET_ZD_EXT idx)
    (hext : 0 < n.zd_extension_size) :
    zns_zone_mgmt_send n c =
      if c.dma_status.nonzero then some (zns_store_zd_extension n idx c.dma_data, c.dma_status)
      else if (zns_set_zd_ext (zns_store_zd_extension n idx c.dma_data) idx).2 = NVME_SUCCESS then
        some (zns_set_zd_ext (zns_store_zd_extension n idx c.dma_data) idx)
      else zns_mgmt_send_exit (some (zns_set_zd_ext (zns_store_zd_extension n idx c.dma_data) idx)) := by
  have hd := mgmt_send_decode n c _ idx h
  obtain ⟨-, hall, hact, -, -, -, hlen, hsl⟩ := h
  have hne : n.zd_extension_size ≠ 0 := by omega
  simp [zns_zone_mgmt_send, zns_mgmt_send_switch, hd, hall, hact, hsl, hlen, NvmeStatus.nonzero, hne,
    NVME_ZONE_ACTION_OPEN, NVME_ZONE_ACTION_CLOSE,
    NVME_ZONE_ACTION_FINISH, NVME_ZONE_ACTION_RESET, NVME_ZONE_ACTION_OFFLINE,
    NVME_ZONE_ACTION_SET_ZD_EXT]

/-! ### Claims about the resource check and the single-zone actions -/

/-- For the arguments 0 and 1 the C sum is the sum: a counter of a signed
32-bit field plus 1 does not wrap. -/
theorem aor_sum_small (nr : Int) (d : Nat) (h : d ≤ 1) : aor_sum nr d = nr + (d : Int) := by
  unfold aor_sum
  split
  · rename_i hc
    have h31 : ((2 ^ 31 : Nat) : Int) = 2147483648 := by norm_num
    have h32 : ((U32 : Nat) : Int) = 4294967296 := by unfold U32; norm_num
    rw [h31] at hc
    rw [h32]
    exact Int.emod_eq_of_lt (by omega) (by omega)
  · rfl

/-- The resource check for the arguments 0 and 1, the only ones the callers
pass: the sums are computed without wrap-around. -/
theorem aor_check_small (n : FemuCtrl) (act opn : Nat) (ha : act ≤ 1) (ho : opn ≤ 1) :
    zns_aor_check n act opn =
      (if n.max_active_zones ≠ 0 ∧ n.nr_active_zones + act > n.max_active_zones then
        NVME_ZONE_TOO_MANY_ACTIVE.orDNR
      else if n.max_open_zones ≠ 0 ∧ n.nr_open_zones + opn > n.max_open_zones then
        NVME_ZONE_TOO_MANY_OPEN.orDNR
      else NVME_SUCCESS) := by
  unfold zns_aor_check
  rw [aor_sum_small _ _ ha, aor_sum_small _ _ ho]

/-- C1: a single-zone OPEN whose resource checks pass returns SUCCESS and
leaves `wp` and `w_ptr` of the zone alone; from EMPTY the zone becomes
EXPLICITLY_OPEN and both counters grow by one, from CLOSED it becomes
EXPLICITLY_OPEN and only `nr_open_zones` grows by one, from IMPLICITLY_OPEN it
becomes EXPLICITLY_OPEN with both counters unchanged, and from
EXPLICITLY_OPEN nothing changes. -/
theorem open_single_zone (n : FemuCtrl) (c : NvmeCmd) (idx : Nat)
    (h : SingleZoneSend n c NVME_ZONE_ACTION_OPEN idx) :
    ((zoneAt n idx).zs = .EMPTY → zns_aor_check n 1 0 = NVME_SUCCESS →
        zns_aor_check (zns_aor_inc_active n) 0 1 = NVME_SUCCESS →
      ∃ n1, zns_zone_mgmt_send n c = some (n1, NVME_SUCCESS) ∧
        (zoneAt n1 idx).zs = .EXPLICITLY_OPEN ∧
        n1.nr_active_zones = n.nr_active_zones + 1 ∧
        n1.nr_open_zones = n.nr_open_zones + 1 ∧
        (zoneAt n1 idx).wp = (zoneAt n idx).wp ∧
        (zoneAt n1 idx).w_ptr = (zoneAt n idx).w_ptr) ∧
    ((zoneAt n idx).zs = .CLOSED → zns_aor_check n 0 1 = NVME_SUCCESS →
      ∃ n1, zns_zone_mgmt_send n c = some (n1, NVME_SUCCESS) ∧
        (zoneAt n1 idx).zs = .EXPLICITLY_OPEN ∧
        n1.nr_active_zones = n.nr_active_zones ∧
        n1.nr_open_zones = n.nr_open_zones + 1 ∧
        (zoneAt n1 idx).wp = (zoneAt n idx).wp ∧
        (zoneAt n1 idx).w_ptr = (zoneAt n idx).w_ptr) ∧
    ((zoneAt n idx).zs = .IMPLICITLY_OPEN →
      ∃ n1, zns_zone_mgmt_send n c = some (n1, NVME_SUCCESS) ∧
        (zoneAt n1 idx).zs = .EXPLICITLY_OPEN ∧
        n1.nr_active_zones = n.nr_active_zones ∧
        n1.nr_open_zones = n.nr_open_zones ∧
        (zoneAt n1 idx).wp = (zoneAt n idx).wp ∧
        (zoneAt n1 idx).w_ptr = (zoneAt n idx).w_ptr) ∧
    ((zoneAt n idx).zs = .EXPLICITLY_OPEN →
      zns_zone_mgmt_send n c = some (n, NVME_SUCCESS)) := by
  have hsend := mgmt_send_open n c idx h
  have hlen : idx < n.zone_array.length := h.2.2.2.2.2.2.1
  refine ⟨?_, ?_, ?_, ?_⟩
  · intro hs h1 h2
    refine ⟨zns_assign_zone_state (zns_aor_inc_open (zns_aor_inc_active n)) idx .EXPLICITLY_OPEN,
      ?_, ?_⟩
    · rw [hsend, hs]
      simp [zns_open_zone, zns_open_zone_from_closed, h1, h2, zns_mgmt_send_exit,
        NvmeStatus.nonzero]
    · have hf := assign_frame (zns_aor_inc_open (zns_aor_inc_active n)) idx .EXPLICITLY_OPEN
      have hz := zoneAt_assign_same (zns_aor_inc_open (zns_aor_inc_active n)) idx
        .EXPLICITLY_OPEN hlen
      rw [hz, hf.1, hf.2.1]
      simp [zns_aor_inc_open, zns_aor_inc_active, zoneAt]
  · intro hs h1
    refine ⟨zns_assign_zone_state (zns_aor_inc_open n) idx .EXPLICITLY_OPEN, ?_, ?_⟩
    · rw [hsend, hs]
      simp [zns_open_zone, zns_open_zone_from_closed, h1, zns_mgmt_send_exit,
        NvmeStatus.nonzero]
    · have hf := assign_frame (zns_aor_inc_open n) idx .EXPLICITLY_OPEN
      have hz := zoneAt_assign_same (zns_aor_inc_open n) idx .EXPLICITLY_OPEN hlen
      rw [hz, hf.1, hf.2.1]
      simp [zns_aor_inc_open, zoneAt]
  · intro hs
    refine ⟨zns_assign_zone_state n idx .EXPLICITLY_OPEN, ?_, ?_⟩
    · rw [hsend, hs]
      simp [zns_open_zone, zns_mgmt_send_exit, NvmeStatus.nonzero]
    · have hf := assign_frame n idx .EXPLICITLY_OPEN
      have hz := zoneAt_assign_same n idx .EXPLICITLY_OPEN hlen
      rw [hz, hf.1, hf.2.1]
      simp
  · intro hs
    rw [hsend, hs]
    simp [zns_open_zone, zns_mgmt_send_exit, NvmeStatus.nonzero]

/-- Witness of C1: OPEN of the empty zone 0 of the scenario namespace. -/
theorem open_single_zone_witness :
    SingleZoneSend scenarioCtrl (sendCmd NVME_ZONE_ACTION_OPEN 0) NVME_ZONE_ACTION_OPEN 0 ∧
    ∃ n1, zns_zone_mgmt_send scenarioCtrl (sendCmd NVME_ZONE_ACTION_OPEN 0) = some (n1, NVME_SUCCESS) ∧
        (zoneAt n1 0).zs = .EXPLICITLY_OPEN ∧
        n1.nr_active_zones = scenarioCtrl.nr_active_zones + 1 ∧
        n1.nr_open_zones = scenarioCtrl.nr_open_zones + 1 ∧
        (zoneAt n1 0).wp = (zoneAt scenarioCtrl 0).wp ∧
        (zoneAt n1 0).w_ptr = (zoneAt scenarioCtrl 0).w_ptr :=
  ⟨by decide,
   (open_single_zone scenarioCtrl (sendCmd NVME_ZONE_ACTION_OPEN 0) 0 (by decide)).1
     (by decide) (by decide) (by decide)⟩

/-- C2: a single-zone CLOSE returns SUCCESS and leaves `wp` and `w_ptr` of the
zone alone; from IMPLICITLY_OPEN or EXPLICITLY_OPEN the zone becomes CLOSED,
`nr_open_zones` drops by one and `nr_active_zones` is unchanged; from CLOSED
nothing changes. -/
theorem close_single_zone (n : FemuCtrl) (c : NvmeCmd) (idx : Nat)
    (h : SingleZoneSend n c NVME_ZONE_ACTION_CLOSE idx) :
    ((zoneAt n idx).zs = .IMPLICITLY_OPEN ∨ (zoneAt n idx).zs = .EXPLICITLY_OPEN →
      ∃ n1, zns_zone_mgmt_send n c = some (n1, NVME_SUCCESS) ∧
        (zoneAt n1 idx).zs = .CLOSED ∧
        n1.nr_open_zones = n.nr_open_zones - 1 ∧
        n1.nr_active_zones = n.nr_active_zones ∧
        (zoneAt n1 idx).wp = (zoneAt n idx).wp ∧
        (zoneAt n1 idx).w_ptr = (zoneAt n idx).w_ptr) ∧
    ((zoneAt n idx).zs = .CLOSED →
      zns_zone_mgmt_send n c = some (n, NVME_SUCCESS)) := by
  have hsend := mgmt_send_close n c idx h
  have hlen : idx < n.zone_array.length := h.2.2.2.2.2.2.1
  refine ⟨?_, ?_⟩
  · intro hs
    refine ⟨zns_assign_zone_state (zns_aor_dec_open n) idx .CLOSED, ?_, ?_⟩
    · rw [hsend]
      rcases hs with hs | hs <;> rw [hs] <;>
        simp [zns_close_zone, zns_mgmt_send_exit, NvmeStatus.nonzero]
    · have hf := assign_frame (zns_aor_dec_open n) idx .CLOSED
      have hz := zoneAt_assign_same (zns_aor_dec_open n) idx .CLOSED hlen
      rw [hz, hf.1, hf.2.1]
      simp [zns_aor_dec_open, zoneAt]
  · intro hs
    rw [hsend, hs]
    simp [zns_close_zone, zns_mgmt_send_exit, NvmeStatus.nonzero]

/-- Witness of C2: CLOSE of zone 0 of the scenario namespace after it was
opened explicitly. -/
theorem close_single_zone_witness :
    ∃ n0, runCmds scenarioCtrl [sendCmd NVME_ZONE_ACTION_OPEN 0] = some n0 ∧
      SingleZoneSend n0 (sendCmd NVME_ZONE_ACTION_CLOSE 0) NVME_ZONE_ACTION_CLOSE 0 ∧
      ∃ n1, zns_zone_mgmt_send n0 (sendCmd NVME_ZONE_ACTION_CLOSE 0) = some (n1, NVME_SUCCESS) ∧
        (zoneAt n1 0).zs = .CLOSED ∧
        n1.nr_open_zones = n0.nr_open_zones - 1 ∧
        n1.nr_active_zones = n0.nr_active_zones ∧
        (zoneAt n1 0).wp = (zoneAt n0 0).wp ∧
        (zoneAt n1 0).w_ptr = (zoneAt n0 0).w_ptr :=
  ⟨(runCmds scenarioCtrl [sendCmd NVME_ZONE_ACTION_OPEN 0]).getD default, by decide, by decide,
   (close_single_zone _ (sendCmd NVME_ZONE_ACTION_CLOSE 0) 0 (by decide)).1 (by decide)⟩

/-- The zone a FINISH leaves behind, whatever the counters were before. -/
theorem finish_from_empty_zone (m : FemuCtrl) (idx : Nat) (hlen : idx < m.zone_array.length) :
    (zoneAt (zns_finish_zone_from_empty m idx).1 idx).zs = .FULL ∧
    (zoneAt (zns_finish_zone_from_empty m idx).1 idx).wp = zns_zone_wr_boundary (zoneAt m idx) ∧
    (zoneAt (zns_finish_zone_from_empty m idx).1 idx).w_ptr = zns_zone_wr_boundary (zoneAt m idx) ∧
    (zns_finish_zone_from_empty m idx).1.nr_open_zones = m.nr_open_zones ∧
    (zns_finish_zone_from_empty m idx).1.nr_active_zones = m.nr_active_zones ∧
    (zns_finish_zone_from_empty m idx).2 = NVME_SUCCESS := by
  unfold zns_finish_zone_from_empty
  have hlen2 : idx < (setZone m idx
      { zoneAt m idx with w_ptr := zns_zone_wr_boundary (zoneAt m idx),
                          wp := zns_zone_wr_boundary (zoneAt m idx) }).zone_array.length := by
    rw [length_setZone]; exact hlen
  have hz := zoneAt_assign_same _ idx .FULL hlen2
  have hf := assign_frame (setZone m idx
      { zoneAt m idx with w_ptr := zns_zone_wr_boundary (zoneAt m idx),
                          wp := zns_zone_wr_boundary (zoneAt m idx) }) idx .FULL
  simp only [] at hz ⊢
  rw [hz, hf.1, hf.2.1, zoneAt_setZone_same _ _ _ hlen]
  simp [setZone]

/-- C3: a single-zone FINISH of an EMPTY, CLOSED, IMPLICITLY_OPEN or
EXPLICITLY_OPEN zone returns SUCCESS and leaves the zone FULL with
`wp = w_ptr =` the write boundary `zslba + zcap`; the counters are unchanged
from EMPTY, only `nr_active_zones` drops by one from CLOSED, both drop by one
from either open state.  FINISH of a FULL zone returns SUCCESS and changes
nothing. -/
theorem finish_single_zone (n : FemuCtrl) (c : NvmeCmd) (idx : Nat)
    (h : SingleZoneSend n c NVME_ZONE_ACTION_FINISH idx) :
    (∀ st, (zoneAt n idx).zs = st →
        st = .EMPTY ∨ st = .CLOSED ∨ st = .IMPLICITLY_OPEN ∨ st = .EXPLICITLY_OPEN →
      ∃ n1, zns_zone_mgmt_send n c = some (n1, NVME_SUCCESS) ∧
        (zoneAt n1 idx).zs = .FULL ∧
        (zoneAt n1 idx).wp = zns_zone_wr_boundary (zoneAt n idx) ∧
        (zoneAt n1 idx).w_ptr = zns_zone_wr_boundary (zoneAt n idx) ∧
        ((zoneAt n idx).zslba + (zoneAt n idx).zcap < U64 →
          (zoneAt n1 idx).wp = (zoneAt n idx).zslba + (zoneAt n idx).zcap ∧
          (zoneAt n1 idx).w_ptr = (zoneAt n idx).zslba + (zoneAt n idx).zcap) ∧
        n1.nr_active_zones = n.nr_active_zones - (if st = .EMPTY then 0 else 1) ∧
        n1.nr_open_zones = n.nr_open_zones -
          (if st = .IMPLICITLY_OPEN ∨ st = .EXPLICITLY_OPEN then 1 else 0)) ∧
    ((zoneAt n idx).zs = .FULL →
      zns_zone_mgmt_send n c = some (n, NVME_SUCCESS)) := by
  have hsend := mgmt_send_finish n c idx h
  have hlen : idx < n.zone_array.length := h.2.2.2.2.2.2.1
  have hbnd : (zoneAt n idx).zslba + (zoneAt n idx).zcap < U64 →
      zns_zone_wr_boundary (zoneAt n idx) = (zoneAt n idx).zslba + (zoneAt n idx).zcap := by
    intro hb
    exact Nat.mod_eq_of_lt hb
  refine ⟨?_, ?_⟩
  · intro st hst hcase
    rcases hcase with hc | hc | hc | hc <;> subst hc
    · obtain ⟨f1, f2, f3, f4, f5, f6⟩ := finish_from_empty_zone n idx hlen
      refine ⟨(zns_finish_zone_from_empty n idx).1, ?_, f1, f2, f3, ?_, ?_, ?_⟩
      · rw [hsend, hst]
        simp [zns_finish_zone, zns_mgmt_send_exit, NvmeStatus.nonzero, f6, Prod.ext_iff]
      · intro hb
        rw [f2, f3, hbnd hb]
        exact ⟨rfl, rfl⟩
      · rw [f5]; simp
      · rw [f4]; simp
    · obtain ⟨f1, f2, f3, f4, f5, f6⟩ := finish_from_empty_zone (zns_aor_dec_active n) idx hlen
      refine ⟨(zns_finish_zone_from_empty (zns_aor_dec_active n) idx).1, ?_, f1, f2, f3, ?_, ?_, ?_⟩
      · rw [hsend, hst]
        simp [zns_finish_zone, zns_mgmt_send_exit, NvmeStatus.nonzero, f6, Prod.ext_iff]
      · intro hb
        rw [f2, f3]
        exact ⟨hbnd hb, hbnd hb⟩
      · rw [f5]; simp [zns_aor_dec_active]
      · rw [f4]; simp [zns_aor_dec_active]
    · obtain ⟨f1, f2, f3, f4, f5, f6⟩ :=
        finish_from_empty_zone (zns_aor_dec_active (zns_aor_dec_open n)) idx hlen
      refine ⟨(zns_finish_zone_from_empty (zns_aor_dec_active (zns_aor_dec_open n)) idx).1,
        ?_, f1, f2, f3, ?_, ?_, ?_⟩
      · rw [hsend, hst]
        simp [zns_finish_zone, zns_mgmt_send_exit, NvmeStatus.nonzero, f6, Prod.ext_iff]
      · intro hb
        rw [f2, f3]
        exact ⟨hbnd hb, hbnd hb⟩
      · rw [f5]; simp [zns_aor_dec_active, zns_aor_dec_open]
      · rw [f4]; simp [zns_aor_dec_active, zns_aor_dec_open]
    · obtain ⟨f1, f2, f3, f4, f5, f6⟩ :=
        finish_from_empty_zone (zns_aor_dec_active (zns_aor_dec_open n)) idx hlen
      refine ⟨(zns_finish_zone_from_empty (zns_aor_dec_active (zns_aor_dec_open n)) idx).1,
        ?_, f1, f2, f3, ?_, ?_, ?_⟩
      · rw [hsend, hst]
        simp [zns_finish_zone, zns_mgmt_send_exit, NvmeStatus.nonzero, f6, Prod.ext_iff]
      · intro hb
        rw [f2, f3]
        exact ⟨hbnd hb, hbnd hb⟩
      · rw [f5]; simp [zns_aor_dec_active, zns_aor_dec_open]
      · rw [f4]; simp [zns_aor_dec_active, zns_aor_dec_open]
  · intro hs
    rw [hsend, hs]
    simp [zns_finish_zone, zns_mgmt_send_exit, NvmeStatus.nonzero]

/-- Witness of C3: FINISH of the empty zone 1 of the scenario namespace. -/
theorem finish_single_zone_witness :
    SingleZoneSend scenarioCtrl (sendCmd NVME_ZONE_ACTION_FINISH 8) NVME_ZONE_ACTION_FINISH 1 ∧
    ∃ n1, zns_zone_mgmt_send scenarioCtrl (sendCmd NVME_ZONE_ACTION_FINISH 8) =
          some (n1, NVME_SUCCESS) ∧
        (zoneAt n1 1).zs = .FULL ∧
        (zoneAt n1 1).wp = zns_zone_wr_boundary (zoneAt scenarioCtrl 1) ∧
        (zoneAt n1 1).w_ptr = zns_zone_wr_boundary (zoneAt scenarioCtrl 1) ∧
        ((zoneAt scenarioCtrl 1).zslba + (zoneAt scenarioCtrl 1).zcap < U64 →
          (zoneAt n1 1).wp = (zoneAt scenarioCtrl 1).zslba + (zoneAt scenarioCtrl 1).zcap ∧
          (zoneAt n1 1).w_ptr = (zoneAt scenarioCtrl 1).zslba + (zoneAt scenarioCtrl 1).zcap) ∧
        n1.nr_active_zones = scenarioCtrl.nr_active_zones -
          (if NvmeZoneState.EMPTY = .EMPTY then 0 else 1) ∧
        n1.nr_open_zones = scenarioCtrl.nr_open_zones -
          (if NvmeZoneState.EMPTY = .IMPLICITLY_OPEN ∨ NvmeZoneState.EMPTY = .EXPLICITLY_OPEN
            then 1 else 0) :=
  ⟨by decide,
   (finish_single_zone scenarioCtrl (sendCmd NVME_ZONE_ACTION_FINISH 8) 1 (by decide)).1
     .EMPTY (by decide) (by decide)⟩

/-! ### Frame facts: what commands leave alone -/

theorem SameConfig.refl (a : FemuCtrl) : SameConfig a a := by
  simp [SameConfig]

theorem SameConfig.trans {a b c : FemuCtrl} (h1 : SameConfig a b) (h2 : SameConfig b c) :
    SameConfig a c := by
  unfold SameConfig at *
  obtain ⟨a1, a2, a3, a4, a5, a6, a7, a8, a9, a10, a11, a12, a13, a14, a15⟩ := h1
  obtain ⟨b1, b2, b3, b4, b5, b6, b7, b8, b9, b10, b11, b12, b13, b14, b15⟩ := h2
  exact ⟨a1.trans b1, a2.trans b2, a3.trans b3, a4.trans b4, a5.trans b5, a6.trans b6,
    a7.trans b7, a8.trans b8, a9.trans b9, a10.trans b10, a11.trans b11, a12.trans b12,
    a13.trans b13, a14.trans b14, a15.trans b15⟩

theorem SameConfig.symm {a b : FemuCtrl} (h : SameConfig a b) : SameConfig b a := by
  unfold SameConfig at *
  obtain ⟨a1, a2, a3, a4, a5, a6, a7, a8, a9, a10, a11, a12, a13, a14, a15⟩ := h
  exact ⟨a1.symm, a2.symm, a3.symm, a4.symm, a5.symm, a6.symm, a7.symm, a8.symm, a9.symm,
    a10.symm, a11.symm, a12.symm, a13.symm, a14.symm, a15.symm⟩

theorem sameConfig_setZone (n : FemuCtrl) (idx : Nat) (z : NvmeZone) :
    SameConfig (setZone n idx z) n := by
  simp [SameConfig, setZone]

theorem sameConfig_inc_open (n : FemuCtrl) : SameConfig (zns_aor_inc_open n) n := by
  simp [SameConfig, zns_aor_inc_open]

theorem sameConfig_dec_open (n : FemuCtrl) : SameConfig (zns_aor_dec_open n) n := by
  simp [SameConfig, zns_aor_dec_open]

theorem sameConfig_inc_active (n : FemuCtrl) : SameConfig (zns_aor_inc_active n) n := by
  simp [SameConfig, zns_aor_inc_active]

theorem sameConfig_dec_active (n : FemuCtrl) : SameConfig (zns_aor_dec_active n) n := by
  simp [SameConfig, zns_aor_dec_active]

theorem sameConfig_assign (n : FemuCtrl) (idx : Nat) (st : NvmeZoneState) :
    SameConfig (zns_assign_zone_state n idx st) n := by
  unfold zns_assign_zone_state zns_unlink_zone
  cases st <;> simp only [] <;> split <;> (try split) <;> simp [SameConfig, setZone]

/-! ### Reports -/

/-- The counting loop of a report returns when the zone records tile the LBA
space: it never reads past the zone array. -/
theorem report_count_total (n : FemuCtrl) (zrasf : Nat) (prt : Bool) (max_zones : Nat)
    (h2 : n.nsze ≤ n.zone_array.length * n.zone_size)
    (h3 : (n.zone_array.length + 1) * n.zone_size ≤ U64) :
    ∀ fuel slba idx nr, idx ≤ n.zone_array.length → n.zone_array.length + 1 ≤ fuel + idx →
      idx * n.zone_size ≤ slba →
      ∃ k, zns_report_count n zrasf prt max_zones n.nsze fuel slba idx nr = some k := by
  intro fuel
  induction fuel with
  | zero =>
    intro slba idx nr h4 h5 _
    omega
  | succ fuel ih =>
    intro slba idx nr h4 h5 h6
    unfold zns_report_count
    by_cases hs : slba < n.nsze
    · simp only [hs, if_true]
      by_cases hp : (prt && decide (nr ≥ max_zones)) = true
      · simp [hp]
      · have hidx : idx < n.zone_array.length := by
          have : idx * n.zone_size < n.zone_array.length * n.zone_size := by omega
          exact Nat.lt_of_mul_lt_mul_right this
        have hnl : ¬ n.zone_array.length ≤ idx := by omega
        simp only [hp, hnl, if_false]
        have hexp : (n.zone_array.length + 1) * n.zone_size
            = n.zone_array.length * n.zone_size + n.zone_size := by ring
        have hexp2 : (idx + 1) * n.zone_size = idx * n.zone_size + n.zone_size := by ring
        have hlt : slba + n.zone_size < U64 := by omega
        rw [Nat.mod_eq_of_lt hlt]
        apply ih
        · omega
        · omega
        · omega
    · simp [hs]

/-- A report request that starts at an EMPTY zone is answered with a report
whose first descriptor is that of the zone. -/
theorem recv_report_head (n : FemuCtrl) (c2 : NvmeCmd) (idx : Nat)
    (hreq : ReportRequest n c2 idx) (hgeo : ReportGeometry n (cmd_slba c2) idx)
    (hlen : idx < n.zone_array.length) (hst : (zoneAt n idx).zs = .EMPTY) :
    ∃ nr ext rest,
      zns_zone_mgmt_recv n c2 = some (n, ⟨c2.dma_status, none,
        some ⟨nr, ⟨zns_report_descr (zoneAt n idx), ext⟩ :: rest⟩⟩) := by
  obtain ⟨hz, hs, hi, hlt, hzra, hsf, hsize, hmdts⟩ := hreq
  obtain ⟨g1, g2, g3⟩ := hgeo
  have hdec : zns_get_mgmt_zone_slba_idx n c2 = some (NVME_SUCCESS, cmd_slba c2, idx) := by
    simp [zns_get_mgmt_zone_slba_idx, hz, hs, hi, hlt]
  have hmatch : zns_zone_matches_filter (((c2.cdw13 % U32) >>> 8) &&& 0xff) (zoneAt n idx) = true := by
    rcases hsf with hsf | hsf <;> rw [hsf] <;>
      simp [zns_zone_matches_filter, zns_get_zone_state, hst, NVME_ZONE_REPORT_ALL,
        NVME_ZONE_REPORT_EMPTY]
  have hsf2 : ¬ (((c2.cdw13 % U32) >>> 8) &&& 0xff > NVME_ZONE_REPORT_OFFLINE) := by
    rcases hsf with hsf | hsf <;> rw [hsf] <;>
      simp [NVME_ZONE_REPORT_ALL, NVME_ZONE_REPORT_EMPTY, NVME_ZONE_REPORT_OFFLINE]
  have hds : ¬ ((((c2.cdw12 % U32 + 1) % U32) <<< 2) % U32 < sizeof_NvmeZoneReportHeader) := by
    omega
  obtain ⟨k, hk⟩ : ∃ k, n.num_zones = k + 1 := ⟨n.num_zones - 1, by omega⟩
  have hemit : ∀ (ext : Bool) (mz : Nat), 0 < mz →
      ∃ e rest, zns_report_emit n (((c2.cdw13 % U32) >>> 8) &&& 0xff) ext n.num_zones idx mz
        = ⟨zns_report_descr (zoneAt n idx), e⟩ :: rest := by
    intro ext mz hmz
    rw [hk]
    unfold zns_report_emit
    have hc : idx < n.num_zones ∧ mz > 0 := ⟨hlt, hmz⟩
    simp only [hc, and_self, if_true, hmatch]
    exact ⟨_, _, rfl⟩
  have hnz : NVME_SUCCESS.nonzero = false := by decide
  have hmnz : (nvme_check_mdts n ((((c2.cdw12 % U32 + 1) % U32) <<< 2) % U32)).nonzero = false := by
    rw [hmdts]; exact hnz
  have hcnt : ∀ prt mz, ∃ nr, zns_report_count n (((c2.cdw13 % U32) >>> 8) &&& 0xff) prt mz n.nsze
      (n.zone_array.length + 1) (cmd_slba c2) idx 0 = some nr := by
    intro prt mz
    exact report_count_total n (((c2.cdw13 % U32) >>> 8) &&& 0xff) prt mz g2 g3
      (n.zone_array.length + 1) (cmd_slba c2) idx 0 (by omega) (by omega) g1
  have h1 : ¬ ((c2.cdw13 % U32) &&& 0xff ≠ NVME_ZONE_REPORT ∧
      (c2.cdw13 % U32) &&& 0xff ≠ NVME_ZONE_REPORT_EXTENDED) := by
    rcases hzra with hzra | ⟨hzra, -⟩
    · intro hc; exact hc.1 hzra
    · intro hc; exact hc.2 hzra
  have h2 : ¬ ((c2.cdw13 % U32) &&& 0xff = NVME_ZONE_REPORT_EXTENDED ∧ n.zd_extension_size = 0) := by
    rcases hzra with hzra | ⟨-, hext⟩
    · intro hc
      rw [hzra] at hc
      exact absurd hc.1 (by decide)
    · intro hc; exact hext hc.2
  have hmzpos : 0 < ((((c2.cdw12 % U32 + 1) % U32) <<< 2) % U32 - sizeof_NvmeZoneReportHeader) /
      (sizeof_NvmeZoneDescr +
        if (c2.cdw13 % U32) &&& 0xff = NVME_ZONE_REPORT_EXTENDED then n.zd_extension_size else 0) := by
    apply Nat.div_pos
    · simp only [sizeof_NvmeZoneDescr, sizeof_NvmeZoneReportHeader] at hsize ⊢
      split <;> omega
    · simp [sizeof_NvmeZoneDescr]
  unfold zns_zone_mgmt_recv
  simp only [hdec, hnz, zns_ns_nlbas, h1, h2, hsf2, hds, hmnz, if_false, Bool.false_eq_true]
  generalize ((((c2.cdw12 % U32 + 1) % U32) <<< 2) % U32 - sizeof_NvmeZoneReportHeader) /
      (sizeof_NvmeZoneDescr +
        if (c2.cdw13 % U32) &&& 0xff = NVME_ZONE_REPORT_EXTENDED then n.zd_extension_size else 0)
      = mz at hmzpos ⊢
  obtain ⟨e, rest, he⟩ :=
    hemit (decide ((c2.cdw13 % U32) &&& 0xff = NVME_ZONE_REPORT_EXTENDED)) mz hmzpos
  obtain ⟨nr, hnr⟩ := hcnt ((c2.cdw13 % U32) >>> 16 &&& 0x01 != 0) mz
  refine ⟨nr, e, rest, ?_⟩
  rw [hnr, he]

theorem reportRequest_of_sameConfig {a b : FemuCtrl} (h : SameConfig a b) (c : NvmeCmd)
    (idx : Nat) (hr : ReportRequest b c idx) : ReportRequest a c idx := by
  unfold SameConfig at h
  obtain ⟨a1, a2, a3, a4, a5, a6, a7, a8, a9, a10, a11, a12, a13, a14, a15⟩ := h
  unfold ReportRequest at *
  simp only [zns_zone_idx, nvme_check_mdts, a1, a2, a3, a5, a8, a10, a12, a14] at hr ⊢
  exact hr

theorem reportGeometry_of_sameConfig {a b : FemuCtrl} (h : SameConfig a b) (slba idx : Nat)
    (hr : ReportGeometry b slba idx) : ReportGeometry a slba idx := by
  unfold SameConfig at h
  obtain ⟨a1, a2, a3, a4, a5, a6, a7, a8, a9, a10, a11, a12, a13, a14, a15⟩ := h
  unfold ReportGeometry at *
  simp only [a3, a14, a15] at hr ⊢
  exact hr

/-- A report that starts at an EMPTY zone whose `wp` is the zone start shows
the zone EMPTY with `wp = zslba`. -/
theorem report_shows_empty (n : FemuCtrl) (c2 : NvmeCmd) (idx : Nat)
    (hreq : ReportRequest n c2 idx) (hgeo : ReportGeometry n (cmd_slba c2) idx)
    (hlen : idx < n.zone_array.length) (hst : (zoneAt n idx).zs = .EMPTY)
    (hwp : (zoneAt n idx).wp = (zoneAt n idx).zslba) : ReportShowsEmpty n c2 idx := by
  obtain ⟨nr, ext, rest, hrecv⟩ := recv_report_head n c2 idx hreq hgeo hlen hst
  refine ⟨nr, ext, rest, zns_report_descr (zoneAt n idx), hrecv, ?_, ?_, ?_⟩
  · simp [zns_report_descr, hst]
  · simp [zns_report_descr]
  · simp [zns_report_descr, zns_wp_is_valid, zns_get_zone_state, hst, hwp]

/-- The zone and the counters the tail of the reset callback leaves behind. -/
theorem reset_from_full_zone (m : FemuCtrl) (idx : Nat) (hlen : idx < m.zone_array.length) :
    (zoneAt (zns_aio_zone_reset_from_full m idx) idx).zs = .EMPTY ∧
    (zoneAt (zns_aio_zone_reset_from_full m idx) idx).wp = (zoneAt m idx).zslba ∧
    (zoneAt (zns_aio_zone_reset_from_full m idx) idx).w_ptr = (zoneAt m idx).zslba ∧
    (zoneAt (zns_aio_zone_reset_from_full m idx) idx).za = 0 ∧
    (zoneAt (zns_aio_zone_reset_from_full m idx) idx).zslba = (zoneAt m idx).zslba ∧
    (zns_aio_zone_reset_from_full m idx).nr_open_zones = m.nr_open_zones ∧
    (zns_aio_zone_reset_from_full m idx).nr_active_zones = m.nr_active_zones ∧
    SameConfig (zns_aio_zone_reset_from_full m idx) m := by
  unfold zns_aio_zone_reset_from_full
  have hlen2 : idx < (setZone m idx
      { zoneAt m idx with w_ptr := (zoneAt m idx).zslba,
                          wp := (zoneAt m idx).zslba }).zone_array.length := by
    rw [length_setZone]; exact hlen
  have hz := zoneAt_assign_same _ idx .EMPTY hlen2
  have hf := assign_frame (setZone m idx
      { zoneAt m idx with w_ptr := (zoneAt m idx).zslba,
                          wp := (zoneAt m idx).zslba }) idx .EMPTY
  have hc := (sameConfig_assign (setZone m idx
      { zoneAt m idx with w_ptr := (zoneAt m idx).zslba,
                          wp := (zoneAt m idx).zslba }) idx .EMPTY).trans
      (sameConfig_setZone m idx _)
  simp only [] at hz ⊢
  rw [hz, hf.1, hf.2.1, zoneAt_setZone_same _ _ _ hlen]
  refine ⟨rfl, rfl, rfl, ?_, rfl, ?_, ?_, hc⟩ <;> simp [setZone]

/-- What a single-zone RESET does: from CLOSED, IMPLICITLY_OPEN,
EXPLICITLY_OPEN or FULL it returns SUCCESS and leaves the zone EMPTY with
`wp = w_ptr = zslba` and `za = 0`; `nr_active_zones` drops by one unless the
zone was FULL and `nr_open_zones` drops by one if it was open; a report taken
right afterwards shows the zone EMPTY with `wp = zslba`.  RESET of an EMPTY
zone returns SUCCESS and changes nothing, so the report shows `wp = zslba`
only when `wp` was `zslba` before. -/
theorem reset_single_zone (n : FemuCtrl) (c : NvmeCmd) (idx : Nat)
    (h : SingleZoneSend n c NVME_ZONE_ACTION_RESET idx)
    (c2 : NvmeCmd) (hreq : ReportRequest n c2 idx) (hgeo : ReportGeometry n (cmd_slba c2) idx) :
    (∀ st, (zoneAt n idx).zs = st →
        st = .CLOSED ∨ st = .IMPLICITLY_OPEN ∨ st = .EXPLICITLY_OPEN ∨ st = .FULL →
      ∃ n1, zns_zone_mgmt_send n c = some (n1, NVME_SUCCESS) ∧
        (zoneAt n1 idx).zs = .EMPTY ∧
        (zoneAt n1 idx).wp = (zoneAt n idx).zslba ∧
        (zoneAt n1 idx).w_ptr = (zoneAt n idx).zslba ∧
        (zoneAt n1 idx).za = 0 ∧
        (zoneAt n1 idx).zslba = (zoneAt n idx).zslba ∧
        n1.nr_active_zones = n.nr_active_zones - (if st = .FULL then 0 else 1) ∧
        n1.nr_open_zones = n.nr_open_zones -
          (if st = .IMPLICITLY_OPEN ∨ st = .EXPLICITLY_OPEN then 1 else 0) ∧
        ReportShowsEmpty n1 c2 idx) ∧
    ((zoneAt n idx).zs = .EMPTY →
      zns_zone_mgmt_send n c = some (n, NVME_SUCCESS) ∧
      ((zoneAt n idx).wp = (zoneAt n idx).zslba → ReportShowsEmpty n c2 idx)) := by
  have hsend := mgmt_send_reset n c idx h
  have hlen : idx < n.zone_array.length := h.2.2.2.2.2.2.1
  have main : ∀ m : FemuCtrl, SameConfig m n → zoneAt m idx = zoneAt n idx →
      (zoneAt (zns_aio_zone_reset_from_full m idx) idx).zs = .EMPTY ∧
      (zoneAt (zns_aio_zone_reset_from_full m idx) idx).wp = (zoneAt n idx).zslba ∧
      (zoneAt (zns_aio_zone_reset_from_full m idx) idx).w_ptr = (zoneAt n idx).zslba ∧
      (zoneAt (zns_aio_zone_reset_from_full m idx) idx).za = 0 ∧
      (zoneAt (zns_aio_zone_reset_from_full m idx) idx).zslba = (zoneAt n idx).zslba ∧
      (zns_aio_zone_reset_from_full m idx).nr_active_zones = m.nr_active_zones ∧
      (zns_aio_zone_reset_from_full m idx).nr_open_zones = m.nr_open_zones ∧
      ReportShowsEmpty (zns_aio_zone_reset_from_full m idx) c2 idx := by
    intro m hm hzm
    have hlenm : idx < m.zone_array.length := by
      have := hm.2.2.2.2.2.2.2.2.2.2.2.2.2.2
      omega
    obtain ⟨r1, r2, r3, r4, r5, r6, r7, r8⟩ := reset_from_full_zone m idx hlenm
    rw [hzm] at r2 r3 r5
    refine ⟨r1, r2, r3, r4, r5, r7, r6, ?_⟩
    have hcfg : SameConfig (zns_aio_zone_reset_from_full m idx) n := r8.trans hm
    apply report_shows_empty _ c2 idx (reportRequest_of_sameConfig hcfg c2 idx hreq)
      (reportGeometry_of_sameConfig hcfg _ idx hgeo)
    · have := hcfg.2.2.2.2.2.2.2.2.2.2.2.2.2.2
      omega
    · exact r1
    · rw [r2, r5]
  refine ⟨?_, ?_⟩
  · intro st hst hcase
    rcases hcase with hc | hc | hc | hc <;> subst hc
    · obtain ⟨m1, m2, m3, m4, m5, m6, m7, m8⟩ :=
        main (zns_aor_dec_active n) (sameConfig_dec_active n) rfl
      refine ⟨zns_aio_zone_reset_from_full (zns_aor_dec_active n) idx, ?_, m1, m2, m3, m4, m5,
        ?_, ?_, m8⟩
      · rw [hsend, hst]
        simp [zns_reset_zone, zns_aio_zone_reset_cb, zns_get_zone_state, hst]
      · rw [m6]; simp [zns_aor_dec_active]
      · rw [m7]; simp [zns_aor_dec_active]
    · obtain ⟨m1, m2, m3, m4, m5, m6, m7, m8⟩ :=
        main (zns_aor_dec_active (zns_aor_dec_open n))
          ((sameConfig_dec_active _).trans (sameConfig_dec_open n)) rfl
      refine ⟨zns_aio_zone_reset_from_full (zns_aor_dec_active (zns_aor_dec_open n)) idx, ?_,
        m1, m2, m3, m4, m5, ?_, ?_, m8⟩
      · rw [hsend, hst]
        simp [zns_reset_zone, zns_aio_zone_reset_cb, zns_get_zone_state, hst]
      · rw [m6]; simp [zns_aor_dec_active, zns_aor_dec_open]
      · rw [m7]; simp [zns_aor_dec_active, zns_aor_dec_open]
    · obtain ⟨m1, m2, m3, m4, m5, m6, m7, m8⟩ :=
        main (zns_aor_dec_active (zns_aor_dec_open n))
          ((sameConfig_dec_active _).trans (sameConfig_dec_open n)) rfl
      refine ⟨zns_aio_zone_reset_from_full (zns_aor_dec_active (zns_aor_dec_open n)) idx, ?_,
        m1, m2, m3, m4, m5, ?_, ?_, m8⟩
      · rw [hsend, hst]
        simp [zns_reset_zone, zns_aio_zone_reset_cb, zns_get_zone_state, hst]
      · rw [m6]; simp [zns_aor_dec_active, zns_aor_dec_open]
      · rw [m7]; simp [zns_aor_dec_active, zns_aor_dec_open]
    · obtain ⟨m1, m2, m3, m4, m5, m6, m7, m8⟩ := main n (SameConfig.refl n) rfl
      refine ⟨zns_aio_zone_reset_from_full n idx, ?_, m1, m2, m3, m4, m5, ?_, ?_, m8⟩
      · rw [hsend, hst]
        simp [zns_reset_zone, zns_aio_zone_reset_cb, zns_get_zone_state, hst]
      · rw [m6]; simp
      · rw [m7]; simp
  · intro hs
    refine ⟨?_, ?_⟩
    · rw [hsend, hs]
      simp [zns_reset_zone]
    · intro hwp
      exact report_shows_empty n c2 idx hreq hgeo hlen hs hwp

/-- An instance of `reset_single_zone`: RESET of zone 0 of the scenario
namespace after it was opened explicitly, followed by a report of three
entries from zone 0. -/
theorem reset_single_zone_witness :
    ∃ n0, runCmds scenarioCtrl [sendCmd NVME_ZONE_ACTION_OPEN 0] = some n0 ∧
      SingleZoneSend n0 (sendCmd NVME_ZONE_ACTION_RESET 0) NVME_ZONE_ACTION_RESET 0 ∧
      ReportRequest n0 (recvCmd 0 63 0) 0 ∧
      ReportGeometry n0 (cmd_slba (recvCmd 0 63 0)) 0 ∧
      ∃ n1, zns_zone_mgmt_send n0 (sendCmd NVME_ZONE_ACTION_RESET 0) = some (n1, NVME_SUCCESS) ∧
        (zoneAt n1 0).zs = .EMPTY ∧
        (zoneAt n1 0).wp = (zoneAt n0 0).zslba ∧
        (zoneAt n1 0).w_ptr = (zoneAt n0 0).zslba ∧
        (zoneAt n1 0).za = 0 ∧
        (zoneAt n1 0).zslba = (zoneAt n0 0).zslba ∧
        n1.nr_active_zones = n0.nr_active_zones -
          (if NvmeZoneState.EXPLICITLY_OPEN = .FULL then 0 else 1) ∧
        n1.nr_open_zones = n0.nr_open_zones -
          (if NvmeZoneState.EXPLICITLY_OPEN = .IMPLICITLY_OPEN ∨
              NvmeZoneState.EXPLICITLY_OPEN = .EXPLICITLY_OPEN then 1 else 0) ∧
        ReportShowsEmpty n1 (recvCmd 0 63 0) 0 :=
  ⟨(runCmds scenarioCtrl [sendCmd NVME_ZONE_ACTION_OPEN 0]).getD default, by decide, by decide,
   by decide, by decide,
   (reset_single_zone _ (sendCmd NVME_ZONE_ACTION_RESET 0) 0 (by decide) (recvCmd 0 63 0)
      (by decide) (by decide)).1 .EXPLICITLY_OPEN (by decide) (by decide)⟩

/-! ### Reachability of concrete states -/

theorem reachable_runCmds (cs : List NvmeCmd) :
    ∀ n n1 : FemuCtrl, Reachable n → runCmds n cs = some n1 → Reachable n1 := by
  induction cs with
  | nil =>
    intro n n1 hr h
    simp only [runCmds, Option.some.injEq] at h
    exact h ▸ hr
  | cons c cs ih =>
    intro n n1 hr h
    unfold runCmds at h
    cases hc : zns_io_cmd n c with
    | none => rw [hc] at h; exact Option.noConfusion h
    | some p =>
      rw [hc] at h
      exact ih p.1 n1 (Reachable.step n p.1 c p.2 hr hc) h

theorem reachable_femuCtrl : Reachable femuCtrl :=
  Reachable.init (zns_init_zone_cap femuConfig) femuCtrl (by decide) (by decide) (by decide)
    (by decide)

/-- C4 fails on the code: in the namespace `zns_init` builds, a write of a
whole zone whose data pointer does not map leaves zone 0 EMPTY with `w_ptr`
at the write boundary, and an append of 3 blocks is then accepted (its
boundary check uses the zone start) and leaves the zone EMPTY with `wp = 3`.
RESET of this EMPTY zone returns SUCCESS and changes nothing, and the report
taken right afterwards shows zone 0 with state EMPTY and `wp = 3`, not
`zslba = 0`. -/
theorem reset_empty_zone_stale_wp :
    ∃ n, Reachable n ∧
      runCmds femuCtrl [unmappedWrite 0 32768, rwCmd NVME_CMD_ZONE_APPEND 0 3] = some n ∧
      SingleZoneSend n (sendCmd NVME_ZONE_ACTION_RESET 0) NVME_ZONE_ACTION_RESET 0 ∧
      (zoneAt n 0).zs = .EMPTY ∧ (zoneAt n 0).zslba = 0 ∧
      zns_zone_mgmt_send n (sendCmd NVME_ZONE_ACTION_RESET 0) = some (n, NVME_SUCCESS) ∧
      ReportRequest n (recvCmd 0 63 0) 0 ∧
      (reportDescrs (zns_zone_mgmt_recv n (recvCmd 0 63 0))).map
          (fun d => (d.zs, d.zslba, d.wp)) =
        [(NvmeZoneState.EMPTY.code <<< 4, 0, 3),
         (NvmeZoneState.EMPTY.code <<< 4, 32768, 32768),
         (NvmeZoneState.EMPTY.code <<< 4, 65536, 65536)] :=
  ⟨(runCmds femuCtrl [unmappedWrite 0 32768, rwCmd NVME_CMD_ZONE_APPEND 0 3]).getD default,
   reachable_runCmds [unmappedWrite 0 32768, rwCmd NVME_CMD_ZONE_APPEND 0 3] femuCtrl _
     reachable_femuCtrl (by decide),
   by decide, by decide, by decide, by decide, by decide, by decide, by decide⟩

/-! ### Descriptor extensions and invalid transitions -/

theorem za_ext_valid_set (za : Nat) :
    (za ||| NVME_ZA_ZD_EXT_VALID) &&& NVME_ZA_ZD_EXT_VALID = NVME_ZA_ZD_EXT_VALID := by
  apply Nat.eq_of_testBit_eq
  intro i
  simp only [Nat.testBit_and, Nat.testBit_or]
  cases za.testBit i <;> cases NVME_ZA_ZD_EXT_VALID.testBit i <;> rfl

/-- Staging the extension bytes touches neither zones nor counters. -/
theorem store_zd_extension_frame (n : FemuCtrl) (idx : Nat) (data : List Nat) :
    (zns_store_zd_extension n idx data).zone_array = n.zone_array ∧
    (zns_store_zd_extension n idx data).nr_open_zones = n.nr_open_zones ∧
    (zns_store_zd_extension n idx data).nr_active_zones = n.nr_active_zones ∧
    (zns_store_zd_extension n idx data).exp_open_zones = n.exp_open_zones ∧
    (zns_store_zd_extension n idx data).imp_open_zones = n.imp_open_zones ∧
    (zns_store_zd_extension n idx data).closed_zones = n.closed_zones ∧
    (zns_store_zd_extension n idx data).full_zones = n.full_zones ∧
    (∀ a o, zns_aor_check (zns_store_zd_extension n idx data) a o = zns_aor_check n a o) ∧
    (∀ j, zoneAt (zns_store_zd_extension n idx data) j = zoneAt n j) := by
  simp [zns_store_zd_extension, zns_aor_check, zoneAt]

/-- Counterexample to C5 as stated: SET_ZD_EXT on the EMPTY zone 0 of a
namespace with extensions, with the active limit not reached, does not return
SUCCESS when the transfer of the extension bytes fails; the command returns the
status of the transfer and the zone stays EMPTY. -/
theorem set_zd_ext_transfer_failure :
    SingleZoneSend extCtrl (setExtCmd 0 NVME_INVALID_FIELD.orDNR) NVME_ZONE_ACTION_SET_ZD_EXT 0 ∧
    0 < extCtrl.zd_extension_size ∧
    (zoneAt extCtrl 0).zs = .EMPTY ∧
    zns_aor_check extCtrl 1 0 = NVME_SUCCESS ∧
    (zns_zone_mgmt_send extCtrl (setExtCmd 0 NVME_INVALID_FIELD.orDNR)).map (fun p => p.2) =
      some NVME_INVALID_FIELD.orDNR ∧
    NVME_INVALID_FIELD.orDNR ≠ NVME_SUCCESS ∧
    (zns_zone_mgmt_send extCtrl (setExtCmd 0 NVME_INVALID_FIELD.orDNR)).map
      (fun p => (zoneAt p.1 0).zs) = some .EMPTY := by
  decide

/-- C5 (amended): for a single-zone SET_ZD_EXT with a non-zero extension
size, when the transfer of the extension bytes succeeds, the zone is EMPTY and
the active-limit check passes, the status is SUCCESS, the zone becomes CLOSED
with the extension-valid bit set in `za`, `nr_active_zones` grows by one and
`nr_open_zones`, `wp` and `w_ptr` are unchanged.  The command always returns,
and whenever its status is not SUCCESS the zone record (state, `za`, `wp`,
`w_ptr`) and both counters are as before the command. -/
theorem set_zd_ext_single_zone (n : FemuCtrl) (c : NvmeCmd) (idx : Nat)
    (h : SingleZoneSend n c NVME_ZONE_ACTION_SET_ZD_EXT idx)
    (hext : 0 < n.zd_extension_size) :
    (c.dma_status = NVME_SUCCESS → (zoneAt n idx).zs = .EMPTY →
        zns_aor_check n 1 0 = NVME_SUCCESS →
      ∃ n1, zns_zone_mgmt_send n c = some (n1, NVME_SUCCESS) ∧
        (zoneAt n1 idx).zs = .CLOSED ∧
        (zoneAt n1 idx).za = (zoneAt n idx).za ||| NVME_ZA_ZD_EXT_VALID ∧
        (zoneAt n1 idx).za &&& NVME_ZA_ZD_EXT_VALID = NVME_ZA_ZD_EXT_VALID ∧
        n1.nr_active_zones = n.nr_active_zones + 1 ∧
        n1.nr_open_zones = n.nr_open_zones ∧
        (zoneAt n1 idx).wp = (zoneAt n idx).wp ∧
        (zoneAt n1 idx).w_ptr = (zoneAt n idx).w_ptr) ∧
    (∃ n1 st, zns_zone_mgmt_send n c = some (n1, st)) ∧
    (∀ n1 st, zns_zone_mgmt_send n c = some (n1, st) → st ≠ NVME_SUCCESS →
      zoneAt n1 idx = zoneAt n idx ∧
      n1.nr_active_zones = n.nr_active_zones ∧
      n1.nr_open_zones = n.nr_open_zones) := by
  have hsend := mgmt_send_set_zd_ext n c idx h hext
  have hlen : idx < n.zone_array.length := h.2.2.2.2.2.2.1
  obtain ⟨s1, s2, s3, -, -, -, -, s8, s9⟩ := store_zd_extension_frame n idx c.dma_data
  have hlen1 : idx < (zns_store_zd_extension n idx c.dma_data).zone_array.length := by
    rw [s1]; exact hlen
  refine ⟨?_, ?_, ?_⟩
  · intro hd hs ha
    have hnz : c.dma_status.nonzero = false := by rw [hd]; decide
    have hset : zns_set_zd_ext (zns_store_zd_extension n idx c.dma_data) idx =
        (zns_assign_zone_state
          (setZone (zns_aor_inc_active (zns_store_zd_extension n idx c.dma_data)) idx
            { zoneAt n idx with za := (zoneAt n idx).za ||| NVME_ZA_ZD_EXT_VALID })
          idx .CLOSED, NVME_SUCCESS) := by
      have hz1 : zoneAt (zns_aor_inc_active (zns_store_zd_extension n idx c.dma_data)) idx
          = zoneAt n idx := by
        rw [← s9 idx]; rfl
      simp only [zns_set_zd_ext, zns_get_zone_state, s9, hs, s8, ha, hz1]
      simp
    refine ⟨zns_assign_zone_state
          (setZone (zns_aor_inc_active (zns_store_zd_extension n idx c.dma_data)) idx
            { zoneAt n idx with za := (zoneAt n idx).za ||| NVME_ZA_ZD_EXT_VALID })
          idx .CLOSED, ?_, ?_⟩
    · rw [hsend, hset]
      simp [hnz]
    · have hl2 : idx < (setZone (zns_aor_inc_active (zns_store_zd_extension n idx c.dma_data)) idx
          { zoneAt n idx with za := (zoneAt n idx).za ||| NVME_ZA_ZD_EXT_VALID }).zone_array.length := by
        rw [length_setZone]; exact hlen1
      have hz := zoneAt_assign_same _ idx .CLOSED hl2
      have hf := assign_frame (setZone (zns_aor_inc_active (zns_store_zd_extension n idx c.dma_data))
          idx { zoneAt n idx with za := (zoneAt n idx).za ||| NVME_ZA_ZD_EXT_VALID }) idx .CLOSED
      rw [hz, hf.1, hf.2.1, zoneAt_setZone_same
        (zns_aor_inc_active (zns_store_zd_extension n idx c.dma_data)) _ _ hlen1]
      refine ⟨rfl, ?_, ?_, ?_, ?_, rfl, rfl⟩
      · simp
      · simp only [reduceCtorEq, or_self, if_false]
        exact za_ext_valid_set _
      · simp [setZone, zns_aor_inc_active, s3]
      · simp [setZone, zns_aor_inc_active, s2]
  · rw [hsend]
    split
    · exact ⟨_, _, rfl⟩
    · split
      · exact ⟨_, _, rfl⟩
      · exact ⟨_, _, rfl⟩
  · intro n1 st hres hne
    rw [hsend] at hres
    have hfail : ∀ r : FemuCtrl × NvmeStatus,
        r = zns_set_zd_ext (zns_store_zd_extension n idx c.dma_data) idx → r.2 ≠ NVME_SUCCESS →
        r.1 = zns_store_zd_extension n idx c.dma_data := by
      intro r hr hr2
      subst hr
      unfold zns_set_zd_ext at hr2 ⊢
      simp only [] at hr2 ⊢
      split
      · split
        · rfl
        · rename_i h1 h2
          simp [h1, h2] at hr2
      · rfl
    split at hres
    · simp only [Option.some.injEq, Prod.mk.injEq] at hres
      rw [← hres.1]
      exact ⟨s9 idx, s3, s2⟩
    · split at hres
      · rename_i h2
        simp only [Option.some.injEq] at hres
        have hst : (zns_set_zd_ext (zns_store_zd_extension n idx c.dma_data) idx).2 = st :=
          congrArg Prod.snd hres
        rw [h2] at hst
        exact absurd hst.symm hne
      · rename_i h2
        simp only [zns_mgmt_send_exit, Option.map_some', Option.some.injEq, Prod.mk.injEq] at hres
        rw [← hres.1, hfail _ rfl h2]
        exact ⟨s9 idx, s3, s2⟩

/-- Witness of C5: SET_ZD_EXT on the EMPTY zone 0 of the namespace with
extensions, with a successful transfer. -/
theorem set_zd_ext_single_zone_witness :
    SingleZoneSend extCtrl (setExtCmd 0 NVME_SUCCESS) NVME_ZONE_ACTION_SET_ZD_EXT 0 ∧
    0 < extCtrl.zd_extension_size ∧
    ∃ n1, zns_zone_mgmt_send extCtrl (setExtCmd 0 NVME_SUCCESS) = some (n1, NVME_SUCCESS) ∧
        (zoneAt n1 0).zs = .CLOSED ∧
        (zoneAt n1 0).za = (zoneAt extCtrl 0).za ||| NVME_ZA_ZD_EXT_VALID ∧
        (zoneAt n1 0).za &&& NVME_ZA_ZD_EXT_VALID = NVME_ZA_ZD_EXT_VALID ∧
        n1.nr_active_zones = extCtrl.nr_active_zones + 1 ∧
        n1.nr_open_zones = extCtrl.nr_open_zones ∧
        (zoneAt n1 0).wp = (zoneAt extCtrl 0).wp ∧
        (zoneAt n1 0).w_ptr = (zoneAt extCtrl 0).w_ptr :=
  ⟨by decide, by decide,
   (set_zd_ext_single_zone extCtrl (setExtCmd 0 NVME_SUCCESS) 0 (by decide) (by decide)).1
     (by decide) (by decide) (by decide)⟩

/-- Counterexample to C6 as stated: in the namespace `zns_init` builds (no
descriptor extensions), SET_ZD_EXT on the implicitly open zone 0 returns
INVALID_FIELD, not ZONE_INVAL_TRANSITION. -/
theorem set_zd_ext_without_extensions :
    ∃ n, Reachable n ∧ runCmds femuCtrl [rwCmd NVME_CMD_WRITE 0 1] = some n ∧
      SingleZoneSend n (setExtCmd 0 NVME_SUCCESS) NVME_ZONE_ACTION_SET_ZD_EXT 0 ∧
      (zoneAt n 0).zs = .IMPLICITLY_OPEN ∧
      zns_zone_mgmt_send n (setExtCmd 0 NVME_SUCCESS) = some (n, NVME_INVALID_FIELD.orDNR) ∧
      NVME_INVALID_FIELD.orDNR ≠ NVME_ZONE_INVAL_TRANSITION.orDNR ∧
      NVME_INVALID_FIELD.orDNR ≠ NVME_ZONE_INVAL_TRANSITION :=
  ⟨(runCmds femuCtrl [rwCmd NVME_CMD_WRITE 0 1]).getD default,
   reachable_runCmds [rwCmd NVME_CMD_WRITE 0 1] femuCtrl _ reachable_femuCtrl (by decide),
   by decide, by decide, by decide, by decide, by decide, by decide⟩

/-- C6 (amended): a single-zone management send with OPEN on FULL, READ_ONLY
or OFFLINE; CLOSE on EMPTY, FULL, READ_ONLY or OFFLINE; FINISH on READ_ONLY or
OFFLINE; OFFLINE on a state other than READ_ONLY and OFFLINE; or SET_ZD_EXT on
a non-EMPTY zone when extensions are configured and the transfer of the
extension bytes succeeds, returns ZONE_INVAL_TRANSITION with the do-not-retry
bit and leaves every zone record, every queue and both counters unchanged. -/
theorem invalid_transition_single_zone (n : FemuCtrl) (c : NvmeCmd) (action idx : Nat)
    (h : SingleZoneSend n c action idx)
    (hno : NoTransition action (zoneAt n idx).zs)
    (hext : action = NVME_ZONE_ACTION_SET_ZD_EXT →
      0 < n.zd_extension_size ∧ c.dma_status = NVME_SUCCESS) :
    ∃ n1, zns_zone_mgmt_send n c = some (n1, NVME_ZONE_INVAL_TRANSITION.orDNR) ∧
      n1.zone_array = n.zone_array ∧
      n1.nr_open_zones = n.nr_open_zones ∧
      n1.nr_active_zones = n.nr_active_zones ∧
      n1.exp_open_zones = n.exp_open_zones ∧
      n1.imp_open_zones = n.imp_open_zones ∧
      n1.closed_zones = n.closed_zones ∧
      n1.full_zones = n.full_zones := by
  have hexit : zns_mgmt_send_exit (some (n, NVME_ZONE_INVAL_TRANSITION)) =
      some (n, NVME_ZONE_INVAL_TRANSITION.orDNR) := by
    simp [zns_mgmt_send_exit, NvmeStatus.nonzero, NVME_ZONE_INVAL_TRANSITION, NVME_SUCCESS]
  rcases hno with ⟨ha, hs⟩ | ⟨ha, hs⟩ | ⟨ha, hs⟩ | ⟨ha, hs1, hs2⟩ | ⟨ha, hs⟩
  · subst ha
    refine ⟨n, ?_, rfl, rfl, rfl, rfl, rfl, rfl, rfl⟩
    rw [mgmt_send_open n c idx h, ← hexit]
    rcases hs with hs | hs | hs <;> rw [hs] <;> rfl
  · subst ha
    refine ⟨n, ?_, rfl, rfl, rfl, rfl, rfl, rfl, rfl⟩
    rw [mgmt_send_close n c idx h, ← hexit]
    rcases hs with hs | hs | hs | hs <;> rw [hs] <;> rfl
  · subst ha
    refine ⟨n, ?_, rfl, rfl, rfl, rfl, rfl, rfl, rfl⟩
    rw [mgmt_send_finish n c idx h, ← hexit]
    rcases hs with hs | hs <;> rw [hs] <;> rfl
  · subst ha
    refine ⟨n, ?_, rfl, rfl, rfl, rfl, rfl, rfl, rfl⟩
    rw [mgmt_send_offline n c idx h, ← hexit]
    cases hz : (zoneAt n idx).zs <;> first | rfl | exact absurd hz hs1 | exact absurd hz hs2
  · subst ha
    obtain ⟨he, hd⟩ := hext rfl
    obtain ⟨s1, s2, s3, s4, s5, s6, s7, -, s9⟩ := store_zd_extension_frame n idx c.dma_data
    refine ⟨zns_store_zd_extension n idx c.dma_data, ?_, s1, s2, s3, s4, s5, s6, s7⟩
    have hnz : c.dma_status.nonzero = false := by rw [hd]; decide
    have hset : zns_set_zd_ext (zns_store_zd_extension n idx c.dma_data) idx =
        (zns_store_zd_extension n idx c.dma_data, NVME_ZONE_INVAL_TRANSITION) := by
      simp [zns_set_zd_ext, zns_get_zone_state, s9, hs]
    have hne : ¬ (NVME_ZONE_INVAL_TRANSITION = NVME_SUCCESS) := by decide
    rw [mgmt_send_set_zd_ext n c idx h he, hset]
    simp only [hnz, Bool.false_eq_true, if_false, hne]
    rfl

/-- Witness of C6: CLOSE of the empty zone 0 of the scenario namespace. -/
theorem invalid_transition_single_zone_witness :
    SingleZoneSend scenarioCtrl (sendCmd NVME_ZONE_ACTION_CLOSE 0) NVME_ZONE_ACTION_CLOSE 0 ∧
    NoTransition NVME_ZONE_ACTION_CLOSE (zoneAt scenarioCtrl 0).zs ∧
    ∃ n1, zns_zone_mgmt_send scenarioCtrl (sendCmd NVME_ZONE_ACTION_CLOSE 0) =
        some (n1, NVME_ZONE_INVAL_TRANSITION.orDNR) ∧
      n1.zone_array = scenarioCtrl.zone_array ∧
      n1.nr_open_zones = scenarioCtrl.nr_open_zones ∧
      n1.nr_active_zones = scenarioCtrl.nr_active_zones ∧
      n1.exp_open_zones = scenarioCtrl.exp_open_zones ∧
      n1.imp_open_zones = scenarioCtrl.imp_open_zones ∧
      n1.closed_zones = scenarioCtrl.closed_zones ∧
      n1.full_zones = scenarioCtrl.full_zones :=
  ⟨by decide, by decide,
   invalid_transition_single_zone scenarioCtrl (sendCmd NVME_ZONE_ACTION_CLOSE 0)
     NVME_ZONE_ACTION_CLOSE 0 (by decide) (by decide) (by decide)⟩

/-! ### The queues under `zns_assign_zone_state` -/

/-- `Linked` only looks at the queues and the zone states. -/
theorem linked_congr {a b : FemuCtrl} (hb : Linked b)
    (hl : a.zone_array.length = b.zone_array.length)
    (hz : ∀ j, (zoneAt a j).zs = (zoneAt b j).zs)
    (h1 : a.exp_open_zones = b.exp_open_zones) (h2 : a.imp_open_zones = b.imp_open_zones)
    (h3 : a.closed_zones = b.closed_zones) (h4 : a.full_zones = b.full_zones) : Linked a := by
  constructor
  · intro i; rw [h1, hl, hz]; exact hb.exp i
  · intro i; rw [h2, hl, hz]; exact hb.imp i
  · intro i; rw [h3, hl, hz]; exact hb.closed i
  · intro i; rw [h4, hl, hz]; exact hb.full i
  · rw [h1]; exact hb.nd_exp
  · rw [h2]; exact hb.nd_imp
  · rw [h3]; exact hb.nd_closed
  · rw [h4]; exact hb.nd_full

/-- Under `Linked`, unlinking a zone erases its index from every queue (it is
in at most the queue of its state). -/
theorem unlink_lists (n : FemuCtrl) (idx : Nat) (hL : Linked n) :
    (zns_unlink_zone n idx).exp_open_zones = n.exp_open_zones.erase idx ∧
    (zns_unlink_zone n idx).imp_open_zones = n.imp_open_zones.erase idx ∧
    (zns_unlink_zone n idx).closed_zones = n.closed_zones.erase idx ∧
    (zns_unlink_zone n idx).full_zones = n.full_zones.erase idx ∧
    (zns_unlink_zone n idx).zone_array = n.zone_array ∧
    (zns_unlink_zone n idx).nr_open_zones = n.nr_open_zones ∧
    (zns_unlink_zone n idx).nr_active_zones = n.nr_active_zones := by
  have e1 : (zoneAt n idx).zs ≠ .EXPLICITLY_OPEN → n.exp_open_zones.erase idx = n.exp_open_zones := by
    intro h
    apply List.erase_of_not_mem
    intro hm
    exact h ((hL.exp idx).1 hm).2
  have e2 : (zoneAt n idx).zs ≠ .IMPLICITLY_OPEN → n.imp_open_zones.erase idx = n.imp_open_zones := by
    intro h
    apply List.erase_of_not_mem
    intro hm
    exact h ((hL.imp idx).1 hm).2
  have e3 : (zoneAt n idx).zs ≠ .CLOSED → n.closed_zones.erase idx = n.closed_zones := by
    intro h
    apply List.erase_of_not_mem
    intro hm
    exact h ((hL.closed idx).1 hm).2
  have e4 : (zoneAt n idx).zs ≠ .FULL → n.full_zones.erase idx = n.full_zones := by
    intro h
    apply List.erase_of_not_mem
    intro hm
    exact h ((hL.full idx).1 hm).2
  unfold zns_unlink_zone
  by_cases hu : QTAILQ_IN_USE n idx = true
  · simp only [hu, if_true, zns_get_zone_state]
    cases hz : (zoneAt n idx).zs <;> simp only [] <;>
      rw [hz] at e1 e2 e3 e4 <;>
      simp only [ne_eq, reduceCtorEq, not_false_eq_true, not_true_eq_false, true_implies,
        false_implies] at e1 e2 e3 e4 <;>
      simp [*]
  · simp only [hu, if_false]
    have hn1 : idx ∉ n.exp_open_zones := by
      intro hm; apply hu; simp [QTAILQ_IN_USE, hm]
    have hn2 : idx ∉ n.imp_open_zones := by
      intro hm; apply hu; simp [QTAILQ_IN_USE, hm]
    have hn3 : idx ∉ n.closed_zones := by
      intro hm; apply hu; simp [QTAILQ_IN_USE, hm]
    have hn4 : idx ∉ n.full_zones := by
      intro hm; apply hu; simp [QTAILQ_IN_USE, hm]
    simp [List.erase_of_not_mem, hn1, hn2, hn3, hn4]

/-- Under `Linked`, `zns_assign_zone_state` erases the zone from every queue
and appends it to the queue of the new state. -/
theorem assign_lists (n : FemuCtrl) (idx : Nat) (st : NvmeZoneState) (hL : Linked n) :
    (zns_assign_zone_state n idx st).exp_open_zones =
      n.exp_open_zones.erase idx ++ (if st = .EXPLICITLY_OPEN then [idx] else []) ∧
    (zns_assign_zone_state n idx st).imp_open_zones =
      n.imp_open_zones.erase idx ++ (if st = .IMPLICITLY_OPEN then [idx] else []) ∧
    (zns_assign_zone_state n idx st).closed_zones =
      n.closed_zones.erase idx ++ (if st = .CLOSED then [idx] else []) ∧
    (zns_assign_zone_state n idx st).full_zones =
      n.full_zones.erase idx ++ (if st = .FULL then [idx] else []) := by
  obtain ⟨u1, u2, u3, u4, -, -, -⟩ := unlink_lists n idx hL
  unfold zns_assign_zone_state
  cases st <;> simp [setZone, u1, u2, u3, u4]

theorem mem_erase_append_singleton (l : List Nat) (idx j : Nat) (b : Prop) [Decidable b]
    (hnd : l.Nodup) :
    j ∈ l.erase idx ++ (if b then [idx] else []) ↔ (j ≠ idx ∧ j ∈ l) ∨ (j = idx ∧ b) := by
  by_cases hj : j = idx
  · subst hj
    have : j ∉ l.erase j := List.Nodup.not_mem_erase hnd
    by_cases hb : b <;> simp [this, hb]
  · have : j ∈ l.erase idx ↔ j ∈ l := List.mem_erase_of_ne hj
    by_cases hb : b <;> simp [this, hb, hj]

theorem nodup_erase_append_singleton (l : List Nat) (idx : Nat) (b : Prop) [Decidable b]
    (hnd : l.Nodup) : (l.erase idx ++ (if b then [idx] else [])).Nodup := by
  have h1 : (l.erase idx).Nodup := List.Nodup.erase idx hnd
  have h2 : idx ∉ l.erase idx := List.Nodup.not_mem_erase hnd
  by_cases hb : b
  · simp only [hb, if_true]
    rw [List.nodup_append]
    refine ⟨h1, List.nodup_singleton idx, ?_⟩
    intro x hx hx2
    simp only [List.mem_singleton] at hx2
    subst hx2
    exact h2 hx
  · simp [hb, h1]

theorem length_erase_append_singleton (l : List Nat) (idx : Nat) (b : Prop) [Decidable b] :
    (((l.erase idx ++ (if b then [idx] else [])).length : Nat) : Int) =
      (l.length : Int) - (if idx ∈ l then 1 else 0) + (if b then 1 else 0) := by
  by_cases hm : idx ∈ l
  · have h1 : (l.erase idx).length = l.length - 1 := List.length_erase_of_mem hm
    have h2 : 0 < l.length := List.length_pos_of_mem hm
    by_cases hb : b <;> simp [hb, hm, h1] <;> omega
  · have h1 : l.erase idx = l := List.erase_of_not_mem hm
    by_cases hb : b <;> simp [hb, hm, h1]

/-- `zns_assign_zone_state` keeps the queues in step with the zone states. -/
theorem linked_assign (n : FemuCtrl) (idx : Nat) (st : NvmeZoneState) (hL : Linked n)
    (hlen : idx < n.zone_array.length) : Linked (zns_assign_zone_state n idx st) := by
  obtain ⟨l1, l2, l3, l4⟩ := assign_lists n idx st hL
  have hlen2 : (zns_assign_zone_state n idx st).zone_array.length = n.zone_array.length :=
    (assign_frame n idx st).2.2.2.2.1
  have hsame := zoneAt_assign_same n idx st hlen
  have hzs : (zoneAt (zns_assign_zone_state n idx st) idx).zs = st := by rw [hsame]
  have hne : ∀ j, j ≠ idx → zoneAt (zns_assign_zone_state n idx st) j = zoneAt n j := by
    intro j hj
    exact zoneAt_assign_ne n idx j st (Ne.symm hj)
  have key : ∀ (l : List Nat) (q : NvmeZoneState), l.Nodup →
      (∀ i, i ∈ l ↔ i < n.zone_array.length ∧ (zoneAt n i).zs = q) →
      ∀ j, j ∈ l.erase idx ++ (if st = q then [idx] else []) ↔
        j < (zns_assign_zone_state n idx st).zone_array.length ∧
          (zoneAt (zns_assign_zone_state n idx st) j).zs = q := by
    intro l q hnd hmem j
    rw [mem_erase_append_singleton l idx j (st = q) hnd, hlen2]
    by_cases hj : j = idx
    · subst hj
      rw [hzs]
      simp [hlen]
    · rw [hne j hj, hmem j]
      simp [hj]
  constructor
  · rw [l1]; exact key _ _ hL.nd_exp hL.exp
  · rw [l2]; exact key _ _ hL.nd_imp hL.imp
  · rw [l3]; exact key _ _ hL.nd_closed hL.closed
  · rw [l4]; exact key _ _ hL.nd_full hL.full
  · rw [l1]; exact nodup_erase_append_singleton _ _ _ hL.nd_exp
  · rw [l2]; exact nodup_erase_append_singleton _ _ _ hL.nd_imp
  · rw [l3]; exact nodup_erase_append_singleton _ _ _ hL.nd_closed
  · rw [l4]; exact nodup_erase_append_singleton _ _ _ hL.nd_full

/-- The queue lengths after `zns_assign_zone_state`: the open queues lose
the zone if it was open and gain it if the new state is open, and likewise
for the active queues. -/
theorem counts_assign (n : FemuCtrl) (idx : Nat) (st : NvmeZoneState) (hL : Linked n)
    (hlen : idx < n.zone_array.length) :
    (((zns_assign_zone_state n idx st).exp_open_zones.length +
        (zns_assign_zone_state n idx st).imp_open_zones.length : Nat) : Int) =
      ((n.exp_open_zones.length + n.imp_open_zones.length : Nat) : Int)
        - isOpenState (zoneAt n idx).zs + isOpenState st ∧
    (((zns_assign_zone_state n idx st).exp_open_zones.length +
        (zns_assign_zone_state n idx st).imp_open_zones.length +
        (zns_assign_zone_state n idx st).closed_zones.length : Nat) : Int) =
      ((n.exp_open_zones.length + n.imp_open_zones.length + n.closed_zones.length : Nat) : Int)
        - isActiveState (zoneAt n idx).zs + isActiveState st := by
  obtain ⟨l1, l2, l3, -⟩ := assign_lists n idx st hL
  have m1 : idx ∈ n.exp_open_zones ↔ (zoneAt n idx).zs = .EXPLICITLY_OPEN := by
    rw [hL.exp idx]; simp [hlen]
  have m2 : idx ∈ n.imp_open_zones ↔ (zoneAt n idx).zs = .IMPLICITLY_OPEN := by
    rw [hL.imp idx]; simp [hlen]
  have m3 : idx ∈ n.closed_zones ↔ (zoneAt n idx).zs = .CLOSED := by
    rw [hL.closed idx]; simp [hlen]
  have c1 := length_erase_append_singleton n.exp_open_zones idx (st = .EXPLICITLY_OPEN)
  have c2 := length_erase_append_singleton n.imp_open_zones idx (st = .IMPLICITLY_OPEN)
  have c3 := length_erase_append_singleton n.closed_zones idx (st = .CLOSED)
  rw [← l1] at c1
  rw [← l2] at c2
  rw [← l3] at c3
  simp only [m1, m2, m3] at c1 c2 c3
  push_cast
  rw [c1, c2, c3]
  unfold isOpenState isActiveState
  cases st <;> cases (zoneAt n idx).zs <;> simp <;> omega

/-! ### Preservation of the invariant -/

theorem SameShape.same (n : FemuCtrl) : SameShape n n := by
  simp [SameShape]

theorem SameShape.chain {a b c : FemuCtrl} (h1 : SameShape a b) (h2 : SameShape b c) :
    SameShape a c := by
  obtain ⟨a1, a2, a3, a4, a5, a6, a7, a8, a9⟩ := h1
  obtain ⟨b1, b2, b3, b4, b5, b6, b7, b8, b9⟩ := h2
  exact ⟨a1.trans b1, fun j => (a2 j).trans (b2 j), a3.trans b3, a4.trans b4, a5.trans b5,
    a6.trans b6, a7.trans b7, a8.trans b8, a9.trans b9⟩

theorem sameShape_inc_open (n : FemuCtrl) : SameShape (zns_aor_inc_open n) n := by
  simp [SameShape, zns_aor_inc_open, zoneAt]

theorem sameShape_dec_open (n : FemuCtrl) : SameShape (zns_aor_dec_open n) n := by
  simp [SameShape, zns_aor_dec_open, zoneAt]

theorem sameShape_inc_active (n : FemuCtrl) : SameShape (zns_aor_inc_active n) n := by
  simp [SameShape, zns_aor_inc_active, zoneAt]

theorem sameShape_dec_active (n : FemuCtrl) : SameShape (zns_aor_dec_active n) n := by
  simp [SameShape, zns_aor_dec_active, zoneAt]

/-- A store to a zone that keeps its state keeps the shape. -/
theorem sameShape_setZone (n : FemuCtrl) (idx : Nat) (z : NvmeZone)
    (hz : z.zs = (zoneAt n idx).zs) : SameShape (setZone n idx z) n := by
  refine ⟨length_setZone n idx z, ?_, rfl, rfl, rfl, rfl, rfl, rfl, rfl⟩
  intro j
  by_cases hj : idx = j
  · subst hj
    by_cases hl : idx < n.zone_array.length
    · rw [zoneAt_setZone_same n idx z hl, hz]
    · have : (setZone n idx z).zone_array = n.zone_array := by
        simp only [setZone]
        apply List.set_eq_of_length_le
        omega
      simp only [zoneAt, this]
  · rw [zoneAt_setZone_ne n idx j z hj]

theorem sameShape_store_zd_extension (n : FemuCtrl) (idx : Nat) (data : List Nat) :
    SameShape (zns_store_zd_extension n idx data) n := by
  simp [SameShape, zns_store_zd_extension, zoneAt]

/-- The invariant carries over to a record of the same shape with the same
counters. -/
theorem inv_of_sameShape {m n : FemuCtrl} (hI : Inv n) (hS : SameShape m n)
    (hO : m.nr_open_zones = n.nr_open_zones) (hA : m.nr_active_zones = n.nr_active_zones) :
    Inv m := by
  obtain ⟨a1, a2, a3, a4, a5, a6, a7, a8, a9⟩ := hS
  constructor
  · rw [a1, a7]; exact hI.len
  · exact linked_congr hI.linked a1 a2 a3 a4 a5 a6
  · unfold AorCounts
    rw [hO, hA, a3, a4, a5]
    exact hI.counts
  · unfold AorLimits
    rw [hO, hA, a8, a9]
    exact hI.limits

/-- The invariant after `zns_assign_zone_state` on a record `m` of the shape
of `n` whose counters were adjusted for the change of state and are within
the limits. -/
theorem inv_assign {m n : FemuCtrl} (idx : Nat) (st : NvmeZoneState) (hI : Inv n)
    (hS : SameShape m n) (hlen : idx < n.zone_array.length)
    (hO : m.nr_open_zones = n.nr_open_zones - isOpenState (zoneAt n idx).zs + isOpenState st)
    (hA : m.nr_active_zones =
      n.nr_active_zones - isActiveState (zoneAt n idx).zs + isActiveState st)
    (hLim : AorLimits m) : Inv (zns_assign_zone_state m idx st) := by
  have hS2 := hS
  obtain ⟨a1, a2, a3, a4, a5, a6, a7, a8, a9⟩ := hS
  have hLm : Linked m := linked_congr hI.linked a1 a2 a3 a4 a5 a6
  have hlenm : idx < m.zone_array.length := by omega
  obtain ⟨f1, f2, f3, f4, f5, f6⟩ := assign_frame m idx st
  obtain ⟨c1, c2⟩ := counts_assign m idx st hLm hlenm
  constructor
  · rw [f5, f6, a1, a7]; exact hI.len
  · exact linked_assign m idx st hLm hlenm
  · unfold AorCounts
    rw [f1, f2, c1, c2, hO, hA, a2 idx, a3, a4, a5, hI.counts.1, hI.counts.2]
    exact ⟨rfl, rfl⟩
  · unfold AorLimits
    rw [f1, f2, f3, f4]
    exact hLim

/-- What a successful resource check says about the counters. -/
theorem aor_check_success (n : FemuCtrl) (act opn : Nat) (ha : act ≤ 1) (ho : opn ≤ 1)
    (h : zns_aor_check n act opn = NVME_SUCCESS) :
    (n.max_active_zones = 0 ∨ n.nr_active_zones + (act : Int) ≤ (n.max_active_zones : Int)) ∧
    (n.max_open_zones = 0 ∨ n.nr_open_zones + (opn : Int) ≤ (n.max_open_zones : Int)) := by
  rw [aor_check_small n act opn ha ho] at h
  split at h
  · exact absurd h (by decide)
  · split at h
    · exact absurd h (by decide)
    · rename_i h1 h2
      constructor
      · by_cases hz : n.max_active_zones = 0
        · exact Or.inl hz
        · right
          by_contra hc
          exact h1 ⟨hz, by omega⟩
      · by_cases hz : n.max_open_zones = 0
        · exact Or.inl hz
        · right
          by_contra hc
          exact h2 ⟨hz, by omega⟩

theorem limits_of_le {m n : FemuCtrl} (hn : AorLimits n)
    (h1 : m.max_open_zones = n.max_open_zones) (h2 : m.max_active_zones = n.max_active_zones)
    (hO : m.nr_open_zones ≤ n.nr_open_zones) (hA : m.nr_active_zones ≤ n.nr_active_zones) :
    AorLimits m := by
  unfold AorLimits at *
  rw [h1, h2]
  obtain ⟨l1, l2⟩ := hn
  constructor
  · rcases l1 with l1 | l1
    · exact Or.inl l1
    · exact Or.inr (by omega)
  · rcases l2 with l2 | l2
    · exact Or.inl l2
    · exact Or.inr (by omega)

theorem inv_open_zone : PreservesInv zns_open_zone := by
  intro n idx hI hlen
  have hlim := hI.limits
  unfold AorLimits at hlim
  cases hz : (zoneAt n idx).zs
  case EMPTY =>
    simp only [zns_open_zone]
    by_cases h1 : zns_aor_check n 1 0 = NVME_SUCCESS
    · simp only [h1, ne_eq, not_true_eq_false, if_false, zns_open_zone_from_closed]
      by_cases h2 : zns_aor_check (zns_aor_inc_active n) 0 1 = NVME_SUCCESS
      · simp only [h2, ne_eq, not_true_eq_false, if_false]
        have c1 := aor_check_success n 1 0 (by decide) (by decide) h1
        have c2 := aor_check_success _ 0 1 (by decide) (by decide) h2
        refine ⟨inv_assign idx .EXPLICITLY_OPEN hI
          ((sameShape_inc_open _).chain (sameShape_inc_active n)) hlen ?_ ?_ ?_,
          (sameConfig_assign _ _ _).trans
            ((sameConfig_inc_open _).trans (sameConfig_inc_active n))⟩
        · rw [hz]; simp [isOpenState, zns_aor_inc_open, zns_aor_inc_active]
        · rw [hz]; simp [isActiveState, zns_aor_inc_open, zns_aor_inc_active]
        · simp only [zns_aor_inc_active, zns_aor_inc_open, AorLimits] at c1 c2 ⊢
          constructor
          · rcases c2.2 with c | c
            · exact Or.inl c
            · exact Or.inr (by omega)
          · rcases c1.1 with c | c
            · exact Or.inl c
            · exact Or.inr (by omega)
      · simp only [h2, ne_eq, not_false_eq_true, if_true]
        refine ⟨inv_of_sameShape hI
          ((sameShape_dec_active _).chain (sameShape_inc_active n)) ?_ ?_,
          (sameConfig_dec_active _).trans (sameConfig_inc_active n)⟩
        · simp [zns_aor_dec_active, zns_aor_inc_active]
        · simp [zns_aor_dec_active, zns_aor_inc_active]
    · simp only [h1, ne_eq, not_false_eq_true, if_true]
      exact ⟨hI, SameConfig.refl n⟩
  case CLOSED =>
    simp only [zns_open_zone, zns_open_zone_from_closed]
    by_cases h2 : zns_aor_check n 0 1 = NVME_SUCCESS
    · simp only [h2, ne_eq, not_true_eq_false, if_false]
      have c2 := aor_check_success _ 0 1 (by decide) (by decide) h2
      refine ⟨inv_assign idx .EXPLICITLY_OPEN hI (sameShape_inc_open n) hlen ?_ ?_ ?_,
        (sameConfig_assign _ _ _).trans (sameConfig_inc_open n)⟩
      · rw [hz]; simp [isOpenState, zns_aor_inc_open]
      · rw [hz]; simp [isActiveState, zns_aor_inc_open]
      · simp only [zns_aor_inc_open, AorLimits] at c2 ⊢
        constructor
        · rcases c2.2 with c | c
          · exact Or.inl c
          · exact Or.inr (by omega)
        · exact hlim.2
    · simp only [h2, ne_eq, not_false_eq_true, if_true, reduceCtorEq, if_false]
      exact ⟨hI, SameConfig.refl n⟩
  case IMPLICITLY_OPEN =>
    simp only [zns_open_zone]
    refine ⟨inv_assign idx .EXPLICITLY_OPEN hI (SameShape.same n) hlen ?_ ?_ hI.limits,
      sameConfig_assign _ _ _⟩
    · rw [hz]; simp [isOpenState]
    · rw [hz]; simp [isActiveState]
  all_goals
    simp only [zns_open_zone]
    exact ⟨hI, SameConfig.refl n⟩

theorem inv_close_zone : PreservesInv zns_close_zone := by
  intro n idx hI hlen
  have hcnt := hI.counts
  cases hz : (zoneAt n idx).zs
  case IMPLICITLY_OPEN =>
    simp only [zns_close_zone]
    refine ⟨inv_assign idx .CLOSED hI (sameShape_dec_open n) hlen ?_ ?_ ?_,
      (sameConfig_assign _ _ _).trans (sameConfig_dec_open n)⟩
    · rw [hz]; simp [isOpenState, zns_aor_dec_open]
    · rw [hz]; simp [isActiveState, zns_aor_dec_open]
    · exact limits_of_le hI.limits rfl rfl (by simp [zns_aor_dec_open]) (by simp [zns_aor_dec_open])
  case EXPLICITLY_OPEN =>
    simp only [zns_close_zone]
    refine ⟨inv_assign idx .CLOSED hI (sameShape_dec_open n) hlen ?_ ?_ ?_,
      (sameConfig_assign _ _ _).trans (sameConfig_dec_open n)⟩
    · rw [hz]; simp [isOpenState, zns_aor_dec_open]
    · rw [hz]; simp [isActiveState, zns_aor_dec_open]
    · exact limits_of_le hI.limits rfl rfl (by simp [zns_aor_dec_open]) (by simp [zns_aor_dec_open])
  all_goals
    simp only [zns_close_zone]
    exact ⟨hI, SameConfig.refl n⟩

/-- The tail of FINISH keeps the invariant when the counters were adjusted
for the state the zone leaves. -/
theorem inv_finish_from_empty {m n : FemuCtrl} (idx : Nat) (hI : Inv n) (hS : SameShape m n)
    (hC : SameConfig m n) (hlen : idx < n.zone_array.length)
    (hO : m.nr_open_zones = n.nr_open_zones - isOpenState (zoneAt n idx).zs)
    (hA : m.nr_active_zones = n.nr_active_zones - isActiveState (zoneAt n idx).zs) :
    Inv (zns_finish_zone_from_empty m idx).1 ∧ SameConfig (zns_finish_zone_from_empty m idx).1 n := by
  unfold zns_finish_zone_from_empty
  simp only []
  have hS2 : SameShape (setZone m idx
      { zoneAt m idx with w_ptr := zns_zone_wr_boundary (zoneAt m idx),
                          wp := zns_zone_wr_boundary (zoneAt m idx) }) n :=
    (sameShape_setZone m idx _ (by rfl)).chain hS
  refine ⟨inv_assign idx .FULL hI hS2 hlen ?_ ?_ ?_,
    (sameConfig_assign _ _ _).trans ((sameConfig_setZone m idx _).trans hC)⟩
  · simp [setZone, hO, isOpenState]
  · simp [setZone, hA, isActiveState]
  · apply limits_of_le hI.limits hS2.2.2.2.2.2.2.2.1 hS2.2.2.2.2.2.2.2.2
    · simp only [setZone, hO, isOpenState]
      split <;> omega
    · simp only [setZone, hA, isActiveState]
      split <;> omega

theorem inv_finish_zone : PreservesInv zns_finish_zone := by
  intro n idx hI hlen
  cases hz : (zoneAt n idx).zs
  case EMPTY =>
    simp only [zns_finish_zone]
    exact inv_finish_from_empty idx hI (SameShape.same n) (SameConfig.refl n) hlen
      (by rw [hz]; simp [isOpenState]) (by rw [hz]; simp [isActiveState])
  case CLOSED =>
    simp only [zns_finish_zone]
    exact inv_finish_from_empty idx hI (sameShape_dec_active n) (sameConfig_dec_active n) hlen
      (by rw [hz]; simp [isOpenState, zns_aor_dec_active])
      (by rw [hz]; simp [isActiveState, zns_aor_dec_active])
  case IMPLICITLY_OPEN =>
    simp only [zns_finish_zone]
    exact inv_finish_from_empty idx hI
      ((sameShape_dec_active _).chain (sameShape_dec_open n))
      ((sameConfig_dec_active _).trans (sameConfig_dec_open n)) hlen
      (by rw [hz]; simp [isOpenState, zns_aor_dec_active, zns_aor_dec_open])
      (by rw [hz]; simp [isActiveState, zns_aor_dec_active, zns_aor_dec_open])
  case EXPLICITLY_OPEN =>
    simp only [zns_finish_zone]
    exact inv_finish_from_empty idx hI
      ((sameShape_dec_active _).chain (sameShape_dec_open n))
      ((sameConfig_dec_active _).trans (sameConfig_dec_open n)) hlen
      (by rw [hz]; simp [isOpenState, zns_aor_dec_active, zns_aor_dec_open])
      (by rw [hz]; simp [isActiveState, zns_aor_dec_active, zns_aor_dec_open])
  all_goals
    simp only [zns_finish_zone]
    exact ⟨hI, SameConfig.refl n⟩

/-- The tail of the reset callback keeps the invariant when the counters
were adjusted for the state the zone leaves. -/
theorem inv_reset_from_full {m n : FemuCtrl} (idx : Nat) (hI : Inv n) (hS : SameShape m n)
    (hC : SameConfig m n) (hlen : idx < n.zone_array.length)
    (hO : m.nr_open_zones = n.nr_open_zones - isOpenState (zoneAt n idx).zs)
    (hA : m.nr_active_zones = n.nr_active_zones - isActiveState (zoneAt n idx).zs) :
    Inv (zns_aio_zone_reset_from_full m idx) ∧ SameConfig (zns_aio_zone_reset_from_full m idx) n := by
  unfold zns_aio_zone_reset_from_full
  simp only []
  have hS2 : SameShape (setZone m idx
      { zoneAt m idx with w_ptr := (zoneAt m idx).zslba, wp := (zoneAt m idx).zslba }) n :=
    (sameShape_setZone m idx _ (by rfl)).chain hS
  refine ⟨inv_assign idx .EMPTY hI hS2 hlen ?_ ?_ ?_,
    (sameConfig_assign _ _ _).trans ((sameConfig_setZone m idx _).trans hC)⟩
  · simp [setZone, hO, isOpenState]
  · simp [setZone, hA, isActiveState]
  · apply limits_of_le hI.limits hS2.2.2.2.2.2.2.2.1 hS2.2.2.2.2.2.2.2.2
    · simp only [setZone, hO, isOpenState]
      split <;> omega
    · simp only [setZone, hA, isActiveState]
      split <;> omega

theorem inv_reset_zone : PreservesInv zns_reset_zone := by
  intro n idx hI hlen
  cases hz : (zoneAt n idx).zs
  case CLOSED =>
    simp only [zns_reset_zone, zns_aio_zone_reset_cb, zns_get_zone_state, hz]
    exact inv_reset_from_full idx hI (sameShape_dec_active n) (sameConfig_dec_active n) hlen
      (by rw [hz]; simp [isOpenState, zns_aor_dec_active])
      (by rw [hz]; simp [isActiveState, zns_aor_dec_active])
  case IMPLICITLY_OPEN =>
    simp only [zns_reset_zone, zns_aio_zone_reset_cb, zns_get_zone_state, hz]
    exact inv_reset_from_full idx hI
      ((sameShape_dec_active _).chain (sameShape_dec_open n))
      ((sameConfig_dec_active _).trans (sameConfig_dec_open n)) hlen
      (by rw [hz]; simp [isOpenState, zns_aor_dec_active, zns_aor_dec_open])
      (by rw [hz]; simp [isActiveState, zns_aor_dec_active, zns_aor_dec_open])
  case EXPLICITLY_OPEN =>
    simp only [zns_reset_zone, zns_aio_zone_reset_cb, zns_get_zone_state, hz]
    exact inv_reset_from_full idx hI
      ((sameShape_dec_active _).chain (sameShape_dec_open n))
      ((sameConfig_dec_active _).trans (sameConfig_dec_open n)) hlen
      (by rw [hz]; simp [isOpenState, zns_aor_dec_active, zns_aor_dec_open])
      (by rw [hz]; simp [isActiveState, zns_aor_dec_active, zns_aor_dec_open])
  case FULL =>
    simp only [zns_reset_zone, zns_aio_zone_reset_cb, zns_get_zone_state, hz]
    exact inv_reset_from_full idx hI (SameShape.same n) (SameConfig.refl n) hlen
      (by rw [hz]; simp [isOpenState]) (by rw [hz]; simp [isActiveState])
  all_goals
    simp only [zns_reset_zone]
    exact ⟨hI, SameConfig.refl n⟩

theorem inv_offline_zone : PreservesInv zns_offline_zone := by
  intro n idx hI hlen
  cases hz : (zoneAt n idx).zs
  case READ_ONLY =>
    simp only [zns_offline_zone]
    refine ⟨inv_assign idx .OFFLINE hI (SameShape.same n) hlen ?_ ?_ hI.limits,
      sameConfig_assign _ _ _⟩
    · rw [hz]; simp [isOpenState]
    · rw [hz]; simp [isActiveState]
  all_goals
    simp only [zns_offline_zone]
    exact ⟨hI, SameConfig.refl n⟩

/-- SET_ZD_EXT keeps the invariant. -/
theorem inv_set_zd_ext (n : FemuCtrl) (idx : Nat) (hI : Inv n)
    (hlen : idx < n.zone_array.length) :
    Inv (zns_set_zd_ext n idx).1 ∧ SameConfig (zns_set_zd_ext n idx).1 n := by
  unfold zns_set_zd_ext
  simp only [zns_get_zone_state]
  by_cases hz : (zoneAt n idx).zs = .EMPTY
  · simp only [hz, if_true]
    by_cases h1 : zns_aor_check n 1 0 = NVME_SUCCESS
    · simp only [h1, ne_eq, not_true_eq_false, if_false]
      have c1 := aor_check_success n 1 0 (by decide) (by decide) h1
      have hS : SameShape (setZone (zns_aor_inc_active n) idx
          { zoneAt (zns_aor_inc_active n) idx with
            za := (zoneAt (zns_aor_inc_active n) idx).za ||| NVME_ZA_ZD_EXT_VALID }) n :=
        (sameShape_setZone _ idx _ (by rfl)).chain (sameShape_inc_active n)
      refine ⟨inv_assign idx .CLOSED hI hS hlen ?_ ?_ ?_,
        (sameConfig_assign _ _ _).trans
          ((sameConfig_setZone _ idx _).trans (sameConfig_inc_active n))⟩
      · rw [hz]; simp [isOpenState, setZone, zns_aor_inc_active]
      · rw [hz]; simp [isActiveState, setZone, zns_aor_inc_active]
      · have hlim := hI.limits
        simp only [zns_aor_inc_active, AorLimits, setZone] at c1 hlim ⊢
        constructor
        · exact hlim.1
        · rcases c1.1 with c | c
          · exact Or.inl c
          · exact Or.inr (by omega)
    · simp only [h1, ne_eq, not_false_eq_true, if_true]
      exact ⟨hI, SameConfig.refl n⟩
  · simp only [hz, if_false]
    exact ⟨hI, SameConfig.refl n⟩

theorem inv_bulk_proc_zone (op : op_handler_t) (hop : PreservesInv op) (n : FemuCtrl)
    (idx mask : Nat) (hI : Inv n) (hlen : idx < n.zone_array.length) :
    Inv (zns_bulk_proc_zone n idx mask op).1 ∧ SameConfig (zns_bulk_proc_zone n idx mask op).1 n := by
  unfold zns_bulk_proc_zone
  simp only [zns_get_zone_state]
  split
  · exact hop n idx hI hlen
  · exact ⟨hI, SameConfig.refl n⟩

theorem inv_foreach_safe (op : op_handler_t) (hop : PreservesInv op) (mask : Nat) :
    ∀ (l : List Nat) (n : FemuCtrl) (st : NvmeStatus), Inv n →
      (∀ i ∈ l, i < n.zone_array.length) →
      Inv (zns_foreach_safe mask op l n st).1 ∧ SameConfig (zns_foreach_safe mask op l n st).1 n := by
  intro l
  induction l with
  | nil =>
    intro n st hI _
    exact ⟨hI, SameConfig.refl n⟩
  | cons idx rest ih =>
    intro n st hI hl
    have hidx : idx < n.zone_array.length := hl idx (List.mem_cons_self idx rest)
    obtain ⟨b1, b2⟩ := inv_bulk_proc_zone op hop n idx mask hI hidx
    unfold zns_foreach_safe
    simp only []
    split
    · exact ⟨b1, b2⟩
    · have hl2 : ∀ i ∈ rest, i < (zns_bulk_proc_zone n idx mask op).1.zone_array.length := by
        intro i hi
        rw [b2.2.2.2.2.2.2.2.2.2.2.2.2.2.2]
        exact hl i (List.mem_cons_of_mem idx hi)
      obtain ⟨r1, r2⟩ := ih _ (zns_bulk_proc_zone n idx mask op).2 b1 hl2
      exact ⟨r1, r2.trans b2⟩

theorem inv_foreach_array (op : op_handler_t) (hop : PreservesInv op) (mask : Nat) :
    ∀ (k idx : Nat) (n : FemuCtrl) (st : NvmeStatus) (r : FemuCtrl × NvmeStatus), Inv n →
      zns_foreach_array mask op k idx n st = some r → Inv r.1 ∧ SameConfig r.1 n := by
  intro k
  induction k with
  | zero =>
    intro idx n st r hI h
    simp only [zns_foreach_array, Option.some.injEq] at h
    rw [← h]
    exact ⟨hI, SameConfig.refl n⟩
  | succ k ih =>
    intro idx n st r hI h
    unfold zns_foreach_array at h
    by_cases hidx : idx < n.zone_array.length
    · simp only [hidx, if_true] at h
      obtain ⟨b1, b2⟩ := inv_bulk_proc_zone op hop n idx mask hI hidx
      split at h
      · simp only [Option.some.injEq] at h
        rw [← h]
        exact ⟨b1, b2⟩
      · obtain ⟨r1, r2⟩ := ih _ _ _ r b1 h
        exact ⟨r1, r2.trans b2⟩
    · simp only [hidx, if_false] at h
      exact Option.noConfusion h

theorem inv_queue_loop (op : op_handler_t) (hop : PreservesInv op) (n : FemuCtrl)
    (mask bit : Nat) (sel : FemuCtrl → List Nat)
    (hsel : ∀ m : FemuCtrl, Inv m → ∀ i ∈ sel m, i < m.zone_array.length)
    (s : FemuCtrl × NvmeStatus) (hs : Inv s.1 ∧ SameConfig s.1 n) :
    Inv (zns_queue_loop mask op bit sel s).1 ∧ SameConfig (zns_queue_loop mask op bit sel s).1 n := by
  unfold zns_queue_loop
  split
  · obtain ⟨r1, r2⟩ := inv_foreach_safe op hop mask (sel s.1) s.1 s.2 hs.1 (hsel s.1 hs.1)
    exact ⟨r1, r2.trans hs.2⟩
  · exact hs

theorem inv_bulk_seq (n : FemuCtrl) (x : FemuCtrl × NvmeStatus × Bool)
    (k : FemuCtrl × NvmeStatus → Option (FemuCtrl × NvmeStatus))
    (hx : Inv x.1 ∧ SameConfig x.1 n)
    (hk : ∀ s r, Inv s.1 ∧ SameConfig s.1 n → k s = some r → Inv r.1 ∧ SameConfig r.1 n)
    (r : FemuCtrl × NvmeStatus) (h : zns_bulk_seq x k = some r) :
    Inv r.1 ∧ SameConfig r.1 n := by
  unfold zns_bulk_seq at h
  split at h
  · simp only [Option.some.injEq] at h
    rw [← h]; exact hx
  · exact hk _ r hx h

theorem inv_do_zone_op (op : op_handler_t) (hop : PreservesInv op) (n : FemuCtrl)
    (idx mask : Nat) (hI : Inv n) (hlen : idx < n.zone_array.length)
    (r : FemuCtrl × NvmeStatus) (h : zns_do_zone_op n idx mask op = some r) :
    Inv r.1 ∧ SameConfig r.1 n := by
  unfold zns_do_zone_op at h
  by_cases hm : mask = 0
  · rw [if_pos hm] at h
    simp only [Option.some.injEq, zns_get_zone_state] at h
    rw [← h]
    exact hop n idx hI hlen
  · rw [if_neg hm] at h
    refine inv_bulk_seq n _ _ (inv_queue_loop op hop n mask _ _
      (fun m hm i hi => ((hm.linked.closed i).1 hi).1) _ ⟨hI, SameConfig.refl n⟩) ?_ r h
    intro s1 r1 hs1 h1
    refine inv_bulk_seq n _ _ (inv_queue_loop op hop n mask _ _
      (fun m hm i hi => ((hm.linked.imp i).1 hi).1) _ hs1) ?_ r1 h1
    intro s2 r2 hs2 h2
    refine inv_bulk_seq n _ _ (inv_queue_loop op hop n mask _ _
      (fun m hm i hi => ((hm.linked.exp i).1 hi).1) _ hs2) ?_ r2 h2
    intro s3 r3 hs3 h3
    refine inv_bulk_seq n _ _ (inv_queue_loop op hop n mask _ _
      (fun m hm i hi => ((hm.linked.full i).1 hi).1) _ hs3) ?_ r3 h3
    intro s4 r4 hs4 h4
    split at h4
    · split at h4
      · split at h4
        · simp only [Option.some.injEq] at h4
          rw [← h4]; exact hs4
        · exact Option.noConfusion h4
      · obtain ⟨q1, q2⟩ := inv_foreach_array op hop mask _ _ _ _ r4 hs4.1 h4
        exact ⟨q1, q2.trans hs4.2⟩
    · simp only [Option.some.injEq] at h4
      rw [← h4]; exact hs4

theorem mgmt_send_exit_some (x : Option (FemuCtrl × NvmeStatus)) (r : FemuCtrl × NvmeStatus)
    (h : zns_mgmt_send_exit x = some r) : ∃ r0, x = some r0 ∧ r0.1 = r.1 := by
  unfold zns_mgmt_send_exit at h
  cases x with
  | none => exact Option.noConfusion h
  | some r0 =>
    simp only [Option.map_some', Option.some.injEq] at h
    exact ⟨r0, rfl, by rw [← h]⟩

/-- Zone management send keeps the invariant and the configuration. -/
theorem inv_mgmt_send (n : FemuCtrl) (c : NvmeCmd) (hI : Inv n) (r : FemuCtrl × NvmeStatus)
    (h : zns_zone_mgmt_send n c = some r) : Inv r.1 ∧ SameConfig r.1 n := by
  have viaOp : ∀ (op : op_handler_t) (idx mask : Nat), PreservesInv op →
      idx < n.zone_array.length →
      zns_mgmt_send_exit (zns_do_zone_op n idx mask op) = some r →
      Inv r.1 ∧ SameConfig r.1 n := by
    intro op idx mask hop hlen hx
    obtain ⟨r0, h0, h1⟩ := mgmt_send_exit_some _ r hx
    rw [← h1]
    exact inv_do_zone_op op hop n idx mask hI hlen r0 h0
  have hswitch : ∀ (action : Nat) (all : Bool) (zone_idx : Nat),
      zone_idx < n.zone_array.length →
      zns_mgmt_send_switch n c action all zone_idx = some r → Inv r.1 ∧ SameConfig r.1 n := by
    intro action all zone_idx hlen h
    unfold zns_mgmt_send_switch at h
    split at h
    · exact viaOp _ _ _ inv_open_zone hlen h
    · split at h
      · exact viaOp _ _ _ inv_close_zone hlen h
      · split at h
        · exact viaOp _ _ _ inv_finish_zone hlen h
        · split at h
          · cases hd : zns_do_zone_op n zone_idx
                (if all = true then
                  NVME_PROC_OPENED_ZONES ||| NVME_PROC_CLOSED_ZONES ||| NVME_PROC_FULL_ZONES
                else NVME_PROC_CURRENT_ZONE) zns_reset_zone with
            | none =>
              rw [hd] at h
              exact Option.noConfusion h
            | some r0 =>
              rw [hd] at h
              simp only [Option.map_some', Option.some.injEq] at h
              rw [← h]
              exact inv_do_zone_op _ inv_reset_zone n zone_idx _ hI hlen r0 hd
          · split at h
            · exact viaOp _ _ _ inv_offline_zone hlen h
            · split at h
              · have hI1 : Inv (zns_store_zd_extension n zone_idx c.dma_data) :=
                  inv_of_sameShape hI (sameShape_store_zd_extension n zone_idx c.dma_data)
                    rfl rfl
                have hC1 : SameConfig (zns_store_zd_extension n zone_idx c.dma_data) n := by
                  simp [SameConfig, zns_store_zd_extension]
                have hlen1 : zone_idx <
                    (zns_store_zd_extension n zone_idx c.dma_data).zone_array.length := by
                  rw [hC1.2.2.2.2.2.2.2.2.2.2.2.2.2.2]; exact hlen
                obtain ⟨q1, q2⟩ := inv_set_zd_ext _ zone_idx hI1 hlen1
                split at h
                · simp only [Option.some.injEq] at h
                  rw [← h]; exact ⟨hI, SameConfig.refl n⟩
                · split at h
                  · simp only [Option.some.injEq] at h
                    rw [← h]; exact ⟨hI1, hC1⟩
                  · split at h
                    · simp only [Option.some.injEq] at h
                      rw [← h]; exact ⟨q1, q2.trans hC1⟩
                    · obtain ⟨r0, h0, h1⟩ := mgmt_send_exit_some _ r h
                      simp only [Option.some.injEq] at h0
                      rw [← h1, ← h0]
                      exact ⟨q1, q2.trans hC1⟩
              · obtain ⟨r0, h0, h1⟩ := mgmt_send_exit_some _ r h
                simp only [Option.some.injEq] at h0
                rw [← h1, ← h0]
                exact ⟨hI, SameConfig.refl n⟩
  unfold zns_zone_mgmt_send at h
  split at h
  · exact Option.noConfusion h
  · rename_i status slba zone_idx hdec
    split at h
    · simp only [Option.some.injEq] at h
      rw [← h]; exact ⟨hI, SameConfig.refl n⟩
    · split at h
      · exact Option.noConfusion h
      · rename_i hlen
        have hlen : zone_idx < n.zone_array.length := by omega
        split at h
        · simp only [Option.some.injEq] at h
          rw [← h]; exact ⟨hI, SameConfig.refl n⟩
        · exact hswitch _ _ _ hlen h

/-! ### The write path keeps the invariant -/

/-- Closing the head of the implicitly open queue by hand (the queue removal
of `zns_auto_transition_zone`) and then assigning CLOSED gives the record the
CLOSE handler gives. -/
theorem auto_transition_eq_close (n : FemuCtrl) (idx : Nat) (rest : List Nat) (hL : Linked n)
    (himp : n.imp_open_zones = idx :: rest) :
    zns_assign_zone_state
        (zns_aor_dec_open { n with imp_open_zones := n.imp_open_zones.erase idx }) idx .CLOSED
      = (zns_close_zone n idx .IMPLICITLY_OPEN).1 := by
  have hmem : idx ∈ n.imp_open_zones := by rw [himp]; exact List.mem_cons_self idx rest
  have hst : (zoneAt n idx).zs = .IMPLICITLY_OPEN := ((hL.imp idx).1 hmem).2
  have h1 : idx ∉ n.exp_open_zones := by
    intro hm
    have := ((hL.exp idx).1 hm).2
    rw [hst] at this
    exact NvmeZoneState.noConfusion this
  have h3 : idx ∉ n.closed_zones := by
    intro hm
    have := ((hL.closed idx).1 hm).2
    rw [hst] at this
    exact NvmeZoneState.noConfusion this
  have h4 : idx ∉ n.full_zones := by
    intro hm
    have := ((hL.full idx).1 hm).2
    rw [hst] at this
    exact NvmeZoneState.noConfusion this
  have h2 : idx ∉ n.imp_open_zones.erase idx := List.Nodup.not_mem_erase hL.nd_imp
  have hu1 : zns_unlink_zone
      (zns_aor_dec_open { n with imp_open_zones := n.imp_open_zones.erase idx }) idx
      = zns_aor_dec_open { n with imp_open_zones := n.imp_open_zones.erase idx } := by
    simp [zns_unlink_zone, QTAILQ_IN_USE, zns_aor_dec_open, h1, h2, h3, h4]
  have hu2 : zns_unlink_zone (zns_aor_dec_open n) idx
      = zns_aor_dec_open { n with imp_open_zones := n.imp_open_zones.erase idx } := by
    have hz : (zoneAt (zns_aor_dec_open n) idx).zs = .IMPLICITLY_OPEN := hst
    have hmem2 : idx ∈ (zns_aor_dec_open n).imp_open_zones := hmem
    simp only [zns_unlink_zone, QTAILQ_IN_USE, zns_get_zone_state, hz]
    simp [hmem2]
    rfl
  simp only [zns_close_zone, zns_assign_zone_state, hu1, hu2]
  rfl

/-- `zns_auto_transition_zone` keeps the invariant and the configuration, and
leaves every zone that is not implicitly open alone. -/
theorem inv_auto_transition (n : FemuCtrl) (hI : Inv n) :
    Inv (zns_auto_transition_zone n) ∧ SameConfig (zns_auto_transition_zone n) n ∧
    (∀ j, (zoneAt n j).zs ≠ .IMPLICITLY_OPEN →
      zoneAt (zns_auto_transition_zone n) j = zoneAt n j) := by
  unfold zns_auto_transition_zone
  split
  · cases himp : n.imp_open_zones with
    | nil => exact ⟨hI, SameConfig.refl n, fun _ _ => rfl⟩
    | cons idx rest =>
      simp only []
      have hmem : idx ∈ n.imp_open_zones := by rw [himp]; exact List.mem_cons_self idx rest
      have hlen : idx < n.zone_array.length := ((hI.linked.imp idx).1 hmem).1
      have hst : (zoneAt n idx).zs = .IMPLICITLY_OPEN := ((hI.linked.imp idx).1 hmem).2
      have heq := auto_transition_eq_close n idx rest hI.linked himp
      rw [himp] at heq
      rw [heq]
      have hc := inv_close_zone n idx hI hlen
      rw [hst] at hc
      refine ⟨hc.1, hc.2, ?_⟩
      intro j hj
      have hne : idx ≠ j := by
        intro he
        rw [← he] at hj
        exact hj hst
      simp only [zns_close_zone]
      rw [zoneAt_assign_ne _ idx j _ hne]
      rfl
  · exact ⟨hI, SameConfig.refl n, fun _ _ => rfl⟩

/-- `zns_auto_open_zone` keeps the invariant whatever its status, and leaves
the zone it is called for alone when that zone is EMPTY or CLOSED. -/
theorem inv_auto_open (n : FemuCtrl) (idx : Nat) (hI : Inv n) :
    Inv (zns_auto_open_zone n idx).1 ∧ SameConfig (zns_auto_open_zone n idx).1 n ∧
    (zoneAt (zns_auto_open_zone n idx).1 idx).zs = (zoneAt n idx).zs ∧
    ((zns_auto_open_zone n idx).2 = NVME_SUCCESS →
      ((zoneAt n idx).zs = .EMPTY → zns_aor_check (zns_auto_open_zone n idx).1 1 1 = NVME_SUCCESS) ∧
      ((zoneAt n idx).zs = .CLOSED → zns_aor_check (zns_auto_open_zone n idx).1 0 1 = NVME_SUCCESS)) := by
  obtain ⟨t1, t2, t3⟩ := inv_auto_transition n hI
  unfold zns_auto_open_zone
  simp only [zns_get_zone_state]
  by_cases h1 : (zoneAt n idx).zs = .EMPTY
  · simp only [h1, if_true]
    refine ⟨t1, t2, ?_, ?_⟩
    · rw [t3 idx (by rw [h1]; decide), h1]
    · intro hs
      exact ⟨fun _ => hs, fun hc => absurd hc (by decide)⟩
  · by_cases h2 : (zoneAt n idx).zs = .CLOSED
    · simp only [h2, reduceCtorEq, if_false, if_true]
      refine ⟨t1, t2, ?_, ?_⟩
      · rw [t3 idx (by rw [h2]; decide), h2]
      · intro hs
        exact ⟨fun hc => absurd hc (by decide), fun _ => hs⟩
    · rw [if_neg h1, if_neg h2]
      exact ⟨hI, SameConfig.refl n, rfl, fun _ => ⟨fun hc => absurd hc h1, fun hc => absurd hc h2⟩⟩

/-- `zns_advance_zone_wp` keeps the invariant when the resource check of the
state of the zone has passed. -/
theorem inv_advance (n : FemuCtrl) (idx nlb : Nat) (hI : Inv n)
    (hlen : idx < n.zone_array.length)
    (hE : (zoneAt n idx).zs = .EMPTY → zns_aor_check n 1 1 = NVME_SUCCESS)
    (hC : (zoneAt n idx).zs = .CLOSED → zns_aor_check n 0 1 = NVME_SUCCESS) :
    Inv (zns_advance_zone_wp n idx nlb).1 ∧ SameConfig (zns_advance_zone_wp n idx nlb).1 n := by
  have hS1 : SameShape (setZone n idx
      { zoneAt n idx with w_ptr := ((zoneAt n idx).w_ptr + nlb) % U64 }) n :=
    sameShape_setZone n idx _ (by rfl)
  have hC1 : SameConfig (setZone n idx
      { zoneAt n idx with w_ptr := ((zoneAt n idx).w_ptr + nlb) % U64 }) n :=
    sameConfig_setZone n idx _
  have hI1 : Inv (setZone n idx
      { zoneAt n idx with w_ptr := ((zoneAt n idx).w_ptr + nlb) % U64 }) :=
    inv_of_sameShape hI hS1 rfl rfl
  have hzs : (zoneAt (setZone n idx
      { zoneAt n idx with w_ptr := ((zoneAt n idx).w_ptr + nlb) % U64 }) idx).zs
      = (zoneAt n idx).zs := hS1.2.1 idx
  have hO1 : (setZone n idx
      { zoneAt n idx with w_ptr := ((zoneAt n idx).w_ptr + nlb) % U64 }).nr_open_zones
      = n.nr_open_zones := rfl
  have hA1 : (setZone n idx
      { zoneAt n idx with w_ptr := ((zoneAt n idx).w_ptr + nlb) % U64 }).nr_active_zones
      = n.nr_active_zones := rfl
  have hlim := hI.limits
  unfold zns_advance_zone_wp
  simp only [zns_get_zone_state]
  generalize setZone n idx
      { zoneAt n idx with w_ptr := ((zoneAt n idx).w_ptr + nlb) % U64 } = n1
    at hS1 hC1 hI1 hzs hO1 hA1 ⊢
  split
  · rw [hzs]
    cases hz : (zoneAt n idx).zs
    case EMPTY =>
      simp only []
      have c := aor_check_success n 1 1 (by decide) (by decide) (hE hz)
      refine ⟨inv_assign idx .IMPLICITLY_OPEN hI
        ((sameShape_inc_open _).chain ((sameShape_inc_active _).chain hS1)) hlen ?_ ?_ ?_,
        (sameConfig_assign _ _ _).trans
          ((sameConfig_inc_open _).trans ((sameConfig_inc_active _).trans hC1))⟩
      · rw [hz]; simp [isOpenState, zns_aor_inc_open, zns_aor_inc_active, hO1]
      · rw [hz]; simp [isActiveState, zns_aor_inc_open, zns_aor_inc_active, hA1]
      · simp only [zns_aor_inc_active, zns_aor_inc_open, AorLimits, hO1, hA1,
          hS1.2.2.2.2.2.2.2.1, hS1.2.2.2.2.2.2.2.2] at c ⊢
        constructor
        · rcases c.2 with c | c
          · exact Or.inl c
          · exact Or.inr (by omega)
        · rcases c.1 with c | c
          · exact Or.inl c
          · exact Or.inr (by omega)
    case CLOSED =>
      simp only []
      have c := aor_check_success n 0 1 (by decide) (by decide) (hC hz)
      refine ⟨inv_assign idx .IMPLICITLY_OPEN hI
        ((sameShape_inc_open _).chain hS1) hlen ?_ ?_ ?_,
        (sameConfig_assign _ _ _).trans ((sameConfig_inc_open _).trans hC1)⟩
      · rw [hz]; simp [isOpenState, zns_aor_inc_open, hO1]
      · rw [hz]; simp [isActiveState, zns_aor_inc_open, hA1]
      · unfold AorLimits at hlim
        simp only [zns_aor_inc_open, AorLimits, hO1, hA1,
          hS1.2.2.2.2.2.2.2.1, hS1.2.2.2.2.2.2.2.2] at c ⊢
        constructor
        · rcases c.2 with c | c
          · exact Or.inl c
          · exact Or.inr (by omega)
        · exact hlim.2
    all_goals
      simp only []
      exact ⟨hI1, hC1⟩
  · exact ⟨hI1, hC1⟩

theorem get_zone_by_slba_lt (n : FemuCtrl) (slba idx : Nat)
    (h : zns_get_zone_by_slba n slba = some idx) : idx < n.num_zones := by
  unfold zns_get_zone_by_slba at h
  simp only [] at h
  split at h
  · simp only [Option.some.injEq] at h
    omega
  · exact Option.noConfusion h

theorem nonzero_false (st : NvmeStatus) (h : ¬ st.nonzero = true) : st = NVME_SUCCESS := by
  unfold NvmeStatus.nonzero at h
  simpa using h

/-- Completion of a write keeps the invariant. -/
theorem inv_finalize (n : FemuCtrl) (c : NvmeCmd) (failed : Bool) (res : Option Nat)
    (r : FemuCtrl × Option Nat) (hI : Inv n)
    (h : zns_finalize_zoned_write n c failed res = some r) :
    Inv r.1 ∧ SameConfig r.1 n := by
  unfold zns_finalize_zoned_write at h
  simp only [] at h
  split at h
  · exact Option.noConfusion h
  · rename_i idx hidx
    have hlen : idx < n.zone_array.length := by
      have := get_zone_by_slba_lt n _ idx hidx
      rw [hI.len]; exact this
    have hS1 : SameShape (setZone n idx
        { zoneAt n idx with wp := ((zoneAt n idx).wp + (cmd_nlb c + 1) % U32) % U64 }) n :=
      sameShape_setZone n idx _ (by rfl)
    have hC1 : SameConfig (setZone n idx
        { zoneAt n idx with wp := ((zoneAt n idx).wp + (cmd_nlb c + 1) % U32) % U64 }) n :=
      sameConfig_setZone n idx _
    have hI1 : Inv (setZone n idx
        { zoneAt n idx with wp := ((zoneAt n idx).wp + (cmd_nlb c + 1) % U32) % U64 }) :=
      inv_of_sameShape hI hS1 rfl rfl
    have hzs : (zoneAt (setZone n idx
        { zoneAt n idx with wp := ((zoneAt n idx).wp + (cmd_nlb c + 1) % U32) % U64 }) idx).zs
        = (zoneAt n idx).zs := hS1.2.1 idx
    have hO1 : (setZone n idx
        { zoneAt n idx with wp := ((zoneAt n idx).wp + (cmd_nlb c + 1) % U32) % U64 }).nr_open_zones
        = n.nr_open_zones := rfl
    have hA1 : (setZone n idx
        { zoneAt n idx with wp := ((zoneAt n idx).wp + (cmd_nlb c + 1) % U32) % U64 }).nr_active_zones
        = n.nr_active_zones := rfl
    simp only [zns_get_zone_state] at h
    generalize setZone n idx
        { zoneAt n idx with wp := ((zoneAt n idx).wp + (cmd_nlb c + 1) % U32) % U64 } = n1
      at hS1 hC1 hI1 hzs hO1 hA1 h
    have fin : ∀ m : FemuCtrl, SameShape m n1 → SameConfig m n1 →
        m.nr_open_zones = n.nr_open_zones - isOpenState (zoneAt n idx).zs →
        m.nr_active_zones = n.nr_active_zones - isActiveState (zoneAt n idx).zs →
        Inv (zns_assign_zone_state m idx .FULL) ∧
          SameConfig (zns_assign_zone_state m idx .FULL) n := by
      intro m hSm hCm hO hA
      have hSmn : SameShape m n := hSm.chain hS1
      refine ⟨inv_assign idx .FULL hI hSmn hlen ?_ ?_ ?_,
        (sameConfig_assign _ _ _).trans (hCm.trans hC1)⟩
      · simp [hO, isOpenState]
      · simp [hA, isActiveState]
      · apply limits_of_le hI.limits hSmn.2.2.2.2.2.2.2.1 hSmn.2.2.2.2.2.2.2.2
        · rw [hO]; unfold isOpenState; split <;> omega
        · rw [hA]; unfold isActiveState; split <;> omega
    split at h
    · rw [hzs] at h
      cases hz : (zoneAt n idx).zs <;> rw [hz] at h <;> simp only [] at h
      case EMPTY =>
        simp only [Option.some.injEq] at h
        rw [← h]
        exact fin n1 (SameShape.same n1) (SameConfig.refl n1)
          (by rw [hz, hO1]; simp [isOpenState]) (by rw [hz, hA1]; simp [isActiveState])
      case CLOSED =>
        simp only [Option.some.injEq] at h
        rw [← h]
        exact fin _ (sameShape_dec_active n1) (sameConfig_dec_active n1)
          (by rw [hz]; simp [isOpenState, zns_aor_dec_active, hO1])
          (by rw [hz]; simp [isActiveState, zns_aor_dec_active, hA1])
      case IMPLICITLY_OPEN =>
        simp only [Option.some.injEq] at h
        rw [← h]
        exact fin _ ((sameShape_dec_active _).chain (sameShape_dec_open n1))
          ((sameConfig_dec_active _).trans (sameConfig_dec_open n1))
          (by rw [hz]; simp [isOpenState, zns_aor_dec_active, zns_aor_dec_open, hO1])
          (by rw [hz]; simp [isActiveState, zns_aor_dec_active, zns_aor_dec_open, hA1])
      case EXPLICITLY_OPEN =>
        simp only [Option.some.injEq] at h
        rw [← h]
        exact fin _ ((sameShape_dec_active _).chain (sameShape_dec_open n1))
          ((sameConfig_dec_active _).trans (sameConfig_dec_open n1))
          (by rw [hz]; simp [isOpenState, zns_aor_dec_active, zns_aor_dec_open, hO1])
          (by rw [hz]; simp [isActiveState, zns_aor_dec_active, zns_aor_dec_open, hA1])
      case FULL =>
        simp only [Option.some.injEq] at h
        rw [← h]
        exact ⟨hI1, hC1⟩
      all_goals exact Option.noConfusion h
    · simp only [Option.some.injEq] at h
      rw [← h]
      exact ⟨hI1, hC1⟩

/-- The resource check, the submission and the completion of a write keep
the invariant, whether or not the data pointer maps. -/
theorem inv_write_tail (n : FemuCtrl) (c : NvmeCmd) (idx nlb : Nat) (hI : Inv n)
    (hlen : idx < n.zone_array.length) :
    Inv (zns_auto_open_zone n idx).1 ∧ SameConfig (zns_auto_open_zone n idx).1 n ∧
    ((zns_auto_open_zone n idx).2 = NVME_SUCCESS →
      Inv (zns_advance_zone_wp (zns_auto_open_zone n idx).1 idx nlb).1 ∧
      SameConfig (zns_advance_zone_wp (zns_auto_open_zone n idx).1 idx nlb).1 n ∧
      ∀ res f, zns_finalize_zoned_write (zns_advance_zone_wp (zns_auto_open_zone n idx).1 idx nlb).1
          c false res = some f → Inv f.1 ∧ SameConfig f.1 n) := by
  obtain ⟨o1, o2, o3, o4⟩ := inv_auto_open n idx hI
  refine ⟨o1, o2, ?_⟩
  intro hs
  obtain ⟨hE, hC⟩ := o4 hs
  have hlen1 : idx < (zns_auto_open_zone n idx).1.zone_array.length := by
    rw [o2.2.2.2.2.2.2.2.2.2.2.2.2.2.2]; exact hlen
  obtain ⟨a1, a2⟩ := inv_advance (zns_auto_open_zone n idx).1 idx nlb o1 hlen1
    (fun h => hE (by rw [← o3]; exact h)) (fun h => hC (by rw [← o3]; exact h))
  refine ⟨a1, a2.trans o2, ?_⟩
  intro res f hf
  obtain ⟨f1, f2⟩ := inv_finalize _ c false res f a1 hf
  exact ⟨f1, f2.trans (a2.trans o2)⟩

theorem inv_write (n : FemuCtrl) (c : NvmeCmd) (r : FemuCtrl × IoResult) (hI : Inv n)
    (h : zns_write n c = some r) : Inv r.1 ∧ SameConfig r.1 n := by
  unfold zns_write at h
  cases hz1 : zns_get_zone_by_slba n (cmd_slba c) with
  | none =>
    simp only [hz1] at h
    split at h <;> exact Option.noConfusion h
  | some idx =>
    simp only [hz1] at h
    have hlen : idx < n.zone_array.length := by
      have := get_zone_by_slba_lt n _ idx hz1
      rw [hI.len]; exact this
    obtain ⟨t1, t2, t3⟩ := inv_write_tail n c idx (cmd_nlb c + 1) hI hlen
    split at h
    · exact Option.noConfusion h
    · split at h
      · simp only [Option.some.injEq] at h
        rw [← h]; exact ⟨hI, SameConfig.refl n⟩
      · split at h
        · simp only [Option.some.injEq] at h
          rw [← h]; exact ⟨hI, SameConfig.refl n⟩
        · split at h
          · simp only [Option.some.injEq] at h
            rw [← h]; exact ⟨hI, SameConfig.refl n⟩
          · split at h
            · simp only [Option.some.injEq] at h
              rw [← h]; exact ⟨t1, t2⟩
            · rename_i hnz
              obtain ⟨a1, a2, a3⟩ := t3 (nonzero_false _ hnz)
              split at h
              · simp only [Option.some.injEq] at h
                rw [← h]; exact ⟨a1, a2⟩
              · cases hf : zns_finalize_zoned_write
                    (zns_advance_zone_wp (zns_auto_open_zone n idx).1 idx (cmd_nlb c + 1)).1 c false
                    (some (zns_advance_zone_wp (zns_auto_open_zone n idx).1 idx (cmd_nlb c + 1)).2) with
                | none =>
                  rw [hf] at h
                  exact Option.noConfusion h
                | some f =>
                  rw [hf] at h
                  simp only [Option.map_some', Option.some.injEq] at h
                  rw [← h]
                  exact a3 _ f hf

theorem inv_do_write (n : FemuCtrl) (c : NvmeCmd) (append wrz : Bool) (r : FemuCtrl × IoResult)
    (hI : Inv n) (h : zns_do_write n c append wrz = some r) : Inv r.1 ∧ SameConfig r.1 n := by
  unfold zns_do_write at h
  cases hz1 : zns_get_zone_by_slba n (cmd_slba c) with
  | none =>
    simp only [hz1] at h
    exact Option.noConfusion h
  | some idx =>
    simp only [hz1] at h
    have hlen : idx < n.zone_array.length := by
      have := get_zone_by_slba_lt n _ idx hz1
      rw [hI.len]; exact this
    obtain ⟨t1, t2, t3⟩ := inv_write_tail n c idx (cmd_nlb c + 1) hI hlen
    by_cases hs : (zns_auto_open_zone n idx).2 = NVME_SUCCESS
    · obtain ⟨a1, a2, a3⟩ := t3 hs
      repeat' split at h
      all_goals first
        | exact Option.noConfusion h
        | (simp only [Option.some.injEq] at h
           rw [← h]
           first
             | exact ⟨hI, SameConfig.refl n⟩
             | exact ⟨t1, t2⟩
             | exact ⟨a1, a2⟩)
        | (obtain ⟨f, hf, hr⟩ := Option.map_eq_some'.mp h
           rw [← hr]
           exact a3 _ f hf)
    · have hnzs : (zns_auto_open_zone n idx).2.nonzero = true := by
        simp [NvmeStatus.nonzero, hs]
      simp only [hnzs, if_true] at h
      repeat' split at h
      all_goals first
        | exact Option.noConfusion h
        | (simp only [Option.some.injEq] at h
           rw [← h]
           first
             | exact ⟨hI, SameConfig.refl n⟩
             | exact ⟨t1, t2⟩)

/-- A read does not change the controller. -/
theorem read_unchanged (n : FemuCtrl) (c : NvmeCmd) (r : FemuCtrl × IoResult)
    (h : zns_read n c = some r) : r.1 = n := by
  unfold zns_read at h
  simp only [] at h
  split at h
  · exact Option.noConfusion h
  · split at h
    · simp only [Option.some.injEq] at h
      rw [← h]
    · split at h
      · simp only [Option.some.injEq] at h
        rw [← h]
      · split at h
        · exact Option.noConfusion h
        · split at h
          · simp only [Option.some.injEq] at h
            rw [← h]
          · split at h
            · simp only [Option.some.injEq] at h
              rw [← h]
            · simp only [Option.some.injEq] at h
              rw [← h]

/-- A zone management receive does not change the controller. -/
theorem recv_unchanged (n : FemuCtrl) (c : NvmeCmd) (r : FemuCtrl × IoResult)
    (h : zns_zone_mgmt_recv n c = some r) : r.1 = n := by
  unfold zns_zone_mgmt_recv at h
  simp only [] at h
  split at h
  · exact Option.noConfusion h
  · split at h
    · simp only [Option.some.injEq] at h
      rw [← h]
    · split at h
      · simp only [Option.some.injEq] at h
        rw [← h]
      · split at h
        · simp only [Option.some.injEq] at h
          rw [← h]
        · split at h
          · simp only [Option.some.injEq] at h
            rw [← h]
          · split at h
            · simp only [Option.some.injEq] at h
              rw [← h]
            · split at h
              · simp only [Option.some.injEq] at h
                rw [← h]
              · split at h
                · exact Option.noConfusion h
                · simp only [Option.some.injEq] at h
                  rw [← h]

/-- Every I/O command keeps the invariant and the configuration. -/
theorem inv_io_cmd (n : FemuCtrl) (c : NvmeCmd) (r : FemuCtrl × IoResult) (hI : Inv n)
    (h : zns_io_cmd n c = some r) : Inv r.1 ∧ SameConfig r.1 n := by
  unfold zns_io_cmd at h
  split at h
  · rw [read_unchanged n c r h]; exact ⟨hI, SameConfig.refl n⟩
  · split at h
    · exact inv_write n c r hI h
    · split at h
      · cases hs : zns_zone_mgmt_send n c with
        | none =>
          rw [hs] at h
          exact Option.noConfusion h
        | some p =>
          rw [hs] at h
          simp only [Option.map_some', Option.some.injEq] at h
          rw [← h]
          exact inv_mgmt_send n c hI p hs
      · split at h
        · rw [recv_unchanged n c r h]; exact ⟨hI, SameConfig.refl n⟩
        · split at h
          · exact inv_do_write n c true false r hI h
          · simp only [Option.some.injEq] at h
            rw [← h]; exact ⟨hI, SameConfig.refl n⟩

/-! ### The invariant holds after bring-up and in every reachable state -/

theorem init_zone_loop_length (cap capacity : Nat) :
    ∀ k start zs, (zns_init_zone_loop cap capacity k start zs).length = k := by
  intro k
  induction k with
  | zero => intro start zs; rfl
  | succ k ih =>
    intro start zs
    simp only [zns_init_zone_loop, List.length_cons, ih]

theorem init_zone_loop_empty (cap capacity : Nat) :
    ∀ k start zs z, z ∈ zns_init_zone_loop cap capacity k start zs → z.zs = .EMPTY := by
  intro k
  induction k with
  | zero =>
    intro start zs z hz
    simp [zns_init_zone_loop] at hz
  | succ k ih =>
    intro start zs z hz
    simp only [zns_init_zone_loop, List.mem_cons] at hz
    rcases hz with hz | hz
    · rw [hz]
    · exact ih _ _ z hz

/-- After bring-up on a controller whose counters are zero, the invariant
holds: the queues are empty, every zone is EMPTY and the counters are zero. -/
theorem inv_init (n0 n : FemuCtrl) (ho : n0.nr_open_zones = 0) (ha : n0.nr_active_zones = 0)
    (h : zns_init_ns n0 = some n) : Inv n := by
  unfold zns_init_ns at h
  cases hg : zns_init_zone_geometry n0 with
  | none =>
    rw [hg] at h
    exact Option.noConfusion h
  | some g =>
    rw [hg] at h
    simp only [Option.map_some', Option.some.injEq] at h
    have hgd : g = zns_geometry_derive n0 := by
      unfold zns_init_zone_geometry at hg
      repeat' split at hg
      all_goals first
        | exact Option.noConfusion hg
        | (simp only [Option.some.injEq] at hg
           exact hg.symm)
    have hgo : g.nr_open_zones = 0 ∧ g.nr_active_zones = 0 := by
      rw [hgd]
      exact ⟨ho, ha⟩
    have hstate : ∀ i, i < n.zone_array.length → (zoneAt n i).zs = .EMPTY := by
      intro i hi
      rw [← h] at hi ⊢
      simp only [zns_init_zone_identify, zns_init_zoned_state, zoneAt] at hi ⊢
      rw [List.getD_eq_getElem _ _ hi]
      exact init_zone_loop_empty _ _ _ _ _ _ (List.getElem_mem hi)
    have hl1 : n.exp_open_zones = [] := by rw [← h]; rfl
    have hl2 : n.imp_open_zones = [] := by rw [← h]; rfl
    have hl3 : n.closed_zones = [] := by rw [← h]; rfl
    have hl4 : n.full_zones = [] := by rw [← h]; rfl
    have hno : n.nr_open_zones = 0 := by rw [← h]; exact hgo.1
    have hna : n.nr_active_zones = 0 := by rw [← h]; exact hgo.2
    constructor
    · rw [← h]
      simp only [zns_init_zone_identify, zns_init_zoned_state]
      exact init_zone_loop_length _ _ _ _ _
    · constructor
      · intro i
        rw [hl1]
        constructor
        · intro hm; exact absurd hm (List.not_mem_nil i)
        · intro ⟨hi, hs⟩
          rw [hstate i hi] at hs
          exact NvmeZoneState.noConfusion hs
      · intro i
        rw [hl2]
        constructor
        · intro hm; exact absurd hm (List.not_mem_nil i)
        · intro ⟨hi, hs⟩
          rw [hstate i hi] at hs
          exact NvmeZoneState.noConfusion hs
      · intro i
        rw [hl3]
        constructor
        · intro hm; exact absurd hm (List.not_mem_nil i)
        · intro ⟨hi, hs⟩
          rw [hstate i hi] at hs
          exact NvmeZoneState.noConfusion hs
      · intro i
        rw [hl4]
        constructor
        · intro hm; exact absurd hm (List.not_mem_nil i)
        · intro ⟨hi, hs⟩
          rw [hstate i hi] at hs
          exact NvmeZoneState.noConfusion hs
      · rw [hl1]; exact List.nodup_nil
      · rw [hl2]; exact List.nodup_nil
      · rw [hl3]; exact List.nodup_nil
      · rw [hl4]; exact List.nodup_nil
    · unfold AorCounts
      rw [hl1, hl2, hl3, hno, hna]
      exact ⟨rfl, rfl⟩
    · unfold AorLimits
      rw [hno, hna]
      exact ⟨Or.inr (Int.ofNat_nonneg _), Or.inr (Int.ofNat_nonneg _)⟩

/-- The invariant holds in every reachable state. -/
theorem reachable_inv (n : FemuCtrl) (h : Reachable n) : Inv n := by
  induction h with
  | init n0 n _ ho ha h => exact inv_init n0 n ho ha h
  | step n n1 c r _ h ih => exact (inv_io_cmd n c (n1, r) ih h).1

theorem reachable_scenarioCtrl : Reachable scenarioCtrl :=
  Reachable.init scenarioConfig scenarioCtrl (by decide) (by decide) (by decide) (by decide)

/-- C8: in every state reachable from bring-up by reads, writes, appends,
zone management sends and receives, `nr_open_zones` is the number of zones
linked in `exp_open_zones` and `imp_open_zones`, and `nr_active_zones` the
number of zones linked in `exp_open_zones`, `imp_open_zones` and
`closed_zones`; no zone is linked twice. -/
theorem reachable_counters_count_queues (n : FemuCtrl) (h : Reachable n) :
    n.nr_open_zones = ((n.exp_open_zones.length + n.imp_open_zones.length : Nat) : Int) ∧
    n.nr_active_zones =
      ((n.exp_open_zones.length + n.imp_open_zones.length + n.closed_zones.length : Nat) : Int) ∧
    n.exp_open_zones.Nodup ∧ n.imp_open_zones.Nodup ∧ n.closed_zones.Nodup ∧
    (∀ i, i ∈ n.exp_open_zones → i ∉ n.imp_open_zones ∧ i ∉ n.closed_zones) ∧
    (∀ i, i ∈ n.imp_open_zones → i ∉ n.closed_zones) := by
  have hI := reachable_inv n h
  refine ⟨hI.counts.1, hI.counts.2, hI.linked.nd_exp, hI.linked.nd_imp, hI.linked.nd_closed,
    ?_, ?_⟩
  · intro i hi
    have hs := ((hI.linked.exp i).1 hi).2
    constructor
    · intro hm
      have := ((hI.linked.imp i).1 hm).2
      rw [hs] at this
      exact NvmeZoneState.noConfusion this
    · intro hm
      have := ((hI.linked.closed i).1 hm).2
      rw [hs] at this
      exact NvmeZoneState.noConfusion this
  · intro i hi
    have hs := ((hI.linked.imp i).1 hi).2
    intro hm
    have := ((hI.linked.closed i).1 hm).2
    rw [hs] at this
    exact NvmeZoneState.noConfusion this

/-- Witness of C8: the scenario namespace after writes of one block to the
zones 0, 1 and 2 (zone 0 is closed automatically, zones 1 and 2 stay
implicitly open). -/
theorem reachable_counters_count_queues_witness :
    ∃ n, runCmds scenarioCtrl [rwCmd NVME_CMD_WRITE 0 1, rwCmd NVME_CMD_WRITE 8 1,
        rwCmd NVME_CMD_WRITE 16 1] = some n ∧
      n.imp_open_zones = [1, 2] ∧ n.closed_zones = [0] ∧
      n.nr_open_zones = ((n.exp_open_zones.length + n.imp_open_zones.length : Nat) : Int) ∧
      n.nr_active_zones =
        ((n.exp_open_zones.length + n.imp_open_zones.length + n.closed_zones.length : Nat) : Int) ∧
      n.exp_open_zones.Nodup ∧ n.imp_open_zones.Nodup ∧ n.closed_zones.Nodup ∧
      (∀ i, i ∈ n.exp_open_zones → i ∉ n.imp_open_zones ∧ i ∉ n.closed_zones) ∧
      (∀ i, i ∈ n.imp_open_zones → i ∉ n.closed_zones) :=
  ⟨(runCmds scenarioCtrl [rwCmd NVME_CMD_WRITE 0 1, rwCmd NVME_CMD_WRITE 8 1,
      rwCmd NVME_CMD_WRITE 16 1]).getD default, by decide, by decide, by decide,
    reachable_counters_count_queues _
      (reachable_runCmds [rwCmd NVME_CMD_WRITE 0 1, rwCmd NVME_CMD_WRITE 8 1,
        rwCmd NVME_CMD_WRITE 16 1] scenarioCtrl _ reachable_scenarioCtrl (by decide))⟩

/-- C9: in every state reachable from bring-up by any sequence of commands,
either `max_open_zones = 0` or `nr_open_zones ≤ max_open_zones`, and either
`max_active_zones = 0` or `nr_active_zones ≤ max_active_zones`. -/
theorem reachable_within_limits (n : FemuCtrl) (h : Reachable n) :
    (n.max_open_zones = 0 ∨ n.nr_open_zones ≤ (n.max_open_zones : Int)) ∧
    (n.max_active_zones = 0 ∨ n.nr_active_zones ≤ (n.max_active_zones : Int)) :=
  (reachable_inv n h).limits

/-- Witness of C9: the scenario namespace (at most 2 open and 3 active
zones) after explicit opens of the zones 0 and 1 and a rejected open of
zone 2. -/
theorem reachable_within_limits_witness :
    ∃ n, runCmds scenarioCtrl [sendCmd NVME_ZONE_ACTION_OPEN 0, sendCmd NVME_ZONE_ACTION_OPEN 8,
        sendCmd NVME_ZONE_ACTION_OPEN 16] = some n ∧
      n.nr_open_zones = 2 ∧ n.max_open_zones = 2 ∧
      (n.max_open_zones = 0 ∨ n.nr_open_zones ≤ (n.max_open_zones : Int)) ∧
      (n.max_active_zones = 0 ∨ n.nr_active_zones ≤ (n.max_active_zones : Int)) :=
  ⟨(runCmds scenarioCtrl [sendCmd NVME_ZONE_ACTION_OPEN 0, sendCmd NVME_ZONE_ACTION_OPEN 8,
      sendCmd NVME_ZONE_ACTION_OPEN 16]).getD default, by decide, by decide, by decide,
    reachable_within_limits _
      (reachable_runCmds [sendCmd NVME_ZONE_ACTION_OPEN 0, sendCmd NVME_ZONE_ACTION_OPEN 8,
        sendCmd NVME_ZONE_ACTION_OPEN 16] scenarioCtrl _ reachable_scenarioCtrl (by decide))⟩

/-! ### Write pointers and the zone capacity -/

theorem reachableAccepted_run (cs : List NvmeCmd) :
    ∀ n n1 : FemuCtrl, ReachableAccepted n → runAccepted n cs = some n1 →
      ReachableAccepted n1 := by
  induction cs with
  | nil =>
    intro n n1 hr h
    simp only [runAccepted, Option.some.injEq] at h
    exact h ▸ hr
  | cons c cs ih =>
    intro n n1 hr h
    unfold runAccepted at h
    cases hc : zns_io_cmd n c with
    | none => rw [hc] at h; exact Option.noConfusion h
    | some p =>
      rw [hc] at h
      simp only [] at h
      split at h
      · rename_i hs
        exact ih p.1 n1 (ReachableAccepted.step n p.1 c p.2 hr hc hs) h
      · exact Option.noConfusion h

theorem reachableAccepted_femuCtrl : ReachableAccepted femuCtrl :=
  ReachableAccepted.init (zns_init_zone_cap femuConfig) femuCtrl (by decide) (by decide)
    (by decide) (by decide)

/-- C10 fails on the code: in the namespace `zns_init` builds (zones of 32768
blocks), a write of 32760 blocks to the empty zone 0 and an append of 20
blocks to the same zone are both accepted; the boundary check of the append
uses the start LBA of the zone, so the append moves `w_ptr` and `wp` to
32780, past `zslba + zcap = 32768`, and the zone stays IMPLICITLY_OPEN. -/
theorem append_past_capacity :
    ∃ n, ReachableAccepted n ∧
      runAccepted femuCtrl [rwCmd NVME_CMD_WRITE 0 32760, rwCmd NVME_CMD_ZONE_APPEND 0 20]
        = some n ∧
      (zoneAt n 0).zs = .IMPLICITLY_OPEN ∧
      (zoneAt n 0).zslba + (zoneAt n 0).zcap = 32768 ∧
      (zoneAt n 0).wp = 32780 ∧ (zoneAt n 0).w_ptr = 32780 ∧
      ¬ ((zoneAt n 0).w_ptr ≤ (zoneAt n 0).zslba + (zoneAt n 0).zcap) :=
  ⟨(runAccepted femuCtrl
      [rwCmd NVME_CMD_WRITE 0 32760, rwCmd NVME_CMD_ZONE_APPEND 0 20]).getD default,
    reachableAccepted_run [rwCmd NVME_CMD_WRITE 0 32760, rwCmd NVME_CMD_ZONE_APPEND 0 20]
      femuCtrl _ reachableAccepted_femuCtrl (by decide),
    by decide, by decide, by decide, by decide, by decide, by decide⟩

/-! ### Queue membership, the write checks and the failed OPEN -/

theorem count_le_one_of_nodup (l : List Nat) (i : Nat) (h : l.Nodup) : l.count i ≤ 1 :=
  List.nodup_iff_count_le_one.mp h i

/-- C14: in every state reachable from bring-up by any commands, a zone index
is linked in `exp_open_zones`, `imp_open_zones`, `closed_zones` or
`full_zones` exactly when it designates a zone in the state EXPLICITLY_OPEN,
IMPLICITLY_OPEN, CLOSED or FULL; a zone in the state EMPTY, READ_ONLY or
OFFLINE is in no queue; and over the four queues a zone is linked at most
once. -/
theorem reachable_zone_linked_by_state (n : FemuCtrl) (h : Reachable n) (i : Nat) :
    (i ∈ n.exp_open_zones ↔ i < n.num_zones ∧ (zoneAt n i).zs = .EXPLICITLY_OPEN) ∧
    (i ∈ n.imp_open_zones ↔ i < n.num_zones ∧ (zoneAt n i).zs = .IMPLICITLY_OPEN) ∧
    (i ∈ n.closed_zones ↔ i < n.num_zones ∧ (zoneAt n i).zs = .CLOSED) ∧
    (i ∈ n.full_zones ↔ i < n.num_zones ∧ (zoneAt n i).zs = .FULL) ∧
    ((zoneAt n i).zs = .EMPTY ∨ (zoneAt n i).zs = .READ_ONLY ∨ (zoneAt n i).zs = .OFFLINE →
      i ∉ n.exp_open_zones ∧ i ∉ n.imp_open_zones ∧ i ∉ n.closed_zones ∧ i ∉ n.full_zones) ∧
    n.exp_open_zones.count i + n.imp_open_zones.count i + n.closed_zones.count i +
      n.full_zones.count i ≤ 1 := by
  have hI := reachable_inv n h
  have hL := hI.linked
  have e := hL.exp i
  have m := hL.imp i
  have c := hL.closed i
  have f := hL.full i
  rw [hI.len] at e m c f
  refine ⟨e, m, c, f, ?_, ?_⟩
  · intro hs
    refine ⟨fun x => ?_, fun x => ?_, fun x => ?_, fun x => ?_⟩
    · have := (e.1 x).2; rw [this] at hs; simp at hs
    · have := (m.1 x).2; rw [this] at hs; simp at hs
    · have := (c.1 x).2; rw [this] at hs; simp at hs
    · have := (f.1 x).2; rw [this] at hs; simp at hs
  · have c1 := count_le_one_of_nodup _ i hL.nd_exp
    have c2 := count_le_one_of_nodup _ i hL.nd_imp
    have c3 := count_le_one_of_nodup _ i hL.nd_closed
    have c4 := count_le_one_of_nodup _ i hL.nd_full
    have z1 : (zoneAt n i).zs ≠ .EXPLICITLY_OPEN → n.exp_open_zones.count i = 0 :=
      fun hne => List.count_eq_zero_of_not_mem (fun x => hne (e.1 x).2)
    have z2 : (zoneAt n i).zs ≠ .IMPLICITLY_OPEN → n.imp_open_zones.count i = 0 :=
      fun hne => List.count_eq_zero_of_not_mem (fun x => hne (m.1 x).2)
    have z3 : (zoneAt n i).zs ≠ .CLOSED → n.closed_zones.count i = 0 :=
      fun hne => List.count_eq_zero_of_not_mem (fun x => hne (c.1 x).2)
    have z4 : (zoneAt n i).zs ≠ .FULL → n.full_zones.count i = 0 :=
      fun hne => List.count_eq_zero_of_not_mem (fun x => hne (f.1 x).2)
    cases hz : (zoneAt n i).zs <;> rw [hz] at z1 z2 z3 z4 <;> simp at z1 z2 z3 z4 <;> omega

/-- After the three writes of scenario S3 zone 0 is CLOSED and linked in
`closed_zones` only. -/
theorem reachable_zone_linked_by_state_witness :
    ∃ n, runCmds scenarioCtrl [rwCmd NVME_CMD_WRITE 0 1, rwCmd NVME_CMD_WRITE 8 1,
        rwCmd NVME_CMD_WRITE 16 1] = some n ∧
      (zoneAt n 0).zs = .CLOSED ∧ n.closed_zones = [0] ∧
      (0 ∈ n.exp_open_zones ↔ 0 < n.num_zones ∧ (zoneAt n 0).zs = .EXPLICITLY_OPEN) ∧
      (0 ∈ n.imp_open_zones ↔ 0 < n.num_zones ∧ (zoneAt n 0).zs = .IMPLICITLY_OPEN) ∧
      (0 ∈ n.closed_zones ↔ 0 < n.num_zones ∧ (zoneAt n 0).zs = .CLOSED) ∧
      (0 ∈ n.full_zones ↔ 0 < n.num_zones ∧ (zoneAt n 0).zs = .FULL) ∧
      ((zoneAt n 0).zs = .EMPTY ∨ (zoneAt n 0).zs = .READ_ONLY ∨ (zoneAt n 0).zs = .OFFLINE →
        0 ∉ n.exp_open_zones ∧ 0 ∉ n.imp_open_zones ∧ 0 ∉ n.closed_zones ∧ 0 ∉ n.full_zones) ∧
      n.exp_open_zones.count 0 + n.imp_open_zones.count 0 + n.closed_zones.count 0 +
        n.full_zones.count 0 ≤ 1 :=
  ⟨(runCmds scenarioCtrl [rwCmd NVME_CMD_WRITE 0 1, rwCmd NVME_CMD_WRITE 8 1,
      rwCmd NVME_CMD_WRITE 16 1]).getD default, by decide, by decide, by decide,
    reachable_zone_linked_by_state _
      (reachable_runCmds [rwCmd NVME_CMD_WRITE 0 1, rwCmd NVME_CMD_WRITE 8 1,
        rwCmd NVME_CMD_WRITE 16 1] scenarioCtrl _ reachable_scenarioCtrl (by decide)) 0⟩

/-- C15: for operands in the 64-bit range (as they are behind
`zns_check_bounds`), `zns_check_zone_write` answers with the first failing
check in the order boundary, zone state (FULL, READ_ONLY, OFFLINE), then for
an append the start LBA and the append size limit (INVALID_FIELD) and for a
write the write pointer (ZONE_INVALID_WRITE); it answers SUCCESS exactly when
no check fails. -/
theorem check_zone_write_order (n : FemuCtrl) (zone : NvmeZone) (slba nlb : Nat) (append : Bool)
    (hs : slba + nlb < U64) (hz : zone.zslba + zone.zcap < U64) (hl : nlb * 2 ^ n.lbads < U64) :
    zns_check_zone_write n zone slba nlb append =
      (if slba + nlb > zone.zslba + zone.zcap then NVME_ZONE_BOUNDARY_ERROR
       else if zone.zs = .FULL then NVME_ZONE_FULL
       else if zone.zs = .READ_ONLY then NVME_ZONE_READ_ONLY
       else if zone.zs = .OFFLINE then NVME_ZONE_OFFLINE
       else if append = true then
         (if slba ≠ zone.zslba ∨ nlb * 2 ^ n.lbads > n.page_size * 2 ^ n.zasl then
            NVME_INVALID_FIELD
          else NVME_SUCCESS)
       else if slba ≠ zone.w_ptr then NVME_ZONE_INVALID_WRITE
       else NVME_SUCCESS) ∧
    (zns_check_zone_write n zone slba nlb append = NVME_SUCCESS ↔
      slba + nlb ≤ zone.zslba + zone.zcap ∧
      zone.zs ≠ .FULL ∧ zone.zs ≠ .READ_ONLY ∧ zone.zs ≠ .OFFLINE ∧
      (append = true → slba = zone.zslba ∧ nlb * 2 ^ n.lbads ≤ n.page_size * 2 ^ n.zasl) ∧
      (append = false → slba = zone.w_ptr)) := by
  have e1 : (slba + nlb) % U64 = slba + nlb := Nat.mod_eq_of_lt hs
  have e2 : zns_zone_wr_boundary zone = zone.zslba + zone.zcap := by
    unfold zns_zone_wr_boundary; exact Nat.mod_eq_of_lt hz
  have e3 : zns_l2b n nlb = nlb * 2 ^ n.lbads := by
    unfold zns_l2b; exact Nat.mod_eq_of_lt hl
  have e4 : n.page_size <<< n.zasl = n.page_size * 2 ^ n.zasl := Nat.shiftLeft_eq _ _
  have key : zns_check_zone_write n zone slba nlb append =
      (if slba + nlb > zone.zslba + zone.zcap then NVME_ZONE_BOUNDARY_ERROR
       else if zone.zs = .FULL then NVME_ZONE_FULL
       else if zone.zs = .READ_ONLY then NVME_ZONE_READ_ONLY
       else if zone.zs = .OFFLINE then NVME_ZONE_OFFLINE
       else if append = true then
         (if slba ≠ zone.zslba ∨ nlb * 2 ^ n.lbads > n.page_size * 2 ^ n.zasl then
            NVME_INVALID_FIELD
          else NVME_SUCCESS)
       else if slba ≠ zone.w_ptr then NVME_ZONE_INVALID_WRITE
       else NVME_SUCCESS) := by
    unfold zns_check_zone_write zns_check_zone_state_for_write zns_get_zone_state
    simp only [e1, e2, e3, e4]
    clear e3 e4 hl
    generalize nlb * 2 ^ n.lbads = A
    generalize n.page_size * 2 ^ n.zasl = B
    by_cases hb : slba + nlb > zone.zslba + zone.zcap
    · simp [hb, NVME_ZONE_BOUNDARY_ERROR, NVME_SUCCESS]
    · simp only [hb, if_false]
      cases hzs : zone.zs <;> cases append <;>
        simp [NVME_ZONE_FULL, NVME_ZONE_READ_ONLY, NVME_ZONE_OFFLINE, NVME_SUCCESS,
          NVME_INVALID_FIELD, NVME_ZONE_INVALID_WRITE] <;>
        (repeat' split) <;> simp_all <;> omega
  refine ⟨key, ?_⟩
  rw [key]
  clear key e3 e4 hl
  generalize nlb * 2 ^ n.lbads = A
  generalize n.page_size * 2 ^ n.zasl = B
  by_cases hb : slba + nlb > zone.zslba + zone.zcap
  · simp [hb, NVME_ZONE_BOUNDARY_ERROR, NVME_SUCCESS]
  · simp only [hb, if_false]
    have hb2 : slba + nlb ≤ zone.zslba + zone.zcap := by omega
    cases hzs : zone.zs <;> cases append <;>
      simp [hb2, NVME_ZONE_FULL, NVME_ZONE_READ_ONLY, NVME_ZONE_OFFLINE, NVME_SUCCESS,
        NVME_INVALID_FIELD, NVME_ZONE_INVALID_WRITE]

/-- Scenario S2: after a write of 4 blocks at LBA 0, a write of 4 blocks at
LBA 3 gets ZONE_INVALID_WRITE; at LBA 4 it passes, and 5 blocks at LBA 4
cross the boundary. -/
theorem check_zone_write_order_witness :
    ∃ n, runCmds scenarioCtrl [rwCmd NVME_CMD_WRITE 0 4] = some n ∧
      3 + 4 < U64 ∧ (zoneAt n 0).zslba + (zoneAt n 0).zcap < U64 ∧ 4 * 2 ^ n.lbads < U64 ∧
      (zoneAt n 0).w_ptr = 4 ∧
      zns_check_zone_write n (zoneAt n 0) 3 4 false = NVME_ZONE_INVALID_WRITE ∧
      zns_check_zone_write n (zoneAt n 0) 4 4 false = NVME_SUCCESS ∧
      zns_check_zone_write n (zoneAt n 0) 4 5 false = NVME_ZONE_BOUNDARY_ERROR :=
  ⟨(runCmds scenarioCtrl [rwCmd NVME_CMD_WRITE 0 4]).getD default, by decide, by decide,
    by decide, by decide, by decide,
    (check_zone_write_order _ _ 3 4 false (by decide) (by decide) (by decide)).1.trans
      (by decide),
    by decide, by decide⟩

/-- Decrementing the active counter undoes the increment. -/
theorem aor_dec_inc_active (n : FemuCtrl) : zns_aor_dec_active (zns_aor_inc_active n) = n := by
  cases n
  simp [zns_aor_dec_active, zns_aor_inc_active]

/-- The OPEN handler either succeeds or gives back the controller record it
was given. -/
theorem open_zone_fail_unchanged (n : FemuCtrl) (idx : Nat) (st : NvmeZoneState) :
    (zns_open_zone n idx st).2 = NVME_SUCCESS ∨ (zns_open_zone n idx st).1 = n := by
  cases st <;> simp only [zns_open_zone, zns_open_zone_from_closed]
  case EMPTY =>
    by_cases h1 : zns_aor_check n 1 0 = NVME_SUCCESS
    · by_cases h2 : zns_aor_check (zns_aor_inc_active n) 0 1 = NVME_SUCCESS
      · left; simp [h1, h2]
      · right; simp [h1, h2, aor_dec_inc_active]
    · right; simp [h1]
  case CLOSED =>
    by_cases h2 : zns_aor_check n 0 1 = NVME_SUCCESS
    · left; simp [h2]
    · right; simp [h2]
  all_goals simp

/-- C20: a single-zone OPEN whose resource check fails returns the status of
the failed check with the do-not-retry bit and the controller record it was
given: the active increment taken for an EMPTY zone is undone, the zone
keeps its state and no other zone is touched.  The command always returns. -/
theorem open_aor_failure_unchanged (n : FemuCtrl) (c : NvmeCmd) (idx : Nat)
    (h : SingleZoneSend n c NVME_ZONE_ACTION_OPEN idx) :
    ((zoneAt n idx).zs = .EMPTY → zns_aor_check n 1 0 ≠ NVME_SUCCESS →
      zns_zone_mgmt_send n c = some (n, (zns_aor_check n 1 0).orDNR)) ∧
    ((zoneAt n idx).zs = .EMPTY → zns_aor_check n 1 0 = NVME_SUCCESS →
      zns_aor_check (zns_aor_inc_active n) 0 1 ≠ NVME_SUCCESS →
      zns_zone_mgmt_send n c = some (n, (zns_aor_check (zns_aor_inc_active n) 0 1).orDNR)) ∧
    ((zoneAt n idx).zs = .CLOSED → zns_aor_check n 0 1 ≠ NVME_SUCCESS →
      zns_zone_mgmt_send n c = some (n, (zns_aor_check n 0 1).orDNR)) ∧
    (∃ n1 st, zns_zone_mgmt_send n c = some (n1, st)) ∧
    (∀ n1 st, zns_zone_mgmt_send n c = some (n1, st) →
      st.sc = .ZONE_TOO_MANY_ACTIVE ∨ st.sc = .ZONE_TOO_MANY_OPEN → n1 = n) := by
  have hm := mgmt_send_open n c idx h
  refine ⟨?_, ?_, ?_, ?_, ?_⟩
  · intro hz h1
    rw [hm, hz]
    simp [zns_mgmt_send_exit, zns_open_zone, h1, NvmeStatus.nonzero]
  · intro hz h1 h2
    rw [hm, hz]
    simp [zns_mgmt_send_exit, zns_open_zone, zns_open_zone_from_closed, h1, h2,
      NvmeStatus.nonzero, aor_dec_inc_active]
  · intro hz h2
    rw [hm, hz]
    simp [zns_mgmt_send_exit, zns_open_zone, zns_open_zone_from_closed, h2, NvmeStatus.nonzero]
  · rw [hm]
    exact ⟨_, _, rfl⟩
  · intro n1 st hs hst
    rw [hm] at hs
    simp only [zns_mgmt_send_exit, Option.map_some', Option.some.injEq, Prod.mk.injEq] at hs
    obtain ⟨hn1, hst1⟩ := hs
    rcases open_zone_fail_unchanged n idx (zoneAt n idx).zs with hok | hsame
    · rw [hok] at hst1
      simp [NvmeStatus.nonzero] at hst1
      rw [← hst1] at hst
      simp [NVME_SUCCESS] at hst
    · rw [← hn1, hsame]

/-- Scenario S4: with zones 0 and 1 explicitly open (the open limit is 2),
the OPEN of zone 2 gets ZONE_TOO_MANY_OPEN and the state is unchanged. -/
theorem open_aor_failure_unchanged_witness :
    ∃ n, runCmds scenarioCtrl [sendCmd NVME_ZONE_ACTION_OPEN 0, sendCmd NVME_ZONE_ACTION_OPEN 8]
        = some n ∧
      SingleZoneSend n (sendCmd NVME_ZONE_ACTION_OPEN 16) NVME_ZONE_ACTION_OPEN 2 ∧
      (zoneAt n 2).zs = .EMPTY ∧
      n.exp_open_zones = [0, 1] ∧
      zns_aor_check (zns_aor_inc_active n) 0 1 = NVME_ZONE_TOO_MANY_OPEN.orDNR ∧
      zns_zone_mgmt_send n (sendCmd NVME_ZONE_ACTION_OPEN 16) =
        some (n, (zns_aor_check (zns_aor_inc_active n) 0 1).orDNR) :=
  ⟨(runCmds scenarioCtrl
      [sendCmd NVME_ZONE_ACTION_OPEN 0, sendCmd NVME_ZONE_ACTION_OPEN 8]).getD default,
    by decide, by decide, by decide, by decide, by decide,
    (open_aor_failure_unchanged _ (sendCmd NVME_ZONE_ACTION_OPEN 16) 2 (by decide)).2.1
      (by decide) (by decide) (by decide)⟩

/-! ### The write path: submission, completion and eviction -/

/-- The counter helpers do not touch the zone records. -/
theorem zoneAt_inc_open (n : FemuCtrl) (j : Nat) : zoneAt (zns_aor_inc_open n) j = zoneAt n j := rfl

theorem zoneAt_dec_open (n : FemuCtrl) (j : Nat) : zoneAt (zns_aor_dec_open n) j = zoneAt n j := rfl

theorem zoneAt_inc_active (n : FemuCtrl) (j : Nat) :
    zoneAt (zns_aor_inc_active n) j = zoneAt n j := rfl

theorem zoneAt_dec_active (n : FemuCtrl) (j : Nat) :
    zoneAt (zns_aor_dec_active n) j = zoneAt n j := rfl

/-- The effect of `zns_advance_zone_wp`: the result, the record of the zone,
the other zones, the counters and the configuration. -/
theorem advance_spec (n : FemuCtrl) (idx nlb : Nat) (hlen : idx < n.zone_array.length) :
    (zns_advance_zone_wp n idx nlb).2 = (zoneAt n idx).w_ptr ∧
    zoneAt (zns_advance_zone_wp n idx nlb).1 idx = advanceZone (zoneAt n idx) nlb ∧
    (∀ j, idx ≠ j → zoneAt (zns_advance_zone_wp n idx nlb).1 j = zoneAt n j) ∧
    (zns_advance_zone_wp n idx nlb).1.nr_open_zones =
      n.nr_open_zones - isOpenState (zoneAt n idx).zs +
        isOpenState (advanceZone (zoneAt n idx) nlb).zs ∧
    (zns_advance_zone_wp n idx nlb).1.nr_active_zones =
      n.nr_active_zones - isActiveState (zoneAt n idx).zs +
        isActiveState (advanceZone (zoneAt n idx) nlb).zs ∧
    SameConfig (zns_advance_zone_wp n idx nlb).1 n := by
  have hz1 := zoneAt_setZone_same n idx
    { zoneAt n idx with w_ptr := ((zoneAt n idx).w_ptr + nlb) % U64 } hlen
  have hC1 := sameConfig_setZone n idx
    { zoneAt n idx with w_ptr := ((zoneAt n idx).w_ptr + nlb) % U64 }
  have hne1 : ∀ j, idx ≠ j → zoneAt (setZone n idx
      { zoneAt n idx with w_ptr := ((zoneAt n idx).w_ptr + nlb) % U64 }) j = zoneAt n j :=
    fun j hj => zoneAt_setZone_ne n idx j _ hj
  have hl1 : idx < (setZone n idx
      { zoneAt n idx with w_ptr := ((zoneAt n idx).w_ptr + nlb) % U64 }).zone_array.length := by
    rw [length_setZone]; exact hlen
  have hO1 : (setZone n idx
      { zoneAt n idx with w_ptr := ((zoneAt n idx).w_ptr + nlb) % U64 }).nr_open_zones
      = n.nr_open_zones := rfl
  have hA1 : (setZone n idx
      { zoneAt n idx with w_ptr := ((zoneAt n idx).w_ptr + nlb) % U64 }).nr_active_zones
      = n.nr_active_zones := rfl
  unfold zns_advance_zone_wp
  simp only [zns_get_zone_state]
  generalize setZone n idx
      { zoneAt n idx with w_ptr := ((zoneAt n idx).w_ptr + nlb) % U64 } = n1
    at hz1 hC1 hne1 hl1 hO1 hA1 ⊢
  rw [hz1]
  have hb : zns_zone_wr_boundary
      { zoneAt n idx with w_ptr := ((zoneAt n idx).w_ptr + nlb) % U64 }
      = zns_zone_wr_boundary (zoneAt n idx) := rfl
  simp only [hb]
  generalize hzz : zoneAt n idx = z at hz1 ⊢
  by_cases hlt : (z.w_ptr + nlb) % U64 < zns_zone_wr_boundary z
  · simp only [hlt, if_true]
    cases hzs : z.zs with
    | EMPTY =>
      simp only []
      have hl2 : idx < (zns_aor_inc_open (zns_aor_inc_active n1)).zone_array.length := hl1
      refine ⟨trivial, ?_, ?_, ?_, ?_, ?_⟩
      · rw [zoneAt_assign_same _ idx _ hl2, zoneAt_inc_open, zoneAt_inc_active, hz1]
        simp [advanceZone, hlt, hzs]
      · intro j hj
        rw [zoneAt_assign_ne _ idx j _ hj, zoneAt_inc_open, zoneAt_inc_active, hne1 j hj]
      · rw [(assign_frame _ idx _).1]
        simp [advanceZone, hlt, hzs, isOpenState, zns_aor_inc_open, zns_aor_inc_active, hO1]
      · rw [(assign_frame _ idx _).2.1]
        simp [advanceZone, hlt, hzs, isActiveState, zns_aor_inc_open, zns_aor_inc_active, hA1]
      · exact (sameConfig_assign _ _ _).trans
          ((sameConfig_inc_open _).trans ((sameConfig_inc_active _).trans hC1))
    | CLOSED =>
      simp only []
      have hl2 : idx < (zns_aor_inc_open n1).zone_array.length := hl1
      refine ⟨trivial, ?_, ?_, ?_, ?_, ?_⟩
      · rw [zoneAt_assign_same _ idx _ hl2, zoneAt_inc_open, hz1]
        simp [advanceZone, hlt, hzs]
      · intro j hj
        rw [zoneAt_assign_ne _ idx j _ hj, zoneAt_inc_open, hne1 j hj]
      · rw [(assign_frame _ idx _).1]
        simp [advanceZone, hlt, hzs, isOpenState, zns_aor_inc_open, hO1]
      · rw [(assign_frame _ idx _).2.1]
        simp [advanceZone, hlt, hzs, isActiveState, zns_aor_inc_open, hA1]
      · exact (sameConfig_assign _ _ _).trans ((sameConfig_inc_open _).trans hC1)
    | _ =>
      simp only []
      refine ⟨trivial, ?_, hne1, ?_, ?_, hC1⟩
      · rw [hz1]; simp [advanceZone, hlt, hzs]
      · simp [advanceZone, hlt, hzs, hO1]
      · simp [advanceZone, hlt, hzs, hA1]
  · simp only [hlt, if_false]
    refine ⟨trivial, ?_, hne1, ?_, ?_, hC1⟩
    · rw [hz1]; simp [advanceZone, hlt]
    · simp [advanceZone, hlt, hO1]
    · simp [advanceZone, hlt, hA1]

/-- The zero-based block count of a command is a 16-bit value. -/
theorem cmd_nlb_lt (c : NvmeCmd) : cmd_nlb c < 65536 := by
  unfold cmd_nlb
  exact Nat.mod_lt _ (by norm_num)

theorem cmd_nlb_u32 (c : NvmeCmd) : (cmd_nlb c + 1) % U32 = cmd_nlb c + 1 := by
  have := cmd_nlb_lt c
  apply Nat.mod_eq_of_lt
  unfold U32
  omega

/-- A status word with the do-not-retry bit is not zero. -/
theorem orDNR_ne_success (st : NvmeStatus) : st.orDNR ≠ NVME_SUCCESS := by
  intro h
  have := congrArg NvmeStatus.dnr h
  simp [NvmeStatus.orDNR, NVME_SUCCESS] at this

/-- The zone lookup reads the configuration only. -/
theorem get_zone_by_slba_congr {a b : FemuCtrl} (h : SameConfig a b) (slba : Nat) :
    zns_get_zone_by_slba a slba = zns_get_zone_by_slba b slba := by
  obtain ⟨_, h2, h3, _, h5, _⟩ := h
  simp only [zns_get_zone_by_slba, zns_zone_idx, h2, h3, h5]

/-- The effect of `zns_finalize_zoned_write` on a zone that is neither
READ_ONLY nor OFFLINE: it returns, and the record of the zone, the other
zones, the counters and the configuration are as stated. -/
theorem finalize_spec (n : FemuCtrl) (c : NvmeCmd) (failed : Bool) (res : Option Nat) (idx : Nat)
    (hidx : zns_get_zone_by_slba n (cmd_slba c) = some idx)
    (hlen : idx < n.zone_array.length)
    (hst : (zoneAt n idx).zs ≠ .READ_ONLY ∧ (zoneAt n idx).zs ≠ .OFFLINE) :
    ∃ f, zns_finalize_zoned_write n c failed res = some (f, if failed then some 0 else res) ∧
      zoneAt f idx = finalizeZone (zoneAt n idx) (cmd_nlb c + 1) ∧
      (∀ j, idx ≠ j → zoneAt f j = zoneAt n j) ∧
      f.nr_open_zones = n.nr_open_zones - isOpenState (zoneAt n idx).zs +
        isOpenState (finalizeZone (zoneAt n idx) (cmd_nlb c + 1)).zs ∧
      f.nr_active_zones = n.nr_active_zones - isActiveState (zoneAt n idx).zs +
        isActiveState (finalizeZone (zoneAt n idx) (cmd_nlb c + 1)).zs ∧
      SameConfig f n ∧
      ((finalizeZone (zoneAt n idx) (cmd_nlb c + 1)).zs = (zoneAt n idx).zs →
        f.imp_open_zones = n.imp_open_zones) := by
  have hz1 := zoneAt_setZone_same n idx
    { zoneAt n idx with wp := ((zoneAt n idx).wp + (cmd_nlb c + 1)) % U64 } hlen
  have hC1 := sameConfig_setZone n idx
    { zoneAt n idx with wp := ((zoneAt n idx).wp + (cmd_nlb c + 1)) % U64 }
  have hne1 : ∀ j, idx ≠ j → zoneAt (setZone n idx
      { zoneAt n idx with wp := ((zoneAt n idx).wp + (cmd_nlb c + 1)) % U64 }) j = zoneAt n j :=
    fun j hj => zoneAt_setZone_ne n idx j _ hj
  have hl1 : idx < (setZone n idx
      { zoneAt n idx with wp := ((zoneAt n idx).wp + (cmd_nlb c + 1)) % U64 }).zone_array.length := by
    rw [length_setZone]; exact hlen
  have hO1 : (setZone n idx
      { zoneAt n idx with wp := ((zoneAt n idx).wp + (cmd_nlb c + 1)) % U64 }).nr_open_zones
      = n.nr_open_zones := rfl
  have hA1 : (setZone n idx
      { zoneAt n idx with wp := ((zoneAt n idx).wp + (cmd_nlb c + 1)) % U64 }).nr_active_zones
      = n.nr_active_zones := rfl
  have hM1 : (setZone n idx
      { zoneAt n idx with wp := ((zoneAt n idx).wp + (cmd_nlb c + 1)) % U64 }).imp_open_zones
      = n.imp_open_zones := rfl
  unfold zns_finalize_zoned_write
  simp only [hidx, zns_get_zone_state, cmd_nlb_u32]
  generalize setZone n idx
      { zoneAt n idx with wp := ((zoneAt n idx).wp + (cmd_nlb c + 1)) % U64 } = n1
    at hz1 hC1 hne1 hl1 hO1 hA1 hM1 ⊢
  rw [hz1]
  have hb : zns_zone_wr_boundary
      { zoneAt n idx with wp := ((zoneAt n idx).wp + (cmd_nlb c + 1)) % U64 }
      = zns_zone_wr_boundary (zoneAt n idx) := rfl
  simp only [hb]
  generalize hzz : zoneAt n idx = z at hz1 hst ⊢
  generalize cmd_nlb c + 1 = nlb at hz1 ⊢
  by_cases heq : (z.wp + nlb) % U64 = zns_zone_wr_boundary z
  · simp only [heq, if_true]
    have fin : ∀ m : FemuCtrl, m.zone_array.length = n1.zone_array.length →
        (∀ j, zoneAt m j = zoneAt n1 j) → SameConfig m n1 →
        zoneAt (zns_assign_zone_state m idx .FULL) idx = finalizeZone z nlb ∧
        (∀ j, idx ≠ j → zoneAt (zns_assign_zone_state m idx .FULL) j = zoneAt n j) ∧
        SameConfig (zns_assign_zone_state m idx .FULL) n := by
      intro m hml hmz hmc
      refine ⟨?_, ?_, (sameConfig_assign _ _ _).trans (hmc.trans hC1)⟩
      · rw [zoneAt_assign_same _ idx _ (by rw [hml]; exact hl1), hmz, hz1]
        simp [finalizeZone, heq]
      · intro j hj
        rw [zoneAt_assign_ne _ idx j _ hj, hmz, hne1 j hj]
    cases hzs : z.zs with
    | EMPTY =>
      simp only []
      obtain ⟨f1, f2, f3⟩ := fin n1 rfl (fun _ => rfl) (SameConfig.refl n1)
      refine ⟨_, rfl, f1, f2, ?_, ?_, f3, ?_⟩
      · rw [(assign_frame _ idx _).1]
        simp [finalizeZone, heq, hzs, isOpenState, hO1]
      · rw [(assign_frame _ idx _).2.1]
        simp [finalizeZone, heq, hzs, isActiveState, hA1]
      · intro hc
        simp [finalizeZone, heq, hzs] at hc
    | CLOSED =>
      simp only []
      obtain ⟨f1, f2, f3⟩ := fin (zns_aor_dec_active n1) rfl (fun _ => rfl)
        (sameConfig_dec_active n1)
      refine ⟨_, rfl, f1, f2, ?_, ?_, f3, ?_⟩
      · rw [(assign_frame _ idx _).1]
        simp [finalizeZone, heq, hzs, isOpenState, zns_aor_dec_active, hO1]
      · rw [(assign_frame _ idx _).2.1]
        simp [finalizeZone, heq, hzs, isActiveState, zns_aor_dec_active, hA1]
      · intro hc
        simp [finalizeZone, heq, hzs] at hc
    | IMPLICITLY_OPEN =>
      simp only []
      obtain ⟨f1, f2, f3⟩ := fin (zns_aor_dec_active (zns_aor_dec_open n1)) rfl (fun _ => rfl)
        ((sameConfig_dec_active _).trans (sameConfig_dec_open n1))
      refine ⟨_, rfl, f1, f2, ?_, ?_, f3, ?_⟩
      · rw [(assign_frame _ idx _).1]
        simp [finalizeZone, heq, hzs, isOpenState, zns_aor_dec_active, zns_aor_dec_open, hO1]
      · rw [(assign_frame _ idx _).2.1]
        simp [finalizeZone, heq, hzs, isActiveState, zns_aor_dec_active, zns_aor_dec_open, hA1]
      · intro hc
        simp [finalizeZone, heq, hzs] at hc
    | EXPLICITLY_OPEN =>
      simp only []
      obtain ⟨f1, f2, f3⟩ := fin (zns_aor_dec_active (zns_aor_dec_open n1)) rfl (fun _ => rfl)
        ((sameConfig_dec_active _).trans (sameConfig_dec_open n1))
      refine ⟨_, rfl, f1, f2, ?_, ?_, f3, ?_⟩
      · rw [(assign_frame _ idx _).1]
        simp [finalizeZone, heq, hzs, isOpenState, zns_aor_dec_active, zns_aor_dec_open, hO1]
      · rw [(assign_frame _ idx _).2.1]
        simp [finalizeZone, heq, hzs, isActiveState, zns_aor_dec_active, zns_aor_dec_open, hA1]
      · intro hc
        simp [finalizeZone, heq, hzs] at hc
    | FULL =>
      simp only []
      refine ⟨_, rfl, ?_, hne1, ?_, ?_, hC1, fun _ => hM1⟩
      · rw [hz1]
        simp [finalizeZone, heq, hzs]
      · simp [finalizeZone, heq, hzs, hO1]
      · simp [finalizeZone, heq, hzs, hA1]
    | READ_ONLY => exact absurd hzs hst.1
    | OFFLINE => exact absurd hzs hst.2
  · simp only [heq, if_false]
    refine ⟨_, rfl, ?_, hne1, ?_, ?_, hC1, fun _ => hM1⟩
    · rw [hz1]; simp [finalizeZone, heq]
    · simp [finalizeZone, heq, hO1]
    · simp [finalizeZone, heq, hA1]

theorem cmd_slba_lt (c : NvmeCmd) : cmd_slba c < U64 := by
  unfold cmd_slba U64
  apply Nat.or_lt_two_pow
  · rw [Nat.shiftLeft_eq]
    have : c.cdw11 % U32 < U32 := Nat.mod_lt _ (by unfold U32; norm_num)
    unfold U32 at this ⊢
    omega
  · have : c.cdw10 % U32 < U32 := Nat.mod_lt _ (by unfold U32; norm_num)
    unfold U32 at this ⊢
    omega

/-- A command in range ends inside the 64-bit LBA space. -/
theorem check_bounds_success (n : FemuCtrl) (c : NvmeCmd) (nlb : Nat)
    (h : zns_check_bounds n (cmd_slba c) nlb = NVME_SUCCESS) :
    cmd_slba c + nlb < U64 ∧ cmd_slba c + nlb ≤ n.nsze := by
  have hl := cmd_slba_lt c
  unfold zns_check_bounds at h
  split at h
  · exact absurd h (orDNR_ne_success _)
  · rename_i hn
    omega

/-- What a passed zone check tells. -/
theorem check_zone_write_success (n : FemuCtrl) (z : NvmeZone) (slba nlb : Nat) (append : Bool)
    (h : zns_check_zone_write n z slba nlb append = NVME_SUCCESS) :
    (slba + nlb) % U64 ≤ zns_zone_wr_boundary z ∧
    (z.zs = .EMPTY ∨ z.zs = .IMPLICITLY_OPEN ∨ z.zs = .EXPLICITLY_OPEN ∨ z.zs = .CLOSED) ∧
    (append = true → slba = z.zslba) ∧ (append = false → slba = z.w_ptr) := by
  unfold zns_check_zone_write zns_check_zone_state_for_write zns_get_zone_state at h
  by_cases hb : (slba + nlb) % U64 > zns_zone_wr_boundary z
  · simp [hb, NVME_ZONE_BOUNDARY_ERROR, NVME_SUCCESS] at h
  · simp only [hb, if_false] at h
    refine ⟨by omega, ?_⟩
    cases hzs : z.zs <;> rw [hzs] at h <;> cases append <;>
      simp [NVME_ZONE_FULL, NVME_ZONE_READ_ONLY, NVME_ZONE_OFFLINE, NVME_SUCCESS,
        NVME_INVALID_FIELD, NVME_ZONE_INVALID_WRITE] at h ⊢ <;>
      first
        | exact h
        | (by_contra hc; simp [hc] at h)

/-- Without an open limit, below it, or without an implicitly open zone,
`zns_auto_transition_zone` does nothing. -/
theorem auto_transition_noevict (n : FemuCtrl)
    (h : n.max_open_zones = 0 ∨ n.nr_open_zones ≠ (n.max_open_zones : Int) ∨
      n.imp_open_zones = []) :
    zns_auto_transition_zone n = n := by
  unfold zns_auto_transition_zone
  split
  · rename_i hc
    rcases h with h | h | h
    · exact absurd h hc.1
    · exact absurd hc.2 h
    · rw [h]
  · rfl

/-- At the open limit `zns_auto_transition_zone` closes the head of the
implicitly open queue and nothing else. -/
theorem auto_transition_evict (n : FemuCtrl) (hI : Inv n) (h1 : n.max_open_zones ≠ 0)
    (h2 : n.nr_open_zones = (n.max_open_zones : Int)) (hd : Nat) (rest : List Nat)
    (himp : n.imp_open_zones = hd :: rest) :
    hd < n.zone_array.length ∧ (zoneAt n hd).zs = .IMPLICITLY_OPEN ∧
    zoneAt (zns_auto_transition_zone n) hd = { zoneAt n hd with zs := .CLOSED } ∧
    (∀ j, hd ≠ j → zoneAt (zns_auto_transition_zone n) j = zoneAt n j) ∧
    (zns_auto_transition_zone n).nr_open_zones = n.nr_open_zones - 1 ∧
    (zns_auto_transition_zone n).nr_active_zones = n.nr_active_zones ∧
    (zns_auto_transition_zone n).imp_open_zones = rest := by
  have hmem : hd ∈ n.imp_open_zones := by rw [himp]; exact List.mem_cons_self hd rest
  have hlen : hd < n.zone_array.length := ((hI.linked.imp hd).1 hmem).1
  have hst : (zoneAt n hd).zs = .IMPLICITLY_OPEN := ((hI.linked.imp hd).1 hmem).2
  have heq := auto_transition_eq_close n hd rest hI.linked himp
  have hat : zns_auto_transition_zone n = (zns_close_zone n hd .IMPLICITLY_OPEN).1 := by
    unfold zns_auto_transition_zone
    rw [if_pos ⟨h1, h2⟩, himp]
    simp only []
    rw [himp] at heq
    exact heq
  rw [hat]
  simp only [zns_close_zone]
  have hl2 : hd < (zns_aor_dec_open n).zone_array.length := hlen
  refine ⟨hlen, hst, ?_, ?_, ?_, ?_, ?_⟩
  · rw [zoneAt_assign_same _ hd _ hl2, zoneAt_dec_open]
    simp
  · intro j hj
    rw [zoneAt_assign_ne _ hd j _ hj, zoneAt_dec_open]
  · rw [(assign_frame _ hd _).1]; rfl
  · rw [(assign_frame _ hd _).2.1]; rfl
  · have hL : Linked (zns_aor_dec_open n) :=
      linked_congr hI.linked rfl (fun _ => rfl) rfl rfl rfl rfl
    rw [(assign_lists _ hd .CLOSED hL).2.1]
    have : (zns_aor_dec_open n).imp_open_zones = hd :: rest := himp
    rw [this]
    simp

theorem auto_open_eq (n : FemuCtrl) (idx : Nat) :
    zns_auto_open_zone n idx =
      if (zoneAt n idx).zs = .EMPTY then
        (zns_auto_transition_zone n, zns_aor_check (zns_auto_transition_zone n) 1 1)
      else if (zoneAt n idx).zs = .CLOSED then
        (zns_auto_transition_zone n, zns_aor_check (zns_auto_transition_zone n) 0 1)
      else (n, NVME_SUCCESS) := rfl

/-- The resource check leaves the record of the zone it is called for alone. -/
theorem auto_open_zone_same (n : FemuCtrl) (idx : Nat) (hI : Inv n) :
    zoneAt (zns_auto_open_zone n idx).1 idx = zoneAt n idx := by
  obtain ⟨_, _, t3⟩ := inv_auto_transition n hI
  rw [auto_open_eq]
  by_cases h1 : (zoneAt n idx).zs = .EMPTY
  · rw [if_pos h1]
    exact t3 idx (by rw [h1]; decide)
  · rw [if_neg h1]
    by_cases h2 : (zoneAt n idx).zs = .CLOSED
    · rw [if_pos h2]
      exact t3 idx (by rw [h2]; decide)
    · rw [if_neg h2]

/-- A valid write whose resource check passes runs submission and
completion. -/
theorem do_write_valid (n : FemuCtrl) (c : NvmeCmd) (append : Bool) (idx : Nat)
    (hv : WriteValid n c append idx) (ho : (zns_auto_open_zone n idx).2 = NVME_SUCCESS) :
    zns_do_write n c append false =
      (zns_finalize_zoned_write
        (zns_advance_zone_wp (zns_auto_open_zone n idx).1 idx (cmd_nlb c + 1)).1 c false
        (some (zns_advance_zone_wp (zns_auto_open_zone n idx).1 idx (cmd_nlb c + 1)).2)).map
        (fun f => (f.1, ⟨NVME_SUCCESS, f.2, none⟩)) := by
  obtain ⟨h0, h1, h2, h3, h5⟩ := hv
  unfold zns_do_write
  simp [h0, h1, h2, h3, ho, h5, NvmeStatus.nonzero]

/-- An accepted write passed every check. -/
theorem do_write_accepted (n : FemuCtrl) (c : NvmeCmd) (append : Bool) (n1 : FemuCtrl)
    (r : IoResult) (h : zns_do_write n c append false = some (n1, r))
    (hs : r.status = NVME_SUCCESS) :
    ∃ idx, WriteValid n c append idx ∧ (zns_auto_open_zone n idx).2 = NVME_SUCCESS := by
  unfold zns_do_write at h
  cases hz1 : zns_get_zone_by_slba n (cmd_slba c) with
  | none =>
    simp only [hz1] at h
    exact Option.noConfusion h
  | some idx =>
    simp only [hz1] at h
    refine ⟨idx, ?_⟩
    by_cases c1 : nvme_check_mdts n (zns_l2b n (cmd_nlb c + 1)) = NVME_SUCCESS
    · by_cases c2 : zns_check_bounds n (cmd_slba c) (cmd_nlb c + 1) = NVME_SUCCESS
      · by_cases c3 : zns_check_zone_write n (zoneAt n idx) (cmd_slba c) (cmd_nlb c + 1) append
            = NVME_SUCCESS
        · by_cases c4 : (zns_auto_open_zone n idx).2 = NVME_SUCCESS
          · by_cases c5 : zns_map_dptr c = NVME_SUCCESS
            · exact ⟨⟨hz1, c1, c2, c3, c5⟩, c4⟩
            · exfalso
              simp [c1, c2, c3, c4, c5, NvmeStatus.nonzero] at h
              obtain ⟨_, h2⟩ := h
              subst h2
              exact orDNR_ne_success _ hs
          · exfalso
            simp [c1, c2, c3, c4, NvmeStatus.nonzero] at h
            obtain ⟨_, h2⟩ := h
            subst h2
            exact orDNR_ne_success _ hs
        · exfalso
          simp [c1, c2, c3, NvmeStatus.nonzero] at h
          obtain ⟨_, h2⟩ := h
          subst h2
          exact orDNR_ne_success _ hs
      · exfalso
        simp [c1, c2, NvmeStatus.nonzero] at h
        obtain ⟨_, h2⟩ := h
        subst h2
        exact orDNR_ne_success _ hs
    · exfalso
      simp [c1, NvmeStatus.nonzero] at h
      obtain ⟨_, h2⟩ := h
      subst h2
      exact orDNR_ne_success _ hs

/-- On a zoned controller `zns_write` is `zns_do_write` without append and
without write-zeroes. -/
theorem write_eq_do_write (n : FemuCtrl) (c : NvmeCmd) (hz : n.zoned = true) :
    zns_write n c = zns_do_write n c false false := by
  unfold zns_write zns_do_write
  simp [hz]

theorem zoneAt_default (n : FemuCtrl) (idx : Nat) (h : n.zone_array.length ≤ idx) :
    zoneAt n idx = default := by
  unfold zoneAt
  exact List.getD_eq_default _ _ h

theorem advanceZone_state (z : NvmeZone) (nlb : Nat) :
    (advanceZone z nlb).zs = z.zs ∨ (advanceZone z nlb).zs = .IMPLICITLY_OPEN := by
  unfold advanceZone
  split
  · right; rfl
  · left; rfl

/-- Submission and completion of a write on the controller `m` the resource
check left, for a zone whose record the check did not touch. -/
theorem write_tail_spec (n m : FemuCtrl) (c : NvmeCmd) (idx : Nat) (hCm : SameConfig m n)
    (hz : zoneAt m idx = zoneAt n idx) (hlen : idx < n.zone_array.length)
    (hidx : zns_get_zone_by_slba n (cmd_slba c) = some idx)
    (hw : (zoneAt n idx).zs = .EMPTY ∨ (zoneAt n idx).zs = .IMPLICITLY_OPEN ∨
      (zoneAt n idx).zs = .EXPLICITLY_OPEN ∨ (zoneAt n idx).zs = .CLOSED) :
    ∃ n1, zns_finalize_zoned_write (zns_advance_zone_wp m idx (cmd_nlb c + 1)).1 c false
          (some (zns_advance_zone_wp m idx (cmd_nlb c + 1)).2) =
        some (n1, some (zoneAt n idx).w_ptr) ∧
      zoneAt (zns_advance_zone_wp m idx (cmd_nlb c + 1)).1 idx =
        advanceZone (zoneAt n idx) (cmd_nlb c + 1) ∧
      zoneAt n1 idx =
        finalizeZone (advanceZone (zoneAt n idx) (cmd_nlb c + 1)) (cmd_nlb c + 1) ∧
      (∀ j, idx ≠ j → zoneAt n1 j = zoneAt m j) ∧
      n1.nr_open_zones = m.nr_open_zones - isOpenState (zoneAt n idx).zs +
        isOpenState (zoneAt n1 idx).zs ∧
      n1.nr_active_zones = m.nr_active_zones - isActiveState (zoneAt n idx).zs +
        isActiveState (zoneAt n1 idx).zs ∧
      SameConfig n1 n ∧
      ((zoneAt n1 idx).zs = (advanceZone (zoneAt n idx) (cmd_nlb c + 1)).zs →
        n1.imp_open_zones = (zns_advance_zone_wp m idx (cmd_nlb c + 1)).1.imp_open_zones) := by
  have hlm : idx < m.zone_array.length := by
    rw [hCm.2.2.2.2.2.2.2.2.2.2.2.2.2.2]; exact hlen
  obtain ⟨a1, a2, a3, a4, a5, a6⟩ := advance_spec m idx (cmd_nlb c + 1) hlm
  rw [hz] at a1 a2 a4 a5
  have hla : idx < (zns_advance_zone_wp m idx (cmd_nlb c + 1)).1.zone_array.length := by
    rw [a6.2.2.2.2.2.2.2.2.2.2.2.2.2.2]; exact hlm
  have hia : zns_get_zone_by_slba (zns_advance_zone_wp m idx (cmd_nlb c + 1)).1 (cmd_slba c)
      = some idx := by
    rw [get_zone_by_slba_congr (a6.trans hCm)]; exact hidx
  have hsa : (zoneAt (zns_advance_zone_wp m idx (cmd_nlb c + 1)).1 idx).zs ≠ .READ_ONLY ∧
      (zoneAt (zns_advance_zone_wp m idx (cmd_nlb c + 1)).1 idx).zs ≠ .OFFLINE := by
    rw [a2]
    rcases advanceZone_state (zoneAt n idx) (cmd_nlb c + 1) with e | e <;> rw [e]
    · rcases hw with h | h | h | h <;> rw [h] <;> decide
    · decide
  obtain ⟨f, f1, f2, f3, f4, f5, f6, f7⟩ := finalize_spec _ c false
    (some (zns_advance_zone_wp m idx (cmd_nlb c + 1)).2) idx hia hla hsa
  rw [a2] at f2 f4 f5 f7
  refine ⟨f, ?_, a2, f2, ?_, ?_, ?_, f6.trans (a6.trans hCm), ?_⟩
  · rw [f1, a1]; rfl
  · intro j hj
    rw [f3 j hj, a3 j hj]
  · rw [f4, a4, f2]; ring
  · rw [f5, a5, f2]; ring
  · intro hc
    rw [f2] at hc
    exact f7 hc

theorem auto_open_noevict (n : FemuCtrl) (idx : Nat)
    (h : n.max_open_zones = 0 ∨ n.nr_open_zones ≠ (n.max_open_zones : Int) ∨
      n.imp_open_zones = []) :
    (zns_auto_open_zone n idx).1 = n := by
  rw [auto_open_eq]
  have := auto_transition_noevict n h
  split
  · exact this
  · split
    · exact this
    · rfl

/-- A command with the opcode of a write or of an append runs `zns_do_write`
when it returns. -/
theorem io_cmd_do_write (n : FemuCtrl) (c : NvmeCmd) (append : Bool) (p : FemuCtrl × IoResult)
    (hop : c.opcode = if append then NVME_CMD_ZONE_APPEND else NVME_CMD_WRITE)
    (h : zns_io_cmd n c = some p) : zns_do_write n c append false = some p := by
  cases append
  · simp only [Bool.false_eq_true, if_false] at hop
    have e : zns_io_cmd n c = zns_write n c := by
      unfold zns_io_cmd
      rw [hop]
      simp [NVME_CMD_WRITE, NVME_CMD_READ]
    rw [e] at h
    by_cases hz : n.zoned = true
    · rw [← write_eq_do_write n c hz]; exact h
    · unfold zns_write at h
      simp [hz] at h
  · simp only [if_true] at hop
    have e : zns_io_cmd n c = zns_zone_append n c := by
      unfold zns_io_cmd
      rw [hop]
      simp [NVME_CMD_WRITE, NVME_CMD_READ, NVME_CMD_ZONE_APPEND, NVME_CMD_ZONE_MGMT_SEND,
        NVME_CMD_ZONE_MGMT_RECV]
    rw [e] at h
    exact h

theorem do_write_io_cmd (n : FemuCtrl) (c : NvmeCmd) (append : Bool) (hz : n.zoned = true)
    (hop : c.opcode = if append then NVME_CMD_ZONE_APPEND else NVME_CMD_WRITE) :
    zns_io_cmd n c = zns_do_write n c append false := by
  cases append
  · simp only [Bool.false_eq_true, if_false] at hop
    rw [← write_eq_do_write n c hz]
    unfold zns_io_cmd
    rw [hop]
    simp [NVME_CMD_WRITE, NVME_CMD_READ]
  · simp only [if_true] at hop
    unfold zns_io_cmd
    rw [hop]
    simp [NVME_CMD_WRITE, NVME_CMD_READ, NVME_CMD_ZONE_APPEND, NVME_CMD_ZONE_MGMT_SEND,
      NVME_CMD_ZONE_MGMT_RECV, zns_zone_append]

/-- An accepted write or append without eviction: the result in terms of the
record of the written zone. -/
theorem write_accepted_noevict (n : FemuCtrl) (c : NvmeCmd) (append : Bool) (idx : Nat)
    (n1 : FemuCtrl) (r : IoResult)
    (hop : c.opcode = if append then NVME_CMD_ZONE_APPEND else NVME_CMD_WRITE)
    (hidx : zns_get_zone_by_slba n (cmd_slba c) = some idx)
    (hlen : idx < n.zone_array.length)
    (h : zns_io_cmd n c = some (n1, r)) (hs : r.status = NVME_SUCCESS)
    (hev : n.max_open_zones = 0 ∨ n.nr_open_zones < (n.max_open_zones : Int)) :
    WriteValid n c append idx ∧
    r.slba = some (zoneAt n idx).w_ptr ∧
    zoneAt n1 idx =
      finalizeZone (advanceZone (zoneAt n idx) (cmd_nlb c + 1)) (cmd_nlb c + 1) ∧
    (∀ j, idx ≠ j → zoneAt n1 j = zoneAt n j) ∧
    n1.nr_open_zones = n.nr_open_zones - isOpenState (zoneAt n idx).zs +
      isOpenState (zoneAt n1 idx).zs ∧
    n1.nr_active_zones = n.nr_active_zones - isActiveState (zoneAt n idx).zs +
      isActiveState (zoneAt n1 idx).zs := by
  have hd := io_cmd_do_write n c append (n1, r) hop h
  obtain ⟨idx', hv, ho⟩ := do_write_accepted n c append n1 r hd hs
  have hi : idx' = idx := by
    have := hv.1
    rw [hidx] at this
    exact (Option.some.inj this).symm
  subst hi
  have hne : (zns_auto_open_zone n idx').1 = n :=
    auto_open_noevict n idx' (by
      rcases hev with e | e
      · exact Or.inl e
      · exact Or.inr (Or.inl (by omega)))
  have hw := (check_zone_write_success n _ _ _ _ hv.2.2.2.1).2.1
  have hdv := do_write_valid n c append idx' hv ho
  rw [hne] at hdv
  obtain ⟨f, f0, _, f2, f3, f4, f5, _, _⟩ :=
    write_tail_spec n n c idx' (SameConfig.refl n) rfl hlen hidx hw
  rw [f0, hd] at hdv
  simp only [Option.map_some', Option.some.injEq, Prod.mk.injEq] at hdv
  obtain ⟨e1, e2⟩ := hdv
  subst e1
  subst e2
  exact ⟨hv, rfl, f2, f3, f4, f5⟩

/-- The record of a zone after a write that does not fill it. -/
theorem zone_not_filling (z : NvmeZone) (nlb : Nat) (hcap : z.zslba + z.zcap < U64)
    (hfill : z.w_ptr + nlb < z.zslba + z.zcap) (hwp : z.wp ≤ z.w_ptr) :
    finalizeZone (advanceZone z nlb) nlb =
      { z with
        w_ptr := z.w_ptr + nlb
        wp := z.wp + nlb
        zs := if z.zs = .EMPTY ∨ z.zs = .CLOSED then .IMPLICITLY_OPEN else z.zs } := by
  have hb : zns_zone_wr_boundary z = z.zslba + z.zcap := Nat.mod_eq_of_lt hcap
  have e1 : (z.w_ptr + nlb) % U64 = z.w_ptr + nlb := Nat.mod_eq_of_lt (by omega)
  have e2 : (z.wp + nlb) % U64 = z.wp + nlb := Nat.mod_eq_of_lt (by omega)
  have ha : advanceZone z nlb =
      { z with
        w_ptr := z.w_ptr + nlb
        zs := if z.zs = .EMPTY ∨ z.zs = .CLOSED then .IMPLICITLY_OPEN else z.zs } := by
    unfold advanceZone
    rw [e1, hb]
    by_cases hs : z.zs = .EMPTY ∨ z.zs = .CLOSED
    · rw [if_pos ⟨hfill, hs⟩, if_pos hs]
    · rw [if_neg (fun h => hs h.2), if_neg hs]
  rw [ha]
  unfold finalizeZone
  have hb2 : ∀ (w : Nat) (st : NvmeZoneState),
      zns_zone_wr_boundary { z with w_ptr := w, zs := st } = z.zslba + z.zcap := fun _ _ => hb
  rw [hb2]
  simp only [e2]
  rw [if_neg (by omega)]

/-- The record of a zone after the write that fills it. -/
theorem zone_filling (z : NvmeZone) (nlb : Nat) (hcap : z.zslba + z.zcap < U64)
    (hfill : z.w_ptr + nlb = z.zslba + z.zcap) (hwp : z.wp = z.w_ptr) :
    finalizeZone (advanceZone z nlb) nlb =
      { z with w_ptr := z.zslba + z.zcap, wp := z.zslba + z.zcap, zs := .FULL } := by
  have hb : zns_zone_wr_boundary z = z.zslba + z.zcap := Nat.mod_eq_of_lt hcap
  have e1 : (z.w_ptr + nlb) % U64 = z.zslba + z.zcap := by
    rw [hfill]; exact Nat.mod_eq_of_lt hcap
  have ha : advanceZone z nlb = { z with w_ptr := z.zslba + z.zcap } := by
    unfold advanceZone
    rw [e1, hb]
    rw [if_neg (fun h => Nat.lt_irrefl _ h.1)]
  rw [ha]
  unfold finalizeZone
  have hb2 : ∀ (w : Nat),
      zns_zone_wr_boundary { z with w_ptr := w } = z.zslba + z.zcap := fun _ => hb
  rw [hb2]
  simp only [hwp, e1, if_true]

theorem lt_length_of_capacity (n : FemuCtrl) (idx : Nat)
    (h : 0 < (zoneAt n idx).zslba + (zoneAt n idx).zcap) : idx < n.zone_array.length := by
  by_contra hc
  rw [zoneAt_default n idx (by omega)] at h
  exact absurd h (by decide)

/-- C17: an accepted write or append of `nlb` blocks that does not fill the
zone (`w_ptr + nlb < zslba + zcap`) and triggers no eviction (`max_open_zones`
is 0 or `nr_open_zones` is below it), on a zone whose `wp` has not passed
`w_ptr`: the response carries the old `w_ptr`, `w_ptr` and `wp` each grow by
`nlb`, an EMPTY zone becomes IMPLICITLY_OPEN with both counters incremented,
a CLOSED zone becomes IMPLICITLY_OPEN with only `nr_open_zones`
incremented, and an open zone keeps its state and both counters. -/
theorem write_not_filling (n : FemuCtrl) (c : NvmeCmd) (append : Bool) (idx : Nat)
    (n1 : FemuCtrl) (r : IoResult)
    (hop : c.opcode = if append then NVME_CMD_ZONE_APPEND else NVME_CMD_WRITE)
    (hidx : zns_get_zone_by_slba n (cmd_slba c) = some idx)
    (h : zns_io_cmd n c = some (n1, r)) (hs : r.status = NVME_SUCCESS)
    (hcap : (zoneAt n idx).zslba + (zoneAt n idx).zcap < U64)
    (hfill : (zoneAt n idx).w_ptr + (cmd_nlb c + 1) < (zoneAt n idx).zslba + (zoneAt n idx).zcap)
    (hwp : (zoneAt n idx).wp ≤ (zoneAt n idx).w_ptr)
    (hev : n.max_open_zones = 0 ∨ n.nr_open_zones < (n.max_open_zones : Int)) :
    r.slba = some (zoneAt n idx).w_ptr ∧
    (zoneAt n1 idx).w_ptr = (zoneAt n idx).w_ptr + (cmd_nlb c + 1) ∧
    (zoneAt n1 idx).wp = (zoneAt n idx).wp + (cmd_nlb c + 1) ∧
    ((zoneAt n idx).zs = .EMPTY →
      (zoneAt n1 idx).zs = .IMPLICITLY_OPEN ∧
      n1.nr_active_zones = n.nr_active_zones + 1 ∧ n1.nr_open_zones = n.nr_open_zones + 1) ∧
    ((zoneAt n idx).zs = .CLOSED →
      (zoneAt n1 idx).zs = .IMPLICITLY_OPEN ∧
      n1.nr_open_zones = n.nr_open_zones + 1 ∧ n1.nr_active_zones = n.nr_active_zones) ∧
    ((zoneAt n idx).zs = .IMPLICITLY_OPEN ∨ (zoneAt n idx).zs = .EXPLICITLY_OPEN →
      (zoneAt n1 idx).zs = (zoneAt n idx).zs ∧
      n1.nr_open_zones = n.nr_open_zones ∧ n1.nr_active_zones = n.nr_active_zones) := by
  have hlen := lt_length_of_capacity n idx (by omega)
  obtain ⟨_, w1, w2, _, w4, w5⟩ := write_accepted_noevict n c append idx n1 r hop hidx hlen h hs hev
  rw [zone_not_filling _ _ hcap hfill hwp] at w2
  rw [w2] at w4 w5
  refine ⟨w1, by rw [w2], by rw [w2], ?_, ?_, ?_⟩
  · intro hz
    rw [w2, w4, w5, hz]
    simp [isOpenState, isActiveState]
  · intro hz
    rw [w2, w4, w5, hz]
    simp [isOpenState, isActiveState]
  · intro hz
    rw [w2, w4, w5]
    rcases hz with hz | hz <;> rw [hz] <;> simp [isOpenState, isActiveState]

/-- Scenario S5: the append of 3 blocks to the empty zone 0 answers with
LBA 0 and leaves the zone IMPLICITLY_OPEN with `wp = w_ptr = 3`. -/
theorem write_not_filling_witness :
    ∃ n1 r, zns_io_cmd scenarioCtrl (rwCmd NVME_CMD_ZONE_APPEND 0 3) = some (n1, r) ∧
      (zoneAt scenarioCtrl 0).zs = .EMPTY ∧ (zoneAt scenarioCtrl 0).w_ptr = 0 ∧
      cmd_nlb (rwCmd NVME_CMD_ZONE_APPEND 0 3) + 1 = 3 ∧
      r.slba = some (zoneAt scenarioCtrl 0).w_ptr ∧
      (zoneAt n1 0).w_ptr =
        (zoneAt scenarioCtrl 0).w_ptr + (cmd_nlb (rwCmd NVME_CMD_ZONE_APPEND 0 3) + 1) ∧
      (zoneAt n1 0).wp =
        (zoneAt scenarioCtrl 0).wp + (cmd_nlb (rwCmd NVME_CMD_ZONE_APPEND 0 3) + 1) ∧
      (zoneAt n1 0).zs = .IMPLICITLY_OPEN ∧
      n1.nr_active_zones = scenarioCtrl.nr_active_zones + 1 ∧
      n1.nr_open_zones = scenarioCtrl.nr_open_zones + 1 :=
  have w := write_not_filling scenarioCtrl (rwCmd NVME_CMD_ZONE_APPEND 0 3) true 0
    ((zns_io_cmd scenarioCtrl (rwCmd NVME_CMD_ZONE_APPEND 0 3)).getD default).1
    ((zns_io_cmd scenarioCtrl (rwCmd NVME_CMD_ZONE_APPEND 0 3)).getD default).2
    (by decide) (by decide) (by decide) (by decide) (by decide) (by decide) (by decide)
    (by decide)
  ⟨((zns_io_cmd scenarioCtrl (rwCmd NVME_CMD_ZONE_APPEND 0 3)).getD default).1,
    ((zns_io_cmd scenarioCtrl (rwCmd NVME_CMD_ZONE_APPEND 0 3)).getD default).2,
    by decide, by decide, by decide, by decide, w.1, w.2.1, w.2.2.1,
    w.2.2.2.1 (by decide)⟩

/-- On a zone whose two write pointers agree (`wp = w_ptr`), an accepted
write or append of `nlb` blocks with `w_ptr + nlb = zslba + zcap` that
triggers no eviction leaves the zone FULL with `wp = w_ptr = zslba + zcap`;
both counters drop by one if the zone was open, only `nr_active_zones` if it
was CLOSED, and none if it was EMPTY. -/
theorem write_filling (n : FemuCtrl) (c : NvmeCmd) (append : Bool) (idx : Nat)
    (n1 : FemuCtrl) (r : IoResult)
    (hop : c.opcode = if append then NVME_CMD_ZONE_APPEND else NVME_CMD_WRITE)
    (hidx : zns_get_zone_by_slba n (cmd_slba c) = some idx)
    (h : zns_io_cmd n c = some (n1, r)) (hs : r.status = NVME_SUCCESS)
    (hcap : (zoneAt n idx).zslba + (zoneAt n idx).zcap < U64)
    (hfill : (zoneAt n idx).w_ptr + (cmd_nlb c + 1) = (zoneAt n idx).zslba + (zoneAt n idx).zcap)
    (hwp : (zoneAt n idx).wp = (zoneAt n idx).w_ptr)
    (hev : n.max_open_zones = 0 ∨ n.nr_open_zones < (n.max_open_zones : Int)) :
    (zoneAt n1 idx).zs = .FULL ∧
    (zoneAt n1 idx).wp = (zoneAt n idx).zslba + (zoneAt n idx).zcap ∧
    (zoneAt n1 idx).w_ptr = (zoneAt n idx).zslba + (zoneAt n idx).zcap ∧
    ((zoneAt n idx).zs = .IMPLICITLY_OPEN ∨ (zoneAt n idx).zs = .EXPLICITLY_OPEN →
      n1.nr_open_zones = n.nr_open_zones - 1 ∧ n1.nr_active_zones = n.nr_active_zones - 1) ∧
    ((zoneAt n idx).zs = .CLOSED →
      n1.nr_open_zones = n.nr_open_zones ∧ n1.nr_active_zones = n.nr_active_zones - 1) ∧
    ((zoneAt n idx).zs = .EMPTY →
      n1.nr_open_zones = n.nr_open_zones ∧ n1.nr_active_zones = n.nr_active_zones) := by
  have hlen := lt_length_of_capacity n idx (by omega)
  obtain ⟨_, _, w2, _, w4, w5⟩ := write_accepted_noevict n c append idx n1 r hop hidx hlen h hs hev
  rw [zone_filling _ _ hcap hfill hwp] at w2
  rw [w2] at w4 w5
  refine ⟨by rw [w2], by rw [w2], by rw [w2], ?_, ?_, ?_⟩
  · intro hz
    rw [w4, w5]
    rcases hz with hz | hz <;> rw [hz] <;> simp [isOpenState, isActiveState]
  · intro hz
    rw [w4, w5, hz]
    simp [isOpenState, isActiveState]
  · intro hz
    rw [w4, w5, hz]
    simp [isOpenState, isActiveState]

/-- Scenario S1: the write of 8 blocks to the empty zone 0 of the fresh
scenario namespace leaves the zone FULL with `wp = 8` and both counters 0. -/
theorem write_filling_witness :
    ∃ n1 r, zns_io_cmd scenarioCtrl (rwCmd NVME_CMD_WRITE 0 8) = some (n1, r) ∧
      (zoneAt scenarioCtrl 0).zs = .EMPTY ∧
      (zoneAt scenarioCtrl 0).zslba + (zoneAt scenarioCtrl 0).zcap = 8 ∧
      scenarioCtrl.nr_open_zones = 0 ∧ scenarioCtrl.nr_active_zones = 0 ∧
      (zoneAt n1 0).zs = .FULL ∧
      (zoneAt n1 0).wp = (zoneAt scenarioCtrl 0).zslba + (zoneAt scenarioCtrl 0).zcap ∧
      (zoneAt n1 0).w_ptr = (zoneAt scenarioCtrl 0).zslba + (zoneAt scenarioCtrl 0).zcap ∧
      n1.nr_open_zones = scenarioCtrl.nr_open_zones ∧
      n1.nr_active_zones = scenarioCtrl.nr_active_zones :=
  have w := write_filling scenarioCtrl (rwCmd NVME_CMD_WRITE 0 8) false 0
    ((zns_io_cmd scenarioCtrl (rwCmd NVME_CMD_WRITE 0 8)).getD default).1
    ((zns_io_cmd scenarioCtrl (rwCmd NVME_CMD_WRITE 0 8)).getD default).2
    (by decide) (by decide) (by decide) (by decide) (by decide) (by decide) (by decide)
    (by decide)
  ⟨((zns_io_cmd scenarioCtrl (rwCmd NVME_CMD_WRITE 0 8)).getD default).1,
    ((zns_io_cmd scenarioCtrl (rwCmd NVME_CMD_WRITE 0 8)).getD default).2,
    by decide, by decide, by decide, by decide, by decide, w.1, w.2.1, w.2.2.1,
    w.2.2.2.2.2 (by decide)⟩

theorem init_ns_zoned (n0 n : FemuCtrl) (h : zns_init_ns n0 = some n) : n.zoned = n0.zoned := by
  unfold zns_init_ns at h
  obtain ⟨g, hg, hn⟩ := Option.map_eq_some'.mp h
  have hgd : g = zns_geometry_derive n0 := by
    unfold zns_init_zone_geometry at hg
    repeat' split at hg
    all_goals first
      | exact Option.noConfusion hg
      | exact (Option.some.inj hg).symm
  rw [← hn, hgd]
  rfl

/-- Every reachable controller is zoned. -/
theorem reachable_zoned (n : FemuCtrl) (h : Reachable n) : n.zoned = true := by
  induction h with
  | init n0 n hz _ _ h => rw [init_ns_zoned n0 n h]; exact hz
  | step n n1 c r hr h ih =>
    have := (inv_io_cmd n c (n1, r) (reachable_inv n hr) h).2.1
    rw [this]; exact ih

/-- Submission of a write to an EMPTY or CLOSED zone that the write does not
fill links the zone at the tail of the implicitly open queue. -/
theorem advance_imp_list (m : FemuCtrl) (idx nlb : Nat) (hL : Linked m)
    (hlt : ((zoneAt m idx).w_ptr + nlb) % U64 < zns_zone_wr_boundary (zoneAt m idx))
    (hlen : idx < m.zone_array.length)
    (hst : (zoneAt m idx).zs = .EMPTY ∨ (zoneAt m idx).zs = .CLOSED) :
    (zns_advance_zone_wp m idx nlb).1.imp_open_zones = m.imp_open_zones.erase idx ++ [idx] := by
  have hz1 := zoneAt_setZone_same m idx
    { zoneAt m idx with w_ptr := ((zoneAt m idx).w_ptr + nlb) % U64 } hlen
  have hS1 : SameShape (setZone m idx
      { zoneAt m idx with w_ptr := ((zoneAt m idx).w_ptr + nlb) % U64 }) m :=
    sameShape_setZone m idx _ (by rfl)
  have hL1 : Linked (setZone m idx
      { zoneAt m idx with w_ptr := ((zoneAt m idx).w_ptr + nlb) % U64 }) :=
    linked_congr hL hS1.1 hS1.2.1 hS1.2.2.1 hS1.2.2.2.1 hS1.2.2.2.2.1 hS1.2.2.2.2.2.1
  have hM1 : (setZone m idx
      { zoneAt m idx with w_ptr := ((zoneAt m idx).w_ptr + nlb) % U64 }).imp_open_zones
      = m.imp_open_zones := rfl
  unfold zns_advance_zone_wp
  simp only [zns_get_zone_state]
  generalize setZone m idx
      { zoneAt m idx with w_ptr := ((zoneAt m idx).w_ptr + nlb) % U64 } = n1
    at hz1 hL1 hM1 ⊢
  rw [hz1]
  have hb : zns_zone_wr_boundary
      { zoneAt m idx with w_ptr := ((zoneAt m idx).w_ptr + nlb) % U64 }
      = zns_zone_wr_boundary (zoneAt m idx) := rfl
  simp only [hb, hlt, if_true]
  rcases hst with hs | hs
  · simp only [hs]
    have hL2 : Linked (zns_aor_inc_open (zns_aor_inc_active n1)) :=
      linked_congr hL1 rfl (fun _ => rfl) rfl rfl rfl rfl
    rw [(assign_lists _ idx .IMPLICITLY_OPEN hL2).2.1]
    simp only [if_true]
    rw [← hM1]; rfl
  · simp only [hs]
    have hL2 : Linked (zns_aor_inc_open n1) :=
      linked_congr hL1 rfl (fun _ => rfl) rfl rfl rfl rfl
    rw [(assign_lists _ idx .IMPLICITLY_OPEN hL2).2.1]
    simp only [if_true]
    rw [← hM1]; rfl

/-- C19: in a reachable state with `max_open_zones > 0`,
`nr_open_zones = max_open_zones` and an IMPLICITLY_OPEN zone, a valid write
or append that does not fill its zone, to an EMPTY zone (the active limit
permitting) or to a CLOSED zone, succeeds; the head of `imp_open_zones`, an
IMPLICITLY_OPEN zone other than the written one, becomes CLOSED; the written
zone becomes IMPLICITLY_OPEN and joins the tail of that queue; every other
zone keeps its record, so no EXPLICITLY_OPEN zone is closed; and
`nr_open_zones` is `max_open_zones` again. -/
theorem write_evicts_implicit_head (n : FemuCtrl) (c : NvmeCmd) (append : Bool) (idx k : Nat)
    (hr : Reachable n)
    (hop : c.opcode = if append then NVME_CMD_ZONE_APPEND else NVME_CMD_WRITE)
    (hv : WriteValid n c append idx)
    (hmax : 0 < n.max_open_zones) (hfull : n.nr_open_zones = (n.max_open_zones : Int))
    (hk : k < n.num_zones ∧ (zoneAt n k).zs = .IMPLICITLY_OPEN)
    (hcap : (zoneAt n idx).zslba + (zoneAt n idx).zcap < U64)
    (hfill : (zoneAt n idx).w_ptr + (cmd_nlb c + 1) < (zoneAt n idx).zslba + (zoneAt n idx).zcap)
    (hwp : (zoneAt n idx).wp ≤ (zoneAt n idx).w_ptr)
    (hst : ((zoneAt n idx).zs = .EMPTY ∧
        (n.max_active_zones = 0 ∨ n.nr_active_zones + 1 ≤ (n.max_active_zones : Int))) ∨
      (zoneAt n idx).zs = .CLOSED) :
    ∃ n1 hd, n.imp_open_zones.head? = some hd ∧
      zns_io_cmd n c = some (n1, ⟨NVME_SUCCESS, some (zoneAt n idx).w_ptr, none⟩) ∧
      hd ≠ idx ∧ (zoneAt n hd).zs = .IMPLICITLY_OPEN ∧
      zoneAt n1 hd = { zoneAt n hd with zs := .CLOSED } ∧
      (zoneAt n1 idx).zs = .IMPLICITLY_OPEN ∧
      (∀ j, j ≠ hd → j ≠ idx → zoneAt n1 j = zoneAt n j) ∧
      (∀ j, (zoneAt n j).zs = .EXPLICITLY_OPEN → (zoneAt n1 j).zs = .EXPLICITLY_OPEN) ∧
      n1.nr_open_zones = (n.max_open_zones : Int) ∧
      n1.imp_open_zones = n.imp_open_zones.tail ++ [idx] := by
  have hI := reachable_inv n hr
  have hzoned := reachable_zoned n hr
  have hlen : idx < n.zone_array.length := by
    rw [hI.len]; exact get_zone_by_slba_lt n _ idx hv.1
  have hkm : k ∈ n.imp_open_zones := (hI.linked.imp k).2 ⟨by rw [hI.len]; exact hk.1, hk.2⟩
  cases himp : n.imp_open_zones with
  | nil => rw [himp] at hkm; exact absurd hkm (List.not_mem_nil k)
  | cons hd rest =>
    obtain ⟨e1, e2, e3, e4, e5, e6, e7⟩ :=
      auto_transition_evict n hI (by omega) hfull hd rest himp
    obtain ⟨t1, t2, _⟩ := inv_auto_transition n hI
    have hzs : (zoneAt n idx).zs = .EMPTY ∨ (zoneAt n idx).zs = .CLOSED := by
      rcases hst with h | h
      · exact Or.inl h.1
      · exact Or.inr h
    have hne : hd ≠ idx := by
      intro he
      rw [he] at e2
      rcases hzs with h | h <;> rw [h] at e2 <;> exact NvmeZoneState.noConfusion e2
    have hm1 : (zns_auto_open_zone n idx).1 = zns_auto_transition_zone n := by
      rw [auto_open_eq]
      rcases hzs with h | h
      · rw [if_pos h]
      · rw [if_neg (by rw [h]; decide), if_pos h]
    have hmo : (zns_auto_transition_zone n).max_open_zones = n.max_open_zones :=
      t2.2.2.2.2.2.2.1
    have hma : (zns_auto_transition_zone n).max_active_zones = n.max_active_zones :=
      t2.2.2.2.2.2.1
    have ho : (zns_auto_open_zone n idx).2 = NVME_SUCCESS := by
      rw [auto_open_eq]
      have hlim := hI.limits.2
      rcases hst with h | h
      · rw [if_pos h.1]
        rw [aor_check_small _ _ _ (by decide) (by decide)]
        simp only [hmo, hma, e5, e6]
        rw [if_neg, if_neg]
        · intro hc; have := hc.2; push_cast at this; omega
        · intro hc
          rcases h.2 with h2 | h2
          · exact hc.1 h2
          · have := hc.2; push_cast at this; omega
      · rw [if_neg (by rw [h]; decide), if_pos h]
        rw [aor_check_small _ _ _ (by decide) (by decide)]
        simp only [hmo, hma, e5, e6]
        rw [if_neg, if_neg]
        · intro hc; have := hc.2; push_cast at this; omega
        · intro hc
          rcases hlim with h2 | h2
          · exact hc.1 h2
          · have := hc.2; push_cast at this; omega
    have hw := (check_zone_write_success n _ _ _ _ hv.2.2.2.1).2.1
    have hdv := do_write_valid n c append idx hv ho
    rw [hm1] at hdv
    have hzm : zoneAt (zns_auto_transition_zone n) idx = zoneAt n idx := e4 idx hne
    obtain ⟨f, f0, fa, f2, f3, f4, f5, f6, f7⟩ :=
      write_tail_spec n (zns_auto_transition_zone n) c idx t2 hzm hlen hv.1 hw
    rw [f0] at hdv
    simp only [Option.map_some'] at hdv
    rw [zone_not_filling _ _ hcap hfill hwp] at f2
    have hfs : (zoneAt f idx).zs = .IMPLICITLY_OPEN := by
      rw [f2]
      simp [hzs]
    have hb : zns_zone_wr_boundary (zoneAt n idx) = (zoneAt n idx).zslba + (zoneAt n idx).zcap :=
      Nat.mod_eq_of_lt hcap
    have hadv : (advanceZone (zoneAt n idx) (cmd_nlb c + 1)).zs = .IMPLICITLY_OPEN := by
      unfold advanceZone
      rw [if_pos ⟨by rw [Nat.mod_eq_of_lt (by omega), hb]; exact hfill, hzs⟩]
    refine ⟨f, hd, rfl, ?_, hne, e2, ?_, hfs, ?_, ?_, ?_, ?_⟩
    · rw [do_write_io_cmd n c append hzoned hop, hdv]
    · rw [f3 hd (Ne.symm hne), e3]
    · intro j h1 h2
      rw [f3 j (Ne.symm h2), e4 j (Ne.symm h1)]
    · intro j hj
      have h1 : j ≠ hd := by
        intro he; rw [he, e2] at hj; exact NvmeZoneState.noConfusion hj
      have h2 : j ≠ idx := by
        intro he; rw [he] at hj
        rcases hzs with h | h <;> rw [h] at hj <;> exact NvmeZoneState.noConfusion hj
      rw [f3 j (Ne.symm h2), e4 j (Ne.symm h1)]; exact hj
    · rw [f4, e5, hfs, hfull]
      rcases hzs with h | h <;> rw [h] <;> simp [isOpenState]
    · rw [f7 (by rw [hfs, hadv])]
      have hlm : idx < (zns_auto_transition_zone n).zone_array.length := by
        rw [t2.2.2.2.2.2.2.2.2.2.2.2.2.2.2]; exact hlen
      rw [advance_imp_list _ idx _ t1.linked
        (by rw [hzm, Nat.mod_eq_of_lt (by omega), hb]; exact hfill) hlm (by rw [hzm]; exact hzs),
        e7]
      have hnr : idx ∉ rest := by
        intro hmem
        have : idx ∈ n.imp_open_zones := by rw [himp]; exact List.mem_cons_of_mem hd hmem
        have h3 := ((hI.linked.imp idx).1 this).2
        rcases hzs with h | h <;> rw [h] at h3 <;> exact NvmeZoneState.noConfusion h3
      rw [List.erase_of_not_mem hnr]
      rfl

/-- Scenario S3: with zones 0 and 1 implicitly open, the write to zone 2
closes zone 0 and opens zone 2. -/
theorem write_evicts_implicit_head_witness :
    ∃ n, runCmds scenarioCtrl [rwCmd NVME_CMD_WRITE 0 1, rwCmd NVME_CMD_WRITE 8 1] = some n ∧
      n.imp_open_zones = [0, 1] ∧ n.nr_open_zones = 2 ∧ (zoneAt n 2).zs = .EMPTY ∧
      WriteValid n (rwCmd NVME_CMD_WRITE 16 1) false 2 ∧
      ∃ n1 hd, n.imp_open_zones.head? = some hd ∧
        zns_io_cmd n (rwCmd NVME_CMD_WRITE 16 1) =
          some (n1, ⟨NVME_SUCCESS, some (zoneAt n 2).w_ptr, none⟩) ∧
        hd ≠ 2 ∧ (zoneAt n hd).zs = .IMPLICITLY_OPEN ∧
        zoneAt n1 hd = { zoneAt n hd with zs := .CLOSED } ∧
        (zoneAt n1 2).zs = .IMPLICITLY_OPEN ∧
        (∀ j, j ≠ hd → j ≠ 2 → zoneAt n1 j = zoneAt n j) ∧
        (∀ j, (zoneAt n j).zs = .EXPLICITLY_OPEN → (zoneAt n1 j).zs = .EXPLICITLY_OPEN) ∧
        n1.nr_open_zones = (n.max_open_zones : Int) ∧
        n1.imp_open_zones = n.imp_open_zones.tail ++ [2] :=
  ⟨(runCmds scenarioCtrl [rwCmd NVME_CMD_WRITE 0 1, rwCmd NVME_CMD_WRITE 8 1]).getD default,
    by decide, by decide, by decide, by decide, by decide,
    write_evicts_implicit_head _ (rwCmd NVME_CMD_WRITE 16 1) false 2 0
      (reachable_runCmds [rwCmd NVME_CMD_WRITE 0 1, rwCmd NVME_CMD_WRITE 8 1] scenarioCtrl _
        reachable_scenarioCtrl (by decide))
      (by decide) (by decide) (by decide) (by decide) (by decide) (by decide) (by decide)
      (by decide) (by decide)⟩

/-! ### Zone records along commands: write pointers and attributes -/

set_option maxRecDepth 100000

/-- Basic facts about chains of zone changes. -/
theorem zones_same (d : Bool) (n n1 : FemuCtrl) (h : ∀ j, zoneAt n1 j = zoneAt n j) :
    Zones d n n1 := by
  intro j
  rw [h j]

theorem zones_rfl (d : Bool) (n : FemuCtrl) : Zones d n n := fun _ => Relation.ReflTransGen.refl

theorem zones_trans {d : Bool} {a b c : FemuCtrl} (h1 : Zones d a b) (h2 : Zones d b c) :
    Zones d a c := fun j => (h1 j).trans (h2 j)

theorem zones_one (d : Bool) (n n1 : FemuCtrl) (idx : Nat)
    (hs : ZoneStep d (zoneAt n idx) (zoneAt n1 idx))
    (hne : ∀ j, idx ≠ j → zoneAt n1 j = zoneAt n j) : Zones d n n1 := by
  intro j
  by_cases hj : idx = j
  · subst hj
    exact Relation.ReflTransGen.single hs
  · rw [hne j hj]

theorem zones_set_assign (d : Bool) (n m : FemuCtrl) (idx : Nat) (st : NvmeZoneState)
    (z2 z1 : NvmeZone) (hm : ∀ j, zoneAt m j = zoneAt n j) (hlm : idx < m.zone_array.length)
    (hs : ZoneStep d (zoneAt n idx) z1)
    (hz : z1 = { z2 with zs := st, za := if st = .EMPTY ∨ st = .OFFLINE then 0 else z2.za }) :
    Zones d n (zns_assign_zone_state (setZone m idx z2) idx st) := by
  apply zones_one d n _ idx
  · rw [zoneAt_assign_same _ idx _ (by rw [length_setZone]; exact hlm),
      zoneAt_setZone_same _ _ _ hlm, ← hz]
    exact hs
  · intro j hj
    rw [zoneAt_assign_ne _ idx j _ hj, zoneAt_setZone_ne _ idx j _ hj, hm j]

theorem zones_assign (d : Bool) (n m : FemuCtrl) (idx : Nat) (st : NvmeZoneState)
    (z1 : NvmeZone) (hm : ∀ j, zoneAt m j = zoneAt n j) (hlm : idx < m.zone_array.length)
    (hs : ZoneStep d (zoneAt n idx) z1)
    (hz : z1 = { zoneAt n idx with
      zs := st, za := if st = .EMPTY ∨ st = .OFFLINE then 0 else (zoneAt n idx).za }) :
    Zones d n (zns_assign_zone_state m idx st) := by
  apply zones_one d n _ idx
  · rw [zoneAt_assign_same _ idx _ hlm, hm idx, ← hz]
    exact hs
  · intro j hj
    rw [zoneAt_assign_ne _ idx j _ hj, hm j]

/-- Each handler of zone management send changes the record of the zone it
is given by at most one zone change, and no other record. -/
theorem zones_open_zone (d : Bool) : PreservesZones d zns_open_zone := by
  intro n idx hlen
  cases hz : (zoneAt n idx).zs <;> simp only [zns_open_zone, zns_open_zone_from_closed]
  case EMPTY =>
    split
    · exact zones_rfl d n
    · split
      · exact zones_same d n _ (fun _ => rfl)
      · exact zones_assign d n _ idx _ _ (fun _ => rfl) hlen
          (ZoneStep.opened _ (Or.inl hz)) (by simp)
  case CLOSED =>
    split
    · exact zones_same d n _ (fun _ => rfl)
    · exact zones_assign d n _ idx _ _ (fun _ => rfl) hlen
        (ZoneStep.opened _ (Or.inr (Or.inl hz))) (by simp)
  case IMPLICITLY_OPEN =>
    exact zones_assign d n _ idx _ _ (fun _ => rfl) hlen
      (ZoneStep.opened _ (Or.inr (Or.inr hz))) (by simp)
  all_goals exact zones_rfl d n

theorem zones_close_zone (d : Bool) : PreservesZones d zns_close_zone := by
  intro n idx hlen
  cases hz : (zoneAt n idx).zs <;> simp only [zns_close_zone]
  case EXPLICITLY_OPEN =>
    exact zones_assign d n _ idx _ _ (fun _ => rfl) hlen
      (ZoneStep.closed _ (Or.inl hz)) (by simp)
  case IMPLICITLY_OPEN =>
    exact zones_assign d n _ idx _ _ (fun _ => rfl) hlen
      (ZoneStep.closed _ (Or.inr hz)) (by simp)
  all_goals exact zones_rfl d n

theorem zones_finish_from_empty (d : Bool) (n m : FemuCtrl) (idx : Nat)
    (hm : ∀ j, zoneAt m j = zoneAt n j) (hlm : idx < m.zone_array.length)
    (h : (zoneAt n idx).zs = .EXPLICITLY_OPEN ∨ (zoneAt n idx).zs = .IMPLICITLY_OPEN ∨
      (zoneAt n idx).zs = .CLOSED ∨ (zoneAt n idx).zs = .EMPTY) :
    Zones d n (zns_finish_zone_from_empty m idx).1 := by
  unfold zns_finish_zone_from_empty
  simp only []
  refine zones_set_assign d n m idx _ _ _ hm hlm (ZoneStep.finished _ h) ?_
  rw [hm idx]
  simp

theorem zones_finish_zone (d : Bool) : PreservesZones d zns_finish_zone := by
  intro n idx hlen
  cases hz : (zoneAt n idx).zs <;> simp only [zns_finish_zone]
  case EXPLICITLY_OPEN =>
    exact zones_finish_from_empty d n _ idx (fun _ => rfl) hlen (Or.inl hz)
  case IMPLICITLY_OPEN =>
    exact zones_finish_from_empty d n _ idx (fun _ => rfl) hlen (Or.inr (Or.inl hz))
  case CLOSED =>
    exact zones_finish_from_empty d n _ idx (fun _ => rfl) hlen (Or.inr (Or.inr (Or.inl hz)))
  case EMPTY =>
    exact zones_finish_from_empty d n _ idx (fun _ => rfl) hlen (Or.inr (Or.inr (Or.inr hz)))
  all_goals exact zones_rfl d n

theorem zones_reset_from_full (d : Bool) (n m : FemuCtrl) (idx : Nat)
    (hm : ∀ j, zoneAt m j = zoneAt n j) (hlm : idx < m.zone_array.length)
    (h : (zoneAt n idx).zs = .EXPLICITLY_OPEN ∨ (zoneAt n idx).zs = .IMPLICITLY_OPEN ∨
      (zoneAt n idx).zs = .CLOSED ∨ (zoneAt n idx).zs = .FULL) :
    Zones d n (zns_aio_zone_reset_from_full m idx) := by
  unfold zns_aio_zone_reset_from_full
  simp only []
  refine zones_set_assign d n m idx _ _ _ hm hlm (ZoneStep.reset _ h) ?_
  rw [hm idx]
  simp

theorem zones_reset_zone (d : Bool) : PreservesZones d zns_reset_zone := by
  intro n idx hlen
  cases hz : (zoneAt n idx).zs <;>
    simp only [zns_reset_zone, zns_aio_zone_reset_cb, zns_get_zone_state, hz]
  case EXPLICITLY_OPEN =>
    exact zones_reset_from_full d n _ idx (fun _ => rfl) hlen (Or.inl hz)
  case IMPLICITLY_OPEN =>
    exact zones_reset_from_full d n _ idx (fun _ => rfl) hlen (Or.inr (Or.inl hz))
  case CLOSED =>
    exact zones_reset_from_full d n _ idx (fun _ => rfl) hlen (Or.inr (Or.inr (Or.inl hz)))
  case FULL =>
    exact zones_reset_from_full d n _ idx (fun _ => rfl) hlen (Or.inr (Or.inr (Or.inr hz)))
  all_goals exact zones_rfl d n

theorem zones_offline_zone (d : Bool) : PreservesZones d zns_offline_zone := by
  intro n idx hlen
  cases hz : (zoneAt n idx).zs <;> simp only [zns_offline_zone]
  case READ_ONLY =>
    exact zones_assign d n _ idx _ _ (fun _ => rfl) hlen (ZoneStep.offlined _ hz) (by simp)
  all_goals exact zones_rfl d n

theorem zones_set_zd_ext (d : Bool) (n : FemuCtrl) (idx : Nat)
    (hlen : idx < n.zone_array.length) : Zones d n (zns_set_zd_ext n idx).1 := by
  unfold zns_set_zd_ext
  simp only [zns_get_zone_state]
  split
  · rename_i hz
    split
    · exact zones_rfl d n
    · refine zones_set_assign d n (zns_aor_inc_active n) idx _ _ _ (fun _ => rfl) hlen
        (ZoneStep.ext_set _ hz) ?_
      simp [zoneAt_inc_active]
  · exact zones_rfl d n

/-- The bulk loops of `zns_do_zone_op` change zone records by zone changes
only. -/
theorem zones_bulk_proc_zone (d : Bool) (op : op_handler_t) (hz : PreservesZones d op)
    (n : FemuCtrl) (idx mask : Nat) (hlen : idx < n.zone_array.length) :
    Zones d n (zns_bulk_proc_zone n idx mask op).1 := by
  unfold zns_bulk_proc_zone
  simp only [zns_get_zone_state]
  split
  · exact hz n idx hlen
  · exact zones_rfl d n

theorem zones_foreach_safe (d : Bool) (op : op_handler_t) (hop : PreservesInv op)
    (hz : PreservesZones d op) (mask : Nat) :
    ∀ (l : List Nat) (n : FemuCtrl) (st : NvmeStatus), Inv n →
      (∀ i ∈ l, i < n.zone_array.length) → Zones d n (zns_foreach_safe mask op l n st).1 := by
  intro l
  induction l with
  | nil =>
    intro n st _ _
    exact zones_rfl d n
  | cons idx rest ih =>
    intro n st hI hl
    have hidx : idx < n.zone_array.length := hl idx (List.mem_cons_self idx rest)
    obtain ⟨b1, b2⟩ := inv_bulk_proc_zone op hop n idx mask hI hidx
    have bz := zones_bulk_proc_zone d op hz n idx mask hidx
    unfold zns_foreach_safe
    simp only []
    split
    · exact bz
    · have hl2 : ∀ i ∈ rest, i < (zns_bulk_proc_zone n idx mask op).1.zone_array.length := by
        intro i hi
        rw [b2.2.2.2.2.2.2.2.2.2.2.2.2.2.2]
        exact hl i (List.mem_cons_of_mem idx hi)
      exact zones_trans bz (ih _ (zns_bulk_proc_zone n idx mask op).2 b1 hl2)

theorem zones_foreach_array (d : Bool) (op : op_handler_t) (hop : PreservesInv op)
    (hz : PreservesZones d op) (mask : Nat) :
    ∀ (k idx : Nat) (n : FemuCtrl) (st : NvmeStatus) (r : FemuCtrl × NvmeStatus), Inv n →
      zns_foreach_array mask op k idx n st = some r → Zones d n r.1 := by
  intro k
  induction k with
  | zero =>
    intro idx n st r _ h
    simp only [zns_foreach_array, Option.some.injEq] at h
    rw [← h]
    exact zones_rfl d n
  | succ k ih =>
    intro idx n st r hI h
    unfold zns_foreach_array at h
    by_cases hidx : idx < n.zone_array.length
    · simp only [hidx, if_true] at h
      obtain ⟨b1, _⟩ := inv_bulk_proc_zone op hop n idx mask hI hidx
      have bz := zones_bulk_proc_zone d op hz n idx mask hidx
      split at h
      · simp only [Option.some.injEq] at h
        rw [← h]
        exact bz
      · exact zones_trans bz (ih _ _ _ r b1 h)
    · simp only [hidx, if_false] at h
      exact Option.noConfusion h

theorem zones_queue_loop (d : Bool) (op : op_handler_t) (hop : PreservesInv op)
    (hz : PreservesZones d op) (n : FemuCtrl) (mask bit : Nat) (sel : FemuCtrl → List Nat)
    (hsel : ∀ m : FemuCtrl, Inv m → ∀ i ∈ sel m, i < m.zone_array.length)
    (s : FemuCtrl × NvmeStatus) (hs : Inv s.1 ∧ Zones d n s.1) :
    Inv (zns_queue_loop mask op bit sel s).1 ∧ Zones d n (zns_queue_loop mask op bit sel s).1 := by
  have hi := (inv_queue_loop op hop s.1 mask bit sel hsel s ⟨hs.1, SameConfig.refl s.1⟩).1
  refine ⟨hi, ?_⟩
  unfold zns_queue_loop
  split
  · exact zones_trans hs.2
      (zones_foreach_safe d op hop hz mask (sel s.1) s.1 s.2 hs.1 (hsel s.1 hs.1))
  · exact hs.2

theorem zones_bulk_seq (d : Bool) (n : FemuCtrl) (x : FemuCtrl × NvmeStatus × Bool)
    (k : FemuCtrl × NvmeStatus → Option (FemuCtrl × NvmeStatus))
    (hx : Inv x.1 ∧ Zones d n x.1)
    (hk : ∀ s r, Inv s.1 ∧ Zones d n s.1 → k s = some r → Zones d n r.1)
    (r : FemuCtrl × NvmeStatus) (h : zns_bulk_seq x k = some r) : Zones d n r.1 := by
  unfold zns_bulk_seq at h
  split at h
  · simp only [Option.some.injEq] at h
    rw [← h]; exact hx.2
  · exact hk _ r hx h

theorem zones_do_zone_op (d : Bool) (op : op_handler_t) (hop : PreservesInv op)
    (hz : PreservesZones d op) (n : FemuCtrl) (idx mask : Nat) (hI : Inv n)
    (hlen : idx < n.zone_array.length)
    (r : FemuCtrl × NvmeStatus) (h : zns_do_zone_op n idx mask op = some r) :
    Zones d n r.1 := by
  unfold zns_do_zone_op at h
  by_cases hm : mask = 0
  · rw [if_pos hm] at h
    simp only [Option.some.injEq, zns_get_zone_state] at h
    rw [← h]
    exact hz n idx hlen
  · rw [if_neg hm] at h
    refine zones_bulk_seq d n _ _ (zones_queue_loop d op hop hz n mask _ _
      (fun m hm i hi => ((hm.linked.closed i).1 hi).1) _ ⟨hI, zones_rfl d n⟩) ?_ r h
    intro s1 r1 hs1 h1
    refine zones_bulk_seq d n _ _ (zones_queue_loop d op hop hz n mask _ _
      (fun m hm i hi => ((hm.linked.imp i).1 hi).1) _ hs1) ?_ r1 h1
    intro s2 r2 hs2 h2
    refine zones_bulk_seq d n _ _ (zones_queue_loop d op hop hz n mask _ _
      (fun m hm i hi => ((hm.linked.exp i).1 hi).1) _ hs2) ?_ r2 h2
    intro s3 r3 hs3 h3
    refine zones_bulk_seq d n _ _ (zones_queue_loop d op hop hz n mask _ _
      (fun m hm i hi => ((hm.linked.full i).1 hi).1) _ hs3) ?_ r3 h3
    intro s4 r4 hs4 h4
    split at h4
    · split at h4
      · split at h4
        · simp only [Option.some.injEq] at h4
          rw [← h4]; exact hs4.2
        · exact Option.noConfusion h4
      · exact zones_trans hs4.2 (zones_foreach_array d op hop hz mask _ _ _ _ r4 hs4.1 h4)
    · simp only [Option.some.injEq] at h4
      rw [← h4]; exact hs4.2

/-- Zone management send changes zone records by zone changes only. -/
theorem zones_mgmt_send (d : Bool) (n : FemuCtrl) (c : NvmeCmd) (hI : Inv n)
    (r : FemuCtrl × NvmeStatus) (h : zns_zone_mgmt_send n c = some r) : Zones d n r.1 := by
  have viaOp : ∀ (op : op_handler_t) (idx mask : Nat), PreservesInv op → PreservesZones d op →
      idx < n.zone_array.length →
      zns_mgmt_send_exit (zns_do_zone_op n idx mask op) = some r → Zones d n r.1 := by
    intro op idx mask hop hz hlen hx
    obtain ⟨r0, h0, h1⟩ := mgmt_send_exit_some _ r hx
    rw [← h1]
    exact zones_do_zone_op d op hop hz n idx mask hI hlen r0 h0
  have hswitch : ∀ (action : Nat) (all : Bool) (zone_idx : Nat),
      zone_idx < n.zone_array.length →
      zns_mgmt_send_switch n c action all zone_idx = some r → Zones d n r.1 := by
    intro action all zone_idx hlen h
    unfold zns_mgmt_send_switch at h
    split at h
    · exact viaOp _ _ _ inv_open_zone (zones_open_zone d) hlen h
    · split at h
      · exact viaOp _ _ _ inv_close_zone (zones_close_zone d) hlen h
      · split at h
        · exact viaOp _ _ _ inv_finish_zone (zones_finish_zone d) hlen h
        · split at h
          · obtain ⟨r0, h0, hr⟩ := Option.map_eq_some'.mp h
            rw [← hr]
            exact zones_do_zone_op d _ inv_reset_zone (zones_reset_zone d) n zone_idx _ hI hlen
              r0 h0
          · split at h
            · exact viaOp _ _ _ inv_offline_zone (zones_offline_zone d) hlen h
            · split at h
              · have hs1 : Zones d n (zns_store_zd_extension n zone_idx c.dma_data) :=
                  zones_same d n _ (store_zd_extension_frame n zone_idx c.dma_data).2.2.2.2.2.2.2.2
                have hlen1 : zone_idx <
                    (zns_store_zd_extension n zone_idx c.dma_data).zone_array.length := by
                  rw [(store_zd_extension_frame n zone_idx c.dma_data).1]; exact hlen
                have q := zones_trans hs1 (zones_set_zd_ext d _ zone_idx hlen1)
                split at h
                · simp only [Option.some.injEq] at h
                  rw [← h]; exact zones_rfl d n
                · split at h
                  · simp only [Option.some.injEq] at h
                    rw [← h]; exact hs1
                  · split at h
                    · simp only [Option.some.injEq] at h
                      rw [← h]; exact q
                    · obtain ⟨r0, h0, h1⟩ := mgmt_send_exit_some _ r h
                      simp only [Option.some.injEq] at h0
                      rw [← h1, ← h0]
                      exact q
              · obtain ⟨r0, h0, h1⟩ := mgmt_send_exit_some _ r h
                simp only [Option.some.injEq] at h0
                rw [← h1, ← h0]
                exact zones_rfl d n
  unfold zns_zone_mgmt_send at h
  split at h
  · exact Option.noConfusion h
  · rename_i status slba zone_idx hdec
    split at h
    · simp only [Option.some.injEq] at h
      rw [← h]; exact zones_rfl d n
    · split at h
      · exact Option.noConfusion h
      · rename_i hlen
        have hlen : zone_idx < n.zone_array.length := by omega
        split at h
        · simp only [Option.some.injEq] at h
          rw [← h]; exact zones_rfl d n
        · exact hswitch _ _ _ hlen h

/-- The eviction changes zone records by closing one implicitly open zone at
most. -/
theorem zones_auto_transition (d : Bool) (n : FemuCtrl) (hI : Inv n) :
    Zones d n (zns_auto_transition_zone n) := by
  by_cases hc : n.max_open_zones ≠ 0 ∧ n.nr_open_zones = (n.max_open_zones : Int)
  · cases himp : n.imp_open_zones with
    | nil => rw [auto_transition_noevict n (Or.inr (Or.inr himp))]; exact zones_rfl d n
    | cons hd rest =>
      obtain ⟨e1, e2, e3, e4, _⟩ := auto_transition_evict n hI hc.1 hc.2 hd rest himp
      apply zones_one d n _ hd
      · rw [e3]
        exact ZoneStep.closed _ (Or.inr e2)
      · exact e4
  · have : zns_auto_transition_zone n = n := by
      unfold zns_auto_transition_zone
      rw [if_neg hc]
    rw [this]
    exact zones_rfl d n

theorem zones_auto_open (d : Bool) (n : FemuCtrl) (idx : Nat) (hI : Inv n) :
    Zones d n (zns_auto_open_zone n idx).1 := by
  rw [auto_open_eq]
  split
  · exact zones_auto_transition d n hI
  · split
    · exact zones_auto_transition d n hI
    · exact zones_rfl d n

/-- A write or an append changes zone records by zone changes only; without
the submission that is never completed when the data pointer maps. -/
theorem zones_do_write (d : Bool) (n : FemuCtrl) (c : NvmeCmd) (append : Bool)
    (r : FemuCtrl × IoResult) (hI : Inv n) (h : zns_do_write n c append false = some r)
    (hd : d = false → zns_map_dptr c = NVME_SUCCESS) : Zones d n r.1 := by
  cases hz1 : zns_get_zone_by_slba n (cmd_slba c) with
  | none =>
    unfold zns_do_write at h
    simp only [hz1] at h
    exact Option.noConfusion h
  | some idx =>
    have hlen : idx < n.zone_array.length := by
      rw [hI.len]; exact get_zone_by_slba_lt n _ idx hz1
    by_cases c1 : nvme_check_mdts n (zns_l2b n (cmd_nlb c + 1)) = NVME_SUCCESS
    · by_cases c2 : zns_check_bounds n (cmd_slba c) (cmd_nlb c + 1) = NVME_SUCCESS
      · by_cases c3 : zns_check_zone_write n (zoneAt n idx) (cmd_slba c) (cmd_nlb c + 1) append
            = NVME_SUCCESS
        · have ao := zones_auto_open d n idx hI
          by_cases c4 : (zns_auto_open_zone n idx).2 = NVME_SUCCESS
          · obtain ⟨k1, k2, k3, k4⟩ := check_zone_write_success n _ _ _ _ c3
            obtain ⟨b1, _⟩ := check_bounds_success n c _ c2
            rw [Nat.mod_eq_of_lt b1] at k1
            have hadm : WriteAdmitted (zoneAt n idx) (cmd_slba c) (cmd_nlb c + 1) := by
              refine ⟨k2, by omega, k1, ?_⟩
              cases append
              · exact Or.inl (k4 rfl)
              · exact Or.inr (k3 rfl)
            obtain ⟨o1, o2, _⟩ := inv_auto_open n idx hI
            have hzm := auto_open_zone_same n idx hI
            obtain ⟨f, f0, fa, f2, f3, _⟩ :=
              write_tail_spec n (zns_auto_open_zone n idx).1 c idx o2 hzm hlen hz1 k2
            by_cases c5 : zns_map_dptr c = NVME_SUCCESS
            · rw [do_write_valid n c append idx ⟨hz1, c1, c2, c3, c5⟩ c4, f0] at h
              simp only [Option.map_some', Option.some.injEq] at h
              rw [← h]
              refine zones_trans ao (zones_one d _ _ idx ?_ f3)
              rw [f2, hzm]
              exact ZoneStep.written _ _ _ hadm
            · have hdt : d = true := by
                cases d
                · exact absurd (hd rfl) c5
                · rfl
              unfold zns_do_write at h
              simp [hz1, c1, c2, c3, c4, c5, NvmeStatus.nonzero] at h
              rw [← h]
              have hlm : idx < (zns_auto_open_zone n idx).1.zone_array.length := by
                rw [o2.2.2.2.2.2.2.2.2.2.2.2.2.2.2]; exact hlen
              refine zones_trans ao (zones_one d _ _ idx ?_
                (advance_spec _ idx (cmd_nlb c + 1) hlm).2.2.1)
              rw [fa, hzm]
              exact ZoneStep.advanced _ _ _ hdt hadm
          · unfold zns_do_write at h
            simp [hz1, c1, c2, c3, c4, NvmeStatus.nonzero] at h
            rw [← h]
            exact ao
        · unfold zns_do_write at h
          simp [hz1, c1, c2, c3, NvmeStatus.nonzero] at h
          rw [← h]
          exact zones_rfl d n
      · unfold zns_do_write at h
        simp [hz1, c1, c2, NvmeStatus.nonzero] at h
        rw [← h]
        exact zones_rfl d n
    · unfold zns_do_write at h
      simp [hz1, c1, NvmeStatus.nonzero] at h
      rw [← h]
      exact zones_rfl d n

/-- Every I/O command changes zone records by zone changes only; when the
command is accepted or its data pointer maps, without the submission that is
never completed. -/
theorem zones_io_cmd (d : Bool) (n : FemuCtrl) (c : NvmeCmd) (r : FemuCtrl × IoResult)
    (hI : Inv n) (h : zns_io_cmd n c = some r)
    (hd : d = false → zns_map_dptr c = NVME_SUCCESS ∨ r.2.status = NVME_SUCCESS) :
    Zones d n r.1 := by
  have hw : ∀ append : Bool, zns_do_write n c append false = some r → Zones d n r.1 := by
    intro append hdw
    apply zones_do_write d n c append r hI hdw
    intro hdf
    rcases hd hdf with e | e
    · exact e
    · obtain ⟨idx, hv, _⟩ := do_write_accepted n c append r.1 r.2 hdw e
      exact hv.2.2.2.2
  unfold zns_io_cmd at h
  split at h
  · rw [read_unchanged n c r h]; exact zones_rfl d n
  · split at h
    · by_cases hz : n.zoned = true
      · rw [write_eq_do_write n c hz] at h
        exact hw false h
      · unfold zns_write at h
        simp [hz] at h
    · split at h
      · obtain ⟨p, hp, hr⟩ := Option.map_eq_some'.mp h
        rw [← hr]
        exact zones_mgmt_send d n c hI p hp
      · split at h
        · rw [recv_unchanged n c r h]; exact zones_rfl d n
        · split at h
          · exact hw true h
          · simp only [Option.some.injEq] at h
            rw [← h]; exact zones_rfl d n

/-- The fields of the record after submission of a write. -/
theorem advanceZone_fields (z : NvmeZone) (nlb : Nat) :
    (advanceZone z nlb).wp = z.wp ∧ (advanceZone z nlb).zslba = z.zslba ∧
    (advanceZone z nlb).zcap = z.zcap ∧ (advanceZone z nlb).za = z.za ∧
    (advanceZone z nlb).zt = z.zt ∧
    (advanceZone z nlb).w_ptr = (z.w_ptr + nlb) % U64 ∧
    (((advanceZone z nlb).zs = z.zs ∧
        ¬ ((z.w_ptr + nlb) % U64 < zns_zone_wr_boundary z ∧ (z.zs = .EMPTY ∨ z.zs = .CLOSED))) ∨
      ((z.zs = .EMPTY ∨ z.zs = .CLOSED) ∧ (z.w_ptr + nlb) % U64 < zns_zone_wr_boundary z ∧
        (advanceZone z nlb).zs = .IMPLICITLY_OPEN)) := by
  unfold advanceZone
  split
  · rename_i h
    exact ⟨rfl, rfl, rfl, rfl, rfl, rfl, Or.inr ⟨h.2, h.1, rfl⟩⟩
  · rename_i h
    exact ⟨rfl, rfl, rfl, rfl, rfl, rfl, Or.inl ⟨rfl, h⟩⟩

/-- The fields of the record after completion of a write. -/
theorem finalizeZone_fields (z : NvmeZone) (nlb : Nat) :
    (finalizeZone z nlb).w_ptr = z.w_ptr ∧ (finalizeZone z nlb).zslba = z.zslba ∧
    (finalizeZone z nlb).zcap = z.zcap ∧ (finalizeZone z nlb).za = z.za ∧
    (finalizeZone z nlb).zt = z.zt ∧
    (finalizeZone z nlb).wp = (z.wp + nlb) % U64 ∧
    (((z.wp + nlb) % U64 = zns_zone_wr_boundary z ∧ (finalizeZone z nlb).zs = .FULL) ∨
      ((z.wp + nlb) % U64 ≠ zns_zone_wr_boundary z ∧ (finalizeZone z nlb).zs = z.zs)) := by
  unfold finalizeZone
  split
  · rename_i h
    exact ⟨rfl, rfl, rfl, rfl, rfl, rfl, Or.inl ⟨h, rfl⟩⟩
  · rename_i h
    exact ⟨rfl, rfl, rfl, rfl, rfl, rfl, Or.inr ⟨h, rfl⟩⟩

theorem wr_boundary_congr (z z1 : NvmeZone) (h1 : z1.zslba = z.zslba) (h2 : z1.zcap = z.zcap) :
    zns_zone_wr_boundary z1 = zns_zone_wr_boundary z := by
  unfold zns_zone_wr_boundary
  rw [h1, h2]

/-- No zone change touches the type, the start or the capacity of a zone. -/
theorem zoneStep_frame (d : Bool) (z z1 : NvmeZone) (h : ZoneStep d z z1) :
    z1.zslba = z.zslba ∧ z1.zcap = z.zcap ∧ z1.zt = z.zt := by
  cases h with
  | written slba nlb h =>
    obtain ⟨_, a2, a3, _, a5, _⟩ := advanceZone_fields z nlb
    obtain ⟨_, f2, f3, _, f5, _⟩ := finalizeZone_fields (advanceZone z nlb) nlb
    exact ⟨f2.trans a2, f3.trans a3, f5.trans a5⟩
  | advanced slba nlb hd h =>
    obtain ⟨_, a2, a3, _, a5, _⟩ := advanceZone_fields z nlb
    exact ⟨a2, a3, a5⟩
  | _ => exact ⟨rfl, rfl, rfl⟩

/-- A property of zone records that every zone change keeps is kept along a
chain of zone changes. -/
theorem steps_preserve (d : Bool) (P : NvmeZone → Prop)
    (hP : ∀ z z1, ZoneStep d z z1 → P z → P z1) (z z1 : NvmeZone)
    (h : Relation.ReflTransGen (ZoneStep d) z z1) (hz : P z) : P z1 := by
  induction h with
  | refl => exact hz
  | tail _ hs ih => exact hP _ _ hs ih

/-- A zone change leaves an EMPTY zone without attributes. -/
theorem zoneStep_empty_za (d : Bool) (z z1 : NvmeZone) (h : ZoneStep d z z1)
    (hz : z.zs = .EMPTY → z.za = 0) : z1.zs = .EMPTY → z1.za = 0 := by
  cases h with
  | written slba nlb h =>
    obtain ⟨_, _, _, a4, _, _, a7⟩ := advanceZone_fields z nlb
    obtain ⟨_, _, _, f4, _, _, f7⟩ := finalizeZone_fields (advanceZone z nlb) nlb
    intro he
    rw [f4, a4]
    apply hz
    rcases f7 with f | f
    · rw [f.2] at he; exact NvmeZoneState.noConfusion he
    · rw [f.2] at he
      rcases a7 with a | a
      · rw [← a.1]; exact he
      · rw [a.2.2] at he; exact NvmeZoneState.noConfusion he
  | advanced slba nlb hd h =>
    obtain ⟨_, _, _, a4, _, _, a7⟩ := advanceZone_fields z nlb
    intro he
    rw [a4]
    apply hz
    rcases a7 with a | a
    · rw [← a.1]; exact he
    · rw [a.2.2] at he; exact NvmeZoneState.noConfusion he
  | reset h => intro _; rfl
  | opened h => intro he; exact NvmeZoneState.noConfusion he
  | closed h => intro he; exact NvmeZoneState.noConfusion he
  | finished h => intro he; exact NvmeZoneState.noConfusion he
  | offlined h => intro he; exact NvmeZoneState.noConfusion he
  | ext_set h => intro he; exact NvmeZoneState.noConfusion he

theorem wr_boundary_lt (z : NvmeZone) : zns_zone_wr_boundary z < U64 := by
  unfold zns_zone_wr_boundary
  exact Nat.mod_lt _ (by unfold U64; norm_num)

/-- Every zone change of an accepted command keeps the write pointer
facts. -/
theorem zoneStep_wpInv (z z1 : NvmeZone) (h : ZoneStep false z z1) (hz : WpInv z) :
    WpInv z1 := by
  obtain ⟨hW, hE, hF⟩ := hz
  cases h with
  | advanced slba nlb hd h => exact Bool.noConfusion hd
  | written slba nlb h =>
    obtain ⟨a1, a2, a3, _, _, a6, a7⟩ := advanceZone_fields z nlb
    obtain ⟨f1, f2, f3, _, _, f6, f7⟩ := finalizeZone_fields (advanceZone z nlb) nlb
    have hb : zns_zone_wr_boundary (advanceZone z nlb) = zns_zone_wr_boundary z :=
      wr_boundary_congr _ _ a2 a3
    have hb1 : zns_zone_wr_boundary (finalizeZone (advanceZone z nlb) nlb)
        = zns_zone_wr_boundary z := (wr_boundary_congr _ _ f2 f3).trans hb
    have hlt := wr_boundary_lt z
    obtain ⟨w1, w2, w3, w4⟩ := h
    rw [hb] at f7
    rw [a1] at f6 f7
    refine ⟨by rw [f6, f1, a6, hW], ?_, ?_⟩
    · intro he
      exfalso
      rcases f7 with f | f
      · rw [f.2] at he; exact NvmeZoneState.noConfusion he
      · rw [f.2] at he
        rcases a7 with a | a
        · rw [a.1] at he
          have e1 := hE he
          have e2 : z.w_ptr = z.zslba := by rw [← hW]; exact e1
          have hs : slba = z.zslba := by
            rcases w4 with w | w
            · rw [w, e2]
            · exact w
          rw [hs] at w3
          have hne := a.2
          rw [e2, Nat.mod_eq_of_lt (by omega)] at hne
          have hf := f.1
          rw [e1, Nat.mod_eq_of_lt (by omega)] at hf
          apply hne
          exact ⟨by omega, Or.inl he⟩
        · rw [a.2.2] at he; exact NvmeZoneState.noConfusion he
    · rw [f2, a2, hb1]
      intro hg
      rw [f6]
      rcases f7 with f | f
      · constructor
        · intro _; exact f.1
        · intro _; exact f.2
      · constructor
        · intro hfull
          exfalso
          rw [f.2] at hfull
          rcases a7 with a | a
          · rw [a.1] at hfull
            rcases w1 with w | w | w | w <;> rw [w] at hfull <;>
              exact NvmeZoneState.noConfusion hfull
          · rw [a.2.2] at hfull; exact NvmeZoneState.noConfusion hfull
        · intro hw; exact absurd hw f.1
  | opened h =>
    refine ⟨hW, fun he => NvmeZoneState.noConfusion he, fun hg => ?_⟩
    have := hF hg
    constructor
    · intro he; exact NvmeZoneState.noConfusion he
    · intro hw
      have hfull := this.2 hw
      rcases h with h | h | h <;> rw [h] at hfull <;> exact NvmeZoneState.noConfusion hfull
  | closed h =>
    refine ⟨hW, fun he => NvmeZoneState.noConfusion he, fun hg => ?_⟩
    have := hF hg
    constructor
    · intro he; exact NvmeZoneState.noConfusion he
    · intro hw
      have hfull := this.2 hw
      rcases h with h | h <;> rw [h] at hfull <;> exact NvmeZoneState.noConfusion hfull
  | finished h =>
    exact ⟨rfl, fun he => NvmeZoneState.noConfusion he, fun _ => ⟨fun _ => rfl, fun _ => rfl⟩⟩
  | reset h =>
    refine ⟨rfl, fun _ => rfl, fun hg => ?_⟩
    constructor
    · intro he; exact NvmeZoneState.noConfusion he
    · intro hw; exact absurd hw hg
  | offlined h =>
    refine ⟨hW, fun he => NvmeZoneState.noConfusion he, fun hg => ?_⟩
    have := hF hg
    constructor
    · intro he; exact NvmeZoneState.noConfusion he
    · intro hw
      have hfull := this.2 hw
      rw [h] at hfull; exact NvmeZoneState.noConfusion hfull
  | ext_set h =>
    refine ⟨hW, fun he => NvmeZoneState.noConfusion he, fun hg => ?_⟩
    have := hF hg
    constructor
    · intro he; exact NvmeZoneState.noConfusion he
    · intro hw
      have hfull := this.2 hw
      rw [h] at hfull; exact NvmeZoneState.noConfusion hfull

/-- Every zone the bring-up loop builds is EMPTY, has no attribute, the
configured capacity, and both write pointers at its start. -/
theorem init_zone_loop_fields (cap capacity : Nat) :
    ∀ k start zsz z, z ∈ zns_init_zone_loop cap capacity k start zsz →
      z.zs = .EMPTY ∧ z.za = 0 ∧ z.zcap = cap ∧ z.wp = z.zslba ∧ z.w_ptr = z.zslba := by
  intro k
  induction k with
  | zero =>
    intro start zsz z hz
    simp [zns_init_zone_loop] at hz
  | succ k ih =>
    intro start zsz z hz
    simp only [zns_init_zone_loop, List.mem_cons] at hz
    rcases hz with hz | hz
    · rw [hz]
      exact ⟨rfl, rfl, rfl, rfl, rfl⟩
    · exact ih _ _ z hz

/-- When the namespace fits the 64-bit LBA space, zone `i` of the array the
bring-up loop builds starts at `start + i * zone_size`. -/
theorem init_zone_loop_tiled (cap capacity : Nat) (hc : capacity < U64) :
    ∀ k start zsz, start + k * zsz ≤ capacity → ∀ i, i < k →
      ((zns_init_zone_loop cap capacity k start zsz).getD i default).zslba = start + i * zsz := by
  intro k
  induction k with
  | zero =>
    intro start zsz _ i hi
    exact absurd hi (Nat.not_lt_zero i)
  | succ k ih =>
    intro start zsz hle i hi
    have h1 : start + zsz ≤ capacity := by
      have : zsz ≤ (k + 1) * zsz := Nat.le_mul_of_pos_left zsz (Nat.succ_pos k)
      omega
    have h2 : (start + zsz) % U64 = start + zsz := Nat.mod_eq_of_lt (by omega)
    have h3 : ¬ start + zsz > capacity := by omega
    simp only [zns_init_zone_loop, h2, h3, if_false]
    cases i with
    | zero => simp
    | succ i =>
      simp only [List.getD_cons_succ]
      rw [ih (start + zsz) zsz (by rw [Nat.succ_mul] at hle; omega) i (by omega)]
      rw [Nat.succ_mul]
      omega

/-- The state bring-up leaves: the zone array is the one the bring-up loop
builds from the derived geometry, and the capacity of a zone is at least one
block and at most the zone size. -/
theorem init_ns_state (n0 n : FemuCtrl) (h : zns_init_ns n0 = some n) :
    n.zone_array = zns_init_zone_loop n.zone_capacity ((n.num_zones * n.zone_size) % U64)
      n.num_zones 0 n.zone_size ∧
    1 ≤ n.zone_capacity ∧ n.zone_capacity ≤ n.zone_size := by
  unfold zns_init_ns at h
  obtain ⟨g, hg, hn⟩ := Option.map_eq_some'.mp h
  have hgd : g = zns_geometry_derive n0 ∧ zns_geometry_size_error n0 = false := by
    unfold zns_init_zone_geometry at hg
    split at hg
    · exact Option.noConfusion hg
    · rename_i hne
      refine ⟨?_, by simpa using hne⟩
      repeat' split at hg
      all_goals first
        | exact Option.noConfusion hg
        | exact (Option.some.inj hg).symm
  rw [← hn]
  refine ⟨rfl, ?_⟩
  have hcap : (zns_init_zone_identify g).zone_capacity = g.zone_capacity := rfl
  have hsz : (zns_init_zone_identify g).zone_size = g.zone_size := rfl
  rw [hcap, hsz, hgd.1]
  have he := hgd.2
  simp only [zns_geometry_size_error, Bool.or_eq_false_iff, decide_eq_false_iff_not] at he
  obtain ⟨⟨⟨e1, e2⟩, e3⟩, e4⟩ := he
  simp only [zns_geometry_derive]
  constructor
  · exact Nat.div_pos (by omega) (by omega)
  · exact Nat.div_le_div_right (by omega)

/-- In every reachable state the capacity of the zones is between one block
and the zone size, every zone record carries it, and, when the namespace fits
the 64-bit LBA space, zone `i` starts at `i * zone_size`. -/
theorem reachable_tiled (n : FemuCtrl) (h : Reachable n) :
    1 ≤ n.zone_capacity ∧ n.zone_capacity ≤ n.zone_size ∧
    (∀ i, i < n.zone_array.length → (zoneAt n i).zcap = n.zone_capacity) ∧
    (n.num_zones * n.zone_size < U64 →
      ∀ i, i < n.zone_array.length → (zoneAt n i).zslba = i * n.zone_size) := by
  induction h with
  | init n0 n _ _ _ h =>
    obtain ⟨ha, h1, h2⟩ := init_ns_state n0 n h
    refine ⟨h1, h2, ?_, ?_⟩
    · intro i hi
      have hm : zoneAt n i ∈ n.zone_array := by
        unfold zoneAt
        rw [List.getD_eq_getElem _ _ hi]
        exact List.getElem_mem hi
      rw [ha] at hm
      exact (init_zone_loop_fields _ _ _ _ _ _ hm).2.2.1
    · intro hsz i hi
      have hl : n.zone_array.length = n.num_zones := by
        rw [ha]; exact init_zone_loop_length _ _ _ _ _
      have := init_zone_loop_tiled n.zone_capacity ((n.num_zones * n.zone_size) % U64)
        (Nat.mod_lt _ (by unfold U64; norm_num)) n.num_zones 0 n.zone_size
        (by rw [Nat.mod_eq_of_lt hsz]; omega) i (by omega)
      unfold zoneAt
      rw [ha, this]
      omega
  | step n n1 c r hr h ih =>
    obtain ⟨i1, i2, i3, i4⟩ := ih
    have hI := reachable_inv n hr
    obtain ⟨_, hC⟩ := inv_io_cmd n c (n1, r) hI h
    have hZ := zones_io_cmd true n c (n1, r) hI h (fun hd => Bool.noConfusion hd)
    have hfr : ∀ i, (zoneAt n1 i).zslba = (zoneAt n i).zslba ∧
        (zoneAt n1 i).zcap = (zoneAt n i).zcap := by
      intro i
      exact steps_preserve true
        (fun z => z.zslba = (zoneAt n i).zslba ∧ z.zcap = (zoneAt n i).zcap)
        (fun z z1 hs hz => by
          obtain ⟨s1, s2, _⟩ := zoneStep_frame true z z1 hs
          exact ⟨s1.trans hz.1, s2.trans hz.2⟩)
        _ _ (hZ i) ⟨rfl, rfl⟩
    have hlen : n1.zone_array.length = n.zone_array.length := hC.2.2.2.2.2.2.2.2.2.2.2.2.2.2
    have hcp : n1.zone_capacity = n.zone_capacity := hC.2.2.2.1
    have hzs : n1.zone_size = n.zone_size := hC.2.2.1
    have hnz : n1.num_zones = n.num_zones := hC.2.1
    simp only [] at hlen hcp hzs hnz hfr
    refine ⟨by rw [hcp]; exact i1, by rw [hcp, hzs]; exact i2, ?_, ?_⟩
    · intro i hi
      rw [(hfr i).2, hcp]
      exact i3 i (by omega)
    · intro hsz i hi
      rw [(hfr i).1, hzs]
      exact i4 (by rw [← hnz, ← hzs]; exact hsz) i (by omega)

/-- A state reachable by accepted commands is reachable. -/
theorem reachable_of_accepted (n : FemuCtrl) (h : ReachableAccepted n) : Reachable n := by
  induction h with
  | init n0 n hz ho ha h => exact Reachable.init n0 n hz ho ha h
  | step n n1 c r _ h _ ih => exact Reachable.step n n1 c r ih h

/-- In every state reachable by accepted commands every zone record keeps
the write pointer facts. -/
theorem accepted_wpInv (n : FemuCtrl) (h : ReachableAccepted n) :
    ∀ i, i < n.zone_array.length → WpInv (zoneAt n i) := by
  induction h with
  | init n0 n _ _ _ h =>
    obtain ⟨ha, _, _⟩ := init_ns_state n0 n h
    intro i hi
    have hm : zoneAt n i ∈ n.zone_array := by
      unfold zoneAt
      rw [List.getD_eq_getElem _ _ hi]
      exact List.getElem_mem hi
    rw [ha] at hm
    obtain ⟨f1, _, _, f4, f5⟩ := init_zone_loop_fields _ _ _ _ _ _ hm
    refine ⟨f4.trans f5.symm, fun _ => f4, fun hg => ?_⟩
    constructor
    · intro hf; rw [f1] at hf; exact NvmeZoneState.noConfusion hf
    · intro hw; rw [f4] at hw; exact absurd hw hg
  | step n n1 c r hr h hs ih =>
    have hI := reachable_inv n (reachable_of_accepted n hr)
    obtain ⟨_, hC⟩ := inv_io_cmd n c (n1, r) hI h
    have hZ := zones_io_cmd false n c (n1, r) hI h (fun _ => Or.inr hs)
    have hlen : n1.zone_array.length = n.zone_array.length := hC.2.2.2.2.2.2.2.2.2.2.2.2.2.2
    intro i hi
    exact steps_preserve false WpInv zoneStep_wpInv _ _ (hZ i) (ih i (by omega))

/-- In every reachable state an EMPTY zone has no attribute bit set. -/
theorem reachable_empty_za (n : FemuCtrl) (h : Reachable n) :
    ∀ i, (zoneAt n i).zs = .EMPTY → (zoneAt n i).za = 0 := by
  induction h with
  | init n0 n _ _ _ h =>
    obtain ⟨ha, _, _⟩ := init_ns_state n0 n h
    intro i _
    by_cases hi : i < n.zone_array.length
    · have hm : zoneAt n i ∈ n.zone_array := by
        unfold zoneAt
        rw [List.getD_eq_getElem _ _ hi]
        exact List.getElem_mem hi
      rw [ha] at hm
      exact (init_zone_loop_fields _ _ _ _ _ _ hm).2.1
    · rw [zoneAt_default n i (by omega)]
      rfl
  | step n n1 c r hr h ih =>
    have hI := reachable_inv n hr
    have hZ := zones_io_cmd true n c (n1, r) hI h (fun hd => Bool.noConfusion hd)
    intro i
    exact steps_preserve true (fun z => z.zs = .EMPTY → z.za = 0)
      (zoneStep_empty_za true) _ _ (hZ i) (ih i)

theorem reachableAccepted_extCtrl : ReachableAccepted extCtrl :=
  ReachableAccepted.init extConfig extCtrl (by decide) (by decide) (by decide) (by decide)

theorem reachableAccepted_scenarioCtrl : ReachableAccepted scenarioCtrl :=
  ReachableAccepted.init scenarioConfig scenarioCtrl (by decide) (by decide) (by decide)
    (by decide)

/-- When the namespace fits the 64-bit LBA space, the end of the capacity of
every zone of a reachable state is a 64-bit value behind the zone start. -/
theorem reachable_zone_end (n : FemuCtrl) (h : Reachable n)
    (hsz : n.num_zones * n.zone_size < U64) (i : Nat) (hi : i < n.num_zones) :
    (zoneAt n i).zslba + (zoneAt n i).zcap < U64 ∧ 0 < (zoneAt n i).zcap ∧
    zns_zone_wr_boundary (zoneAt n i) = (zoneAt n i).zslba + (zoneAt n i).zcap := by
  obtain ⟨t1, t2, t3, t4⟩ := reachable_tiled n h
  have hlen := (reachable_inv n h).len
  have hc := t3 i (by omega)
  have hs := t4 hsz i (by omega)
  have hle : (i + 1) * n.zone_size ≤ n.num_zones * n.zone_size :=
    Nat.mul_le_mul_right _ (by omega)
  have hlt : (zoneAt n i).zslba + (zoneAt n i).zcap < U64 := by
    rw [hc, hs]
    rw [Nat.succ_mul] at hle
    omega
  exact ⟨hlt, by rw [hc]; omega, Nat.mod_eq_of_lt hlt⟩

/-- C11 fails on the code in both directions.  In the namespace `zns_init`
builds, the accepted OPEN of the empty zone 0 leaves it EXPLICITLY_OPEN with
`wp = zslba`.  In the namespace with descriptor extensions, SET_ZD_EXT on
zone 0, a write of one block and CLOSE are accepted and leave the zone CLOSED
with the extension-valid bit set and `wp = zslba + 1`. -/
theorem wp_at_start_not_only_empty :
    (∃ n, ReachableAccepted n ∧
      runAccepted femuCtrl [sendCmd NVME_ZONE_ACTION_OPEN 0] = some n ∧
      (zoneAt n 0).wp = (zoneAt n 0).zslba ∧ (zoneAt n 0).zs = .EXPLICITLY_OPEN ∧
      ¬ ((zoneAt n 0).zs = .EMPTY ∨
        ((zoneAt n 0).zs = .CLOSED ∧ (zoneAt n 0).za &&& NVME_ZA_ZD_EXT_VALID ≠ 0))) ∧
    (∃ n, ReachableAccepted n ∧
      runAccepted extCtrl [setExtCmd 0 NVME_SUCCESS, rwCmd NVME_CMD_WRITE 0 1,
        sendCmd NVME_ZONE_ACTION_CLOSE 0] = some n ∧
      (zoneAt n 0).zs = .CLOSED ∧ (zoneAt n 0).za &&& NVME_ZA_ZD_EXT_VALID ≠ 0 ∧
      (zoneAt n 0).zslba = 0 ∧ (zoneAt n 0).wp = 1 ∧
      (zoneAt n 0).wp ≠ (zoneAt n 0).zslba) :=
  ⟨⟨(runAccepted femuCtrl [sendCmd NVME_ZONE_ACTION_OPEN 0]).getD default,
      reachableAccepted_run [sendCmd NVME_ZONE_ACTION_OPEN 0] femuCtrl _
        reachableAccepted_femuCtrl (by decide),
      by decide, by decide, by decide, by decide⟩,
    ⟨(runAccepted extCtrl [setExtCmd 0 NVME_SUCCESS, rwCmd NVME_CMD_WRITE 0 1,
        sendCmd NVME_ZONE_ACTION_CLOSE 0]).getD default,
      reachableAccepted_run [setExtCmd 0 NVME_SUCCESS, rwCmd NVME_CMD_WRITE 0 1,
        sendCmd NVME_ZONE_ACTION_CLOSE 0] extCtrl _ reachableAccepted_extCtrl (by decide),
      by decide, by decide, by decide, by decide, by decide, by decide⟩⟩

/-- C11, amended: in every state reachable from bring-up by accepted
commands, every EMPTY zone has `wp` and `w_ptr` at its start; and when the
namespace fits the 64-bit LBA space, a zone with `wp` at its start is not
FULL.  (An explicitly opened zone, or a zone closed after SET_ZD_EXT and a
write, shows that `wp = zslba` does not characterise the states of the
claim.) -/
theorem accepted_empty_wp_at_start (n : FemuCtrl) (h : ReachableAccepted n) (i : Nat)
    (hi : i < n.num_zones) :
    ((zoneAt n i).zs = .EMPTY →
      (zoneAt n i).wp = (zoneAt n i).zslba ∧ (zoneAt n i).w_ptr = (zoneAt n i).zslba) ∧
    (n.num_zones * n.zone_size < U64 → (zoneAt n i).wp = (zoneAt n i).zslba →
      (zoneAt n i).zs ≠ .FULL) := by
  have hr := reachable_of_accepted n h
  have hlen := (reachable_inv n hr).len
  obtain ⟨w1, w2, w3⟩ := accepted_wpInv n h i (by omega)
  constructor
  · intro he
    exact ⟨w2 he, by rw [← w1]; exact w2 he⟩
  · intro hsz hw hf
    obtain ⟨g1, g2, g3⟩ := reachable_zone_end n hr hsz i hi
    have hne : (zoneAt n i).zslba ≠ zns_zone_wr_boundary (zoneAt n i) := by rw [g3]; omega
    have := (w3 hne).1 hf
    rw [hw] at this
    exact hne this

/-- After an accepted write of 5 blocks and an accepted RESET, zone 0 of the
namespace `zns_init` builds is EMPTY again with both write pointers at its
start. -/
theorem accepted_empty_wp_at_start_witness :
    ∃ n, runAccepted femuCtrl [rwCmd NVME_CMD_WRITE 0 5, sendCmd NVME_ZONE_ACTION_RESET 0]
        = some n ∧
      0 < n.num_zones ∧ (zoneAt n 0).zs = .EMPTY ∧
      ((zoneAt n 0).zs = .EMPTY →
        (zoneAt n 0).wp = (zoneAt n 0).zslba ∧ (zoneAt n 0).w_ptr = (zoneAt n 0).zslba) ∧
      (n.num_zones * n.zone_size < U64 → (zoneAt n 0).wp = (zoneAt n 0).zslba →
        (zoneAt n 0).zs ≠ .FULL) :=
  ⟨(runAccepted femuCtrl
      [rwCmd NVME_CMD_WRITE 0 5, sendCmd NVME_ZONE_ACTION_RESET 0]).getD default,
    by decide, by decide, by decide,
    accepted_empty_wp_at_start _
      (reachableAccepted_run [rwCmd NVME_CMD_WRITE 0 5, sendCmd NVME_ZONE_ACTION_RESET 0]
        femuCtrl _ reachableAccepted_femuCtrl (by decide)) 0 (by decide)⟩

/-- C12: in every state reachable from bring-up by accepted commands, on a
namespace that fits the 64-bit LBA space, a zone has `wp = zslba + zcap`
exactly when it is FULL, and a FULL zone has `w_ptr = zslba + zcap` too. -/
theorem accepted_full_iff_wp_at_capacity (n : FemuCtrl) (h : ReachableAccepted n)
    (hsz : n.num_zones * n.zone_size < U64) (i : Nat) (hi : i < n.num_zones) :
    ((zoneAt n i).wp = (zoneAt n i).zslba + (zoneAt n i).zcap ↔ (zoneAt n i).zs = .FULL) ∧
    ((zoneAt n i).zs = .FULL →
      (zoneAt n i).w_ptr = (zoneAt n i).zslba + (zoneAt n i).zcap) := by
  have hr := reachable_of_accepted n h
  have hlen := (reachable_inv n hr).len
  obtain ⟨w1, _, w3⟩ := accepted_wpInv n h i (by omega)
  obtain ⟨g1, g2, g3⟩ := reachable_zone_end n hr hsz i hi
  have hne : (zoneAt n i).zslba ≠ zns_zone_wr_boundary (zoneAt n i) := by rw [g3]; omega
  have hiff := w3 hne
  rw [g3] at hiff
  exact ⟨hiff.symm, fun hf => by rw [← w1]; exact hiff.1 hf⟩

/-- After the write of 8 blocks of scenario S1 and a write of 3 blocks to
zone 1, zone 0 is FULL with `wp = 8` and zone 1 is IMPLICITLY_OPEN. -/
theorem accepted_full_iff_wp_at_capacity_witness :
    ∃ n, runAccepted scenarioCtrl [rwCmd NVME_CMD_WRITE 0 8, rwCmd NVME_CMD_WRITE 8 3] = some n ∧
      n.num_zones * n.zone_size < U64 ∧ 1 < n.num_zones ∧
      (zoneAt n 0).zs = .FULL ∧ (zoneAt n 1).zs = .IMPLICITLY_OPEN ∧
      (((zoneAt n 0).wp = (zoneAt n 0).zslba + (zoneAt n 0).zcap ↔ (zoneAt n 0).zs = .FULL) ∧
        ((zoneAt n 0).zs = .FULL →
          (zoneAt n 0).w_ptr = (zoneAt n 0).zslba + (zoneAt n 0).zcap)) :=
  ⟨(runAccepted scenarioCtrl [rwCmd NVME_CMD_WRITE 0 8, rwCmd NVME_CMD_WRITE 8 3]).getD default,
    by decide, by decide, by decide, by decide, by decide,
    accepted_full_iff_wp_at_capacity _
      (reachableAccepted_run [rwCmd NVME_CMD_WRITE 0 8, rwCmd NVME_CMD_WRITE 8 3]
        scenarioCtrl _ reachableAccepted_scenarioCtrl (by decide)) (by decide) 0 (by decide)⟩

theorem reachable_extCtrl : Reachable extCtrl :=
  Reachable.init extConfig extCtrl (by decide) (by decide) (by decide) (by decide)

/-- C13: in every state reachable from bring-up by any commands, a zone whose
`za` has the extension-valid bit is not EMPTY (an EMPTY zone has `za = 0`);
`zns_assign_zone_state` clears `za` whenever it moves a zone to EMPTY; and a
successful `zns_set_zd_ext` found the zone EMPTY and leaves it CLOSED with
the bit set. -/
theorem ext_valid_zone_not_empty (n : FemuCtrl) (h : Reachable n) :
    (∀ i, (zoneAt n i).za &&& NVME_ZA_ZD_EXT_VALID ≠ 0 → (zoneAt n i).zs ≠ .EMPTY) ∧
    (∀ i, (zoneAt n i).zs = .EMPTY → (zoneAt n i).za = 0) ∧
    (∀ idx, idx < n.zone_array.length →
      (zoneAt (zns_assign_zone_state n idx .EMPTY) idx).zs = .EMPTY ∧
      (zoneAt (zns_assign_zone_state n idx .EMPTY) idx).za = 0) ∧
    (∀ idx, idx < n.zone_array.length → (zns_set_zd_ext n idx).2 = NVME_SUCCESS →
      (zoneAt n idx).zs = .EMPTY ∧
      (zoneAt (zns_set_zd_ext n idx).1 idx).zs = .CLOSED ∧
      (zoneAt (zns_set_zd_ext n idx).1 idx).za &&& NVME_ZA_ZD_EXT_VALID ≠ 0) := by
  have hz := reachable_empty_za n h
  refine ⟨?_, hz, ?_, ?_⟩
  · intro i hb he
    rw [hz i he] at hb
    exact hb (by simp)
  · intro idx hlen
    rw [zoneAt_assign_same n idx _ hlen]
    exact ⟨rfl, by simp⟩
  · intro idx hlen hs
    unfold zns_set_zd_ext at hs ⊢
    simp only [zns_get_zone_state] at hs ⊢
    by_cases he : (zoneAt n idx).zs = .EMPTY
    · simp only [he, if_true] at hs ⊢
      by_cases ha : zns_aor_check n 1 0 = NVME_SUCCESS
      · simp only [ha, ne_eq, not_true_eq_false, if_false]
        have hl2 : idx < (zns_aor_inc_active n).zone_array.length := hlen
        rw [zoneAt_assign_same _ idx _ (by rw [length_setZone]; exact hl2),
          zoneAt_setZone_same _ _ _ hl2]
        refine ⟨trivial, rfl, ?_⟩
        simp only [reduceCtorEq, or_self, if_false]
        rw [za_ext_valid_set]
        decide
      · simp only [ha, ne_eq, not_false_eq_true, if_true] at hs
    · simp only [he, if_false] at hs
      exact absurd hs (by decide)

/-- After SET_ZD_EXT on zone 0 of the namespace with descriptor extensions
the zone has the extension-valid bit and is CLOSED. -/
theorem ext_valid_zone_not_empty_witness :
    ∃ n, runCmds extCtrl [setExtCmd 0 NVME_SUCCESS] = some n ∧
      (zoneAt n 0).za &&& NVME_ZA_ZD_EXT_VALID ≠ 0 ∧ (zoneAt n 0).zs = .CLOSED ∧
      (∀ i, (zoneAt n i).za &&& NVME_ZA_ZD_EXT_VALID ≠ 0 → (zoneAt n i).zs ≠ .EMPTY) ∧
      (∀ i, (zoneAt n i).zs = .EMPTY → (zoneAt n i).za = 0) ∧
      (∀ idx, idx < n.zone_array.length →
        (zoneAt (zns_assign_zone_state n idx .EMPTY) idx).zs = .EMPTY ∧
        (zoneAt (zns_assign_zone_state n idx .EMPTY) idx).za = 0) ∧
      (∀ idx, idx < n.zone_array.length → (zns_set_zd_ext n idx).2 = NVME_SUCCESS →
        (zoneAt n idx).zs = .EMPTY ∧
        (zoneAt (zns_set_zd_ext n idx).1 idx).zs = .CLOSED ∧
        (zoneAt (zns_set_zd_ext n idx).1 idx).za &&& NVME_ZA_ZD_EXT_VALID ≠ 0) :=
  ⟨(runCmds extCtrl [setExtCmd 0 NVME_SUCCESS]).getD default, by decide, by decide, by decide,
    ext_valid_zone_not_empty _
      (reachable_runCmds [setExtCmd 0 NVME_SUCCESS] extCtrl _ reachable_extCtrl (by decide))⟩

/-- A write or an append that fails the transfer size check, the range
check or a zone check leaves the controller as it was. -/
theorem write_check_failure_unchanged (n : FemuCtrl) (c : NvmeCmd) (append : Bool) (idx : Nat)
    (hidx : zns_get_zone_by_slba n (cmd_slba c) = some idx)
    (hf : nvme_check_mdts n (zns_l2b n (cmd_nlb c + 1)) ≠ NVME_SUCCESS ∨
      zns_check_bounds n (cmd_slba c) (cmd_nlb c + 1) ≠ NVME_SUCCESS ∨
      zns_check_zone_write n (zoneAt n idx) (cmd_slba c) (cmd_nlb c + 1) append ≠ NVME_SUCCESS) :
    ∃ st, st ≠ NVME_SUCCESS ∧ zns_do_write n c append false = some (n, ⟨st, none, none⟩) := by
  by_cases c1 : nvme_check_mdts n (zns_l2b n (cmd_nlb c + 1)) = NVME_SUCCESS
  · by_cases c2 : zns_check_bounds n (cmd_slba c) (cmd_nlb c + 1) = NVME_SUCCESS
    · have c3 : zns_check_zone_write n (zoneAt n idx) (cmd_slba c) (cmd_nlb c + 1) append
          ≠ NVME_SUCCESS := by
        rcases hf with h | h | h
        · exact absurd c1 h
        · exact absurd c2 h
        · exact h
      refine ⟨(zns_check_zone_write n (zoneAt n idx) (cmd_slba c) (cmd_nlb c + 1) append).orDNR,
        orDNR_ne_success _, ?_⟩
      unfold zns_do_write
      simp [hidx, c1, c2, c3, NvmeStatus.nonzero]
    · refine ⟨(zns_check_bounds n (cmd_slba c) (cmd_nlb c + 1)).orDNR,
        orDNR_ne_success _, ?_⟩
      unfold zns_do_write
      simp [hidx, c1, c2, NvmeStatus.nonzero]
  · refine ⟨(nvme_check_mdts n (zns_l2b n (cmd_nlb c + 1))).orDNR, orDNR_ne_success _, ?_⟩
    unfold zns_do_write
    simp [hidx, c1, NvmeStatus.nonzero]

/-- C16 fails on the code for two of the failures it lists.  A write that
`zns_auto_open_zone` rejects has already run the eviction: after the three
writes of scenario S3 (zone 0 CLOSED, zones 1 and 2 IMPLICITLY_OPEN, three
active zones), the write to the empty zone 3 returns ZONE_TOO_MANY_ACTIVE,
and zone 1 is CLOSED and `nr_open_zones` is 1 afterwards.  A write whose
data pointer does not map has already been submitted: in the namespace
`zns_init` builds, such a write of one block to the empty zone 0 returns
INVALID_FIELD and leaves the zone IMPLICITLY_OPEN with `w_ptr = 1`,
`wp = 0` and both counters 1. -/
theorem failed_write_changes_state :
    (∃ n n1 r, Reachable n ∧
      runCmds scenarioCtrl [rwCmd NVME_CMD_WRITE 0 1, rwCmd NVME_CMD_WRITE 8 1,
        rwCmd NVME_CMD_WRITE 16 1] = some n ∧
      zns_io_cmd n (rwCmd NVME_CMD_WRITE 24 1) = some (n1, r) ∧
      r.status = NVME_ZONE_TOO_MANY_ACTIVE.orDNR ∧ r.status ≠ NVME_SUCCESS ∧
      (zoneAt n 1).zs = .IMPLICITLY_OPEN ∧ (zoneAt n1 1).zs = .CLOSED ∧
      n.nr_open_zones = 2 ∧ n1.nr_open_zones = 1 ∧
      n.imp_open_zones = [1, 2] ∧ n1.imp_open_zones = [2]) ∧
    (∃ n1 r, Reachable femuCtrl ∧
      zns_io_cmd femuCtrl (unmappedWrite 0 1) = some (n1, r) ∧
      r.status = NVME_INVALID_FIELD.orDNR ∧ r.status ≠ NVME_SUCCESS ∧
      (zoneAt femuCtrl 0).zs = .EMPTY ∧ (zoneAt n1 0).zs = .IMPLICITLY_OPEN ∧
      (zoneAt femuCtrl 0).w_ptr = 0 ∧ (zoneAt n1 0).w_ptr = 1 ∧ (zoneAt n1 0).wp = 0 ∧
      femuCtrl.nr_open_zones = 0 ∧ n1.nr_open_zones = 1 ∧
      femuCtrl.nr_active_zones = 0 ∧ n1.nr_active_zones = 1) :=
  ⟨⟨(runCmds scenarioCtrl [rwCmd NVME_CMD_WRITE 0 1, rwCmd NVME_CMD_WRITE 8 1,
        rwCmd NVME_CMD_WRITE 16 1]).getD default,
      ((runCmds scenarioCtrl [rwCmd NVME_CMD_WRITE 0 1, rwCmd NVME_CMD_WRITE 8 1,
        rwCmd NVME_CMD_WRITE 16 1, rwCmd NVME_CMD_WRITE 24 1]).getD default),
      ⟨NVME_ZONE_TOO_MANY_ACTIVE.orDNR, none, none⟩,
      reachable_runCmds [rwCmd NVME_CMD_WRITE 0 1, rwCmd NVME_CMD_WRITE 8 1,
        rwCmd NVME_CMD_WRITE 16 1] scenarioCtrl _ reachable_scenarioCtrl (by decide),
      by decide, by decide, by decide, by decide, by decide, by decide, by decide, by decide,
      by decide, by decide⟩,
    ⟨((zns_io_cmd femuCtrl (unmappedWrite 0 1)).getD default).1,
      ((zns_io_cmd femuCtrl (unmappedWrite 0 1)).getD default).2,
      reachable_femuCtrl, by decide, by decide, by decide, by decide, by decide, by decide,
      by decide, by decide, by decide, by decide, by decide, by decide⟩⟩

/-! ### Explicit OPEN at the open limit -/

/-- C21 (amended): in a state whose `nr_open_zones` is at the open limit,
whatever zones are implicitly open, no explicit command evicts.  A single-zone
OPEN of a CLOSED zone, or of an EMPTY zone that the active limit admits,
returns ZONE_TOO_MANY_OPEN with the do-not-retry bit and leaves the controller
as it was.  A single-zone SET_ZD_EXT of an EMPTY zone (extensions configured,
transfer of the extension bytes successful) that passes its active check
returns SUCCESS and closes the zone it is given, needing no open resource: every
other zone keeps its record and `nr_open_zones` keeps its value. -/
theorem open_at_open_limit (n : FemuCtrl) (c : NvmeCmd) (idx : Nat)
    (hmax : n.max_open_zones ≠ 0) (hopen : n.nr_open_zones = (n.max_open_zones : Int)) :
    (SingleZoneSend n c NVME_ZONE_ACTION_OPEN idx →
      (((zoneAt n idx).zs = .CLOSED ∧
          (n.max_active_zones = 0 ∨ n.nr_active_zones ≤ (n.max_active_zones : Int))) ∨
        ((zoneAt n idx).zs = .EMPTY ∧
          (n.max_active_zones = 0 ∨ n.nr_active_zones + 1 ≤ (n.max_active_zones : Int)))) →
      zns_zone_mgmt_send n c = some (n, NVME_ZONE_TOO_MANY_OPEN.orDNR)) ∧
    (SingleZoneSend n c NVME_ZONE_ACTION_SET_ZD_EXT idx → 0 < n.zd_extension_size →
      c.dma_status = NVME_SUCCESS → (zoneAt n idx).zs = .EMPTY →
      zns_aor_check n 1 0 = NVME_SUCCESS →
      ∃ n1, zns_zone_mgmt_send n c = some (n1, NVME_SUCCESS) ∧
        (zoneAt n1 idx).zs = .CLOSED ∧
        (∀ j, idx ≠ j → zoneAt n1 j = zoneAt n j) ∧
        n1.nr_open_zones = n.nr_open_zones) := by
  refine ⟨?_, ?_⟩
  · intro h hst
    have hm := mgmt_send_open n c idx h
    rw [hm]
    rcases hst with ⟨hz, ha⟩ | ⟨hz, ha⟩
    · have h1 : zns_aor_check n 0 1 = NVME_ZONE_TOO_MANY_OPEN.orDNR := by
        rw [aor_check_small n 0 1 (by decide) (by decide)]
        rw [if_neg (by rcases ha with ha | ha <;> [simp [ha]; (push_cast; omega)])]
        rw [if_pos ⟨hmax, by push_cast; omega⟩]
      rw [hz]
      simp [zns_mgmt_send_exit, zns_open_zone, zns_open_zone_from_closed, h1,
        NvmeStatus.nonzero, NVME_ZONE_TOO_MANY_OPEN, NvmeStatus.orDNR, NVME_SUCCESS]
    · have h0 : zns_aor_check n 1 0 = NVME_SUCCESS := by
        rw [aor_check_small n 1 0 (by decide) (by decide)]
        rw [if_neg (by rcases ha with ha | ha <;> [simp [ha]; (push_cast; omega)])]
        rw [if_neg (by push_cast; omega)]
      have h1 : zns_aor_check (zns_aor_inc_active n) 0 1 = NVME_ZONE_TOO_MANY_OPEN.orDNR := by
        rw [aor_check_small _ 0 1 (by decide) (by decide)]
        have e1 : (zns_aor_inc_active n).max_active_zones = n.max_active_zones := rfl
        have e2 : (zns_aor_inc_active n).nr_active_zones = n.nr_active_zones + 1 := rfl
        have e3 : (zns_aor_inc_active n).max_open_zones = n.max_open_zones := rfl
        have e4 : (zns_aor_inc_active n).nr_open_zones = n.nr_open_zones := rfl
        rw [e1, e2, e3, e4]
        rw [if_neg (by rcases ha with ha | ha <;> [simp [ha]; (push_cast; omega)])]
        rw [if_pos ⟨hmax, by push_cast; omega⟩]
      rw [hz]
      simp [zns_mgmt_send_exit, zns_open_zone, zns_open_zone_from_closed, h0, h1,
        NvmeStatus.nonzero, NVME_ZONE_TOO_MANY_OPEN, NvmeStatus.orDNR, NVME_SUCCESS,
        aor_dec_inc_active]
  · intro h hext hd hs ha
    have hsend := mgmt_send_set_zd_ext n c idx h hext
    have hlen : idx < n.zone_array.length := h.2.2.2.2.2.2.1
    obtain ⟨s1, s2, -, -, -, -, -, s8, s9⟩ := store_zd_extension_frame n idx c.dma_data
    have hlen1 : idx < (zns_store_zd_extension n idx c.dma_data).zone_array.length := by
      rw [s1]; exact hlen
    have hnz : c.dma_status.nonzero = false := by rw [hd]; decide
    have hset : zns_set_zd_ext (zns_store_zd_extension n idx c.dma_data) idx =
        (zns_assign_zone_state
          (setZone (zns_aor_inc_active (zns_store_zd_extension n idx c.dma_data)) idx
            { zoneAt n idx with za := (zoneAt n idx).za ||| NVME_ZA_ZD_EXT_VALID })
          idx .CLOSED, NVME_SUCCESS) := by
      have hz1 : zoneAt (zns_aor_inc_active (zns_store_zd_extension n idx c.dma_data)) idx
          = zoneAt n idx := by
        rw [← s9 idx]; rfl
      simp only [zns_set_zd_ext, zns_get_zone_state, s9, hs, s8, ha, hz1]
      simp
    refine ⟨zns_assign_zone_state
        (setZone (zns_aor_inc_active (zns_store_zd_extension n idx c.dma_data)) idx
          { zoneAt n idx with za := (zoneAt n idx).za ||| NVME_ZA_ZD_EXT_VALID })
        idx .CLOSED, by rw [hsend, hset]; simp [hnz], ?_, ?_, ?_⟩
    · rw [zoneAt_assign_same _ idx .CLOSED (by rw [length_setZone]; exact hlen1)]
    · intro j hj
      rw [zoneAt_assign_ne _ idx j _ hj, zoneAt_setZone_ne _ idx j _ hj, zoneAt_inc_active, s9 j]
    · rw [(assign_frame _ idx .CLOSED).1]
      exact s2

/-- Zones 0 and 1 of the scenario namespace implicitly open (open limit 2,
active limit 3): the OPEN of the EMPTY zone 2 returns ZONE_TOO_MANY_OPEN and
the state, zone 0 included, is as before. -/
theorem open_at_open_limit_witness :
    ∃ n, runCmds scenarioCtrl [rwCmd NVME_CMD_WRITE 0 1, rwCmd NVME_CMD_WRITE 8 1] = some n ∧
      n.max_open_zones ≠ 0 ∧ n.nr_open_zones = (n.max_open_zones : Int) ∧
      SingleZoneSend n (sendCmd NVME_ZONE_ACTION_OPEN 16) NVME_ZONE_ACTION_OPEN 2 ∧
      (zoneAt n 2).zs = .EMPTY ∧ n.nr_active_zones + 1 ≤ (n.max_active_zones : Int) ∧
      (zoneAt n 0).zs = .IMPLICITLY_OPEN ∧
      zns_zone_mgmt_send n (sendCmd NVME_ZONE_ACTION_OPEN 16) =
        some (n, NVME_ZONE_TOO_MANY_OPEN.orDNR) :=
  ⟨(runCmds scenarioCtrl [rwCmd NVME_CMD_WRITE 0 1, rwCmd NVME_CMD_WRITE 8 1]).getD default,
    by decide, by decide, by decide, by decide, by decide, by decide, by decide,
    (open_at_open_limit
      ((runCmds scenarioCtrl [rwCmd NVME_CMD_WRITE 0 1, rwCmd NVME_CMD_WRITE 8 1]).getD default)
      (sendCmd NVME_ZONE_ACTION_OPEN 16) 2 (by decide) (by decide)).1 (by decide)
      (Or.inr ⟨by decide, Or.inr (by decide)⟩)⟩

/-- C21 (counterexample): `zns_open_zone` and `zns_set_zd_ext` do not call
`zns_auto_transition_zone`; only the write path does.  In the scenario
namespace (open limit 2, active limit 3) with zones 0 and 1 implicitly open,
the OPEN of the EMPTY zone 2 returns ZONE_TOO_MANY_OPEN although the active
limit permits it, and zone 0, the head of the implicitly open queue, is not
closed; the same holds for the OPEN of a CLOSED zone with two other zones
implicitly open.  SET_ZD_EXT on an EMPTY zone in such a state succeeds, but
it closes no other zone and leaves `nr_open_zones` and the implicitly open
queue as they were. -/
theorem explicit_open_does_not_evict :
    (∃ n, runCmds scenarioCtrl [rwCmd NVME_CMD_WRITE 0 1, rwCmd NVME_CMD_WRITE 8 1] = some n ∧
      0 < n.max_open_zones ∧ n.nr_open_zones = (n.max_open_zones : Int) ∧
      n.imp_open_zones = [0, 1] ∧ (zoneAt n 2).zs = .EMPTY ∧
      n.nr_active_zones + 1 ≤ (n.max_active_zones : Int) ∧
      zns_io_cmd n (sendCmd NVME_ZONE_ACTION_OPEN 16) =
        some (n, ⟨NVME_ZONE_TOO_MANY_OPEN.orDNR, none, none⟩)) ∧
    (∃ n, runCmds scenarioCtrl [rwCmd NVME_CMD_WRITE 0 1, sendCmd NVME_ZONE_ACTION_CLOSE 0,
        rwCmd NVME_CMD_WRITE 8 1, rwCmd NVME_CMD_WRITE 16 1] = some n ∧
      0 < n.max_open_zones ∧ n.nr_open_zones = (n.max_open_zones : Int) ∧
      n.imp_open_zones = [1, 2] ∧ (zoneAt n 0).zs = .CLOSED ∧
      n.nr_active_zones ≤ (n.max_active_zones : Int) ∧
      zns_io_cmd n (sendCmd NVME_ZONE_ACTION_OPEN 0) =
        some (n, ⟨NVME_ZONE_TOO_MANY_OPEN.orDNR, none, none⟩)) ∧
    (∃ n n1, runCmds extCtrl [rwCmd NVME_CMD_WRITE 0 1, rwCmd NVME_CMD_WRITE 8 1] = some n ∧
      0 < n.max_open_zones ∧ n.nr_open_zones = (n.max_open_zones : Int) ∧
      n.imp_open_zones = [0, 1] ∧ (zoneAt n 2).zs = .EMPTY ∧
      zns_io_cmd n (setExtCmd 16 NVME_SUCCESS) = some (n1, ⟨NVME_SUCCESS, none, none⟩) ∧
      (zoneAt n1 2).zs = .CLOSED ∧ (zoneAt n1 0).zs = .IMPLICITLY_OPEN ∧
      n1.imp_open_zones = [0, 1] ∧ n1.nr_open_zones = n.nr_open_zones) :=
  ⟨⟨(runCmds scenarioCtrl [rwCmd NVME_CMD_WRITE 0 1, rwCmd NVME_CMD_WRITE 8 1]).getD default,
      by decide, by decide, by decide, by decide, by decide, by decide, by decide⟩,
    ⟨(runCmds scenarioCtrl [rwCmd NVME_CMD_WRITE 0 1, sendCmd NVME_ZONE_ACTION_CLOSE 0,
        rwCmd NVME_CMD_WRITE 8 1, rwCmd NVME_CMD_WRITE 16 1]).getD default,
      by decide, by decide, by decide, by decide, by decide, by decide, by decide⟩,
    ⟨(runCmds extCtrl [rwCmd NVME_CMD_WRITE 0 1, rwCmd NVME_CMD_WRITE 8 1]).getD default,
      ((zns_io_cmd ((runCmds extCtrl [rwCmd NVME_CMD_WRITE 0 1, rwCmd NVME_CMD_WRITE 8 1]).getD
        default) (setExtCmd 16 NVME_SUCCESS)).getD default).1,
      by decide, by decide, by decide, by decide, by decide, by decide, by decide, by decide,
      by decide, by decide⟩⟩

/-! ### The range check of read, write and append -/

/-- A failing range check is a non-zero status LBA_RANGE with the
do-not-retry bit. -/
theorem check_bounds_fail (n : FemuCtrl) (slba nlb : Nat)
    (h : (U64 - 1) - slba < nlb ∨ slba + nlb > n.nsze) :
    zns_check_bounds n slba nlb = NVME_LBA_RANGE.orDNR := by
  simp [zns_check_bounds, h]

/-- A read that fails the range check. -/
theorem read_out_of_range (n : FemuCtrl) (c : NvmeCmd) (hz : n.zoned = true)
    (hm : nvme_check_mdts n (zns_l2b n (cmd_nlb c + 1)) = NVME_SUCCESS)
    (h : (U64 - 1) - cmd_slba c < cmd_nlb c + 1 ∨ cmd_slba c + (cmd_nlb c + 1) > n.nsze) :
    zns_read n c = some (n, ⟨NVME_LBA_RANGE.orDNR, none, none⟩) := by
  simp [zns_read, hz, hm, check_bounds_fail n _ _ h, NvmeStatus.nonzero, NVME_SUCCESS,
    NVME_LBA_RANGE, NvmeStatus.orDNR]

/-- A write or an append that fails the range check, when the zone lookup at
the head of the function finds a zone. -/
theorem do_write_out_of_range (n : FemuCtrl) (c : NvmeCmd) (append : Bool) (idx : Nat)
    (hi : zns_get_zone_by_slba n (cmd_slba c) = some idx)
    (hm : nvme_check_mdts n (zns_l2b n (cmd_nlb c + 1)) = NVME_SUCCESS)
    (h : (U64 - 1) - cmd_slba c < cmd_nlb c + 1 ∨ cmd_slba c + (cmd_nlb c + 1) > n.nsze) :
    zns_do_write n c append false = some (n, ⟨NVME_LBA_RANGE.orDNR, none, none⟩) := by
  simp [zns_do_write, hi, hm, check_bounds_fail n _ _ h, NvmeStatus.nonzero, NVME_SUCCESS,
    NVME_LBA_RANGE, NvmeStatus.orDNR]

/-- C23 (divergence): a read whose size passes the MDTS check and whose range
check fails returns LBA_RANGE with the do-not-retry bit and changes nothing,
wherever `slba` lies; a write or an append does so only when the zone lookup
at the head of `zns_write` and `zns_do_write` finds a zone.  When the zone
index of `slba` is not below `num_zones` the assertion of the lookup fails
before the range check runs: in the scenario namespace of 32 blocks, a write
and an append of one block at LBA 32 end in the failed assertion, while the
read of the same block returns LBA_RANGE. -/
theorem write_lookup_before_range_check :
    (∀ n c, n.zoned = true → c.opcode = NVME_CMD_READ →
      nvme_check_mdts n (zns_l2b n (cmd_nlb c + 1)) = NVME_SUCCESS →
      ((U64 - 1) - cmd_slba c < cmd_nlb c + 1 ∨ cmd_slba c + (cmd_nlb c + 1) > n.nsze) →
      zns_io_cmd n c = some (n, ⟨NVME_LBA_RANGE.orDNR, none, none⟩)) ∧
    (∀ n c idx, n.zoned = true →
      (c.opcode = NVME_CMD_WRITE ∨ c.opcode = NVME_CMD_ZONE_APPEND) →
      zns_get_zone_by_slba n (cmd_slba c) = some idx →
      nvme_check_mdts n (zns_l2b n (cmd_nlb c + 1)) = NVME_SUCCESS →
      ((U64 - 1) - cmd_slba c < cmd_nlb c + 1 ∨ cmd_slba c + (cmd_nlb c + 1) > n.nsze) →
      zns_io_cmd n c = some (n, ⟨NVME_LBA_RANGE.orDNR, none, none⟩)) ∧
    (∀ n c, (c.opcode = NVME_CMD_WRITE ∨ c.opcode = NVME_CMD_ZONE_APPEND) →
      zns_get_zone_by_slba n (cmd_slba c) = none → zns_io_cmd n c = none) ∧
    (scenarioCtrl.nsze = 32 ∧ cmd_slba (rwCmd NVME_CMD_WRITE 32 1) = 32 ∧
      nvme_check_mdts scenarioCtrl
        (zns_l2b scenarioCtrl (cmd_nlb (rwCmd NVME_CMD_WRITE 32 1) + 1)) = NVME_SUCCESS ∧
      zns_get_zone_by_slba scenarioCtrl 32 = none ∧
      zns_io_cmd scenarioCtrl (rwCmd NVME_CMD_WRITE 32 1) = none ∧
      zns_io_cmd scenarioCtrl (rwCmd NVME_CMD_ZONE_APPEND 32 1) = none ∧
      zns_io_cmd scenarioCtrl (rwCmd NVME_CMD_READ 32 1) =
        some (scenarioCtrl, ⟨NVME_LBA_RANGE.orDNR, none, none⟩)) := by
  refine ⟨?_, ?_, ?_, by decide⟩
  · intro n c hz ho hm h
    simp only [zns_io_cmd, ho, if_true]
    exact read_out_of_range n c hz hm h
  · intro n c idx hz ho hi hm h
    rcases ho with ho | ho
    · rw [do_write_io_cmd n c false hz (by simp [ho])]
      exact do_write_out_of_range n c false idx hi hm h
    · rw [do_write_io_cmd n c true hz (by simp [ho])]
      exact do_write_out_of_range n c true idx hi hm h
  · intro n c ho hi
    rcases ho with ho | ho
    · simp [zns_io_cmd, ho, NVME_CMD_WRITE, NVME_CMD_READ, zns_write, hi]
    · simp [zns_io_cmd, ho, NVME_CMD_WRITE, NVME_CMD_READ, NVME_CMD_ZONE_APPEND,
        NVME_CMD_ZONE_MGMT_SEND, NVME_CMD_ZONE_MGMT_RECV, zns_zone_append, zns_do_write, hi]

/-! ### Zone lookup: shift, division and the tiling of the LBA space -/

/-- A non-zero word with `v & (v - 1) = 0` is a power of two. -/
theorem land_pred_two_pow : ∀ v : Nat, v ≠ 0 → v &&& (v - 1) = 0 → ∃ k, v = 2 ^ k := by
  intro v
  induction v using Nat.strong_induction_on with
  | _ v ih =>
    intro hv h
    have hd : v / 2 &&& (v - 1) / 2 = 0 := by
      rw [← Nat.and_div_two, h]
    rcases Nat.even_or_odd' v with ⟨u, hu | hu⟩
    · have e1 : v / 2 = u := by omega
      have e2 : (v - 1) / 2 = u - 1 := by omega
      rw [e1, e2] at hd
      obtain ⟨k, hk⟩ := ih u (by omega) (by omega) hd
      exact ⟨k + 1, by rw [hu, hk, pow_succ]; ring⟩
    · have e1 : v / 2 = u := by omega
      have e2 : (v - 1) / 2 = u := by omega
      rw [e1, e2, Nat.and_self] at hd
      exact ⟨0, by omega⟩

/-- A word `is_power_of_2` accepts is a power of two. -/
theorem is_power_of_2_spec (v : Nat) (h : is_power_of_2 v = true) : ∃ k, v = 2 ^ k := by
  simp only [is_power_of_2, Bool.and_eq_true, decide_eq_true_eq] at h
  exact land_pred_two_pow v (by simpa using h.1) h.2

/-- One more bit position in `highest_bit`. -/
theorem highest_bit_succ (w v : Nat) :
    highest_bit (w + 1) v = if v >>> w ≠ 0 then w else highest_bit w v := by
  simp [highest_bit, List.range_succ, List.foldl_append]

/-- The highest set bit of `2 ^ k` is bit `k`. -/
theorem highest_bit_two_pow (k : Nat) : ∀ w, k < w → highest_bit w (2 ^ k) = k := by
  intro w
  induction w with
  | zero => intro h; omega
  | succ w ih =>
    intro h
    rw [highest_bit_succ]
    by_cases hk : k = w
    · subst hk
      simp [Nat.shiftRight_eq_div_pow]
    · have hlt : k < w := by omega
      have : 2 ^ k >>> w = 0 := by
        rw [Nat.shiftRight_eq_div_pow]
        exact Nat.div_eq_of_lt (Nat.pow_lt_pow_right (by norm_num) hlt)
      simp [this, ih hlt]

/-- The configuration facts bring-up establishes. -/
theorem init_ns_config (n0 n : FemuCtrl) (h : zns_init_ns n0 = some n) :
    n.zone_size_log2 = (if is_power_of_2 n.zone_size then highest_bit 64 n.zone_size else 0) ∧
    n.nsze = (n.num_zones * n.zone_size) % U64 ∧ n.num_zones < U32 := by
  unfold zns_init_ns at h
  obtain ⟨g, hg, hn⟩ := Option.map_eq_some'.mp h
  have hgd : g = zns_geometry_derive n0 := by
    unfold zns_init_zone_geometry at hg
    repeat' split at hg
    all_goals first
      | exact Option.noConfusion hg
      | exact (Option.some.inj hg).symm
  rw [← hn]
  refine ⟨rfl, rfl, ?_⟩
  have : (zns_init_zone_identify g).num_zones = g.num_zones := rfl
  rw [this, hgd]
  simp only [zns_geometry_derive]
  exact Nat.mod_lt _ (by unfold U32; norm_num)

/-- Commands keep the configuration facts of bring-up. -/
theorem reachable_config (n : FemuCtrl) (h : Reachable n) :
    n.zone_size_log2 = (if is_power_of_2 n.zone_size then highest_bit 64 n.zone_size else 0) ∧
    n.nsze = (n.num_zones * n.zone_size) % U64 ∧ n.num_zones < U32 := by
  induction h with
  | init n0 n _ _ _ h => exact init_ns_config n0 n h
  | step n n1 c r hr h ih =>
    obtain ⟨_, hC⟩ := inv_io_cmd n c (n1, r) (reachable_inv n hr) h
    obtain ⟨_, c2, c3, _, c5, _, _, _, _, _, _, _, _, c14, _⟩ := hC
    simp only [] at c2 c3 c5 c14
    rw [c2, c3, c5, c14]
    exact ih

/-- The zone index of an LBA is its quotient by the zone size, as a 32-bit
value, whether the shift or the division computes it. -/
theorem zone_idx_eq_div (n : FemuCtrl)
    (hc : n.zone_size_log2 =
      (if is_power_of_2 n.zone_size then highest_bit 64 n.zone_size else 0))
    (hz : n.zone_size < U64) (slba : Nat) :
    zns_zone_idx n slba = (slba / n.zone_size) % U32 := by
  unfold zns_zone_idx
  by_cases hp : is_power_of_2 n.zone_size = true
  · obtain ⟨k, hk⟩ := is_power_of_2_spec _ hp
    have hk64 : k < 64 := by
      by_contra hge
      have : 2 ^ 64 ≤ 2 ^ k := Nat.pow_le_pow_right (by norm_num) (by omega)
      rw [hk] at hz
      unfold U64 at hz
      omega
    rw [hc, if_pos hp, hk, highest_bit_two_pow k 64 hk64]
    by_cases h0 : k > 0
    · rw [if_pos h0, Nat.shiftRight_eq_div_pow]
    · have : k = 0 := by omega
      subst this
      simp
  · rw [hc, if_neg hp]
    simp

/-- Under the bring-up geometry the zone lookup of an LBA inside the
namespace finds the zone that holds the LBA. -/
theorem geometry_zone_idx (n : FemuCtrl) (hg : ZoneGeometry n) (slba : Nat)
    (hs : slba < n.nsze) :
    zns_zone_idx n slba = slba / n.zone_size ∧ slba / n.zone_size < n.num_zones ∧
    zns_get_zone_by_slba n slba = some (slba / n.zone_size) := by
  obtain ⟨_, _, hz0, hsz, hn, hu, hc, _⟩ := hg
  rw [hn] at hs
  have hnz : 0 < n.num_zones := by
    rcases Nat.eq_zero_or_pos n.num_zones with h0 | h0
    · rw [h0] at hs; simp at hs
    · exact h0
  have hzs : n.zone_size < U64 := by
    calc n.zone_size = 1 * n.zone_size := by ring
      _ ≤ n.num_zones * n.zone_size := Nat.mul_le_mul_right _ hnz
      _ < U64 := hsz
  have hq : slba / n.zone_size < n.num_zones := by
    rw [Nat.div_lt_iff_lt_mul hz0]; exact hs
  have he : zns_zone_idx n slba = slba / n.zone_size := by
    rw [zone_idx_eq_div n hc hzs slba, Nat.mod_eq_of_lt (by omega)]
  refine ⟨he, hq, ?_⟩
  simp [zns_get_zone_by_slba, he, hq]

/-- A reachable state whose zone array ends below 2^64 has the bring-up
geometry. -/
theorem reachable_geometry (n : FemuCtrl) (h : Reachable n)
    (hsz : n.num_zones * n.zone_size < U64) : ZoneGeometry n := by
  obtain ⟨hc, hn, hu⟩ := reachable_config n h
  obtain ⟨h1, h2, _, h4⟩ := reachable_tiled n h
  have hlen := (reachable_inv n h).len
  refine ⟨reachable_zoned n h, hlen, by omega, hsz, ?_, hu, hc, ?_⟩
  · rw [hn, Nat.mod_eq_of_lt hsz]
  · intro i hi
    exact h4 hsz i (by omega)

/-! ### Management send with an LBA that starts no zone -/

/-- C25 (counterexample): in the scenario namespace of 32 blocks a single-zone
OPEN with `slba = 32`, which is the start LBA of no zone, returns LBA_RANGE and
not INVALID_FIELD: the LBA is checked against the namespace size before it is
compared with a zone start. -/
theorem send_beyond_namespace_lba_range :
    (sendCmd NVME_ZONE_ACTION_OPEN 32).cdw13 % U32 &&& 0x100 = 0 ∧
    (∀ j, j < scenarioCtrl.num_zones →
      cmd_slba (sendCmd NVME_ZONE_ACTION_OPEN 32) ≠ (zoneAt scenarioCtrl j).zslba) ∧
    zns_zone_mgmt_send scenarioCtrl (sendCmd NVME_ZONE_ACTION_OPEN 32) =
      some (scenarioCtrl, NVME_LBA_RANGE.orDNR) ∧
    NVME_LBA_RANGE.orDNR ≠ NVME_INVALID_FIELD.orDNR ∧
    NVME_LBA_RANGE.orDNR ≠ NVME_INVALID_FIELD := by
  decide

/-- C25 (amended): in a reachable state whose zone array ends below 2^64, a
zone management send with `all = 0`, whatever its action, whose `slba` is the
start LBA of no zone returns and leaves the controller unchanged; the status
is LBA_RANGE when `slba` is at or beyond the end of the namespace and
INVALID_FIELD otherwise, both with the do-not-retry bit. -/
theorem send_unaligned_slba (n : FemuCtrl) (h : Reachable n)
    (hsz : n.num_zones * n.zone_size < U64) (c : NvmeCmd)
    (hall : (c.cdw13 % U32) &&& 0x100 = 0)
    (hne : ∀ j, j < n.num_zones → cmd_slba c ≠ (zoneAt n j).zslba) :
    zns_zone_mgmt_send n c =
      some (n, if cmd_slba c ≥ n.nsze then NVME_LBA_RANGE.orDNR else NVME_INVALID_FIELD.orDNR) := by
  have hz := reachable_zoned n h
  have hlen := (reachable_inv n h).len
  by_cases hr : cmd_slba c ≥ n.nsze
  · simp [zns_zone_mgmt_send, hall, zns_get_mgmt_zone_slba_idx, hz, hr, NvmeStatus.nonzero,
      NVME_LBA_RANGE, NvmeStatus.orDNR, NVME_SUCCESS]
  · obtain ⟨_, hlt0, _⟩ := geometry_zone_idx n (reachable_geometry n h hsz) (cmd_slba c) (by omega)
    have hlt : zns_zone_idx n (cmd_slba c) < n.num_zones := by
      rw [(geometry_zone_idx n (reachable_geometry n h hsz) (cmd_slba c) (by omega)).1]
      exact hlt0
    have hn := hne _ hlt
    simp [zns_zone_mgmt_send, hall, zns_get_mgmt_zone_slba_idx, hz, hr, hlt, NvmeStatus.nonzero,
      NVME_SUCCESS, hlen, hn]

/-- The OPEN of LBA 3 in the scenario namespace: LBA 3 lies inside zone 0 and
is not its start, and the command returns INVALID_FIELD. -/
theorem send_unaligned_slba_witness :
    scenarioCtrl.num_zones * scenarioCtrl.zone_size < U64 ∧
    (sendCmd NVME_ZONE_ACTION_OPEN 3).cdw13 % U32 &&& 0x100 = 0 ∧
    (∀ j, j < scenarioCtrl.num_zones →
      cmd_slba (sendCmd NVME_ZONE_ACTION_OPEN 3) ≠ (zoneAt scenarioCtrl j).zslba) ∧
    zns_zone_mgmt_send scenarioCtrl (sendCmd NVME_ZONE_ACTION_OPEN 3) =
      some (scenarioCtrl,
        if cmd_slba (sendCmd NVME_ZONE_ACTION_OPEN 3) ≥ scenarioCtrl.nsze then
          NVME_LBA_RANGE.orDNR
        else NVME_INVALID_FIELD.orDNR) :=
  ⟨by decide, by decide, by decide,
    send_unaligned_slba scenarioCtrl reachable_scenarioCtrl (by decide)
      (sendCmd NVME_ZONE_ACTION_OPEN 3) (by decide) (by decide)⟩

/-! ### The zone checks of a read -/

/-- When the capacity of the zones is the zone size, the read boundary of
zone `j` is the start of zone `j + 1`. -/
theorem rd_boundary_eq (n : FemuCtrl) (hg : ZoneGeometry n)
    (hfull : ∀ i, i < n.num_zones → (zoneAt n i).zcap = n.zone_size)
    (j : Nat) (hj : j < n.num_zones) :
    zns_zone_rd_boundary n (zoneAt n j) = (j + 1) * n.zone_size := by
  obtain ⟨_, _, _, hsz, _, _, _, ht⟩ := hg
  unfold zns_zone_rd_boundary
  rw [ht j hj, hfull j hj]
  have : (j + 1) * n.zone_size ≤ n.num_zones * n.zone_size := Nat.mul_le_mul_right _ hj
  have e : j * n.zone_size + n.zone_size = (j + 1) * n.zone_size := by ring
  rw [e, Nat.mod_eq_of_lt (by omega)]

/-- The state check of a read fails for an OFFLINE zone only. -/
theorem state_for_read_eq (z : NvmeZone) :
    zns_check_zone_state_for_read z =
      if z.zs = .OFFLINE then NVME_ZONE_OFFLINE else NVME_SUCCESS := by
  unfold zns_check_zone_state_for_read zns_get_zone_state
  cases z.zs <;> simp

/-- When the capacity of the zones is the zone size, the walk of a read over
the successor zones returns: with SUCCESS when no zone behind `idx` that
starts before the end of the read is OFFLINE, with ZONE_OFFLINE when one
is. -/
theorem read_walk_spec (n : FemuCtrl) (hg : ZoneGeometry n)
    (hfull : ∀ i, i < n.num_zones → (zoneAt n i).zcap = n.zone_size) (endlba : Nat)
    (he : endlba ≤ n.num_zones * n.zone_size) :
    ∀ fuel idx, n.num_zones ≤ fuel + idx → endlba > (idx + 1) * n.zone_size →
      ((∀ j, idx < j → j * n.zone_size < endlba → (zoneAt n j).zs ≠ .OFFLINE) →
        zns_check_zone_read_walk n endlba fuel idx = some NVME_SUCCESS) ∧
      ((∃ j, idx < j ∧ j * n.zone_size < endlba ∧ (zoneAt n j).zs = .OFFLINE) →
        zns_check_zone_read_walk n endlba fuel idx = some NVME_ZONE_OFFLINE) := by
  have hlen : n.zone_array.length = n.num_zones := hg.2.1
  intro fuel
  induction fuel with
  | zero =>
    intro idx hf hgt
    exfalso
    have : n.num_zones * n.zone_size ≤ (idx + 1) * n.zone_size :=
      Nat.mul_le_mul_right _ (by omega)
    omega
  | succ fuel ih =>
    intro idx hf hgt
    have hi1 : idx + 1 < n.num_zones := by
      by_contra hc
      have : n.num_zones * n.zone_size ≤ (idx + 1) * n.zone_size :=
        Nat.mul_le_mul_right _ (by omega)
      omega
    have hb := rd_boundary_eq n hg hfull (idx + 1) hi1
    have hl : ¬ n.zone_array.length ≤ idx + 1 := by omega
    simp only [zns_check_zone_read_walk, hl, if_false, state_for_read_eq, hb]
    by_cases ho : (zoneAt n (idx + 1)).zs = .OFFLINE
    · simp only [ho, if_true]
      refine ⟨fun hall => absurd ho (hall (idx + 1) (by omega) hgt), fun _ => ?_⟩
      simp [NVME_ZONE_OFFLINE, NVME_SUCCESS]
    · simp only [ho, if_false, ne_eq, not_true_eq_false]
      by_cases hgt2 : endlba > (idx + 1 + 1) * n.zone_size
      · simp only [hgt2, if_true]
        obtain ⟨ih1, ih2⟩ := ih (idx + 1) (by omega) hgt2
        refine ⟨fun hall => ih1 (fun j hj => hall j (by omega)), ?_⟩
        rintro ⟨j, hj, hje, hjo⟩
        refine ih2 ⟨j, ?_, hje, hjo⟩
        rcases Nat.lt_or_ge (idx + 1) j with h1 | h1
        · exact h1
        · have : j = idx + 1 := by omega
          subst this
          exact absurd hjo ho
      · simp only [hgt2, if_false]
        refine ⟨fun _ => trivial, ?_⟩
        rintro ⟨j, hj, hje, hjo⟩
        exfalso
        rcases Nat.lt_or_ge (idx + 1) j with h1 | h1
        · have : (idx + 1 + 1) * n.zone_size ≤ j * n.zone_size :=
            Nat.mul_le_mul_right _ (by omega)
          omega
        · have : j = idx + 1 := by omega
          subst this
          exact absurd hjo ho

/-- A read whose size, range and data pointer are accepted returns what the
zone checks say, and does not change the controller. -/
theorem read_eq_zone_check (n : FemuCtrl) (c : NvmeCmd) (hz : n.zoned = true)
    (hm : nvme_check_mdts n (zns_l2b n (cmd_nlb c + 1)) = NVME_SUCCESS)
    (hb : zns_check_bounds n (cmd_slba c) (cmd_nlb c + 1) = NVME_SUCCESS)
    (hp : zns_map_dptr c = NVME_SUCCESS) :
    zns_read n c = (zns_check_zone_read n (cmd_slba c) (cmd_nlb c + 1)).map
      (fun status => (n, ⟨if status.nonzero then status.orDNR else NVME_SUCCESS, none, none⟩)) := by
  simp only [zns_read, hz, hm, hb, hp, nonzero_false, Bool.not_true, Bool.false_eq_true, if_false]
  cases zns_check_zone_read n (cmd_slba c) (cmd_nlb c + 1) with
  | none => rfl
  | some st =>
    have hs0 : NVME_SUCCESS.nonzero = false := by decide
    by_cases hn : st.nonzero = true <;> simp [hn, hs0]

/-- The zone checks of a read under the bring-up geometry, when the capacity
of the zones is the zone size. -/
theorem check_zone_read_eq (n : FemuCtrl) (hg : ZoneGeometry n)
    (hfull : ∀ i, i < n.num_zones → (zoneAt n i).zcap = n.zone_size) (slba nlb : Nat)
    (h1 : slba + nlb < U64) (h2 : slba < n.nsze) :
    zns_check_zone_read n slba nlb =
      if (zoneAt n (slba / n.zone_size)).zs = .OFFLINE then some NVME_ZONE_OFFLINE
      else if slba + nlb > (slba / n.zone_size + 1) * n.zone_size then
        if n.cross_zone_read = false then some NVME_ZONE_BOUNDARY_ERROR
        else zns_check_zone_read_walk n (slba + nlb) n.zone_array.length (slba / n.zone_size)
      else some NVME_SUCCESS := by
  obtain ⟨_, hlt, hl⟩ := geometry_zone_idx n hg slba h2
  have hb := rd_boundary_eq n hg hfull _ hlt
  simp only [zns_check_zone_read, hl, hb, Nat.mod_eq_of_lt h1, state_for_read_eq]
  by_cases ho : (zoneAt n (slba / n.zone_size)).zs = .OFFLINE
  · simp [ho, NVME_ZONE_OFFLINE, NVME_SUCCESS]
  · by_cases hc : n.cross_zone_read = true <;> simp [ho, hc]

/-- When the capacity of the zones is the zone size, as in the scenarios of
the specification, a read that passes the size and range checks (and whose
data pointer maps) returns, leaves the controller as it is, and gets its
status from the zones alone: ZONE_OFFLINE when the zone of `slba` is offline;
otherwise SUCCESS when it ends at or before the read boundary of that zone;
otherwise ZONE_BOUNDARY_ERROR when `cross_zone_read` is off; otherwise SUCCESS
exactly when no later zone that starts before the end of the read is offline,
and ZONE_OFFLINE when one is.  No other zone state enters the result.  Failure
statuses carry the do-not-retry bit. -/
theorem read_zone_status (n : FemuCtrl) (c : NvmeCmd) (hg : ZoneGeometry n)
    (hfull : ∀ i, i < n.num_zones → (zoneAt n i).zcap = n.zone_size)
    (hm : nvme_check_mdts n (zns_l2b n (cmd_nlb c + 1)) = NVME_SUCCESS)
    (hb : zns_check_bounds n (cmd_slba c) (cmd_nlb c + 1) = NVME_SUCCESS)
    (hp : zns_map_dptr c = NVME_SUCCESS) :
    ∃ st, zns_read n c = some (n, ⟨st, none, none⟩) ∧
      zns_get_zone_by_slba n (cmd_slba c) = some (cmd_slba c / n.zone_size) ∧
      ((zoneAt n (cmd_slba c / n.zone_size)).zs = .OFFLINE → st = NVME_ZONE_OFFLINE.orDNR) ∧
      ((zoneAt n (cmd_slba c / n.zone_size)).zs ≠ .OFFLINE →
        (cmd_slba c + (cmd_nlb c + 1) ≤
            zns_zone_rd_boundary n (zoneAt n (cmd_slba c / n.zone_size)) →
          st = NVME_SUCCESS) ∧
        (cmd_slba c + (cmd_nlb c + 1) >
            zns_zone_rd_boundary n (zoneAt n (cmd_slba c / n.zone_size)) →
          (n.cross_zone_read = false → st = NVME_ZONE_BOUNDARY_ERROR.orDNR) ∧
          (n.cross_zone_read = true →
            (st = NVME_SUCCESS ↔
              ∀ j, cmd_slba c / n.zone_size < j → j < n.num_zones →
                (zoneAt n j).zslba < cmd_slba c + (cmd_nlb c + 1) →
                (zoneAt n j).zs ≠ .OFFLINE) ∧
            ((∃ j, cmd_slba c / n.zone_size < j ∧ j < n.num_zones ∧
                (zoneAt n j).zslba < cmd_slba c + (cmd_nlb c + 1) ∧
                (zoneAt n j).zs = .OFFLINE) → st = NVME_ZONE_OFFLINE.orDNR)))) := by
  obtain ⟨b1, b2⟩ := check_bounds_success n c _ hb
  have hz : n.zoned = true := hg.1
  have hlen : n.zone_array.length = n.num_zones := hg.2.1
  have hnsze : n.nsze = n.num_zones * n.zone_size := hg.2.2.2.2.1
  have hti := hg.2.2.2.2.2.2.2
  have hs : cmd_slba c < n.nsze := by omega
  obtain ⟨_, hlt, hl⟩ := geometry_zone_idx n hg (cmd_slba c) hs
  have hbd := rd_boundary_eq n hg hfull _ hlt
  rw [read_eq_zone_check n c hz hm hb hp, check_zone_read_eq n hg hfull _ _ b1 hs, hbd]
  generalize hsdef : cmd_slba c / n.zone_size = s at *
  generalize hedef : cmd_slba c + (cmd_nlb c + 1) = e at *
  have hconv : ∀ j, s < j → (j * n.zone_size < e ↔ (j < n.num_zones ∧ (zoneAt n j).zslba < e)) := by
    intro j _
    constructor
    · intro hj
      have hjn : j < n.num_zones := by
        by_contra hc
        have : n.num_zones * n.zone_size ≤ j * n.zone_size := Nat.mul_le_mul_right _ (by omega)
        omega
      exact ⟨hjn, by rw [hti j hjn]; exact hj⟩
    · rintro ⟨hjn, hj⟩
      rw [hti j hjn] at hj
      exact hj
  by_cases ho : (zoneAt n s).zs = .OFFLINE
  · refine ⟨NVME_ZONE_OFFLINE.orDNR, ?_, hl, fun _ => rfl, fun hne => absurd ho hne⟩
    simp [ho, NvmeStatus.nonzero, NVME_ZONE_OFFLINE, NVME_SUCCESS]
  · rw [if_neg ho]
    by_cases hgt : e > (s + 1) * n.zone_size
    · rw [if_pos hgt]
      by_cases hc : n.cross_zone_read = false
      · refine ⟨NVME_ZONE_BOUNDARY_ERROR.orDNR, ?_, hl, fun h => absurd h ho, fun _ =>
          ⟨fun hle => by omega, fun _ => ⟨fun _ => rfl, fun h => by rw [hc] at h; cases h⟩⟩⟩
        simp [hc, NvmeStatus.nonzero, NVME_ZONE_BOUNDARY_ERROR, NVME_SUCCESS]
      · rw [if_neg hc]
        obtain ⟨w1, w2⟩ :=
          read_walk_spec n hg hfull e (by omega) n.zone_array.length s (by omega) hgt
        by_cases hex : ∃ j, s < j ∧ j * n.zone_size < e ∧ (zoneAt n j).zs = .OFFLINE
        · refine ⟨NVME_ZONE_OFFLINE.orDNR, ?_, hl, fun h => absurd h ho, fun _ =>
            ⟨fun hle => by omega, fun _ => ⟨fun h => absurd h hc, fun _ => ⟨?_, fun _ => rfl⟩⟩⟩⟩
          · rw [w2 hex]
            simp [NvmeStatus.nonzero, NVME_ZONE_OFFLINE, NVME_SUCCESS]
          · constructor
            · intro h
              simp [NVME_ZONE_OFFLINE, NVME_SUCCESS, NvmeStatus.orDNR] at h
            · intro hall
              obtain ⟨j, hj, hje, hjo⟩ := hex
              obtain ⟨hjn, hjz⟩ := (hconv j hj).mp hje
              exact absurd hjo (hall j hj hjn hjz)
        · have hall : ∀ j, s < j → j * n.zone_size < e → (zoneAt n j).zs ≠ .OFFLINE := by
            intro j hj hje hjo
            exact hex ⟨j, hj, hje, hjo⟩
          refine ⟨NVME_SUCCESS, ?_, hl, fun h => absurd h ho, fun _ =>
            ⟨fun _ => rfl, fun _ => ⟨fun h => absurd h hc, fun _ => ⟨?_, ?_⟩⟩⟩⟩
          · rw [w1 hall]
            simp [NvmeStatus.nonzero, NVME_SUCCESS]
          · constructor
            · intro _ j hj hjn hjz
              exact hall j hj ((hconv j hj).mpr ⟨hjn, hjz⟩)
            · intro _; rfl
          · rintro ⟨j, hj, hjn, hjz, hjo⟩
            exact absurd hjo (hall j hj ((hconv j hj).mpr ⟨hjn, hjz⟩))
    · rw [if_neg hgt]
      refine ⟨NVME_SUCCESS, ?_, hl, fun h => absurd h ho, fun _ =>
        ⟨fun _ => rfl, fun hgt2 => absurd hgt2 hgt⟩⟩
      simp [NvmeStatus.nonzero, NVME_SUCCESS]

/-- Scenario S7 with cross-zone reads enabled and zone 1 offline: the read of
blocks 6 to 9 starts in zone 0, reaches into zone 1 and gets ZONE_OFFLINE. -/
theorem read_zone_status_witness :
    ZoneGeometry offlineCtrl ∧
    nvme_check_mdts offlineCtrl
      (zns_l2b offlineCtrl (cmd_nlb (rwCmd NVME_CMD_READ 6 4) + 1)) = NVME_SUCCESS ∧
    zns_check_bounds offlineCtrl (cmd_slba (rwCmd NVME_CMD_READ 6 4))
      (cmd_nlb (rwCmd NVME_CMD_READ 6 4) + 1) = NVME_SUCCESS ∧
    zns_map_dptr (rwCmd NVME_CMD_READ 6 4) = NVME_SUCCESS ∧
    (zoneAt offlineCtrl 0).zs = .EMPTY ∧ (zoneAt offlineCtrl 1).zs = .OFFLINE ∧
    offlineCtrl.cross_zone_read = true ∧
    zns_read offlineCtrl (rwCmd NVME_CMD_READ 6 4) =
      some (offlineCtrl, ⟨NVME_ZONE_OFFLINE.orDNR, none, none⟩) := by
  refine ⟨by decide, by decide, by decide, by decide, by decide, by decide, by decide, ?_⟩
  obtain ⟨st, h1, _, _, h4⟩ := read_zone_status offlineCtrl (rwCmd NVME_CMD_READ 6 4)
    (by decide) (by decide) (by decide) (by decide) (by decide)
  have h5 := ((h4 (by decide)).2 (by decide)).2 (by decide)
  rw [h1, h5.2 ⟨1, by decide, by decide, by decide, by decide⟩]

/-! ### Successive appends to one zone -/

/-- An append that passes the checks and finds the resources: the result
carries the old `w_ptr`, the zone is advanced and finalized. -/
theorem append_step (m : FemuCtrl) (c : NvmeCmd) (idx : Nat) (hI : Inv m)
    (hz : m.zoned = true) (hop : c.opcode = NVME_CMD_ZONE_APPEND)
    (hv : WriteValid m c true idx) (hao : (zns_auto_open_zone m idx).2 = NVME_SUCCESS) :
    ∃ m1, zns_io_cmd m c = some (m1, ⟨NVME_SUCCESS, some (zoneAt m idx).w_ptr, none⟩) ∧
      Inv m1 ∧ SameConfig m1 m ∧
      zoneAt m1 idx =
        finalizeZone (advanceZone (zoneAt m idx) (cmd_nlb c + 1)) (cmd_nlb c + 1) := by
  have hidx := hv.1
  have hlen : idx < m.zone_array.length := by
    rw [hI.len]; exact get_zone_by_slba_lt m _ idx hidx
  have hw := (check_zone_write_success m _ _ _ _ hv.2.2.2.1).2.1
  obtain ⟨_, hC, _, _⟩ := inv_auto_open m idx hI
  obtain ⟨m1, h1, _, h3, _, _, _, _, _⟩ := write_tail_spec m (zns_auto_open_zone m idx).1 c idx hC
    (auto_open_zone_same m idx hI) hlen hidx hw
  have he : zns_io_cmd m c = some (m1, ⟨NVME_SUCCESS, some (zoneAt m idx).w_ptr, none⟩) := by
    rw [do_write_io_cmd m c true hz (by simp [hop]), do_write_valid m c true idx hv hao, h1]
    rfl
  obtain ⟨hI1, hC1⟩ := inv_io_cmd m c _ hI he
  exact ⟨m1, he, hI1, hC1, h3⟩

/-- The checks of an append read the configuration, and of the zone record
the start, the capacity and the state. -/
theorem writeValid_append_congr (n m : FemuCtrl) (c : NvmeCmd) (idx : Nat)
    (hC : SameConfig m n) (hv : WriteValid n c true idx)
    (h1 : (zoneAt m idx).zslba = (zoneAt n idx).zslba)
    (h2 : (zoneAt m idx).zcap = (zoneAt n idx).zcap)
    (h3 : (zoneAt m idx).zs = .EMPTY ∨ (zoneAt m idx).zs = .IMPLICITLY_OPEN ∨
      (zoneAt m idx).zs = .EXPLICITLY_OPEN ∨ (zoneAt m idx).zs = .CLOSED) :
    WriteValid m c true idx := by
  obtain ⟨v1, v2, v3, v4, v5⟩ := hv
  have hw := (check_zone_write_success n _ _ _ _ v4).2.1
  have hC0 := hC
  obtain ⟨_, _, _, _, _, _, _, _, _, c10, c11, c12, c13, c14, _⟩ := hC
  refine ⟨by rw [get_zone_by_slba_congr hC0]; exact v1, ?_, ?_, ?_, v5⟩
  · simpa only [nvme_check_mdts, zns_l2b, c12, c10, c13] using v2
  · simpa only [zns_check_bounds, c14] using v3
  · have hsn : zns_check_zone_state_for_write (zoneAt n idx) = NVME_SUCCESS := by
      unfold zns_check_zone_state_for_write zns_get_zone_state
      rcases hw with h | h | h | h <;> simp [h]
    have hsm : zns_check_zone_state_for_write (zoneAt m idx) = NVME_SUCCESS := by
      unfold zns_check_zone_state_for_write zns_get_zone_state
      rcases h3 with h | h | h | h <;> simp [h]
    simp only [zns_check_zone_write, zns_zone_wr_boundary, zns_l2b, h1, h2, c10, c11, c13, hsm]
    simpa only [zns_check_zone_write, zns_zone_wr_boundary, zns_l2b, hsn] using v4

/-- Before the first append the record is the zone itself. -/
theorem appendedZone_zero (z : NvmeZone) (k : Nat) (h1 : z.wp = z.zslba)
    (h2 : z.w_ptr = z.zslba) : appendedZone z k 0 = z := by
  cases z
  simp only [appendedZone] at *
  simp [h1, h2]

/-- One more append, submitted and completed, on the record after `j`
appends. -/
theorem appendedZone_succ (z : NvmeZone) (k j : Nat) (hE : z.zs = .EMPTY)
    (hcap : z.zslba + z.zcap < U64) (hk : 1 ≤ k) (hfit : (j + 1) * k ≤ z.zcap) :
    finalizeZone (advanceZone (appendedZone z k j) k) k = appendedZone z k (j + 1) := by
  have e : (j + 1) * k = j * k + k := by ring
  rw [e] at hfit
  rcases Nat.lt_or_ge (j * k + k) z.zcap with hlt | hge
  · rw [zone_not_filling _ k (by simpa [appendedZone] using hcap)
      (by simp only [appendedZone]; omega) (by simp [appendedZone])]
    simp only [appendedZone, e]
    have h1 : j * k ≠ z.zcap := by omega
    have h2 : j * k + k ≠ z.zcap := by omega
    by_cases hj : j = 0
    · subst hj
      have h3 : k ≠ z.zcap := by omega
      simp [hE, h3, Nat.add_assoc]
    · simp [hj, h1, h2, Nat.add_assoc]
  · have heq : j * k + k = z.zcap := by omega
    rw [zone_filling _ k (by simpa [appendedZone] using hcap)
      (by simp only [appendedZone]; omega) (by simp [appendedZone])]
    simp only [appendedZone, e]
    simp [heq]

/-- Successive appends of the same command to a zone that starts EMPTY. -/
theorem append_run (n : FemuCtrl) (c : NvmeCmd) (idx : Nat) (hz : n.zoned = true)
    (hop : c.opcode = NVME_CMD_ZONE_APPEND) (hv : WriteValid n c true idx)
    (hE : (zoneAt n idx).zs = .EMPTY)
    (hcap : (zoneAt n idx).zslba + (zoneAt n idx).zcap < U64) :
    ∀ M m j, Inv m → SameConfig m n →
      zoneAt m idx = appendedZone (zoneAt n idx) (cmd_nlb c + 1) j →
      (j = 0 → (zns_auto_open_zone m idx).2 = NVME_SUCCESS) →
      (j + M) * (cmd_nlb c + 1) ≤ (zoneAt n idx).zcap →
      ∃ m1, runResults m (List.replicate M c) =
          some (m1, (List.range M).map (fun i =>
            ⟨NVME_SUCCESS, some ((zoneAt n idx).zslba + (j + i) * (cmd_nlb c + 1)), none⟩)) ∧
        Inv m1 ∧ SameConfig m1 n ∧
        zoneAt m1 idx = appendedZone (zoneAt n idx) (cmd_nlb c + 1) (j + M) := by
  intro M
  induction M with
  | zero =>
    intro m j hI hC hzone _ _
    exact ⟨m, rfl, hI, hC, by simpa using hzone⟩
  | succ M ih =>
    intro m j hI hC hzone hao hfit
    have hfit1 : (j + 1) * (cmd_nlb c + 1) ≤ (zoneAt n idx).zcap := by
      have : (j + 1) * (cmd_nlb c + 1) ≤ (j + (M + 1)) * (cmd_nlb c + 1) :=
        Nat.mul_le_mul_right _ (by omega)
      omega
    have hjk : j * (cmd_nlb c + 1) < (zoneAt n idx).zcap := by
      have e : (j + 1) * (cmd_nlb c + 1) = j * (cmd_nlb c + 1) + (cmd_nlb c + 1) := by ring
      omega
    have hst : (zoneAt m idx).zs = .EMPTY ∨ (zoneAt m idx).zs = .IMPLICITLY_OPEN := by
      rw [hzone]
      simp only [appendedZone]
      by_cases hj : j = 0
      · left; simp [hj, hE]
      · right; simp [hj, Nat.ne_of_lt hjk]
    have hvm : WriteValid m c true idx :=
      writeValid_append_congr n m c idx hC hv (by rw [hzone]; rfl) (by rw [hzone]; rfl)
        (by rcases hst with h | h <;> simp [h])
    have haom : (zns_auto_open_zone m idx).2 = NVME_SUCCESS := by
      by_cases hj : j = 0
      · exact hao hj
      · rcases hst with h | h
        · rw [hzone] at h
          simp [appendedZone, hj, Nat.ne_of_lt hjk] at h
        · rw [auto_open_eq]
          simp [h]
    have hzm : m.zoned = true := by rw [hC.1]; exact hz
    obtain ⟨m1, he, hI1, hC1, hz1⟩ := append_step m c idx hI hzm hop hvm haom
    rw [hzone, appendedZone_succ _ _ j hE hcap (by omega) hfit1] at hz1
    obtain ⟨m2, hr, hI2, hC2, hz2⟩ := ih m1 (j + 1) hI1 (hC1.trans hC) hz1
      (fun h => by omega) (by
        have : j + 1 + M = j + (M + 1) := by omega
        rw [this]; exact hfit)
    refine ⟨m2, ?_, hI2, hC2, by rw [hz2]; congr 1; omega⟩
    simp only [List.replicate_succ, runResults, he, hr, Option.map_some', List.range_succ_eq_map,
      List.map_cons, List.map_map]
    have hw : (zoneAt m idx).w_ptr = (zoneAt n idx).zslba + j * (cmd_nlb c + 1) := by
      rw [hzone]; rfl
    rw [hw]
    simp only [Nat.add_zero, Option.some.injEq, Prod.mk.injEq, List.cons.injEq, true_and]
    apply List.map_congr_left
    intro i _
    simp only [Function.comp, Nat.succ_eq_add_one]
    have : j + 1 + i = j + (i + 1) := by omega
    rw [this]

/-- An append to a FULL zone that passes the size, range and boundary checks
gets ZONE_FULL and changes nothing. -/
theorem append_to_full (m : FemuCtrl) (c : NvmeCmd) (idx : Nat) (hz : m.zoned = true)
    (hop : c.opcode = NVME_CMD_ZONE_APPEND)
    (hl : zns_get_zone_by_slba m (cmd_slba c) = some idx)
    (hm : nvme_check_mdts m (zns_l2b m (cmd_nlb c + 1)) = NVME_SUCCESS)
    (hb : zns_check_bounds m (cmd_slba c) (cmd_nlb c + 1) = NVME_SUCCESS)
    (hf : (zoneAt m idx).zs = .FULL)
    (hbd : (cmd_slba c + (cmd_nlb c + 1)) % U64 ≤ zns_zone_wr_boundary (zoneAt m idx)) :
    zns_io_cmd m c = some (m, ⟨NVME_ZONE_FULL.orDNR, none, none⟩) := by
  rw [do_write_io_cmd m c true hz (by simp [hop])]
  have hs0 : NVME_SUCCESS.nonzero = false := by decide
  have hcz : zns_check_zone_write m (zoneAt m idx) (cmd_slba c) (cmd_nlb c + 1) true =
      NVME_ZONE_FULL := by
    simp [zns_check_zone_write, Nat.not_lt.mpr hbd, zns_check_zone_state_for_write,
      zns_get_zone_state, hf, NVME_ZONE_FULL, NVME_SUCCESS]
  simp [zns_do_write, hl, hm, hb, hs0, hcz, NvmeStatus.nonzero, NVME_ZONE_FULL, NVME_SUCCESS]

/-- N appends of `k` blocks at the start LBA of a zone that is EMPTY with
both pointers at its start, N·k ≤ zcap, when the command passes the size,
range, append-limit and data-pointer checks and the first append finds the
open and active resources: all N appends are accepted, the i-th returns the
LBA `zslba + (i - 1)·k`, afterwards `wp = zslba + N·k`; if N·k = zcap the zone
is FULL and one more such append gets ZONE_FULL (with the do-not-retry bit)
and changes nothing. -/
theorem appends_fill_zone (n : FemuCtrl) (c : NvmeCmd) (idx N : Nat) (hI : Inv n)
    (hz : n.zoned = true) (hop : c.opcode = NVME_CMD_ZONE_APPEND)
    (hv : WriteValid n c true idx)
    (hao : (zns_auto_open_zone n idx).2 = NVME_SUCCESS)
    (hE : (zoneAt n idx).zs = .EMPTY)
    (hwp : (zoneAt n idx).wp = (zoneAt n idx).zslba)
    (hwptr : (zoneAt n idx).w_ptr = (zoneAt n idx).zslba)
    (hcap : (zoneAt n idx).zslba + (zoneAt n idx).zcap < U64)
    (hN : 1 ≤ N) (hNk : N * (cmd_nlb c + 1) ≤ (zoneAt n idx).zcap) :
    cmd_slba c = (zoneAt n idx).zslba ∧
    ∃ n1, runResults n (List.replicate N c) =
        some (n1, (List.range N).map (fun i =>
          ⟨NVME_SUCCESS, some ((zoneAt n idx).zslba + i * (cmd_nlb c + 1)), none⟩)) ∧
      (zoneAt n1 idx).wp = (zoneAt n idx).zslba + N * (cmd_nlb c + 1) ∧
      (N * (cmd_nlb c + 1) = (zoneAt n idx).zcap →
        (zoneAt n1 idx).zs = .FULL ∧
        zns_io_cmd n1 c = some (n1, ⟨NVME_ZONE_FULL.orDNR, none, none⟩)) := by
  obtain ⟨hb1, _, ha, _⟩ := check_zone_write_success n _ _ _ _ hv.2.2.2.1
  refine ⟨ha rfl, ?_⟩
  obtain ⟨n1, hr, hI1, hC1, hz1⟩ := append_run n c idx hz hop hv hE hcap N n 0 hI
    (SameConfig.refl n) (appendedZone_zero _ _ hwp hwptr).symm (fun _ => hao)
    (by simpa using hNk)
  simp only [Nat.zero_add] at hr hz1
  refine ⟨n1, hr, by rw [hz1]; rfl, ?_⟩
  intro hfull
  have hfs : (zoneAt n1 idx).zs = .FULL := by
    rw [hz1]
    simp only [appendedZone]
    simp [Nat.ne_of_gt hN, hfull]
  refine ⟨hfs, ?_⟩
  have hC0 := hC1
  obtain ⟨_, _, _, _, _, _, _, _, _, c10, _, c12, c13, c14, _⟩ := hC1
  refine append_to_full n1 c idx (by rw [hC0.1]; exact hz) hop
    (by rw [get_zone_by_slba_congr hC0]; exact hv.1) ?_ ?_ hfs ?_
  · simpa only [nvme_check_mdts, zns_l2b, c12, c10, c13] using hv.2.1
  · simpa only [zns_check_bounds, c14] using hv.2.2.1
  · have : zns_zone_wr_boundary (zoneAt n1 idx) = zns_zone_wr_boundary (zoneAt n idx) := by
      rw [hz1]; rfl
    rw [this]; exact hb1

/-- Scenario S5: two appends of 4 blocks at LBA 8 fill zone 1 of the scenario
namespace; they return the LBAs 8 and 12, and a third append gets ZONE_FULL. -/
theorem appends_fill_zone_witness :
    scenarioCtrl.zoned = true ∧
    WriteValid scenarioCtrl (rwCmd NVME_CMD_ZONE_APPEND 8 4) true 1 ∧
    (zns_auto_open_zone scenarioCtrl 1).2 = NVME_SUCCESS ∧
    (zoneAt scenarioCtrl 1).zs = .EMPTY ∧
    (zoneAt scenarioCtrl 1).zslba = 8 ∧ (zoneAt scenarioCtrl 1).zcap = 8 ∧
    cmd_nlb (rwCmd NVME_CMD_ZONE_APPEND 8 4) + 1 = 4 ∧
    ∃ n1, runResults scenarioCtrl (List.replicate 2 (rwCmd NVME_CMD_ZONE_APPEND 8 4)) =
        some (n1, [⟨NVME_SUCCESS, some 8, none⟩, ⟨NVME_SUCCESS, some 12, none⟩]) ∧
      (zoneAt n1 1).wp = 16 ∧ (zoneAt n1 1).zs = .FULL ∧
      zns_io_cmd n1 (rwCmd NVME_CMD_ZONE_APPEND 8 4) =
        some (n1, ⟨NVME_ZONE_FULL.orDNR, none, none⟩) := by
  obtain ⟨_, n1, h1, h2, h3⟩ := appends_fill_zone scenarioCtrl (rwCmd NVME_CMD_ZONE_APPEND 8 4) 1 2
    (reachable_inv _ reachable_scenarioCtrl) (by decide) (by decide) (by decide) (by decide)
    (by decide) (by decide) (by decide) (by decide) (by decide) (by decide)
  exact ⟨by decide, by decide, by decide, by decide, by decide, by decide, by decide,
    n1, h1, h2, (h3 (by decide)).1, (h3 (by decide)).2⟩

/-! ### Bulk operations: the loops of `zns_do_zone_op` -/

/-- `zns_bulk_proc_zone` calls the handler when the mask selects the state of
the zone, and does nothing otherwise. -/
theorem bulk_proc_zone_eq (n : FemuCtrl) (idx mask : Nat) (op : op_handler_t) :
    zns_bulk_proc_zone n idx mask op =
      if procSelects mask (zoneAt n idx).zs then op n idx (zoneAt n idx).zs
      else (n, NVME_SUCCESS) := by
  unfold zns_bulk_proc_zone procSelects zns_get_zone_state
  cases (zoneAt n idx).zs <;> rfl

/-- With `all = 1` the LBA is not decoded; zone 0 stands for the current
zone, and the comparison of the LBA with its start compares 0 with 0. -/
theorem mgmt_send_all (n : FemuCtrl) (c : NvmeCmd) (hall : (c.cdw13 % U32) &&& 0x100 ≠ 0)
    (h0 : 0 < n.zone_array.length) (hz0 : (zoneAt n 0).zslba = 0) :
    zns_zone_mgmt_send n c = zns_mgmt_send_switch n c ((c.cdw13 % U32) &&& 0xff) true 0 := by
  have hs0 : NVME_SUCCESS.nonzero = false := by decide
  have hb : ((c.cdw13 % U32) &&& 0x100 != 0) = true := by simpa using hall
  unfold zns_zone_mgmt_send
  rw [hb]
  simp only [Bool.true_eq_false, if_false, hs0]
  rw [if_neg (show ¬ n.zone_array.length ≤ 0 by omega),
    if_neg (show ¬ (0 ≠ (zoneAt n 0).zslba) by rw [hz0]; simp)]
  simp

/-- The first zone of a reachable namespace starts at LBA 0. -/
theorem reachable_first_zone (n : FemuCtrl) (h : Reachable n) (h0 : 0 < n.num_zones) :
    (zoneAt n 0).zslba = 0 := by
  induction h with
  | init n0 n _ _ _ h =>
    obtain ⟨ha, _, _⟩ := init_ns_state n0 n h
    unfold zoneAt
    rw [ha]
    obtain ⟨k, hk⟩ := Nat.exists_eq_succ_of_ne_zero (Nat.ne_of_gt h0)
    rw [hk]
    simp [zns_init_zone_loop]
  | step n n1 c r hr h ih =>
    have hI := reachable_inv n hr
    obtain ⟨_, hC⟩ := inv_io_cmd n c (n1, r) hI h
    have hZ := zones_io_cmd true n c (n1, r) hI h (fun hd => Bool.noConfusion hd)
    have hnz : n1.num_zones = n.num_zones := hC.2.1
    have := steps_preserve true (fun z => z.zslba = (zoneAt n 0).zslba)
      (fun z z1 hs hz => (zoneStep_frame true z z1 hs).1.trans hz) _ _ (hZ 0) rfl
    simp only [] at this hnz
    rw [this]
    exact ih (by omega)

/-- The loop of an OPEN with `all = 1` over the closed queue when the open
limit has room for `r` more zones and the queue is longer: the first `r`
zones of the queue are opened, the next one fails the open check, and the
loop is left with ZONE_TOO_MANY_OPEN. -/
theorem open_all_loop : ∀ (l : List Nat) (m : FemuCtrl) (st : NvmeStatus) (r : Nat),
    Inv m → m.closed_zones = l → m.max_open_zones ≠ 0 →
    m.nr_open_zones + (r : Int) = (m.max_open_zones : Int) → r < l.length →
    ∃ m1, zns_foreach_safe NVME_PROC_CLOSED_ZONES zns_open_zone l m st =
        (m1, NVME_ZONE_TOO_MANY_OPEN.orDNR, true) ∧
      Inv m1 ∧
      (∀ j ∈ l.take r, zoneAt m1 j = openedZone (zoneAt m j)) ∧
      (∀ j, j ∉ l.take r → zoneAt m1 j = zoneAt m j) ∧
      m1.closed_zones = l.drop r ∧ m1.exp_open_zones = m.exp_open_zones ++ l.take r ∧
      m1.imp_open_zones = m.imp_open_zones ∧ m1.full_zones = m.full_zones ∧
      m1.nr_open_zones = (m.max_open_zones : Int) ∧ m1.nr_active_zones = m.nr_active_zones ∧
      m1.max_open_zones = m.max_open_zones := by
  intro l
  induction l with
  | nil => intro m st r _ _ _ _ hlt; simp at hlt
  | cons i rest ih =>
    intro m st r hI hcl hmax hr hlt
    have hmem : i ∈ m.closed_zones := by rw [hcl]; exact List.mem_cons_self _ _
    obtain ⟨hil, hzs⟩ := (hI.linked.closed i).mp hmem
    have hact : m.max_active_zones = 0 ∨ m.nr_active_zones ≤ (m.max_active_zones : Int) :=
      hI.limits.2
    have hbp : zns_bulk_proc_zone m i NVME_PROC_CLOSED_ZONES zns_open_zone =
        zns_open_zone_from_closed m i .CLOSED := by
      rw [bulk_proc_zone_eq, hzs]
      rfl
    cases r with
    | zero =>
      have hchk : zns_aor_check m 0 1 = NVME_ZONE_TOO_MANY_OPEN.orDNR := by
        rw [aor_check_small m 0 1 (by decide) (by decide)]
        rw [if_neg (by rcases hact with ha | ha <;> [simp [ha]; (push_cast; omega)])]
        rw [if_pos ⟨hmax, by push_cast at hr ⊢; omega⟩]
      refine ⟨m, ?_, hI, by simp, fun _ _ => rfl, by simpa using hcl, by simp, rfl, rfl,
        by push_cast at hr; omega, rfl, rfl⟩
      simp only [zns_foreach_safe, hbp, zns_open_zone_from_closed, hchk]
      simp [NvmeStatus.nonzero, NVME_ZONE_TOO_MANY_OPEN, NvmeStatus.orDNR, NVME_SUCCESS,
        NVME_NO_COMPLETE]
    | succ r =>
      have hchk : zns_aor_check m 0 1 = NVME_SUCCESS := by
        rw [aor_check_small m 0 1 (by decide) (by decide)]
        rw [if_neg (by rcases hact with ha | ha <;> [simp [ha]; (push_cast; omega)])]
        rw [if_neg (by push_cast at hr ⊢; omega)]
      have hstep : zns_open_zone_from_closed m i .CLOSED =
          (zns_assign_zone_state (zns_aor_inc_open m) i .EXPLICITLY_OPEN, NVME_SUCCESS) := by
        simp [zns_open_zone_from_closed, hchk]
      have hI1 : Inv (zns_assign_zone_state (zns_aor_inc_open m) i .EXPLICITLY_OPEN) := by
        have := (inv_open_zone m i hI hil).1
        rw [hzs] at this
        simpa [zns_open_zone, hstep] using this
      have hL : Linked (zns_aor_inc_open m) :=
        linked_congr hI.linked rfl (fun _ => rfl) rfl rfl rfl rfl
      obtain ⟨l1, l2, l3, l4⟩ := assign_lists (zns_aor_inc_open m) i .EXPLICITLY_OPEN hL
      obtain ⟨a1, a2, a3, _, _, _⟩ := assign_frame (zns_aor_inc_open m) i .EXPLICITLY_OPEN
      have hnd := hI.linked.nd_closed
      rw [hcl] at hnd
      have hnd' := List.nodup_cons.mp hnd
      have hne : i ∉ m.exp_open_zones := fun h => by
        have := ((hI.linked.exp i).mp h).2
        rw [hzs] at this; cases this
      have hni : i ∉ m.imp_open_zones := fun h => by
        have := ((hI.linked.imp i).mp h).2
        rw [hzs] at this; cases this
      have hnf : i ∉ m.full_zones := fun h => by
        have := ((hI.linked.full i).mp h).2
        rw [hzs] at this; cases this
      have c1 : (zns_assign_zone_state (zns_aor_inc_open m) i .EXPLICITLY_OPEN).closed_zones =
          rest := by
        rw [l3]
        show m.closed_zones.erase i ++ _ = rest
        rw [hcl]; simp
      have c2 : (zns_assign_zone_state (zns_aor_inc_open m) i .EXPLICITLY_OPEN).exp_open_zones =
          m.exp_open_zones ++ [i] := by
        rw [l1]
        show m.exp_open_zones.erase i ++ _ = _
        rw [List.erase_of_not_mem hne]; simp
      have c3 : (zns_assign_zone_state (zns_aor_inc_open m) i .EXPLICITLY_OPEN).imp_open_zones =
          m.imp_open_zones := by
        rw [l2]
        show m.imp_open_zones.erase i ++ _ = _
        rw [List.erase_of_not_mem hni]; simp
      have c4 : (zns_assign_zone_state (zns_aor_inc_open m) i .EXPLICITLY_OPEN).full_zones =
          m.full_zones := by
        rw [l4]
        show m.full_zones.erase i ++ _ = _
        rw [List.erase_of_not_mem hnf]; simp
      obtain ⟨m1, e1, e2, e3, e4, e5, e6, e7, e8, e9, e10, e11⟩ :=
        ih (zns_assign_zone_state (zns_aor_inc_open m) i .EXPLICITLY_OPEN) NVME_SUCCESS r hI1 c1
          (by rw [a3]; exact hmax)
          (by rw [a1, a3]
              show m.nr_open_zones + 1 + (r : Int) = (m.max_open_zones : Int)
              push_cast at hr; omega)
          (by simpa using hlt)
      have hzi : zoneAt (zns_assign_zone_state (zns_aor_inc_open m) i .EXPLICITLY_OPEN) i =
          openedZone (zoneAt m i) := by
        rw [zoneAt_assign_same (zns_aor_inc_open m) i _ hil, zoneAt_inc_open]
        simp [openedZone]
      have hzj : ∀ j, i ≠ j →
          zoneAt (zns_assign_zone_state (zns_aor_inc_open m) i .EXPLICITLY_OPEN) j =
            zoneAt m j := fun j hj => zoneAt_assign_ne _ i j _ hj
      refine ⟨m1, ?_, e2, ?_, ?_, by rw [e5]; rfl, ?_, by rw [e7, c3], by rw [e8, c4],
        by rw [e9, a3]; rfl, by rw [e10, a2]; rfl, by rw [e11, a3]; rfl⟩
      · simp only [zns_foreach_safe, hbp, hstep]
        rw [if_neg (by decide)]
        exact e1
      · intro j hj
        rw [List.take_succ_cons] at hj
        rcases List.mem_cons.mp hj with h | h
        · subst h
          rw [e4 j (fun hm => hnd'.1 (List.mem_of_mem_take hm)), hzi]
        · have hne' : i ≠ j := fun hq => hnd'.1 (hq ▸ List.mem_of_mem_take h)
          rw [e3 j h, hzj j hne']
      · intro j hj
        rw [List.take_succ_cons] at hj
        have hne' : i ≠ j := fun hq => hj (hq ▸ List.mem_cons_self _ _)
        rw [e4 j (fun hm => hj (List.mem_cons_of_mem _ hm)), hzj j hne']
      · rw [e6, c2, List.take_succ_cons]
        simp

/-- C27: an OPEN with `all = 1` in a reachable state whose open limit has room
for `r` more zones while the closed queue holds more than `r` zones (the
closed queue lists the CLOSED zones, each once).  The command returns
ZONE_TOO_MANY_OPEN with the do-not-retry bit; the first `r` zones of the
closed queue have become EXPLICITLY_OPEN, with their other fields kept, and
are linked behind the zones that were explicitly open; every other zone has
the record it had, so the remaining zones of the closed queue are still
CLOSED, and they are the closed queue afterwards; `nr_open_zones` is at the
limit. -/
theorem open_all_stops_at_limit (n : FemuCtrl) (h : Reachable n) (c : NvmeCmd)
    (hall : (c.cdw13 % U32) &&& 0x100 ≠ 0)
    (hact : (c.cdw13 % U32) &&& 0xff = NVME_ZONE_ACTION_OPEN)
    (hmax : n.max_open_zones ≠ 0) (r : Nat)
    (hr : n.nr_open_zones + (r : Int) = (n.max_open_zones : Int))
    (hlt : r < n.closed_zones.length) :
    (∀ j, j ∈ n.closed_zones ↔ j < n.num_zones ∧ (zoneAt n j).zs = .CLOSED) ∧
    n.closed_zones.Nodup ∧
    ∃ n1, zns_zone_mgmt_send n c = some (n1, NVME_ZONE_TOO_MANY_OPEN.orDNR) ∧
      (∀ j ∈ n.closed_zones.take r, zoneAt n1 j = openedZone (zoneAt n j)) ∧
      (∀ j, j ∉ n.closed_zones.take r → zoneAt n1 j = zoneAt n j) ∧
      (∀ j ∈ n.closed_zones.drop r, (zoneAt n1 j).zs = .CLOSED) ∧
      n1.closed_zones = n.closed_zones.drop r ∧
      n1.exp_open_zones = n.exp_open_zones ++ n.closed_zones.take r ∧
      n1.nr_open_zones = (n.max_open_zones : Int) := by
  have hI := reachable_inv n h
  have hcl : ∀ j, j ∈ n.closed_zones ↔ j < n.num_zones ∧ (zoneAt n j).zs = .CLOSED := by
    intro j
    rw [hI.linked.closed j, hI.len]
  refine ⟨hcl, hI.linked.nd_closed, ?_⟩
  -- there is a zone
  have h0 : 0 < n.num_zones := by
    cases hq : n.closed_zones with
    | nil => rw [hq] at hlt; simp at hlt
    | cons i rest =>
      have := ((hcl i).mp (by rw [hq]; exact List.mem_cons_self _ _)).1
      omega
  obtain ⟨n1, e1, _, e3, e4, e5, e6, _, _, e9, _, _⟩ :=
    open_all_loop n.closed_zones n NVME_SUCCESS r hI rfl hmax hr hlt
  refine ⟨n1, ?_, e3, e4, ?_, e5, e6, e9⟩
  · rw [mgmt_send_all n c hall (by rw [hI.len]; exact h0) (reachable_first_zone n h h0), hact]
    have hb : (NVME_PROC_CLOSED_ZONES &&& NVME_PROC_CLOSED_ZONES) ≠ 0 := by decide
    simp only [zns_mgmt_send_switch, if_true, zns_do_zone_op, zns_bulk_seq,
      zns_queue_loop, if_pos hb, e1, zns_mgmt_send_exit]
    simp [NVME_PROC_CLOSED_ZONES, NvmeStatus.nonzero, NVME_ZONE_TOO_MANY_OPEN, NvmeStatus.orDNR,
      NVME_SUCCESS]
  · intro j hj
    have hnt : j ∉ n.closed_zones.take r := by
      intro ht
      have hnd := hI.linked.nd_closed
      rw [← List.take_append_drop r n.closed_zones] at hnd
      exact (List.nodup_append.mp hnd).2.2 ht hj
    rw [e4 j hnt]
    exact ((hcl j).mp (List.mem_of_mem_drop hj)).2

/-- Three zones written and closed in the scenario namespace (open limit 2):
the OPEN with `all = 1` opens zones 0 and 1, fails on zone 2 with
ZONE_TOO_MANY_OPEN and leaves zone 2 CLOSED. -/
theorem open_all_stops_at_limit_witness :
    ∃ n, runCmds scenarioCtrl
        [rwCmd NVME_CMD_WRITE 0 1, sendCmd NVME_ZONE_ACTION_CLOSE 0,
         rwCmd NVME_CMD_WRITE 8 1, sendCmd NVME_ZONE_ACTION_CLOSE 8,
         rwCmd NVME_CMD_WRITE 16 1, sendCmd NVME_ZONE_ACTION_CLOSE 16] = some n ∧
      ((sendAllCmd NVME_ZONE_ACTION_OPEN).cdw13 % U32) &&& 0x100 ≠ 0 ∧
      ((sendAllCmd NVME_ZONE_ACTION_OPEN).cdw13 % U32) &&& 0xff = NVME_ZONE_ACTION_OPEN ∧
      n.max_open_zones = 2 ∧ n.nr_open_zones = 0 ∧ n.closed_zones = [0, 1, 2] ∧
      ∃ n1, zns_zone_mgmt_send n (sendAllCmd NVME_ZONE_ACTION_OPEN) =
          some (n1, NVME_ZONE_TOO_MANY_OPEN.orDNR) ∧
        (zoneAt n1 0).zs = .EXPLICITLY_OPEN ∧ (zoneAt n1 1).zs = .EXPLICITLY_OPEN ∧
        (zoneAt n1 2).zs = .CLOSED ∧ n1.closed_zones = [2] := by
  refine ⟨(runCmds scenarioCtrl
      [rwCmd NVME_CMD_WRITE 0 1, sendCmd NVME_ZONE_ACTION_CLOSE 0,
       rwCmd NVME_CMD_WRITE 8 1, sendCmd NVME_ZONE_ACTION_CLOSE 8,
       rwCmd NVME_CMD_WRITE 16 1, sendCmd NVME_ZONE_ACTION_CLOSE 16]).getD default,
    by decide, by decide, by decide, by decide, by decide, by decide, ?_⟩
  obtain ⟨_, _, n1, h1, h2, _, h4, h5, _, _⟩ := open_all_stops_at_limit
    ((runCmds scenarioCtrl
      [rwCmd NVME_CMD_WRITE 0 1, sendCmd NVME_ZONE_ACTION_CLOSE 0,
       rwCmd NVME_CMD_WRITE 8 1, sendCmd NVME_ZONE_ACTION_CLOSE 8,
       rwCmd NVME_CMD_WRITE 16 1, sendCmd NVME_ZONE_ACTION_CLOSE 16]).getD default)
    (reachable_runCmds
      [rwCmd NVME_CMD_WRITE 0 1, sendCmd NVME_ZONE_ACTION_CLOSE 0,
       rwCmd NVME_CMD_WRITE 8 1, sendCmd NVME_ZONE_ACTION_CLOSE 8,
       rwCmd NVME_CMD_WRITE 16 1, sendCmd NVME_ZONE_ACTION_CLOSE 16]
      scenarioCtrl _ reachable_scenarioCtrl (by decide))
    (sendAllCmd NVME_ZONE_ACTION_OPEN) (by decide) (by decide) (by decide) 2 (by decide)
    (by decide)
  refine ⟨n1, h1, ?_, ?_, h4 2 (by decide), by rw [h5]; decide⟩
  · rw [h2 0 (by decide)]; rfl
  · rw [h2 1 (by decide)]; rfl

/-! ### Reports: the count of the header and the entries -/

/-- The matching zones from `idx` on: zone `idx` if it matches, then those
from `idx + 1` on. -/
theorem matchingZones_step (n : FemuCtrl) (f idx : Nat) (h : idx < n.num_zones) :
    matchingZones n f idx =
      if zns_zone_matches_filter f (zoneAt n idx) then idx :: matchingZones n f (idx + 1)
      else matchingZones n f (idx + 1) := by
  unfold matchingZones
  have e : n.num_zones - idx = (n.num_zones - (idx + 1)) + 1 := by omega
  rw [e, List.range'_succ, List.filter_cons]

/-- No zone matches behind the zone array. -/
theorem matchingZones_end (n : FemuCtrl) (f idx : Nat) (h : n.num_zones ≤ idx) :
    matchingZones n f idx = [] := by
  unfold matchingZones
  have e : n.num_zones - idx = 0 := by omega
  rw [e]; rfl

/-- The counting loop of a report returns: without `partial` it has counted
every matching zone from `idx` on, with `partial` it has stopped at
`max_zones`. -/
theorem report_count_spec (n : FemuCtrl) (f : Nat) (prt : Bool) (max_zones : Nat)
    (hg : ZoneGeometry n) (hsz : (n.num_zones + 1) * n.zone_size ≤ U64) :
    ∀ fuel idx slba nr, idx ≤ n.num_zones → n.num_zones + 1 ≤ fuel + idx →
      idx * n.zone_size ≤ slba → slba < (idx + 1) * n.zone_size →
      (prt = true → nr ≤ max_zones) →
      zns_report_count n f prt max_zones n.nsze fuel slba idx nr =
        some (if prt then min max_zones (nr + (matchingZones n f idx).length)
          else nr + (matchingZones n f idx).length) := by
  obtain ⟨_, hlen, hz0, _, hnsze, _, _, _⟩ := hg
  intro fuel
  induction fuel with
  | zero => intro idx slba nr h1 h2; omega
  | succ fuel ih =>
    intro idx slba nr h1 h2 h3 h4 h5
    rcases Nat.lt_or_ge idx n.num_zones with hi | hi
    · have hlt : slba < n.nsze := by
        rw [hnsze]
        have : (idx + 1) * n.zone_size ≤ n.num_zones * n.zone_size :=
          Nat.mul_le_mul_right _ hi
        omega
      have hnext : (slba + n.zone_size) % U64 = slba + n.zone_size := by
        apply Nat.mod_eq_of_lt
        have : (idx + 1) * n.zone_size ≤ n.num_zones * n.zone_size :=
          Nat.mul_le_mul_right _ hi
        have e : (n.num_zones + 1) * n.zone_size = n.num_zones * n.zone_size + n.zone_size := by
          ring
        omega
      have e2 : (idx + 1 + 1) * n.zone_size = (idx + 1) * n.zone_size + n.zone_size := by ring
      have e1 : (idx + 1) * n.zone_size = idx * n.zone_size + n.zone_size := by ring
      simp only [zns_report_count, hlt, if_true]
      by_cases hstop : (prt && decide (nr ≥ max_zones)) = true
      · rw [if_pos hstop]
        simp only [Bool.and_eq_true, decide_eq_true_eq] at hstop
        have := h5 hstop.1
        simp only [hstop.1, if_true]
        congr 1
        omega
      · rw [if_neg hstop, if_neg (by omega)]
        rw [hnext, ih (idx + 1) (slba + n.zone_size) _ (by omega) (by omega) (by omega) (by omega)
          (by
            intro hp
            have hnr : nr < max_zones := by
              by_contra hc
              exact hstop (by simp [hp]; omega)
            split <;> omega)]
        rw [matchingZones_step n f idx hi]
        by_cases hmt : zns_zone_matches_filter f (zoneAt n idx) = true
        · simp only [hmt, if_true, List.length_cons]
          congr 1
          split <;> [(congr 1; omega); omega]
        · simp only [hmt, if_false, Bool.false_eq_true]
    · have hge : ¬ slba < n.nsze := by
        rw [hnsze]
        have : n.num_zones * n.zone_size ≤ idx * n.zone_size := Nat.mul_le_mul_right _ hi
        omega
      simp only [zns_report_count, hge, if_false]
      rw [matchingZones_end n f idx hi]
      congr 1
      by_cases hp : prt = true
      · simp only [hp, if_true, List.length_nil, Nat.add_zero]
        have := h5 hp
        omega
      · simp [hp]

/-- The emission loop of a report writes the entries of the first
`max_zones` matching zones from `zone_idx` on. -/
theorem report_emit_spec (n : FemuCtrl) (f : Nat) (extended : Bool) :
    ∀ fuel zone_idx max_zones, n.num_zones ≤ fuel + zone_idx →
      zns_report_emit n f extended fuel zone_idx max_zones =
        ((matchingZones n f zone_idx).take max_zones).map (reportEntry n extended) := by
  intro fuel
  induction fuel with
  | zero =>
    intro idx mx h
    rw [matchingZones_end n f idx (by omega)]
    simp [zns_report_emit]
  | succ fuel ih =>
    intro idx mx h
    simp only [zns_report_emit]
    by_cases hc : idx < n.num_zones ∧ mx > 0
    · rw [if_pos hc, matchingZones_step n f idx hc.1]
      obtain ⟨k, hk⟩ := Nat.exists_eq_succ_of_ne_zero (Nat.ne_of_gt hc.2)
      by_cases hmt : zns_zone_matches_filter f (zoneAt n idx) = true
      · simp only [hmt, if_true]
        rw [ih (idx + 1) (mx - 1) (by omega), hk]
        simp [reportEntry]
      · simp only [hmt, if_false, Bool.false_eq_true]
        exact ih (idx + 1) mx (by omega)
    · rw [if_neg hc]
      rcases Nat.lt_or_ge idx n.num_zones with hi | hi
      · have : mx = 0 := by
          by_contra hm
          exact hc ⟨hi, by omega⟩
        subst this
        simp
      · rw [matchingZones_end n f idx hi]
        simp

/-- A valid report request under the bring-up geometry (with one more zone
size below 2^64) returns the report of the matching zones from the zone of
its LBA on: the count in the header, the entries, the status of
`dma_read_prp`; the controller is not changed. -/
theorem recv_valid_eq (n : FemuCtrl) (c : NvmeCmd) (hg : ZoneGeometry n)
    (hsz : (n.num_zones + 1) * n.zone_size ≤ U64) (hv : ReportValid n c) :
    zns_zone_mgmt_recv n c = some (n, ⟨c.dma_status, none, some
      ⟨(if recv_partial_bit c then
          min (recv_max_entries n c)
            (matchingZones n (recv_zrasf c) (cmd_slba c / n.zone_size)).length
        else (matchingZones n (recv_zrasf c) (cmd_slba c / n.zone_size)).length),
       ((matchingZones n (recv_zrasf c) (cmd_slba c / n.zone_size)).take
          (recv_max_entries n c)).map
        (reportEntry n (decide (recv_zra c = NVME_ZONE_REPORT_EXTENDED)))⟩⟩) := by
  obtain ⟨hs, hzra, hsf, hsize, hmdts⟩ := hv
  obtain ⟨hidx, hlt, _⟩ := geometry_zone_idx n hg (cmd_slba c) hs
  have hz : n.zoned = true := hg.1
  have hlen : n.zone_array.length = n.num_zones := hg.2.1
  have hz0 : 0 < n.zone_size := hg.2.2.1
  have hdec : zns_get_mgmt_zone_slba_idx n c =
      some (NVME_SUCCESS, cmd_slba c, cmd_slba c / n.zone_size) := by
    simp [zns_get_mgmt_zone_slba_idx, hz, hs, hidx, hlt]
  have hnz : NVME_SUCCESS.nonzero = false := by decide
  unfold recv_zra at hzra
  unfold recv_zrasf at hsf
  unfold recv_data_size at hsize hmdts
  have h1 : ¬ ((c.cdw13 % U32) &&& 0xff ≠ NVME_ZONE_REPORT ∧
      (c.cdw13 % U32) &&& 0xff ≠ NVME_ZONE_REPORT_EXTENDED) := by
    rcases hzra with hzra | ⟨hzra, -⟩
    · intro hc; exact hc.1 hzra
    · intro hc; exact hc.2 hzra
  have h2 : ¬ ((c.cdw13 % U32) &&& 0xff = NVME_ZONE_REPORT_EXTENDED ∧
      n.zd_extension_size = 0) := by
    rcases hzra with hzra | ⟨-, hext⟩
    · intro hc
      rw [hzra] at hc
      exact absurd hc.1 (by decide)
    · intro hc; exact hext hc.2
  have hsf2 : ¬ (((c.cdw13 % U32) >>> 8) &&& 0xff > NVME_ZONE_REPORT_OFFLINE) := by omega
  have hds : ¬ ((((c.cdw12 % U32 + 1) % U32) <<< 2) % U32 < sizeof_NvmeZoneReportHeader) := by
    omega
  have hmnz : (nvme_check_mdts n ((((c.cdw12 % U32 + 1) % U32) <<< 2) % U32)).nonzero =
      false := by
    rw [hmdts]; exact hnz
  have hdm := Nat.div_add_mod (cmd_slba c) n.zone_size
  have hml := Nat.mod_lt (cmd_slba c) hz0
  have hlo : cmd_slba c / n.zone_size * n.zone_size ≤ cmd_slba c := Nat.div_mul_le_self _ _
  have hhi : cmd_slba c < (cmd_slba c / n.zone_size + 1) * n.zone_size := by
    have e : (cmd_slba c / n.zone_size + 1) * n.zone_size =
        n.zone_size * (cmd_slba c / n.zone_size) + n.zone_size := by ring
    omega
  have hcnt := report_count_spec n (((c.cdw13 % U32) >>> 8) &&& 0xff)
    (((c.cdw13 % U32) >>> 16) &&& 0x01 != 0)
    (((((c.cdw12 % U32 + 1) % U32) <<< 2) % U32 - sizeof_NvmeZoneReportHeader) /
      (sizeof_NvmeZoneDescr +
        if (c.cdw13 % U32) &&& 0xff = NVME_ZONE_REPORT_EXTENDED then n.zd_extension_size
        else 0)) hg hsz (n.zone_array.length + 1) (cmd_slba c / n.zone_size) (cmd_slba c) 0
    (by omega) (by omega) hlo hhi (fun _ => Nat.zero_le _)
  have hemit := report_emit_spec n (((c.cdw13 % U32) >>> 8) &&& 0xff)
    (decide ((c.cdw13 % U32) &&& 0xff = NVME_ZONE_REPORT_EXTENDED)) n.num_zones
    (cmd_slba c / n.zone_size)
    (((((c.cdw12 % U32 + 1) % U32) <<< 2) % U32 - sizeof_NvmeZoneReportHeader) /
      (sizeof_NvmeZoneDescr +
        if (c.cdw13 % U32) &&& 0xff = NVME_ZONE_REPORT_EXTENDED then n.zd_extension_size
        else 0)) (by omega)
  unfold zns_zone_mgmt_recv
  simp only [hdec, hnz, zns_ns_nlbas, h1, h2, hsf2, hds, hmnz, if_false, Bool.false_eq_true,
    hcnt, hemit, Nat.zero_add]
  rfl

/-- The matching zones from `s` on are the zones with an index of at least
`s` that the filter matches. -/
theorem matchingZones_mem (n : FemuCtrl) (f s j : Nat) :
    j ∈ matchingZones n f s ↔
      s ≤ j ∧ j < n.num_zones ∧ zns_zone_matches_filter f (zoneAt n j) = true := by
  unfold matchingZones
  rw [List.mem_filter, List.mem_range'_1]
  constructor
  · rintro ⟨⟨h1, h2⟩, h3⟩
    exact ⟨h1, by omega, h3⟩
  · rintro ⟨h1, h2, h3⟩
    exact ⟨⟨h1, by omega⟩, h3⟩

/-- The matching zones are listed in increasing index, each once. -/
theorem matchingZones_sorted (n : FemuCtrl) (f s : Nat) :
    (matchingZones n f s).Pairwise (fun a b => a < b) := by
  unfold matchingZones
  exact List.Pairwise.filter _ (List.pairwise_lt_range' s (n.num_zones - s))

/-- C28: a valid report request on a namespace with the bring-up geometry
(`nsze = num_zones * zone_size`, and one more zone size below 2^64) returns,
and the field `nr_zones` of the header is the number of zones from the zone
of the request on that match the filter when `partial = 0`, and the minimum
of `max_entries` and that number when `partial = 1`.  The zone of the request
is `slba / zone_size`, and the matching zones are the zones with at least
that index that `zns_zone_matches_filter` accepts. -/
theorem report_header_count (n : FemuCtrl) (c : NvmeCmd) (hg : ZoneGeometry n)
    (hsz : (n.num_zones + 1) * n.zone_size ≤ U64) (hv : ReportValid n c) :
    zns_get_zone_by_slba n (cmd_slba c) = some (cmd_slba c / n.zone_size) ∧
    n.nsze = n.num_zones * n.zone_size ∧
    (∀ j, j ∈ matchingZones n (recv_zrasf c) (cmd_slba c / n.zone_size) ↔
      cmd_slba c / n.zone_size ≤ j ∧ j < n.num_zones ∧
      zns_zone_matches_filter (recv_zrasf c) (zoneAt n j) = true) ∧
    (matchingZones n (recv_zrasf c) (cmd_slba c / n.zone_size)).Nodup ∧
    ∃ entries, zns_zone_mgmt_recv n c = some (n, ⟨c.dma_status, none, some
      ⟨(if recv_partial_bit c then
          min (recv_max_entries n c)
            (matchingZones n (recv_zrasf c) (cmd_slba c / n.zone_size)).length
        else (matchingZones n (recv_zrasf c) (cmd_slba c / n.zone_size)).length),
       entries⟩⟩) := by
  refine ⟨(geometry_zone_idx n hg (cmd_slba c) hv.1).2.2, hg.2.2.2.2.1,
    fun j => matchingZones_mem n _ _ j, ?_, _, recv_valid_eq n c hg hsz hv⟩
  exact (matchingZones_sorted n _ _).imp (fun h => Nat.ne_of_lt h)

/-- Scenario S6 from zone 0: a report of the scenario namespace (4 EMPTY zones,
filter ALL) into a buffer with room for 2 entries counts 2 zones with
`partial = 1`. -/
theorem report_header_count_witness :
    ZoneGeometry scenarioCtrl ∧
    (scenarioCtrl.num_zones + 1) * scenarioCtrl.zone_size ≤ U64 ∧
    ReportValid scenarioCtrl (recvCmd 0 47 0x10000) ∧
    recv_partial_bit (recvCmd 0 47 0x10000) = true ∧
    recv_max_entries scenarioCtrl (recvCmd 0 47 0x10000) = 2 ∧
    matchingZones scenarioCtrl (recv_zrasf (recvCmd 0 47 0x10000)) 0 = [0, 1, 2, 3] ∧
    ∃ entries, zns_zone_mgmt_recv scenarioCtrl (recvCmd 0 47 0x10000) =
      some (scenarioCtrl, ⟨NVME_SUCCESS, none, some ⟨2, entries⟩⟩) := by
  refine ⟨by decide, by decide, by decide, by decide, by decide, by decide, ?_⟩
  obtain ⟨_, _, _, _, entries, h⟩ := report_header_count scenarioCtrl (recvCmd 0 47 0x10000)
    (by decide) (by decide) (by decide)
  exact ⟨entries, h⟩

/-- The descriptor of a zone carries its type, state code, capacity, start
LBA and attributes, and its `wp`, replaced by all-ones for a READ_ONLY or
OFFLINE zone. -/
theorem report_descr_fields (z : NvmeZone) :
    (zns_report_descr z).zt = z.zt ∧ (zns_report_descr z).zs = z.zs.code <<< 4 ∧
    (zns_report_descr z).zcap = z.zcap ∧ (zns_report_descr z).zslba = z.zslba ∧
    (zns_report_descr z).za = z.za ∧
    (zns_report_descr z).wp =
      if z.zs = .READ_ONLY ∨ z.zs = .OFFLINE then U64 - 1 else z.wp := by
  refine ⟨rfl, rfl, rfl, rfl, rfl, ?_⟩
  obtain ⟨zt, zs, za, zcap, zslba, wp, w_ptr⟩ := z
  cases zs <;> simp [zns_report_descr, zns_wp_is_valid, zns_get_zone_state]

/-- C29: a valid report request on a namespace with the bring-up geometry
returns a buffer whose entries are those of the first `min(max_entries, k)`
zones, in increasing index, among the `k` zones from the zone of the request
on that match the filter.  The descriptor of an entry carries the `zt`, the
state code, `zcap`, `zslba` and `za` of its zone, and the `wp` of the zone
unless the zone is READ_ONLY or OFFLINE, when it carries 2^64 - 1; an entry
of an extended report carries `zd_extension_size` more bytes, a plain one
none; header and entries together are not longer than the buffer. -/
theorem report_entries (n : FemuCtrl) (c : NvmeCmd) (hg : ZoneGeometry n)
    (hsz : (n.num_zones + 1) * n.zone_size ≤ U64) (hv : ReportValid n c) :
    (∃ nr, zns_zone_mgmt_recv n c = some (n, ⟨c.dma_status, none, some ⟨nr,
      ((matchingZones n (recv_zrasf c) (cmd_slba c / n.zone_size)).take
          (recv_max_entries n c)).map
        (reportEntry n (decide (recv_zra c = NVME_ZONE_REPORT_EXTENDED)))⟩⟩)) ∧
    (∀ j, j ∈ matchingZones n (recv_zrasf c) (cmd_slba c / n.zone_size) ↔
      cmd_slba c / n.zone_size ≤ j ∧ j < n.num_zones ∧
      zns_zone_matches_filter (recv_zrasf c) (zoneAt n j) = true) ∧
    (matchingZones n (recv_zrasf c) (cmd_slba c / n.zone_size)).Pairwise (fun a b => a < b) ∧
    ((matchingZones n (recv_zrasf c) (cmd_slba c / n.zone_size)).take
        (recv_max_entries n c)).length =
      min (recv_max_entries n c)
        (matchingZones n (recv_zrasf c) (cmd_slba c / n.zone_size)).length ∧
    (∀ ext j,
      (reportEntry n ext j).descr.zt = (zoneAt n j).zt ∧
      (reportEntry n ext j).descr.zs = (zoneAt n j).zs.code <<< 4 ∧
      (reportEntry n ext j).descr.zcap = (zoneAt n j).zcap ∧
      (reportEntry n ext j).descr.zslba = (zoneAt n j).zslba ∧
      (reportEntry n ext j).descr.za = (zoneAt n j).za ∧
      (reportEntry n ext j).descr.wp =
        (if (zoneAt n j).zs = .READ_ONLY ∨ (zoneAt n j).zs = .OFFLINE then U64 - 1
         else (zoneAt n j).wp) ∧
      (reportEntry n ext j).ext.length = if ext then n.zd_extension_size else 0) ∧
    sizeof_NvmeZoneReportHeader +
        min (recv_max_entries n c)
          (matchingZones n (recv_zrasf c) (cmd_slba c / n.zone_size)).length *
          recv_entry_size n c ≤ recv_data_size c := by
  refine ⟨⟨_, recv_valid_eq n c hg hsz hv⟩, fun j => matchingZones_mem n _ _ j,
    matchingZones_sorted n _ _, List.length_take _ _, ?_, ?_⟩
  · intro ext j
    obtain ⟨d1, d2, d3, d4, d5, d6⟩ := report_descr_fields (zoneAt n j)
    refine ⟨d1, d2, d3, d4, d5, d6, ?_⟩
    simp only [reportEntry]
    cases ext
    · simp
    · simp only [if_true]
      split
      · simp [zns_get_zd_extension]
      · simp
  · have hh : sizeof_NvmeZoneReportHeader ≤ recv_data_size c := hv.2.2.2.1
    have h1 : recv_max_entries n c * recv_entry_size n c ≤
        recv_data_size c - sizeof_NvmeZoneReportHeader := Nat.div_mul_le_self _ _
    have h2 : min (recv_max_entries n c)
          (matchingZones n (recv_zrasf c) (cmd_slba c / n.zone_size)).length *
          recv_entry_size n c ≤ recv_max_entries n c * recv_entry_size n c :=
      Nat.mul_le_mul_right _ (Nat.min_le_left _ _)
    omega

/-- Scenario S6: zone 0 of the scenario namespace is filled, then a report
from zone 2 with filter ALL and room for 2 entries returns the descriptors of
zones 2 and 3, and the header counts 2 zones. -/
theorem report_entries_witness :
    ∃ n, runCmds scenarioCtrl [rwCmd NVME_CMD_WRITE 0 8] = some n ∧
      ZoneGeometry n ∧ (n.num_zones + 1) * n.zone_size ≤ U64 ∧
      ReportValid n (recvCmd 16 47 0x10000) ∧
      cmd_slba (recvCmd 16 47 0x10000) / n.zone_size = 2 ∧
      recv_max_entries n (recvCmd 16 47 0x10000) = 2 ∧
      ∃ nr, zns_zone_mgmt_recv n (recvCmd 16 47 0x10000) =
        some (n, ⟨NVME_SUCCESS, none, some ⟨nr,
          [⟨zns_report_descr (zoneAt n 2), []⟩, ⟨zns_report_descr (zoneAt n 3), []⟩]⟩⟩) := by
  refine ⟨(runCmds scenarioCtrl [rwCmd NVME_CMD_WRITE 0 8]).getD default,
    by decide, by decide, by decide, by decide, by decide, by decide, ?_⟩
  obtain ⟨⟨nr, h⟩, _⟩ := report_entries
    ((runCmds scenarioCtrl [rwCmd NVME_CMD_WRITE 0 8]).getD default)
    (recvCmd 16 47 0x10000) (by decide) (by decide) (by decide)
  exact ⟨nr, h⟩

/-- Every zone matches exactly one of the seven per-state filters: over any
list of zone indices the seven counts add up to the length of the list. -/
theorem filters_partition (n : FemuCtrl) (l : List Nat) :
    (l.filter (fun j => zns_zone_matches_filter NVME_ZONE_REPORT_EMPTY (zoneAt n j))).length +
    (l.filter (fun j =>
      zns_zone_matches_filter NVME_ZONE_REPORT_IMPLICITLY_OPEN (zoneAt n j))).length +
    (l.filter (fun j =>
      zns_zone_matches_filter NVME_ZONE_REPORT_EXPLICITLY_OPEN (zoneAt n j))).length +
    (l.filter (fun j => zns_zone_matches_filter NVME_ZONE_REPORT_CLOSED (zoneAt n j))).length +
    (l.filter (fun j => zns_zone_matches_filter NVME_ZONE_REPORT_FULL (zoneAt n j))).length +
    (l.filter (fun j =>
      zns_zone_matches_filter NVME_ZONE_REPORT_READ_ONLY (zoneAt n j))).length +
    (l.filter (fun j => zns_zone_matches_filter NVME_ZONE_REPORT_OFFLINE (zoneAt n j))).length
      = l.length ∧
    (l.filter (fun j => zns_zone_matches_filter NVME_ZONE_REPORT_ALL (zoneAt n j))).length
      = l.length := by
  induction l with
  | nil => simp
  | cons i rest ih =>
    obtain ⟨ih1, ih2⟩ := ih
    simp only [List.filter_cons, List.length_cons]
    have hm : ∀ f, zns_zone_matches_filter f (zoneAt n i) =
        (if f = 0 then true else if f = 1 then decide ((zoneAt n i).zs = .EMPTY)
         else if f = 2 then decide ((zoneAt n i).zs = .IMPLICITLY_OPEN)
         else if f = 3 then decide ((zoneAt n i).zs = .EXPLICITLY_OPEN)
         else if f = 4 then decide ((zoneAt n i).zs = .CLOSED)
         else if f = 5 then decide ((zoneAt n i).zs = .FULL)
         else if f = 6 then decide ((zoneAt n i).zs = .READ_ONLY)
         else if f = 7 then decide ((zoneAt n i).zs = .OFFLINE) else false) := by
      intro f
      simp only [zns_zone_matches_filter, zns_get_zone_state, NVME_ZONE_REPORT_ALL,
        NVME_ZONE_REPORT_EMPTY, NVME_ZONE_REPORT_IMPLICITLY_OPEN,
        NVME_ZONE_REPORT_EXPLICITLY_OPEN, NVME_ZONE_REPORT_CLOSED, NVME_ZONE_REPORT_FULL,
        NVME_ZONE_REPORT_READ_ONLY, NVME_ZONE_REPORT_OFFLINE]
    simp only [hm, NVME_ZONE_REPORT_ALL, NVME_ZONE_REPORT_EMPTY,
      NVME_ZONE_REPORT_IMPLICITLY_OPEN, NVME_ZONE_REPORT_EXPLICITLY_OPEN,
      NVME_ZONE_REPORT_CLOSED, NVME_ZONE_REPORT_FULL, NVME_ZONE_REPORT_READ_ONLY,
      NVME_ZONE_REPORT_OFFLINE] at ih1 ih2 ⊢
    refine ⟨?_, by simpa using ih2⟩
    cases (zoneAt n i).zs <;> simp <;> omega

/-- The fields of a plain report request from LBA 0 without `partial`, with
one of the eight filters. -/
theorem filter_request_fields (dw12 f : Nat) (hf : f ≤ 7) :
    cmd_slba (recvCmd 0 dw12 (f <<< 8)) = 0 ∧
    recv_zra (recvCmd 0 dw12 (f <<< 8)) = NVME_ZONE_REPORT ∧
    recv_zrasf (recvCmd 0 dw12 (f <<< 8)) = f ∧
    recv_partial_bit (recvCmd 0 dw12 (f <<< 8)) = false ∧
    recv_data_size (recvCmd 0 dw12 (f <<< 8)) = recv_data_size (recvCmd 0 dw12 0) := by
  refine ⟨?_, ?_, ?_, ?_, rfl⟩
  · simp only [cmd_slba, recvCmd]
    decide
  · interval_cases f <;> simp only [recv_zra, recvCmd] <;> decide
  · interval_cases f <;> simp only [recv_zrasf, recvCmd] <;> decide
  · interval_cases f <;> simp only [recv_partial_bit, recvCmd] <;> decide

/-- C30: in a reachable state with at least one zone (and one more zone size
below 2^64), the reports from zone 0 with `partial = 0` for the eight filters,
into a buffer that holds the header and passes the MDTS check, return; the
`nr_zones` values of the seven per-state filters add up to `num_zones`, which
is also the `nr_zones` of the report with the filter ALL. -/
theorem report_filters_sum (n : FemuCtrl) (h : Reachable n)
    (hsz : (n.num_zones + 1) * n.zone_size ≤ U64) (h0 : 0 < n.num_zones) (dw12 : Nat)
    (hd : sizeof_NvmeZoneReportHeader ≤ recv_data_size (recvCmd 0 dw12 0))
    (hm : nvme_check_mdts n (recv_data_size (recvCmd 0 dw12 0)) = NVME_SUCCESS) :
    ∃ k : Nat → Nat,
      (∀ f, f ≤ 7 →
        reportNrZones (zns_zone_mgmt_recv n (recvCmd 0 dw12 (f <<< 8))) = some (k f)) ∧
      k NVME_ZONE_REPORT_EMPTY + k NVME_ZONE_REPORT_IMPLICITLY_OPEN +
        k NVME_ZONE_REPORT_EXPLICITLY_OPEN + k NVME_ZONE_REPORT_CLOSED +
        k NVME_ZONE_REPORT_FULL + k NVME_ZONE_REPORT_READ_ONLY +
        k NVME_ZONE_REPORT_OFFLINE = n.num_zones ∧
      k NVME_ZONE_REPORT_ALL = n.num_zones := by
  obtain ⟨t1, t2, _, _⟩ := reachable_tiled n h
  have hz0 : 0 < n.zone_size := by omega
  have hfit : n.num_zones * n.zone_size < U64 := by
    have e : (n.num_zones + 1) * n.zone_size = n.num_zones * n.zone_size + n.zone_size := by
      ring
    omega
  have hg := reachable_geometry n h hfit
  have hns : 0 < n.nsze := by
    rw [hg.2.2.2.2.1]
    exact Nat.mul_pos h0 hz0
  refine ⟨fun f => (matchingZones n f 0).length, ?_, ?_, ?_⟩
  · intro f hf
    obtain ⟨f1, f2, f3, f4, f5⟩ := filter_request_fields dw12 f hf
    have hv : ReportValid n (recvCmd 0 dw12 (f <<< 8)) := by
      refine ⟨by rw [f1]; exact hns, Or.inl f2, ?_, by rw [f5]; exact hd, by rw [f5]; exact hm⟩
      rw [f3]; exact hf
    rw [recv_valid_eq n _ hg hsz hv, f1, f3, f4]
    simp [reportNrZones]
  · have := (filters_partition n (List.range' 0 (n.num_zones - 0))).1
    simp only [matchingZones]
    rw [this]
    simp
  · have := (filters_partition n (List.range' 0 (n.num_zones - 0))).2
    simp only [matchingZones]
    rw [this]
    simp

/-- Zone 0 filled, zone 1 written and zone 2 explicitly open in the scenario
namespace: the per-state reports count 1 EMPTY, 1 implicitly open, 1
explicitly open, 0 CLOSED, 1 FULL zone and no READ_ONLY or OFFLINE zone, and
the report with the filter ALL counts 4. -/
theorem report_filters_sum_witness :
    ∃ n, runCmds scenarioCtrl [rwCmd NVME_CMD_WRITE 0 8, rwCmd NVME_CMD_WRITE 8 1,
        sendCmd NVME_ZONE_ACTION_OPEN 16] = some n ∧
      (n.num_zones + 1) * n.zone_size ≤ U64 ∧ n.num_zones = 4 ∧
      reportNrZones (zns_zone_mgmt_recv n (recvCmd 0 79 (1 <<< 8))) = some 1 ∧
      reportNrZones (zns_zone_mgmt_recv n (recvCmd 0 79 (4 <<< 8))) = some 0 ∧
      ∃ k : Nat → Nat,
        (∀ f, f ≤ 7 →
          reportNrZones (zns_zone_mgmt_recv n (recvCmd 0 79 (f <<< 8))) = some (k f)) ∧
        k 1 + k 2 + k 3 + k 4 + k 5 + k 6 + k 7 = 4 ∧ k 0 = 4 :=
  ⟨(runCmds scenarioCtrl [rwCmd NVME_CMD_WRITE 0 8, rwCmd NVME_CMD_WRITE 8 1,
      sendCmd NVME_ZONE_ACTION_OPEN 16]).getD default,
    by decide, by decide, by decide, by decide, by decide,
    report_filters_sum
      ((runCmds scenarioCtrl [rwCmd NVME_CMD_WRITE 0 8, rwCmd NVME_CMD_WRITE 8 1,
        sendCmd NVME_ZONE_ACTION_OPEN 16]).getD default)
      (reachable_runCmds [rwCmd NVME_CMD_WRITE 0 8, rwCmd NVME_CMD_WRITE 8 1,
        sendCmd NVME_ZONE_ACTION_OPEN 16] scenarioCtrl _ reachable_scenarioCtrl (by decide))
      (by decide) (by decide) 79 (by decide) (by decide)⟩

/-! ### The validation of the zone geometry -/

/-- The block size `1 << lbads` as a 32-bit value. -/
theorem lbasz_eq (n : FemuCtrl) (hl : n.lbads < 32) :
    (1 <<< n.lbads) % U32 = cfg_lba_size n ∧ 0 < cfg_lba_size n := by
  have h1 : 2 ^ n.lbads < 2 ^ 32 := Nat.pow_lt_pow_right (by norm_num) hl
  refine ⟨?_, Nat.pos_pow_of_pos _ (by norm_num)⟩
  rw [Nat.one_shiftLeft]
  exact Nat.mod_eq_of_lt h1

/-- The two checks of the extension size, in arithmetic. -/
theorem zd_ext_checks (v : Nat) :
    (v &&& 0x3f ≠ 0 ↔ v % 64 ≠ 0) ∧ (v >>> 6 > 0xff ↔ v ≥ 64 * 256) := by
  constructor
  · have := Nat.and_pow_two_sub_one_eq_mod v 6
    norm_num at this
    rw [this]
  · rw [Nat.shiftRight_eq_div_pow]
    norm_num
    omega

/-- The record `zns_init_zone_geometry` computes, in the words of the
configuration. -/
theorem geometry_derive_eq (n : FemuCtrl) (hl : n.lbads < 32) (hq : cfg_num_zones n < U32) :
    (zns_geometry_derive n).zone_size = cfg_zone_size n / cfg_lba_size n ∧
    (zns_geometry_derive n).zone_capacity = cfg_zone_cap n / cfg_lba_size n ∧
    (zns_geometry_derive n).num_zones = cfg_num_zones n ∧
    (zns_geometry_derive n).max_open_zones = n.max_open_zones ∧
    (zns_geometry_derive n).max_active_zones = n.max_active_zones ∧
    (zns_geometry_derive n).zd_extension_size = n.zd_extension_size := by
  obtain ⟨hb, _⟩ := lbasz_eq n hl
  have hzs : (if n.zone_size_bs ≠ 0 then n.zone_size_bs else NVME_DEFAULT_ZONE_SIZE)
      = cfg_zone_size n := by
    unfold cfg_zone_size NVME_DEFAULT_ZONE_SIZE MiB
    by_cases h : n.zone_size_bs = 0 <;> simp [h]
  have hzc : (if n.zone_cap_bs ≠ 0 then n.zone_cap_bs else cfg_zone_size n)
      = cfg_zone_cap n := by
    unfold cfg_zone_cap
    by_cases h : n.zone_cap_bs = 0 <;> simp [h]
  simp only [zns_geometry_derive, hb, hzs, hzc]
  refine ⟨?_, ?_, ?_, ?_, ?_, ?_⟩ <;>
    first | trivial | rfl | exact Nat.mod_eq_of_lt hq

/-- The size checks of `zns_init_zone_geometry`, in the words of the
configuration. -/
theorem geometry_size_error_eq (n : FemuCtrl) (hl : n.lbads < 32) :
    zns_geometry_size_error n = true ↔
      (cfg_zone_cap n > cfg_zone_size n ∨ cfg_zone_size n < cfg_lba_size n ∨
        cfg_zone_cap n < cfg_lba_size n) := by
  obtain ⟨hb, hp⟩ := lbasz_eq n hl
  have hzs : (if n.zone_size_bs ≠ 0 then n.zone_size_bs else NVME_DEFAULT_ZONE_SIZE)
      = cfg_zone_size n := by
    unfold cfg_zone_size NVME_DEFAULT_ZONE_SIZE MiB
    by_cases h : n.zone_size_bs = 0 <;> simp [h]
  have hzc : (if n.zone_cap_bs ≠ 0 then n.zone_cap_bs else cfg_zone_size n)
      = cfg_zone_cap n := by
    unfold cfg_zone_cap
    by_cases h : n.zone_cap_bs = 0 <;> simp [h]
  simp only [zns_geometry_size_error, hb, hzs, hzc, Bool.or_eq_true, decide_eq_true_eq]
  constructor
  · rintro (((h | h) | h) | h)
    · exact Or.inl h
    · exact Or.inr (Or.inl h)
    · exact Or.inr (Or.inr h)
    · omega
  · rintro (h | h | h)
    · exact Or.inl (Or.inl (Or.inl h))
    · exact Or.inl (Or.inl (Or.inr h))
    · exact Or.inl (Or.inr h)

/-- C31: for a block size that fits 32 bits and a number of zones that fits
the 32-bit field `num_zones`, `zns_init_zone_geometry` returns the error
exactly when the zone capacity exceeds the zone size, or the zone size or the
zone capacity is smaller than a block (in bytes, defaults substituted), or
`max_open_zones` or `max_active_zones` exceeds the number of zones, or the
extension size is non-zero and not a multiple of 64 or above 64 * 255.
Otherwise it returns a record whose zone size and capacity are the byte
values divided by the block size, with `1 ≤ zone_capacity ≤ zone_size`, and
`num_zones` is the namespace size in blocks divided by the zone size. -/
theorem init_zone_geometry_rejects (n : FemuCtrl) (hl : n.lbads < 32)
    (hq : cfg_num_zones n < U32) :
    (zns_init_zone_geometry n = none ↔ GeometryRejected n) ∧
    (¬ GeometryRejected n → ∃ g, zns_init_zone_geometry n = some g ∧
      0 < cfg_lba_size n ∧
      g.zone_size = cfg_zone_size n / cfg_lba_size n ∧
      g.zone_capacity = cfg_zone_cap n / cfg_lba_size n ∧
      1 ≤ g.zone_capacity ∧ g.zone_capacity ≤ g.zone_size ∧
      g.num_zones = n.ns_size / cfg_lba_size n / g.zone_size) := by
  obtain ⟨d1, d2, d3, d4, d5, d6⟩ := geometry_derive_eq n hl hq
  obtain ⟨_, hp⟩ := lbasz_eq n hl
  have hse := geometry_size_error_eq n hl
  obtain ⟨z1, z2⟩ := zd_ext_checks n.zd_extension_size
  have hiff : zns_init_zone_geometry n = none ↔ GeometryRejected n := by
    unfold zns_init_zone_geometry GeometryRejected
    rw [d3, d4, d5, d6]
    by_cases e1 : zns_geometry_size_error n = true
    · rw [if_pos e1]
      have := hse.mp e1
      constructor
      · intro _
        rcases this with h | h | h
        · exact Or.inl h
        · exact Or.inr (Or.inl h)
        · exact Or.inr (Or.inr (Or.inl h))
      · intro _; rfl
    · rw [if_neg e1]
      have hn := fun h => e1 (hse.mpr h)
      by_cases e2 : n.max_open_zones > cfg_num_zones n
      · rw [if_pos e2]
        exact ⟨fun _ => Or.inr (Or.inr (Or.inr (Or.inl e2))), fun _ => rfl⟩
      · rw [if_neg e2]
        by_cases e3 : n.max_active_zones > cfg_num_zones n
        · rw [if_pos e3]
          exact ⟨fun _ => Or.inr (Or.inr (Or.inr (Or.inr (Or.inl e3)))), fun _ => rfl⟩
        · rw [if_neg e3]
          by_cases e4 : n.zd_extension_size ≠ 0 ∧ n.zd_extension_size &&& 0x3f ≠ 0
          · rw [if_pos e4]
            exact ⟨fun _ => Or.inr (Or.inr (Or.inr (Or.inr (Or.inr
              ⟨e4.1, Or.inl (z1.mp e4.2)⟩)))), fun _ => rfl⟩
          · rw [if_neg e4]
            by_cases e5 : n.zd_extension_size ≠ 0 ∧ n.zd_extension_size >>> 6 > 0xff
            · rw [if_pos e5]
              have := z2.mp e5.2
              exact ⟨fun _ => Or.inr (Or.inr (Or.inr (Or.inr (Or.inr
                ⟨e5.1, Or.inr (by omega)⟩)))), fun _ => rfl⟩
            · rw [if_neg e5]
              constructor
              · intro h; exact Option.noConfusion h
              · intro h
                exfalso
                rcases h with h | h | h | h | h | ⟨h0, h | h⟩
                · exact hn (Or.inl h)
                · exact hn (Or.inr (Or.inl h))
                · exact hn (Or.inr (Or.inr h))
                · exact e2 h
                · exact e3 h
                · exact e4 ⟨h0, z1.mpr h⟩
                · by_cases hm : n.zd_extension_size % 64 = 0
                  · exact e5 ⟨h0, z2.mpr (by omega)⟩
                  · exact e4 ⟨h0, z1.mpr hm⟩
  refine ⟨hiff, fun hnr => ?_⟩
  have hsome : zns_init_zone_geometry n = some (zns_geometry_derive n) := by
    cases hg : zns_init_zone_geometry n with
    | none => exact absurd (hiff.mp hg) hnr
    | some g =>
      unfold zns_init_zone_geometry at hg
      repeat' split at hg
      all_goals first
        | exact Option.noConfusion hg
        | rw [← Option.some.inj hg]
  have hA : ¬ cfg_zone_cap n > cfg_zone_size n := fun h => hnr (Or.inl h)
  have hC : ¬ cfg_zone_cap n < cfg_lba_size n := fun h => hnr (Or.inr (Or.inr (Or.inl h)))
  refine ⟨_, hsome, hp, d1, d2, ?_, ?_, ?_⟩
  · rw [d2]; exact Nat.div_pos (by omega) hp
  · rw [d2, d1]; exact Nat.div_le_div_right (by omega)
  · rw [d3, d1]; rfl

/-- At the scenario configuration (4 KiB blocks, zones of 8 blocks, a
namespace of 32 blocks) the validation passes and gives 4 zones of 8 blocks
with capacity 8. -/
theorem init_zone_geometry_rejects_witness :
    scenarioConfig.lbads < 32 ∧ cfg_num_zones scenarioConfig < U32 ∧
    ¬ GeometryRejected scenarioConfig ∧
    ((zns_init_zone_geometry scenarioConfig = none ↔ GeometryRejected scenarioConfig) ∧
    (¬ GeometryRejected scenarioConfig → ∃ g, zns_init_zone_geometry scenarioConfig = some g ∧
      0 < cfg_lba_size scenarioConfig ∧
      g.zone_size = cfg_zone_size scenarioConfig / cfg_lba_size scenarioConfig ∧
      g.zone_capacity = cfg_zone_cap scenarioConfig / cfg_lba_size scenarioConfig ∧
      1 ≤ g.zone_capacity ∧ g.zone_capacity ≤ g.zone_size ∧
      g.num_zones = scenarioConfig.ns_size / cfg_lba_size scenarioConfig / g.zone_size)) :=
  ⟨by decide, by decide, by decide,
    init_zone_geometry_rejects scenarioConfig (by decide) (by decide)⟩

/-! ### The zone index after bring-up -/

/-- A geometry that `zns_init_zone_geometry` accepts for a namespace size
and a zone size parameter that fit 64 bits is in the range the zone state
bring-up handles without wrap-around. -/
theorem init_geometry_in_range (n0 g : FemuCtrl) (h : zns_init_zone_geometry n0 = some g)
    (hs : n0.ns_size < U64) (hb : n0.zone_size_bs < U64) :
    1 ≤ g.zone_size ∧ g.zone_size < U64 ∧ g.num_zones < U32 ∧
    g.num_zones * g.zone_size < U64 := by
  have hgd : g = zns_geometry_derive n0 ∧ zns_geometry_size_error n0 = false := by
    unfold zns_init_zone_geometry at h
    split at h
    · exact Option.noConfusion h
    · rename_i hne
      refine ⟨?_, by simpa using hne⟩
      repeat' split at h
      all_goals first
        | exact Option.noConfusion h
        | exact (Option.some.inj h).symm
  rw [hgd.1]
  have he := hgd.2
  simp only [zns_geometry_size_error, Bool.or_eq_false_iff, decide_eq_false_iff_not] at he
  obtain ⟨⟨⟨e1, e2⟩, e3⟩, e4⟩ := he
  simp only [zns_geometry_derive]
  generalize (1 <<< n0.lbads) % U32 = L at *
  have hZ : (if n0.zone_size_bs ≠ 0 then n0.zone_size_bs else NVME_DEFAULT_ZONE_SIZE) < U64 := by
    split
    · exact hb
    · unfold NVME_DEFAULT_ZONE_SIZE MiB U64; norm_num
  generalize (if n0.zone_size_bs ≠ 0 then n0.zone_size_bs else NVME_DEFAULT_ZONE_SIZE) = Z at *
  have hL : 0 < L := by omega
  have h1 : 1 ≤ Z / L := Nat.div_pos (by omega) hL
  have h2 : Z / L ≤ Z := Nat.div_le_self _ _
  have h3 : n0.ns_size / L / (Z / L) % U32 ≤ n0.ns_size / L / (Z / L) := Nat.mod_le _ _
  have h4 : n0.ns_size / L / (Z / L) * (Z / L) ≤ n0.ns_size / L := Nat.div_mul_le_self _ _
  have h5 : n0.ns_size / L ≤ n0.ns_size := Nat.div_le_self _ _
  have h6 : n0.ns_size / L / (Z / L) % U32 * (Z / L) ≤ n0.ns_size / L / (Z / L) * (Z / L) :=
    Nat.mul_le_mul_right _ h3
  refine ⟨h1, by omega, Nat.mod_lt _ (by unfold U32; norm_num), by omega⟩

/-- A power of two passes `is_power_of_2`. -/
theorem is_power_of_2_two_pow (k : Nat) : is_power_of_2 (2 ^ k) = true := by
  have h1 : 2 ^ k ≠ 0 := by positivity
  have h2 : 2 ^ k &&& (2 ^ k - 1) = 0 := by
    rw [Nat.and_pow_two_sub_one_eq_mod, Nat.mod_self]
  simp [is_power_of_2, h2]

/-- The fields `zns_init_zoned_state` leaves alone. -/
theorem init_zoned_state_fields (n : FemuCtrl) :
    (zns_init_zoned_state n).num_zones = n.num_zones ∧
    (zns_init_zoned_state n).zone_size = n.zone_size ∧
    (zns_init_zoned_state n).zone_size_log2 =
      (if is_power_of_2 n.zone_size then highest_bit 64 n.zone_size else 0) ∧
    (zns_init_zoned_state n).zone_array =
      zns_init_zone_loop n.zone_capacity ((n.num_zones * n.zone_size) % U64)
        n.num_zones 0 n.zone_size :=
  ⟨rfl, rfl, rfl, rfl⟩

/-- C32: after `zns_init_zoned_state` on a geometry with a zone size of at
least one block (sizes within their 64-bit and 32-bit fields, the zones
ending below 2^64), the zone array has `num_zones` records and zone `i`
starts at `i * zone_size`; the recorded shift is `k` for a zone size `2 ^ k`
(so the shift computes the index for `k > 0` and the division for a zone
size of 1) and 0 for every other zone size; and for every LBA below
`num_zones * zone_size` the zone index the code computes is the quotient of
the specification, the lookup returns that zone, and the zone starts at
index times zone size and holds the LBA. -/
theorem init_state_zone_idx (n : FemuCtrl) (hz : 1 ≤ n.zone_size) (hzs : n.zone_size < U64)
    (hu : n.num_zones < U32) (hsz : n.num_zones * n.zone_size < U64) :
    (zns_init_zoned_state n).zone_array.length = n.num_zones ∧
    (∀ i, i < n.num_zones → (zoneAt (zns_init_zoned_state n) i).zslba = i * n.zone_size) ∧
    (∀ k, n.zone_size = 2 ^ k → (zns_init_zoned_state n).zone_size_log2 = k) ∧
    ((∀ k, n.zone_size ≠ 2 ^ k) → (zns_init_zoned_state n).zone_size_log2 = 0) ∧
    ∀ lba, lba < n.num_zones * n.zone_size →
      zns_zone_idx (zns_init_zoned_state n) lba = zone_idx_spec n.zone_size lba ∧
      zns_get_zone_by_slba (zns_init_zoned_state n) lba = some (zone_idx_spec n.zone_size lba) ∧
      (zoneAt (zns_init_zoned_state n) (zone_idx_spec n.zone_size lba)).zslba
        = zone_idx_spec n.zone_size lba * n.zone_size ∧
      (zoneAt (zns_init_zoned_state n) (zone_idx_spec n.zone_size lba)).zslba ≤ lba ∧
      lba < (zoneAt (zns_init_zoned_state n) (zone_idx_spec n.zone_size lba)).zslba
        + n.zone_size := by
  obtain ⟨f1, f2, f3, f4⟩ := init_zoned_state_fields n
  have hlen : (zns_init_zoned_state n).zone_array.length = n.num_zones := by
    rw [f4]; exact init_zone_loop_length _ _ _ _ _
  have htile : ∀ i, i < n.num_zones →
      (zoneAt (zns_init_zoned_state n) i).zslba = i * n.zone_size := by
    intro i hi
    have := init_zone_loop_tiled n.zone_capacity ((n.num_zones * n.zone_size) % U64)
      (Nat.mod_lt _ (by unfold U64; norm_num)) n.num_zones 0 n.zone_size
      (by rw [Nat.mod_eq_of_lt hsz]; omega) i hi
    unfold zoneAt
    rw [f4, this]
    omega
  refine ⟨hlen, htile, ?_, ?_, ?_⟩
  · intro k hk
    have hk64 : k < 64 := by
      by_contra hge
      have : 2 ^ 64 ≤ 2 ^ k := Nat.pow_le_pow_right (by norm_num) (by omega)
      rw [hk] at hzs
      unfold U64 at hzs
      omega
    rw [f3, hk, is_power_of_2_two_pow k, if_pos rfl, highest_bit_two_pow k 64 hk64]
  · intro hk
    rw [f3]
    by_cases hp : is_power_of_2 n.zone_size = true
    · obtain ⟨k, e⟩ := is_power_of_2_spec _ hp
      exact absurd e (hk k)
    · rw [if_neg hp]
  · intro lba hl
    unfold zone_idx_spec
    have hq : lba / n.zone_size < n.num_zones := by
      rw [Nat.div_lt_iff_lt_mul (by omega)]; exact hl
    have he : zns_zone_idx (zns_init_zoned_state n) lba = lba / n.zone_size := by
      rw [zone_idx_eq_div (zns_init_zoned_state n) (by rw [f3, f2]) (by rw [f2]; exact hzs) lba,
        f2, Nat.mod_eq_of_lt (by omega)]
    have hzl := htile (lba / n.zone_size) hq
    have hd := Nat.div_add_mod lba n.zone_size
    have hm := Nat.mod_lt lba (show n.zone_size > 0 by omega)
    have hc : n.zone_size * (lba / n.zone_size) = lba / n.zone_size * n.zone_size :=
      Nat.mul_comm _ _
    refine ⟨he, ?_, hzl, ?_, ?_⟩
    · simp [zns_get_zone_by_slba, he, f1, hq]
    · rw [hzl]; omega
    · rw [hzl]; omega

/-- With zones of 8 blocks the recorded shift is 3 and LBA 13 lies in zone 1,
which starts at 8; with zones of 3 blocks the shift is 0, the division finds
LBA 13 in zone 4, which starts at 12. -/
theorem init_state_zone_idx_witness :
    (1 ≤ scenarioGeometry.zone_size ∧ scenarioGeometry.zone_size < U64 ∧
      scenarioGeometry.num_zones < U32 ∧
      scenarioGeometry.num_zones * scenarioGeometry.zone_size < U64 ∧
      (zns_init_zoned_state scenarioGeometry).zone_size_log2 = 3 ∧
      zns_zone_idx (zns_init_zoned_state scenarioGeometry) 13 = 1 ∧
      (zoneAt (zns_init_zoned_state scenarioGeometry) 1).zslba = 8) ∧
    (1 ≤ oddGeometry.zone_size ∧ oddGeometry.zone_size < U64 ∧ oddGeometry.num_zones < U32 ∧
      oddGeometry.num_zones * oddGeometry.zone_size < U64 ∧
      (zns_init_zoned_state oddGeometry).zone_size_log2 = 0 ∧
      zns_zone_idx (zns_init_zoned_state oddGeometry) 13 = 4 ∧
      (zoneAt (zns_init_zoned_state oddGeometry) 4).zslba = 12) :=
  ⟨⟨by decide, by decide, by decide, by decide,
      (init_state_zone_idx scenarioGeometry (by decide) (by decide) (by decide)
        (by decide)).2.2.1 3 (by decide),
      ((init_state_zone_idx scenarioGeometry (by decide) (by decide) (by decide)
        (by decide)).2.2.2.2 13 (by decide)).1,
      ((init_state_zone_idx scenarioGeometry (by decide) (by decide) (by decide)
        (by decide)).2.2.2.2 13 (by decide)).2.2.1⟩,
    ⟨by decide, by decide, by decide, by decide, by decide,
      ((init_state_zone_idx oddGeometry (by decide) (by decide) (by decide)
        (by decide)).2.2.2.2 13 (by decide)).1,
      ((init_state_zone_idx oddGeometry (by decide) (by decide) (by decide)
        (by decide)).2.2.2.2 13 (by decide)).2.2.1⟩⟩

/-! ### The two write pointers between commands -/

/-- A state reachable by commands whose data pointer maps is reachable. -/
theorem reachable_of_mapped (n : FemuCtrl) (h : ReachableMapped n) : Reachable n := by
  induction h with
  | init n0 n hz ho ha h => exact Reachable.init n0 n hz ho ha h
  | step n n1 c r _ _ h ih => exact Reachable.step n n1 c r ih h

/-- Running commands whose data pointers map stays within the states
reachable by such commands. -/
theorem reachableMapped_run (cs : List NvmeCmd) :
    ∀ n n1 : FemuCtrl, ReachableMapped n → (∀ c ∈ cs, zns_map_dptr c = NVME_SUCCESS) →
      runCmds n cs = some n1 → ReachableMapped n1 := by
  induction cs with
  | nil =>
    intro n n1 hr _ h
    simp only [runCmds, Option.some.injEq] at h
    exact h ▸ hr
  | cons c cs ih =>
    intro n n1 hr hm h
    unfold runCmds at h
    cases hc : zns_io_cmd n c with
    | none => rw [hc] at h; exact Option.noConfusion h
    | some p =>
      rw [hc] at h
      exact ih p.1 n1
        (ReachableMapped.step n p.1 c p.2 hr (hm c (List.mem_cons_self c cs)) hc)
        (fun c1 h1 => hm c1 (List.mem_cons_of_mem c h1)) h

theorem reachableMapped_scenarioCtrl : ReachableMapped scenarioCtrl :=
  ReachableMapped.init scenarioConfig scenarioCtrl (by decide) (by decide) (by decide)
    (by decide)

/-- In every state reachable by commands whose data pointer maps every zone
record keeps the write pointer facts. -/
theorem mapped_wpInv (n : FemuCtrl) (h : ReachableMapped n) :
    ∀ i, i < n.zone_array.length → WpInv (zoneAt n i) := by
  induction h with
  | init n0 n hz ho ha h =>
    exact accepted_wpInv n (ReachableAccepted.init n0 n hz ho ha h)
  | step n n1 c r hr hm h ih =>
    have hI := reachable_inv n (reachable_of_mapped n hr)
    obtain ⟨_, hC⟩ := inv_io_cmd n c (n1, r) hI h
    have hZ := zones_io_cmd false n c (n1, r) hI h (fun _ => Or.inl hm)
    have hlen : n1.zone_array.length = n.zone_array.length := hC.2.2.2.2.2.2.2.2.2.2.2.2.2.2
    intro i hi
    exact steps_preserve false WpInv zoneStep_wpInv _ _ (hZ i) (ih i (by omega))

/-- C33: in every state reachable from bring-up by commands whose data
pointer maps, whether they are accepted or rejected, every zone has
`wp = w_ptr`. -/
theorem mapped_wp_eq_w_ptr (n : FemuCtrl) (h : ReachableMapped n) :
    ∀ i, i < n.zone_array.length → (zoneAt n i).wp = (zoneAt n i).w_ptr :=
  fun i hi => (mapped_wpInv n h i hi).1

/-- After a write that is rejected (it does not start at the write pointer),
a write of 5 blocks, a write across the zone boundary that is rejected, and
an append of 2 blocks, zone 0 of the scenario namespace has
`wp = w_ptr = 7`. -/
theorem mapped_wp_eq_w_ptr_witness :
    ∃ n, runCmds scenarioCtrl [rwCmd NVME_CMD_WRITE 3 2, rwCmd NVME_CMD_WRITE 0 5,
        rwCmd NVME_CMD_WRITE 5 9, rwCmd NVME_CMD_ZONE_APPEND 0 2] = some n ∧
      0 < n.zone_array.length ∧ (zoneAt n 0).w_ptr = 7 ∧
      (zoneAt n 0).wp = (zoneAt n 0).w_ptr :=
  ⟨(runCmds scenarioCtrl [rwCmd NVME_CMD_WRITE 3 2, rwCmd NVME_CMD_WRITE 0 5,
        rwCmd NVME_CMD_WRITE 5 9, rwCmd NVME_CMD_ZONE_APPEND 0 2]).getD default,
    by decide, by decide, by decide,
    mapped_wp_eq_w_ptr _
      (reachableMapped_run [rwCmd NVME_CMD_WRITE 3 2, rwCmd NVME_CMD_WRITE 0 5,
        rwCmd NVME_CMD_WRITE 5 9, rwCmd NVME_CMD_ZONE_APPEND 0 2] scenarioCtrl _
        reachableMapped_scenarioCtrl (by decide) (by decide)) 0 (by decide)⟩

/-! ### READ_ONLY and OFFLINE are never reached -/

/-- A zone change gives READ_ONLY only to a zone that is READ_ONLY, and
OFFLINE only to a zone that is READ_ONLY or OFFLINE. -/
theorem zoneStep_retired (d : Bool) (z z1 : NvmeZone) (h : ZoneStep d z z1) :
    (z1.zs = .READ_ONLY → z.zs = .READ_ONLY) ∧
    (z1.zs = .OFFLINE → z.zs = .READ_ONLY ∨ z.zs = .OFFLINE) := by
  cases h with
  | written slba nlb h =>
    obtain ⟨_, _, _, _, _, _, a7⟩ := advanceZone_fields z nlb
    obtain ⟨_, _, _, _, _, _, f7⟩ := finalizeZone_fields (advanceZone z nlb) nlb
    obtain ⟨w1, _⟩ := h
    constructor
    · intro he
      exfalso
      rcases f7 with f | f
      · rw [f.2] at he; exact NvmeZoneState.noConfusion he
      · rw [f.2] at he
        rcases a7 with a | a
        · rw [a.1] at he
          rcases w1 with w | w | w | w <;> rw [w] at he <;> exact NvmeZoneState.noConfusion he
        · rw [a.2.2] at he; exact NvmeZoneState.noConfusion he
    · intro he
      exfalso
      rcases f7 with f | f
      · rw [f.2] at he; exact NvmeZoneState.noConfusion he
      · rw [f.2] at he
        rcases a7 with a | a
        · rw [a.1] at he
          rcases w1 with w | w | w | w <;> rw [w] at he <;> exact NvmeZoneState.noConfusion he
        · rw [a.2.2] at he; exact NvmeZoneState.noConfusion he
  | advanced slba nlb hd h =>
    obtain ⟨_, _, _, _, _, _, a7⟩ := advanceZone_fields z nlb
    obtain ⟨w1, _⟩ := h
    constructor
    · intro he
      exfalso
      rcases a7 with a | a
      · rw [a.1] at he
        rcases w1 with w | w | w | w <;> rw [w] at he <;> exact NvmeZoneState.noConfusion he
      · rw [a.2.2] at he; exact NvmeZoneState.noConfusion he
    · intro he
      exfalso
      rcases a7 with a | a
      · rw [a.1] at he
        rcases w1 with w | w | w | w <;> rw [w] at he <;> exact NvmeZoneState.noConfusion he
      · rw [a.2.2] at he; exact NvmeZoneState.noConfusion he
  | offlined h => exact ⟨fun he => NvmeZoneState.noConfusion he, fun _ => Or.inl h⟩
  | reset h =>
    exact ⟨fun he => NvmeZoneState.noConfusion he, fun he => NvmeZoneState.noConfusion he⟩
  | opened h =>
    exact ⟨fun he => NvmeZoneState.noConfusion he, fun he => NvmeZoneState.noConfusion he⟩
  | closed h =>
    exact ⟨fun he => NvmeZoneState.noConfusion he, fun he => NvmeZoneState.noConfusion he⟩
  | finished h =>
    exact ⟨fun he => NvmeZoneState.noConfusion he, fun he => NvmeZoneState.noConfusion he⟩
  | ext_set h =>
    exact ⟨fun he => NvmeZoneState.noConfusion he, fun he => NvmeZoneState.noConfusion he⟩

/-- No I/O command, in any state that satisfies the queue invariant, makes a
zone READ_ONLY that was not READ_ONLY, and a zone that is OFFLINE after the
command was READ_ONLY or OFFLINE before it. -/
theorem io_cmd_retired (n : FemuCtrl) (c : NvmeCmd) (r : FemuCtrl × IoResult)
    (hI : Inv n) (h : zns_io_cmd n c = some r) (i : Nat) :
    ((zoneAt r.1 i).zs = .READ_ONLY → (zoneAt n i).zs = .READ_ONLY) ∧
    ((zoneAt r.1 i).zs = .OFFLINE →
      (zoneAt n i).zs = .READ_ONLY ∨ (zoneAt n i).zs = .OFFLINE) := by
  have hZ := zones_io_cmd true n c r hI h (fun hd => Bool.noConfusion hd)
  exact steps_preserve true
    (fun z => (z.zs = .READ_ONLY → (zoneAt n i).zs = .READ_ONLY) ∧
      (z.zs = .OFFLINE → (zoneAt n i).zs = .READ_ONLY ∨ (zoneAt n i).zs = .OFFLINE))
    (fun z z1 hs hz => by
      obtain ⟨s1, s2⟩ := zoneStep_retired true z z1 hs
      refine ⟨fun he => hz.1 (s1 he), fun he => ?_⟩
      rcases s2 he with e | e
      · exact Or.inl (hz.1 e)
      · exact hz.2 e)
    _ _ (hZ i) ⟨fun he => he, fun he => Or.inr he⟩

/-- C34: in every state reachable from bring-up by I/O commands (read,
write, append, zone management send and receive, any other opcode, accepted
or rejected) no zone is READ_ONLY or OFFLINE; and the handler of the OFFLINE
action changes the controller only for a zone in state READ_ONLY. -/
theorem never_read_only_or_offline (n : FemuCtrl) (h : Reachable n) :
    (∀ i, i < n.zone_array.length →
      (zoneAt n i).zs ≠ .READ_ONLY ∧ (zoneAt n i).zs ≠ .OFFLINE) ∧
    (∀ idx st, st ≠ .READ_ONLY → (zns_offline_zone n idx st).1 = n) := by
  constructor
  · induction h with
    | init n0 n _ _ _ h =>
      obtain ⟨ha, _, _⟩ := init_ns_state n0 n h
      intro i hi
      have hm : zoneAt n i ∈ n.zone_array := by
        unfold zoneAt
        rw [List.getD_eq_getElem _ _ hi]
        exact List.getElem_mem hi
      rw [ha] at hm
      obtain ⟨f1, _⟩ := init_zone_loop_fields _ _ _ _ _ _ hm
      rw [f1]
      exact ⟨fun he => NvmeZoneState.noConfusion he, fun he => NvmeZoneState.noConfusion he⟩
    | step n n1 c r hr h ih =>
      have hI := reachable_inv n hr
      obtain ⟨_, hC⟩ := inv_io_cmd n c (n1, r) hI h
      have hlen : n1.zone_array.length = n.zone_array.length := hC.2.2.2.2.2.2.2.2.2.2.2.2.2.2
      intro i hi
      obtain ⟨s1, s2⟩ := io_cmd_retired n c (n1, r) hI h i
      obtain ⟨i1, i2⟩ := ih i (by omega)
      refine ⟨fun he => i1 (s1 he), fun he => ?_⟩
      rcases s2 he with e | e
      · exact i1 e
      · exact i2 e
  · intro idx st hst
    cases st <;> first | rfl | exact absurd rfl hst

/-- After a write that fills zone 0, an OFFLINE of zone 0 (rejected), an
OFFLINE of all zones and a RESET of all zones, no zone of the scenario
namespace is READ_ONLY or OFFLINE: zone 0 is EMPTY again. -/
theorem never_read_only_or_offline_witness :
    ∃ n, runCmds scenarioCtrl [rwCmd NVME_CMD_WRITE 0 8, sendCmd NVME_ZONE_ACTION_OFFLINE 0,
        sendAllCmd NVME_ZONE_ACTION_OFFLINE, sendAllCmd NVME_ZONE_ACTION_RESET] = some n ∧
      0 < n.zone_array.length ∧ (zoneAt n 0).zs = .EMPTY ∧
      ((zoneAt n 0).zs ≠ .READ_ONLY ∧ (zoneAt n 0).zs ≠ .OFFLINE) :=
  ⟨(runCmds scenarioCtrl [rwCmd NVME_CMD_WRITE 0 8, sendCmd NVME_ZONE_ACTION_OFFLINE 0,
        sendAllCmd NVME_ZONE_ACTION_OFFLINE, sendAllCmd NVME_ZONE_ACTION_RESET]).getD default,
    by decide, by decide, by decide,
    (never_read_only_or_offline _
      (reachable_runCmds [rwCmd NVME_CMD_WRITE 0 8, sendCmd NVME_ZONE_ACTION_OFFLINE 0,
        sendAllCmd NVME_ZONE_ACTION_OFFLINE, sendAllCmd NVME_ZONE_ACTION_RESET] scenarioCtrl _
        reachable_scenarioCtrl (by decide))).1 0 (by decide)⟩

/-! ### Writes and appends after a write that was never completed -/

/-- C18 fails on the code after a write whose data pointer did not map.  On
the fresh scenario namespace such a write of one block to zone 0 returns
INVALID_FIELD and leaves the zone IMPLICITLY_OPEN with `w_ptr = 1`, `wp = 0`.
The write of 7 blocks at LBA 1 is then accepted, has
`w_ptr + nlb = zslba + zcap = 8` and triggers no eviction (one zone open, limit
2), but the zone is not FULL afterwards: it is still IMPLICITLY_OPEN with
`wp = 7`, `w_ptr = 8`, and both counters are still 1. -/
theorem write_filling_stale_w_ptr :
    ∃ n n1 r, Reachable n ∧
      runCmds scenarioCtrl [unmappedWrite 0 1] = some n ∧
      (zoneAt n 0).zs = .IMPLICITLY_OPEN ∧ (zoneAt n 0).w_ptr = 1 ∧ (zoneAt n 0).wp = 0 ∧
      (zoneAt n 0).zslba = 0 ∧ (zoneAt n 0).zcap = 8 ∧
      n.nr_open_zones = 1 ∧ n.nr_active_zones = 1 ∧ n.max_open_zones = 2 ∧
      zns_get_zone_by_slba n (cmd_slba (rwCmd NVME_CMD_WRITE 1 7)) = some 0 ∧
      (zoneAt n 0).w_ptr + (cmd_nlb (rwCmd NVME_CMD_WRITE 1 7) + 1)
        = (zoneAt n 0).zslba + (zoneAt n 0).zcap ∧
      zns_io_cmd n (rwCmd NVME_CMD_WRITE 1 7) = some (n1, r) ∧
      r.status = NVME_SUCCESS ∧
      (zoneAt n1 0).zs = .IMPLICITLY_OPEN ∧ (zoneAt n1 0).zs ≠ .FULL ∧
      (zoneAt n1 0).wp = 7 ∧ (zoneAt n1 0).w_ptr = 8 ∧
      n1.nr_open_zones = 1 ∧ n1.nr_active_zones = 1 :=
  ⟨(runCmds scenarioCtrl [unmappedWrite 0 1]).getD default,
    (runCmds scenarioCtrl [unmappedWrite 0 1, rwCmd NVME_CMD_WRITE 1 7]).getD default,
    ⟨NVME_SUCCESS, some 1, none⟩,
    reachable_runCmds [unmappedWrite 0 1] scenarioCtrl _ reachable_scenarioCtrl (by decide),
    by decide, by decide, by decide, by decide, by decide, by decide, by decide, (by decide),
    by decide, by decide, by decide, by decide, by decide, by decide, by decide, (by decide),
    by decide, by decide, by decide⟩

/-- C22 fails on the code after a write whose data pointer did not map.  On
the fresh scenario namespace such a write of 8 blocks at LBA 8 returns
INVALID_FIELD and leaves zone 1 EMPTY with `wp = 8` and `w_ptr = 16`.  Two
appends of 4 blocks at the start of this EMPTY zone (2 · 4 = zcap) are both
accepted, but they return the LBAs 16 and 20, not 8 and 12. -/
theorem appends_stale_w_ptr :
    ∃ n n1 r1 r2, Reachable n ∧
      runCmds scenarioCtrl [unmappedWrite 8 8] = some n ∧
      (zoneAt n 1).zs = .EMPTY ∧ (zoneAt n 1).zslba = 8 ∧ (zoneAt n 1).zcap = 8 ∧
      (zoneAt n 1).wp = 8 ∧ (zoneAt n 1).w_ptr = 16 ∧
      n.nr_open_zones = 0 ∧ n.nr_active_zones = 0 ∧
      cmd_slba (rwCmd NVME_CMD_ZONE_APPEND 8 4) = (zoneAt n 1).zslba ∧
      cmd_nlb (rwCmd NVME_CMD_ZONE_APPEND 8 4) + 1 = 4 ∧
      runResults n [rwCmd NVME_CMD_ZONE_APPEND 8 4, rwCmd NVME_CMD_ZONE_APPEND 8 4]
        = some (n1, [r1, r2]) ∧
      r1.status = NVME_SUCCESS ∧ r2.status = NVME_SUCCESS ∧
      r1.slba = some 16 ∧ r2.slba = some 20 ∧
      r1.slba ≠ some (zoneAt n 1).zslba ∧ r2.slba ≠ some ((zoneAt n 1).zslba + 4) ∧
      (zoneAt n1 1).w_ptr = 24 :=
  ⟨(runCmds scenarioCtrl [unmappedWrite 8 8]).getD default,
    ((runResults ((runCmds scenarioCtrl [unmappedWrite 8 8]).getD default)
      [rwCmd NVME_CMD_ZONE_APPEND 8 4, rwCmd NVME_CMD_ZONE_APPEND 8 4]).getD default).1,
    ⟨NVME_SUCCESS, some 16, none⟩, ⟨NVME_SUCCESS, some 20, none⟩,
    reachable_runCmds [unmappedWrite 8 8] scenarioCtrl _ reachable_scenarioCtrl (by decide),
    by decide, by decide, by decide, by decide, by decide, by decide, by decide, (by decide),
    by decide, by decide, by decide, by decide, by decide, by decide, by decide, (by decide),
    by decide, by decide⟩

/-! ### Reads when the zone capacity is below the zone size -/

/-- Under the bring-up geometry with zone capacities of at most the zone
size, the read boundary of zone `j` is `j * zone_size + zcap`, at most the
start of zone `j + 1`. -/
theorem rd_boundary_cap (n : FemuCtrl) (hg : ZoneGeometry n)
    (hcap : ∀ i, i < n.num_zones → (zoneAt n i).zcap ≤ n.zone_size)
    (j : Nat) (hj : j < n.num_zones) :
    zns_zone_rd_boundary n (zoneAt n j) = j * n.zone_size + (zoneAt n j).zcap ∧
    j * n.zone_size ≤ zns_zone_rd_boundary n (zoneAt n j) ∧
    zns_zone_rd_boundary n (zoneAt n j) ≤ (j + 1) * n.zone_size := by
  obtain ⟨_, _, _, hsz, _, _, _, ht⟩ := hg
  have hc := hcap j hj
  have : (j + 1) * n.zone_size ≤ n.num_zones * n.zone_size := Nat.mul_le_mul_right _ hj
  have e : (j + 1) * n.zone_size = j * n.zone_size + n.zone_size := by ring
  have hb : zns_zone_rd_boundary n (zoneAt n j) = j * n.zone_size + (zoneAt n j).zcap := by
    unfold zns_zone_rd_boundary
    rw [ht j hj, Nat.mod_eq_of_lt (by omega)]
  rw [hb]
  exact ⟨rfl, by omega, by omega⟩

/-- The read boundaries grow with the zone index. -/
theorem rd_boundary_mono (n : FemuCtrl) (hg : ZoneGeometry n)
    (hcap : ∀ i, i < n.num_zones → (zoneAt n i).zcap ≤ n.zone_size)
    (i j : Nat) (hij : i < j) (hj : j < n.num_zones) :
    zns_zone_rd_boundary n (zoneAt n i) ≤ zns_zone_rd_boundary n (zoneAt n j) := by
  obtain ⟨_, _, a3⟩ := rd_boundary_cap n hg hcap i (by omega)
  obtain ⟨_, b2, _⟩ := rd_boundary_cap n hg hcap j hj
  have : (i + 1) * n.zone_size ≤ j * n.zone_size := Nat.mul_le_mul_right _ (by omega)
  omega

/-- The walk of a read over the successor zones, for zone capacities of at
most the zone size.  The walk examines zone `j + 1` when the read ends behind
the read boundary of zone `j`.  It returns ZONE_OFFLINE when an examined zone
of the array is OFFLINE; otherwise SUCCESS when the read ends at or before the
read boundary of the last zone, and it leaves the zone array (no status) when
the read ends behind that boundary. -/
theorem read_walk_cap (n : FemuCtrl) (hg : ZoneGeometry n)
    (hcap : ∀ i, i < n.num_zones → (zoneAt n i).zcap ≤ n.zone_size) (endlba : Nat) :
    ∀ fuel idx, n.num_zones ≤ fuel + idx → idx < n.num_zones →
      zns_zone_rd_boundary n (zoneAt n idx) < endlba →
      ((∃ j, idx ≤ j ∧ j + 1 < n.num_zones ∧ zns_zone_rd_boundary n (zoneAt n j) < endlba ∧
          (zoneAt n (j + 1)).zs = .OFFLINE) →
        zns_check_zone_read_walk n endlba fuel idx = some NVME_ZONE_OFFLINE) ∧
      ((∀ j, idx ≤ j → j + 1 < n.num_zones → zns_zone_rd_boundary n (zoneAt n j) < endlba →
          (zoneAt n (j + 1)).zs ≠ .OFFLINE) →
        (endlba ≤ zns_zone_rd_boundary n (zoneAt n (n.num_zones - 1)) →
          zns_check_zone_read_walk n endlba fuel idx = some NVME_SUCCESS) ∧
        (zns_zone_rd_boundary n (zoneAt n (n.num_zones - 1)) < endlba →
          zns_check_zone_read_walk n endlba fuel idx = none)) := by
  have hlen : n.zone_array.length = n.num_zones := hg.2.1
  intro fuel
  induction fuel with
  | zero =>
    intro idx hf hi _
    omega
  | succ fuel ih =>
    intro idx hf hi hgt
    by_cases hlast : n.num_zones ≤ idx + 1
    · have hl : n.zone_array.length ≤ idx + 1 := by omega
      have hidx : n.num_zones - 1 = idx := by omega
      simp only [zns_check_zone_read_walk, hl, if_true]
      refine ⟨?_, fun _ => ⟨?_, fun _ => trivial⟩⟩
      · rintro ⟨j, hj1, hj2, _⟩
        omega
      · intro hle
        rw [hidx] at hle
        omega
    · have hi1 : idx + 1 < n.num_zones := by omega
      have hl : ¬ n.zone_array.length ≤ idx + 1 := by omega
      simp only [zns_check_zone_read_walk, hl, if_false, state_for_read_eq]
      by_cases ho : (zoneAt n (idx + 1)).zs = .OFFLINE
      · simp only [ho, if_true]
        refine ⟨fun _ => ?_, fun hall => absurd ho (hall idx (Nat.le_refl _) hi1 hgt)⟩
        simp [NVME_ZONE_OFFLINE, NVME_SUCCESS]
      · simp only [ho, if_false, ne_eq, not_true_eq_false]
        by_cases hgt2 : endlba > zns_zone_rd_boundary n (zoneAt n (idx + 1))
        · simp only [hgt2, if_true]
          obtain ⟨ih1, ih2⟩ := ih (idx + 1) (by omega) hi1 hgt2
          refine ⟨?_, fun hall => ih2 (fun j hj => hall j (by omega))⟩
          rintro ⟨j, hj, hjn, hje, hjo⟩
          rcases Nat.lt_or_ge idx j with h1 | h1
          · exact ih1 ⟨j, h1, hjn, hje, hjo⟩
          · have : j = idx := by omega
            subst this
            exact absurd hjo ho
        · simp only [hgt2, if_false]
          refine ⟨?_, fun _ => ⟨fun _ => trivial, fun hlt => ?_⟩⟩
          · rintro ⟨j, hj, hjn, hje, hjo⟩
            exfalso
            rcases Nat.lt_or_ge idx j with h1 | h1
            · rcases Nat.lt_or_ge (idx + 1) j with h2 | h2
              · have := rd_boundary_mono n hg hcap (idx + 1) j h2 (by omega)
                omega
              · have : j = idx + 1 := by omega
                subst this
                omega
            · have : j = idx := by omega
              subst this
              exact absurd hjo ho
          · exfalso
            rcases Nat.lt_or_ge (idx + 1) (n.num_zones - 1) with h2 | h2
            · have := rd_boundary_mono n hg hcap (idx + 1) (n.num_zones - 1) h2 (by omega)
              omega
            · have : n.num_zones - 1 = idx + 1 := by omega
              rw [this] at hlt
              omega

/-- The zone checks of a read under the bring-up geometry, whatever the zone
capacity. -/
theorem check_zone_read_cap (n : FemuCtrl) (hg : ZoneGeometry n) (slba nlb : Nat)
    (h1 : slba + nlb < U64) (h2 : slba < n.nsze) :
    zns_check_zone_read n slba nlb =
      if (zoneAt n (slba / n.zone_size)).zs = .OFFLINE then some NVME_ZONE_OFFLINE
      else if slba + nlb > zns_zone_rd_boundary n (zoneAt n (slba / n.zone_size)) then
        if n.cross_zone_read = false then some NVME_ZONE_BOUNDARY_ERROR
        else zns_check_zone_read_walk n (slba + nlb) n.zone_array.length (slba / n.zone_size)
      else some NVME_SUCCESS := by
  obtain ⟨_, hlt, hl⟩ := geometry_zone_idx n hg slba h2
  simp only [zns_check_zone_read, hl, Nat.mod_eq_of_lt h1, state_for_read_eq]
  by_cases ho : (zoneAt n (slba / n.zone_size)).zs = .OFFLINE
  · simp [ho, NVME_ZONE_OFFLINE, NVME_SUCCESS]
  · by_cases hc : n.cross_zone_read = true <;> simp [ho, hc]

/-- The zone checks of a read for zone capacities of at most the zone size.
A read that passes the size and range checks (and whose data pointer maps)
leaves the controller as it is.  It returns ZONE_OFFLINE when the zone of
`slba` is offline; otherwise SUCCESS when it ends at or before the read
boundary `zslba + zcap` of that zone; otherwise ZONE_BOUNDARY_ERROR when
`cross_zone_read` is off.  Otherwise the walk examines zone `j + 1` whenever
the read ends behind the read boundary of zone `j`: the read returns
ZONE_OFFLINE when an examined zone is offline; when none is, it returns
SUCCESS if it ends at or before the read boundary of the last zone, and the
walk leaves the zone array, so that no status is returned, if it ends in the
blocks behind the capacity of the last zone. -/
theorem read_zone_checks (n : FemuCtrl) (c : NvmeCmd) (hg : ZoneGeometry n)
    (hcap : ∀ i, i < n.num_zones → (zoneAt n i).zcap ≤ n.zone_size)
    (hm : nvme_check_mdts n (zns_l2b n (cmd_nlb c + 1)) = NVME_SUCCESS)
    (hb : zns_check_bounds n (cmd_slba c) (cmd_nlb c + 1) = NVME_SUCCESS)
    (hp : zns_map_dptr c = NVME_SUCCESS) :
    zns_get_zone_by_slba n (cmd_slba c) = some (cmd_slba c / n.zone_size) ∧
    ((zoneAt n (cmd_slba c / n.zone_size)).zs = .OFFLINE →
      zns_read n c = some (n, ⟨NVME_ZONE_OFFLINE.orDNR, none, none⟩)) ∧
    ((zoneAt n (cmd_slba c / n.zone_size)).zs ≠ .OFFLINE →
      (cmd_slba c + (cmd_nlb c + 1) ≤
          zns_zone_rd_boundary n (zoneAt n (cmd_slba c / n.zone_size)) →
        zns_read n c = some (n, ⟨NVME_SUCCESS, none, none⟩)) ∧
      (zns_zone_rd_boundary n (zoneAt n (cmd_slba c / n.zone_size)) <
          cmd_slba c + (cmd_nlb c + 1) →
        (n.cross_zone_read = false →
          zns_read n c = some (n, ⟨NVME_ZONE_BOUNDARY_ERROR.orDNR, none, none⟩)) ∧
        (n.cross_zone_read = true →
          ((∃ j, cmd_slba c / n.zone_size ≤ j ∧ j + 1 < n.num_zones ∧
              zns_zone_rd_boundary n (zoneAt n j) < cmd_slba c + (cmd_nlb c + 1) ∧
              (zoneAt n (j + 1)).zs = .OFFLINE) →
            zns_read n c = some (n, ⟨NVME_ZONE_OFFLINE.orDNR, none, none⟩)) ∧
          ((∀ j, cmd_slba c / n.zone_size ≤ j → j + 1 < n.num_zones →
              zns_zone_rd_boundary n (zoneAt n j) < cmd_slba c + (cmd_nlb c + 1) →
              (zoneAt n (j + 1)).zs ≠ .OFFLINE) →
            (cmd_slba c + (cmd_nlb c + 1) ≤
                zns_zone_rd_boundary n (zoneAt n (n.num_zones - 1)) →
              zns_read n c = some (n, ⟨NVME_SUCCESS, none, none⟩)) ∧
            (zns_zone_rd_boundary n (zoneAt n (n.num_zones - 1)) <
                cmd_slba c + (cmd_nlb c + 1) →
              zns_read n c = none))))) := by
  obtain ⟨b1, b2⟩ := check_bounds_success n c _ hb
  have hz : n.zoned = true := hg.1
  have hlen : n.zone_array.length = n.num_zones := hg.2.1
  have hnsze : n.nsze = n.num_zones * n.zone_size := hg.2.2.2.2.1
  have hs : cmd_slba c < n.nsze := by omega
  obtain ⟨_, hlt, hl⟩ := geometry_zone_idx n hg (cmd_slba c) hs
  have hs0 : NVME_SUCCESS.nonzero = false := by decide
  rw [read_eq_zone_check n c hz hm hb hp, check_zone_read_cap n hg _ _ b1 hs]
  generalize hsdef : cmd_slba c / n.zone_size = s at *
  generalize hedef : cmd_slba c + (cmd_nlb c + 1) = e at *
  refine ⟨hl, ?_, ?_⟩
  · intro ho
    simp [ho, NvmeStatus.nonzero, NVME_ZONE_OFFLINE, NVME_SUCCESS]
  · intro ho
    rw [if_neg ho]
    refine ⟨?_, ?_⟩
    · intro hle
      rw [if_neg (by omega)]
      simp [hs0]
    · intro hgt
      rw [if_pos hgt]
      refine ⟨?_, ?_⟩
      · intro hc
        simp [hc, NvmeStatus.nonzero, NVME_ZONE_BOUNDARY_ERROR, NVME_SUCCESS]
      · intro hc
        rw [if_neg (by rw [hc]; decide)]
        obtain ⟨w1, w2⟩ := read_walk_cap n hg hcap e n.zone_array.length s (by omega) hlt hgt
        refine ⟨?_, ?_⟩
        · intro hex
          rw [w1 hex]
          simp [NvmeStatus.nonzero, NVME_ZONE_OFFLINE, NVME_SUCCESS]
        · intro hall
          obtain ⟨w3, w4⟩ := w2 hall
          refine ⟨?_, ?_⟩
          · intro hle
            rw [w3 hle]
            simp [hs0]
          · intro hlt2
            rw [w4 hlt2]
            rfl

/-- In every reachable state the capacity of every zone is at most the zone
size. -/
theorem reachable_cap_le (n : FemuCtrl) (h : Reachable n) :
    ∀ i, i < n.num_zones → (zoneAt n i).zcap ≤ n.zone_size := by
  obtain ⟨_, h2, h3, _⟩ := reachable_tiled n h
  have hlen := (reachable_inv n h).len
  intro i hi
  rw [h3 i (by omega)]
  exact h2

end ZNS
